import Mathlib

/-!
# Reader core of CNTK: timeline validation, sequential epoch scheduling, frame-mode packing

Shallow embedding of

* `Source/Readers/Reader/DataDeserializer.h`, `Reader.h` (data model),
* `Source/Readers/Reader/DataDeserializerBase.h` (lazily built timeline),
* `Source/Readers/Reader/NoRandomizer.cpp` (timeline validator and epoch scheduler),
* `Source/Readers/Reader/FrameModePacker.cpp` (minibatch packer),
* `DataReader/NewHTKMLFReader/minibatchsourcehelpers.h` (neighbour-frame augmentation),
* `Source/Readers/NewImageReader/ImageTransformers.cpp` (layout transposition),

followed by the properties proved about them.

Conventions of the embedding.

* `size_t` values are natural numbers; the `size_t` additions and multiplications of the
  source are followed by `toSizeT` (reduction modulo `2^64`).  The exceptions are the counter
  of a loop over a vector, which stays below the size of the vector, and the sum of a pointer
  and an offset, which is the sum of the offsets and is checked against the bounds of the
  buffer when the pointer is dereferenced.
* A `std::vector` is a `List`.  A vector cannot hold `SIZE_MAX` or more elements, so an
  index `i` with `SIZE_MAX ≤ i` is never in range.
* A buffer or payload that a `char*` or `void*` points to is the `List` of its bytes; an access
  beyond its end is undefined behaviour.
* A counted loop `for (n = a; n <= b; n++)` whose counter cannot wrap is a recursion on the
  number of iterations that are left, with the counter as an argument.
* Code that can fail returns `Except Failure _`: `Failure.assertion` for a failed `assert`,
  `Failure.undefined` for behaviour the language leaves undefined (out-of-range access,
  division by zero, access through a reference cast to the wrong type) and
  `Failure.runtime` for a raised `RuntimeError`.
-/

namespace CNTK

/-! ## Machine integers and failures -/

/-- Largest value of `size_t` (64 bit). -/
def SIZE_MAX : Nat := 18446744073709551615

/-- Largest value of `int` (32 bit). -/
def INT_MAX : Nat := 2147483647

/-- Result of a `size_t` operation: the mathematical result modulo `2^64`. -/
def toSizeT (n : Nat) : Nat := n % 18446744073709551616

/-- Ways in which the embedded code can fail to produce a result. -/
inductive Failure where
  | assertion
  | undefined
  | runtime
deriving DecidableEq, Repr

/-! ## Data model (`DataDeserializer.h`, `Reader.h`) -/

/-- Record `SequenceDescription` of `DataDeserializer.h`. -/
structure SequenceDescription where
  m_id : Nat
  m_numberOfSamples : Nat
  m_chunkId : Nat
  m_isValid : Bool
deriving DecidableEq, Repr

/-- Type `Timeline` (`std::vector<const SequenceDescription*>`); `NoRandomizer.cpp` calls it
`SequenceDescriptions`. -/
abbrev Timeline := List SequenceDescription

/-- Element access `timeline[i]`: out of range is undefined behaviour, reported as `none`. -/
def Timeline.elementAt (timeline : Timeline) (i : Nat) : Option SequenceDescription :=
  if i < SIZE_MAX then timeline[i]? else none

/-! ## Timeline validator (`NoRandomizer.cpp`, lines 17-33) -/

/-- The predicate handed to `std::find_if_not`: the value of `result` for the descriptor
`current`, given the captured `previous`. -/
def TimelineIsValidForRandomization.result (previous current : SequenceDescription) : Bool :=
  current.m_isValid
    && decide (toSizeT (previous.m_id + 1) = current.m_id)
    && decide (previous.m_chunkId ≤ current.m_chunkId)
    && decide (current.m_chunkId ≤ toSizeT (previous.m_chunkId + 1))
    && decide (0 < current.m_numberOfSamples)

/-- The walk of `std::find_if_not` over the timeline: `true` when it reaches
`timeline.end()`.  After each visited descriptor `previous = *current`. -/
def TimelineIsValidForRandomization.find_if_not (previous : SequenceDescription) :
    Timeline → Bool
  | [] => true
  | current :: rest =>
    if TimelineIsValidForRandomization.result previous current then
      TimelineIsValidForRandomization.find_if_not current rest
    else false

/-- `NoRandomizer::TimelineIsValidForRandomization`; the walk starts from
`previous = { SIZE_MAX, 0, 0, true }`. -/
def TimelineIsValidForRandomization (timeline : Timeline) : Bool :=
  TimelineIsValidForRandomization.find_if_not
    { m_id := SIZE_MAX, m_numberOfSamples := 0, m_chunkId := 0, m_isValid := true } timeline

/-! ## Streams and payloads (`Reader.h`, `DataDeserializer.h`) -/

/-- Configuration `EpochConfiguration` of `Reader.h`. -/
structure EpochConfiguration where
  m_numberOfWorkers : Nat
  m_workerRank : Nat
  m_minibatchSizeInSamples : Nat
  m_totalEpochSizeInSamples : Nat
  m_epochIndex : Nat
deriving DecidableEq, Repr

/-- Enumeration `ElementType` of `Reader.h`. -/
inductive ElementType where
  | tfloat
  | tdouble
  | tatom
deriving DecidableEq, Repr

/-- Enumeration `StorageType` of `Reader.h`. -/
inductive StorageType where
  | dense
  | sparse_csc
deriving DecidableEq, Repr

/-- Modelled from the spec: `TensorShape.h` is not among the sources.  The reader code only
asks a sample layout for its number of elements, so a shape is represented by that number. -/
structure TensorShape where
  numElements : Nat
deriving DecidableEq, Repr

/-- Modelled from the spec: `TensorShape::GetNumElements`. -/
def TensorShape.GetNumElements (shape : TensorShape) : Nat := shape.numElements

/-- Modelled from the spec: `GetSizeByType` of `ElementTypeUtils.h`, which is not among the
sources: 4 bytes for single precision, 8 for double precision, 1 for an atom
(`Reader.h`: "sizeof(atom) == 1"). -/
def GetSizeByType : ElementType → Nat
  | .tfloat => 4
  | .tdouble => 8
  | .tatom => 1

/-- Record `StreamDescription` of `Reader.h`. -/
structure StreamDescription where
  m_name : String
  m_id : Nat
  m_storageType : StorageType
  m_elementType : ElementType
  m_sampleLayout : TensorShape
deriving DecidableEq, Repr

/-- One byte of a buffer (`char`). -/
abbrev Byte := UInt8

/-- Payload of one sequence for one stream: a `SequenceDataBase` that is either a
`DenseSequenceData` or a `SparseSequenceData`.  `m_data` is the memory the non-owned pointer
refers to. -/
inductive SequenceData where
  | dense (m_data : List Byte) (m_sampleLayout : TensorShape) (m_numberOfSamples : Nat)
  | sparse (m_data : List Byte) (m_indices : List (List Nat))
deriving DecidableEq, Repr

/-- Field `m_data` of the common base `SequenceDataBase`. -/
def SequenceData.m_data : SequenceData → List Byte
  | .dense m_data _ _ => m_data
  | .sparse m_data _ => m_data

/-- The value `Sequences` returned by a transformer: an end-of-epoch flag and, per sequence,
one payload per stream. -/
structure Sequences where
  m_endOfEpoch : Bool
  m_data : List (List SequenceData)
deriving DecidableEq, Repr

/-- Interface `DataDeserializer`, seen from its callers: the streams, the timeline returned by
`GetSequenceDescriptions` and the payload lookup `GetSequencesById`.  `StartEpoch`,
`RequireChunk` and `ReleaseChunk` do nothing (`DataDeserializerBase`). -/
structure DataDeserializer where
  m_streams : List StreamDescription
  m_sequences : Timeline
  GetSequencesById : List Nat → List (List SequenceData)

/-- Method `DataDeserializer::GetSequenceDescriptions`. -/
def DataDeserializer.GetSequenceDescriptions (deserializer : DataDeserializer) : Timeline :=
  deserializer.m_sequences

/-! ## Base class of the deserializers (`DataDeserializerBase.h`) -/

/-- Class `DataDeserializerBase`, as far as `GetSequenceDescriptions` is concerned: the two
mutable members and the pure virtual `FillSequenceDescriptions` of the derived class, which
receives the timeline by reference and leaves it filled. -/
structure DataDeserializerBase where
  FillSequenceDescriptions : Timeline → Timeline
  m_sequences : Timeline
  m_sequencesInitialized : Bool

/-- Constructor `DataDeserializerBase::DataDeserializerBase` (lines 17-18): the timeline is
default-constructed, the flag is `false`. -/
def DataDeserializerBase.new (FillSequenceDescriptions : Timeline → Timeline) :
    DataDeserializerBase :=
  { FillSequenceDescriptions := FillSequenceDescriptions
    m_sequences := []
    m_sequencesInitialized := false }

/-- What one call of `GetSequenceDescriptions` produces: the timeline referred to by the
returned reference, the arguments of the calls made to `FillSequenceDescriptions`, and the
object afterwards. -/
structure GetSequenceDescriptionsResult where
  timeline : Timeline
  fills : List Timeline
  self : DataDeserializerBase

/-- Method `DataDeserializerBase::GetSequenceDescriptions` (lines 24-32). -/
def DataDeserializerBase.GetSequenceDescriptions (self : DataDeserializerBase) :
    GetSequenceDescriptionsResult :=
  if self.m_sequencesInitialized = false then
    let filled := self.FillSequenceDescriptions self.m_sequences
    { timeline := filled
      fills := [self.m_sequences]
      self := { self with m_sequences := filled, m_sequencesInitialized := true } }
  else
    { timeline := self.m_sequences, fills := [], self := self }

/-- Successive calls of `GetSequenceDescriptions`: the results of `n` calls, in order. -/
def DataDeserializerBase.GetSequenceDescriptionsRepeatedly :
    Nat → DataDeserializerBase → List GetSequenceDescriptionsResult
  | 0, _ => []
  | n + 1, self =>
    self.GetSequenceDescriptions ::
      DataDeserializerBase.GetSequenceDescriptionsRepeatedly n self.GetSequenceDescriptions.self

/-! ## Epoch scheduler (`NoRandomizer.h`, `NoRandomizer.cpp`) -/

/-- Members of class `NoRandomizer`.  The member `m_sweepStartInSamples` is left out: no code
initialises, reads or writes it. -/
structure NoRandomizer where
  m_deserializer : DataDeserializer
  m_numSequences : Nat
  m_numChunks : Nat
  m_numSamples : Nat
  m_frameMode : Bool
  m_workerRank : Nat
  m_numberOfWorkers : Nat
  m_epochSize : Nat
  m_samplePositionInEpoch : Nat
  m_sweep : Nat
  m_sequencePositionInSweep : Nat

/-- The loop of the constructor over the timeline (lines 50-56): returns
`(maxNumberOfSamples, m_numSamples)`. -/
def NoRandomizer.countSamples : Timeline → Nat × Nat → Nat × Nat
  | [], acc => acc
  | seqDesc :: rest, (maxNumberOfSamples, numSamples) =>
    NoRandomizer.countSamples rest
      (max maxNumberOfSamples seqDesc.m_numberOfSamples,
       toSizeT (numSamples + seqDesc.m_numberOfSamples))

/-- Constructor `NoRandomizer::NoRandomizer` (lines 39-60).  It does not initialise
`m_workerRank` and `m_numberOfWorkers`; their indeterminate initial values are the
parameters `workerRank` and `numberOfWorkers`. -/
def NoRandomizer.new (deserializer : DataDeserializer) (workerRank numberOfWorkers : Nat) :
    Except Failure NoRandomizer :=
  let timeline := deserializer.GetSequenceDescriptions
  if TimelineIsValidForRandomization timeline then
    match timeline.getLast? with
    | none => .error .undefined
    | some back =>
      let counted := NoRandomizer.countSamples timeline (0, 0)
      .ok { m_deserializer := deserializer
            m_sweep := SIZE_MAX
            m_sequencePositionInSweep := SIZE_MAX
            m_samplePositionInEpoch := SIZE_MAX
            m_epochSize := SIZE_MAX
            m_numSequences := toSizeT (back.m_id + 1)
            m_numChunks := toSizeT (back.m_chunkId + 1)
            m_numSamples := counted.2
            m_frameMode := decide (counted.1 = 1)
            m_workerRank := workerRank
            m_numberOfWorkers := numberOfWorkers }
  else .error .assertion

/-- Method `NoRandomizer::StartEpoch` (lines 69-91).  The constant `requestDataSize` comes
from `DataReader.h`, which is not among the sources; it is a parameter. -/
def NoRandomizer.StartEpoch (requestDataSize : Nat) (self : NoRandomizer)
    (config : EpochConfiguration) : Except Failure NoRandomizer :=
  let epochSize :=
    if config.m_totalEpochSizeInSamples = requestDataSize then self.m_numSamples
    else config.m_totalEpochSizeInSamples
  let timeframe := toSizeT (epochSize * config.m_epochIndex)
  if self.m_frameMode = true then
    if timeframe ≠ SIZE_MAX then
      .ok { self with
            m_workerRank := config.m_workerRank
            m_numberOfWorkers := config.m_numberOfWorkers
            m_epochSize := epochSize
            m_samplePositionInEpoch := 0 }
    else .error .assertion
  else .error .assertion

/-- Method `NoRandomizer::AdvanceToNextPositionForThisWorker` (lines 93-112). -/
def NoRandomizer.AdvanceToNextPositionForThisWorker (self : NoRandomizer) :
    Except Failure (Bool × NoRandomizer) :=
  if self.m_samplePositionInEpoch < self.m_epochSize then
    if h : (self.m_deserializer.GetSequenceDescriptions.elementAt
        self.m_sequencePositionInSweep).isSome = true then
      let seqDesc := (self.m_deserializer.GetSequenceDescriptions.elementAt
        self.m_sequencePositionInSweep).get h
      if self.m_numberOfWorkers = 0 then .error .undefined
      else if seqDesc.m_chunkId % self.m_numberOfWorkers = self.m_workerRank then
        .ok (decide (self.m_epochSize ≤ self.m_samplePositionInEpoch), self)
      else
        NoRandomizer.AdvanceToNextPositionForThisWorker
          { self with
            m_samplePositionInEpoch :=
              toSizeT (self.m_samplePositionInEpoch + seqDesc.m_numberOfSamples)
            m_sequencePositionInSweep := toSizeT (self.m_sequencePositionInSweep + 1) }
    else .error .undefined
  else .ok (decide (self.m_epochSize ≤ self.m_samplePositionInEpoch), self)
termination_by self.m_deserializer.m_sequences.length - self.m_sequencePositionInSweep
decreasing_by
  simp only [DataDeserializer.GetSequenceDescriptions, Timeline.elementAt, SIZE_MAX] at h
  split at h
  · have hlt : self.m_sequencePositionInSweep < self.m_deserializer.m_sequences.length := by
      by_contra hge
      rw [List.getElem?_eq_none (by omega)] at h
      cases h
    have hw : toSizeT (self.m_sequencePositionInSweep + 1)
        = self.m_sequencePositionInSweep + 1 := Nat.mod_eq_of_lt (by omega)
    simp only [hw]
    omega
  · cases h

/-- The `while (ids.size() < count)` loop of `GetNextSequences` (lines 124-139): returns the
vector `ids`, the flag `endOfEpoch` and the scheduler after the loop. -/
def NoRandomizer.GetNextSequences.loop (count : Nat) (self : NoRandomizer) (ids : List Nat)
    (endOfEpoch : Bool) : Except Failure (List Nat × Bool × NoRandomizer) :=
  if ids.length < count then
    match self.AdvanceToNextPositionForThisWorker with
    | .error e => .error e
    | .ok (true, self1) => .ok (ids, true, self1)
    | .ok (false, self1) =>
      if self1.m_sequencePositionInSweep < self1.m_numSequences then
        match self1.m_deserializer.GetSequenceDescriptions.elementAt
            self1.m_sequencePositionInSweep with
        | none => .error .undefined
        | some seqDesc =>
          NoRandomizer.GetNextSequences.loop count
            { self1 with
              m_samplePositionInEpoch :=
                toSizeT (self1.m_samplePositionInEpoch + seqDesc.m_numberOfSamples)
              m_sequencePositionInSweep := toSizeT (self1.m_sequencePositionInSweep + 1) }
            (ids ++ [self1.m_sequencePositionInSweep]) false
      else .error .assertion
  else .ok (ids, endOfEpoch, self)
termination_by count - ids.length
decreasing_by
  simp only [List.length_append, List.length_singleton]
  omega

/-- What one call of `GetNextSequences` produces: the local vector `ids`, the arguments of the
calls made to `GetSequencesById`, the returned `Sequences` and the scheduler afterwards. -/
structure GetNextSequencesResult where
  ids : List Nat
  requests : List (List Nat)
  sequences : Sequences
  self : NoRandomizer

/-- Method `NoRandomizer::GetNextSequences` (lines 114-153). -/
def NoRandomizer.GetNextSequences (self : NoRandomizer) (count : Nat) :
    Except Failure GetNextSequencesResult :=
  if self.m_samplePositionInEpoch ≠ SIZE_MAX then
    match NoRandomizer.GetNextSequences.loop count self [] false with
    | .error e => .error e
    | .ok (ids, endOfEpoch, self1) =>
      if ids.length = 0 then
        .ok { ids := ids, requests := [],
              sequences := { m_endOfEpoch := endOfEpoch, m_data := [] }, self := self1 }
      else
        .ok { ids := ids, requests := [ids],
              sequences := { m_endOfEpoch := endOfEpoch,
                             m_data := self1.m_deserializer.GetSequencesById ids },
              self := self1 }
  else .error .assertion

/-- Successive calls `GetNextSequences(count)` for the counts of the list, in order, with no
`StartEpoch` in between; the results of all calls. -/
def NoRandomizer.GetNextSequencesRepeatedly :
    NoRandomizer → List Nat → Except Failure (List GetNextSequencesResult)
  | _, [] => .ok []
  | self, count :: counts =>
    match self.GetNextSequences count with
    | .error e => .error e
    | .ok r =>
      match NoRandomizer.GetNextSequencesRepeatedly r.self counts with
      | .error e => .error e
      | .ok rs => .ok (r :: rs)

/-- Successive calls `GetNextSequences(count)` for the counts of the list, stopping after the
first call that reports `endOfEpoch`: the ids of all calls made, in call order, whether the
last call made reported `endOfEpoch`, and the scheduler afterwards. -/
def NoRandomizer.GetNextSequencesUntilEndOfEpoch :
    NoRandomizer → List Nat → Except Failure (List Nat × Bool × NoRandomizer)
  | self, [] => .ok ([], false, self)
  | self, count :: counts =>
    match self.GetNextSequences count with
    | .error e => .error e
    | .ok r =>
      if r.sequences.m_endOfEpoch = true then .ok (r.ids, true, r.self)
      else
        match NoRandomizer.GetNextSequencesUntilEndOfEpoch r.self counts with
        | .error e => .error e
        | .ok (ids, endOfEpoch, self1) => .ok (r.ids ++ ids, endOfEpoch, self1)

/-- Method `NoRandomizer::GetStreams` (`NoRandomizer.h`). -/
def NoRandomizer.GetStreams (self : NoRandomizer) : List StreamDescription :=
  self.m_deserializer.m_streams

/-! ## Minibatch packer (`FrameModePacker.cpp`) -/

/-- Modelled from the spec: `MBLayout`, whose header is not among the sources.  In frame mode
the layout records only the count of independent samples; `none` is a layout that was never
initialised as frame mode. -/
structure MBLayout where
  frameModeSamples : Option Nat
deriving DecidableEq, Repr

/-- Modelled from the spec: `MBLayout::InitAsFrameMode`. -/
def MBLayout.InitAsFrameMode (_layout : MBLayout) (numSamples : Nat) : MBLayout :=
  { frameModeSamples := some numSamples }

/-- Record `Stream` of `Reader.h`.  The pointer `m_data` is represented by the index of the
stream buffer it points to, the shared layout by its value when the minibatch is returned. -/
structure Stream where
  m_data : Nat
  m_dataSize : Nat
  m_layout : MBLayout
deriving DecidableEq, Repr

/-- Record `Minibatch`, with the member names used by `FrameModePacker.cpp`. -/
structure Minibatch where
  m_atEndOfEpoch : Bool
  m_minibatch : List Stream
deriving DecidableEq, Repr

/-- Modelled from the spec: the memory provider, whose header is not among the sources.
`Alloc elementSize numElements` is the content of the raw buffer it returns. -/
structure MemoryProvider where
  Alloc : Nat → Nat → List Byte

/-- Members of class `FrameModePacker`. -/
structure FrameModePacker where
  m_transformer : NoRandomizer
  m_mbSize : Nat
  m_inputStreams : List StreamDescription
  m_outputStreams : List StreamDescription
  m_minibatchLayout : MBLayout
  m_streamBuffers : List (List Byte)
  m_memoryProvider : MemoryProvider

/-- Method `FrameModePacker::AllocateBuffer` (lines 113-121). -/
def FrameModePacker.AllocateBuffer (memoryProvider : MemoryProvider)
    (numElements elementSize : Nat) : List Byte :=
  memoryProvider.Alloc elementSize numElements

/-- The allocation loop of the constructor (lines 32-37). -/
def FrameModePacker.new.allocate (memoryProvider : MemoryProvider) (mbSize : Nat) :
    List StreamDescription → Except Failure (List (List Byte))
  | [] => .ok []
  | stream :: rest =>
    if stream.m_elementType = ElementType.tfloat ∨ stream.m_elementType = ElementType.tdouble then
      match FrameModePacker.new.allocate memoryProvider mbSize rest with
      | .error e => .error e
      | .ok buffers =>
        .ok (FrameModePacker.AllocateBuffer memoryProvider
              (toSizeT (mbSize * stream.m_sampleLayout.GetNumElements))
              (GetSizeByType stream.m_elementType) :: buffers)
    else .error .assertion

/-- Constructor `FrameModePacker::FrameModePacker` (lines 14-38). -/
def FrameModePacker.new (memoryProvider : MemoryProvider) (transformer : NoRandomizer)
    (minibatchSize : Nat) (streams : List StreamDescription) : Except Failure FrameModePacker :=
  let inputStreams := transformer.GetStreams
  if inputStreams.length = streams.length then
    if streams.all (fun s => decide (s.m_storageType ≠ StorageType.sparse_csc)) = true then
      match FrameModePacker.new.allocate memoryProvider minibatchSize streams with
      | .error e => .error e
      | .ok buffers =>
        .ok { m_transformer := transformer
              m_mbSize := minibatchSize
              m_inputStreams := inputStreams
              m_outputStreams := streams
              m_minibatchLayout := { frameModeSamples := none }
              m_streamBuffers := buffers
              m_memoryProvider := memoryProvider }
    else .error .assertion
  else .error .assertion

/-- The loop of `std::copy` over `n` bytes: `source[first + k]` goes to `buffer[dest + k]`. -/
def stdCopy.loop (source : List Byte) :
    Nat → Nat → Nat → List Byte → Except Failure (List Byte)
  | 0, _, _, buffer => .ok buffer
  | n + 1, first, dest, buffer =>
    match source[first]? with
    | none => .error .undefined
    | some b =>
      if dest < buffer.length then
        stdCopy.loop source n (first + 1) (dest + 1) (buffer.set dest b)
      else .error .undefined

/-- Call `std::copy(source + first, source + last, buffer + dest)`. -/
def stdCopy (source : List Byte) (first last : Nat) (buffer : List Byte) (dest : Nat) :
    Except Failure (List Byte) :=
  if first ≤ last then stdCopy.loop source (last - first) first dest buffer
  else .error .undefined

/-- The loop of `std::fill` over `n` bytes from offset `first`. -/
def stdFill.loop (value : Byte) : Nat → Nat → List Byte → Except Failure (List Byte)
  | 0, _, buffer => .ok buffer
  | n + 1, first, buffer =>
    if first < buffer.length then stdFill.loop value n (first + 1) (buffer.set first value)
    else .error .undefined

/-- Call `std::fill(buffer + first, buffer + last, value)`. -/
def stdFill (buffer : List Byte) (first last : Nat) (value : Byte) :
    Except Failure (List Byte) :=
  if first ≤ last then stdFill.loop value (last - first) first buffer
  else .error .undefined

/-- The dense branch of `ReadMinibatch` (lines 62-71) for sequence `i`. -/
def FrameModePacker.ReadMinibatch.dense (data : SequenceData) (dimensions i : Nat)
    (buffer : List Byte) : Except Failure (List Byte) :=
  match data with
  | .dense source _ numberOfSamples =>
    if numberOfSamples = 1 then
      stdCopy source 0 dimensions buffer (toSizeT (dimensions * i))
    else .error .assertion
  | .sparse _ _ => .error .undefined

/-- The loop over the non-zero values of a sparse sample (lines 79-84), from `nonZeroIndex`
on; `rowIndices` holds the row indices not yet visited. -/
def FrameModePacker.ReadMinibatch.nonZeros (source : List Byte) (elementSize dimensions i : Nat) :
    Nat → List Nat → List Byte → Except Failure (List Byte)
  | _, [], buffer => .ok buffer
  | nonZeroIndex, rowIndex :: rowIndices, buffer =>
    match stdCopy source (toSizeT (nonZeroIndex * elementSize))
        (toSizeT ((nonZeroIndex + 1) * elementSize)) buffer
        (toSizeT (dimensions * i) + toSizeT (rowIndex * elementSize)) with
    | .error e => .error e
    | .ok buffer1 =>
      FrameModePacker.ReadMinibatch.nonZeros source elementSize dimensions i
        (nonZeroIndex + 1) rowIndices buffer1

/-- The sparse branch of `ReadMinibatch` (lines 72-85) for sequence `i`. -/
def FrameModePacker.ReadMinibatch.sparse (data : SequenceData) (elementSize dimensions i : Nat)
    (buffer : List Byte) : Except Failure (List Byte) :=
  match data with
  | .sparse source indices =>
    match indices with
    | [rowIndices] =>
      match stdFill buffer (toSizeT (i * dimensions)) (toSizeT ((i + 1) * dimensions)) 0 with
      | .error e => .error e
      | .ok buffer1 =>
        FrameModePacker.ReadMinibatch.nonZeros source elementSize dimensions i 0 rowIndices
          buffer1
    | _ => .error .assertion
  | .dense _ _ _ => .error .undefined

/-- The body of the loop over the streams (lines 59-89): packs the payload `data` of sequence
`i` for the stream described by `stream` into that stream's buffer. -/
def FrameModePacker.ReadMinibatch.body (stream : StreamDescription) (data : SequenceData)
    (i : Nat) (buffer : List Byte) : Except Failure (List Byte) :=
  let elementSize := GetSizeByType stream.m_elementType
  let dimensions := toSizeT (stream.m_sampleLayout.GetNumElements * elementSize)
  match stream.m_storageType with
  | .dense => FrameModePacker.ReadMinibatch.dense data dimensions i buffer
  | .sparse_csc => FrameModePacker.ReadMinibatch.sparse data elementSize dimensions i buffer

/-- The loop over the streams of sequence `i` (lines 57-90), from stream `j` on; `row` holds
the payloads of the streams not yet visited.  The counter is an `int`. -/
def FrameModePacker.ReadMinibatch.streams (inputStreams : List StreamDescription) (i : Nat) :
    Nat → List SequenceData → List (List Byte) → Except Failure (List (List Byte))
  | _, [], buffers => .ok buffers
  | j, data :: row, buffers =>
    match inputStreams[j]?, buffers[j]? with
    | some stream, some buffer =>
      match FrameModePacker.ReadMinibatch.body stream data i buffer with
      | .error e => .error e
      | .ok buffer1 =>
        if j < INT_MAX then
          FrameModePacker.ReadMinibatch.streams inputStreams i (j + 1) row
            (buffers.set j buffer1)
        else .error .undefined
    | _, _ => .error .undefined

/-- The loop over the received sequences (lines 54-91), from sequence `i` on; `rows` holds the
sequences not yet visited. -/
def FrameModePacker.ReadMinibatch.sequences (inputStreams : List StreamDescription) :
    Nat → List (List SequenceData) → List (List Byte) → Except Failure (List (List Byte))
  | _, [], buffers => .ok buffers
  | i, row :: rows, buffers =>
    if buffers.length = row.length then
      match FrameModePacker.ReadMinibatch.streams inputStreams i 0 row buffers with
      | .error e => .error e
      | .ok buffers1 =>
        FrameModePacker.ReadMinibatch.sequences inputStreams (i + 1) rows buffers1
    else .error .assertion

/-- The loop that wraps the stream buffers (lines 99-108), from output stream `i` on.  The
counter is an `int`. -/
def FrameModePacker.ReadMinibatch.wrap (numberOfBuffers numberOfSequences : Nat)
    (layout : MBLayout) : Nat → List StreamDescription → Except Failure (List Stream)
  | _, [] => .ok []
  | i, stream :: rest =>
    if i < numberOfBuffers then
      if i < INT_MAX then
        match FrameModePacker.ReadMinibatch.wrap numberOfBuffers numberOfSequences layout
            (i + 1) rest with
        | .error e => .error e
        | .ok wrapped =>
          .ok ({ m_data := i
                 m_dataSize := toSizeT (numberOfSequences *
                   toSizeT (stream.m_sampleLayout.GetNumElements
                     * GetSizeByType stream.m_elementType))
                 m_layout := layout } :: wrapped)
      else .error .undefined
    else .error .undefined

/-- Method `FrameModePacker::ReadMinibatch` from line 49 on, for the value `sequences` that
`m_transformer->GetNextSequences(m_mbSize)` returned. -/
def FrameModePacker.ReadMinibatch.pack (self : FrameModePacker) (sequences : Sequences) :
    Except Failure (Minibatch × FrameModePacker) :=
  match FrameModePacker.ReadMinibatch.sequences self.m_inputStreams 0 sequences.m_data
      self.m_streamBuffers with
  | .error e => .error e
  | .ok buffers =>
    if sequences.m_data.length = 0 then
      .ok ({ m_atEndOfEpoch := sequences.m_endOfEpoch, m_minibatch := [] },
           { self with m_streamBuffers := buffers })
    else
      let layout := self.m_minibatchLayout.InitAsFrameMode sequences.m_data.length
      match FrameModePacker.ReadMinibatch.wrap buffers.length sequences.m_data.length layout 0
          self.m_outputStreams with
      | .error e => .error e
      | .ok wrapped =>
        .ok ({ m_atEndOfEpoch := sequences.m_endOfEpoch, m_minibatch := wrapped },
             { self with m_streamBuffers := buffers, m_minibatchLayout := layout })

/-- Method `FrameModePacker::ReadMinibatch` (lines 40-111). -/
def FrameModePacker.ReadMinibatch (self : FrameModePacker) :
    Except Failure (Minibatch × FrameModePacker) :=
  if 0 < self.m_mbSize then
    match self.m_transformer.GetNextSequences self.m_mbSize with
    | .error e => .error e
    | .ok received =>
      FrameModePacker.ReadMinibatch.pack { self with m_transformer := received.self }
        received.sequences
  else .error .assertion

/-! ### Vocabulary for the scheduler properties -/

/-- The scheduler `self` with its two position members replaced. -/
def NoRandomizer.withPosition (self : NoRandomizer) (samplePosition sequencePosition : Nat) :
    NoRandomizer :=
  { self with
    m_samplePositionInEpoch := samplePosition
    m_sequencePositionInSweep := sequencePosition }

/-- The scheduler `self` as a successful `StartEpoch(config)` leaves it when it resolves the
epoch size to `epochSize`. -/
def NoRandomizer.started (self : NoRandomizer) (config : EpochConfiguration)
    (epochSize : Nat) : NoRandomizer :=
  { self with
    m_workerRank := config.m_workerRank
    m_numberOfWorkers := config.m_numberOfWorkers
    m_epochSize := epochSize
    m_samplePositionInEpoch := 0 }

/-- Whether timeline position `k` exists and belongs to the worker of `self`: the test
`(seqDesc->m_chunkId % m_numberOfWorkers) == m_workerRank`. -/
def NoRandomizer.owns (self : NoRandomizer) (k : Nat) : Bool :=
  match self.m_deserializer.GetSequenceDescriptions.elementAt k with
  | some seqDesc => decide (seqDesc.m_chunkId % self.m_numberOfWorkers = self.m_workerRank)
  | none => false

/-- Sum of `m_numberOfSamples` over the timeline positions `p, ..., q - 1`. -/
def Timeline.samplesBetween (timeline : Timeline) (p q : Nat) : Nat :=
  (((timeline.drop p).take (q - p)).map (fun d => d.m_numberOfSamples)).sum

/-- Sample accounting between two scheduler positions: either nothing moved, or the
sequence position moved forward from `p` to `q` and the sample position is the `size_t` sum of
the old one and the samples of the positions `p, ..., q - 1`. -/
def Timeline.Accounted (timeline : Timeline) (samplePosition p samplePosition1 q : Nat) : Prop :=
  (q = p ∧ samplePosition1 = samplePosition) ∨
    (p < q ∧ samplePosition1 = toSizeT (samplePosition + timeline.samplesBetween p q))

/-- The members of `self` that only the constructor writes hold what the constructor computes
from the timeline of `self`: `self` is a scheduler over a timeline that the constructor accepts,
in any position and with any epoch configuration. -/
def NoRandomizer.FromConstructor (self : NoRandomizer) : Prop :=
  ∃ (workerRank numberOfWorkers : Nat) (constructed : NoRandomizer),
    NoRandomizer.new self.m_deserializer workerRank numberOfWorkers = .ok constructed ∧
    self.m_numSequences = constructed.m_numSequences ∧
    self.m_numChunks = constructed.m_numChunks ∧
    self.m_numSamples = constructed.m_numSamples ∧
    self.m_frameMode = constructed.m_frameMode

/-- State of a scheduler in an epoch over single-sample sequences that started at sweep
position 0: both positions agree, lie inside the epoch, and the epoch lies inside the
timeline. -/
def NoRandomizer.InFrameEpoch (self : NoRandomizer) : Prop :=
  (∀ d ∈ self.m_deserializer.m_sequences, d.m_numberOfSamples = 1) ∧
  self.m_numberOfWorkers ≠ 0 ∧
  self.m_samplePositionInEpoch = self.m_sequencePositionInSweep ∧
  self.m_sequencePositionInSweep ≤ self.m_epochSize ∧
  self.m_epochSize ≤ self.m_deserializer.m_sequences.length ∧
  self.m_deserializer.m_sequences.length < SIZE_MAX ∧
  self.m_numSequences = self.m_deserializer.m_sequences.length

/-- Specification of a worker shard, in the words of the glossary: the ids of the sequences
whose chunk is assigned to worker `workerRank` by
`chunkId mod numberOfWorkers == workerRank`, in ascending order. -/
def Timeline.workerShard (timeline : Timeline) (numberOfWorkers workerRank : Nat) : List Nat :=
  (List.range timeline.length).filter (fun i =>
    match timeline[i]? with
    | some seqDesc => decide (seqDesc.m_chunkId % numberOfWorkers = workerRank)
    | none => false)

/-- Specification of the check of one descriptor, in the words of the specification: the
descriptor `current` against its predecessor, of which the id (an integer, `-1` for the
sentinel) and the chunk id are given. -/
def TimelineIsValidForRandomization.referenceStep (previousId : Int) (previousChunkId : Nat)
    (current : SequenceDescription) : Bool :=
  current.m_isValid
    && decide ((current.m_id : Int) = previousId + 1)
    && decide (previousChunkId ≤ current.m_chunkId)
    && decide (current.m_chunkId ≤ previousChunkId + 1)
    && decide (0 < current.m_numberOfSamples)

/-- Specification of the validator, in the words of the specification: every descriptor
passes the check against its predecessor, the first one against the sentinel with id `-1` and
chunk id `0`. -/
def TimelineIsValidForRandomization.reference (timeline : Timeline) : Bool :=
  (List.zip (((-1 : Int), 0) :: timeline.map (fun d => ((d.m_id : Int), d.m_chunkId)))
      timeline).all
    (fun pair => TimelineIsValidForRandomization.referenceStep pair.1.1 pair.1.2 pair.2)

/-- The additions made to the sample position while the sequence position moves from `p` to
`q`: one `size_t` addition per position passed, each made while the sample position was
below `epochSize`. -/
inductive Timeline.Advanced (timeline : Timeline) (epochSize : Nat) :
    Nat → Nat → Nat → Nat → Prop where
  | refl (samplePosition p : Nat) : Timeline.Advanced timeline epochSize samplePosition p
      samplePosition p
  | step {samplePosition p samplePosition1 q : Nat} {d : SequenceDescription} :
      samplePosition < epochSize → timeline[p]? = some d →
      Timeline.Advanced timeline epochSize (toSizeT (samplePosition + d.m_numberOfSamples))
        (p + 1) samplePosition1 q →
      Timeline.Advanced timeline epochSize samplePosition p samplePosition1 q

/-- State of a scheduler in an epoch that started at sweep position 0 with sample position
0 and an epoch size of at most the sample total of the timeline, both as `size_t` sums: the
sample position is the `size_t` sum of the samples before the sequence position. -/
def NoRandomizer.InSweep (self : NoRandomizer) : Prop :=
  self.m_samplePositionInEpoch
    = toSizeT (self.m_deserializer.m_sequences.samplesBetween 0 self.m_sequencePositionInSweep) ∧
  self.m_sequencePositionInSweep ≤ self.m_deserializer.m_sequences.length ∧
  self.m_epochSize ≤ toSizeT (self.m_deserializer.m_sequences.samplesBetween 0
    self.m_deserializer.m_sequences.length) ∧
  self.m_numSequences = self.m_deserializer.m_sequences.length ∧
  self.m_deserializer.m_sequences.length < SIZE_MAX ∧
  self.m_numberOfWorkers ≠ 0

/-! ### Iteration counts of the scheduler loops -/

/-- The `while` loop of `AdvanceToNextPositionForThisWorker` (lines 97-109) followed as in
`NoRandomizer.AdvanceToNextPositionForThisWorker`, counting the passes through the loop body
that reach its end, that is, the sequences skipped. -/
def NoRandomizer.AdvanceToNextPositionForThisWorker.iterations (self : NoRandomizer) : Nat :=
  if self.m_samplePositionInEpoch < self.m_epochSize then
    if h : (self.m_deserializer.GetSequenceDescriptions.elementAt
        self.m_sequencePositionInSweep).isSome = true then
      let seqDesc := (self.m_deserializer.GetSequenceDescriptions.elementAt
        self.m_sequencePositionInSweep).get h
      if self.m_numberOfWorkers = 0 then 0
      else if seqDesc.m_chunkId % self.m_numberOfWorkers = self.m_workerRank then 0
      else
        NoRandomizer.AdvanceToNextPositionForThisWorker.iterations
          { self with
            m_samplePositionInEpoch :=
              toSizeT (self.m_samplePositionInEpoch + seqDesc.m_numberOfSamples)
            m_sequencePositionInSweep := toSizeT (self.m_sequencePositionInSweep + 1) } + 1
    else 0
  else 0
termination_by self.m_deserializer.m_sequences.length - self.m_sequencePositionInSweep
decreasing_by
  simp only [DataDeserializer.GetSequenceDescriptions, Timeline.elementAt, SIZE_MAX] at h
  split at h
  · have hlt : self.m_sequencePositionInSweep < self.m_deserializer.m_sequences.length := by
      by_contra hge
      rw [List.getElem?_eq_none (by omega)] at h
      cases h
    have hw : toSizeT (self.m_sequencePositionInSweep + 1)
        = self.m_sequencePositionInSweep + 1 := Nat.mod_eq_of_lt (by omega)
    simp only [hw]
    omega
  · cases h

/-- The `while (ids.size() < count)` loop of `GetNextSequences` (lines 124-139) followed as in
`NoRandomizer.GetNextSequences.loop`, counting the passes through the loop bodies that reach
their end: first the sequences skipped in all calls of `AdvanceToNextPositionForThisWorker`,
second the sequences collected. -/
def NoRandomizer.GetNextSequences.loop.iterations (count : Nat) (self : NoRandomizer)
    (ids : List Nat) : Nat × Nat :=
  if ids.length < count then
    let skipped := NoRandomizer.AdvanceToNextPositionForThisWorker.iterations self
    match self.AdvanceToNextPositionForThisWorker with
    | .error _ => (skipped, 0)
    | .ok (true, _) => (skipped, 0)
    | .ok (false, self1) =>
      if self1.m_sequencePositionInSweep < self1.m_numSequences then
        match self1.m_deserializer.GetSequenceDescriptions.elementAt
            self1.m_sequencePositionInSweep with
        | none => (skipped, 0)
        | some seqDesc =>
          let rest := NoRandomizer.GetNextSequences.loop.iterations count
            { self1 with
              m_samplePositionInEpoch :=
                toSizeT (self1.m_samplePositionInEpoch + seqDesc.m_numberOfSamples)
              m_sequencePositionInSweep := toSizeT (self1.m_sequencePositionInSweep + 1) }
            (ids ++ [self1.m_sequencePositionInSweep])
          (skipped + rest.1, rest.2 + 1)
      else (skipped, 0)
  else (0, 0)
termination_by count - ids.length
decreasing_by
  simp only [List.length_append, List.length_singleton]
  omega

/-- The iteration counts of one call of `GetNextSequences`: the sequences skipped and the
sequences collected. -/
def NoRandomizer.GetNextSequences.iterations (self : NoRandomizer) (count : Nat) : Nat × Nat :=
  if self.m_samplePositionInEpoch ≠ SIZE_MAX then
    NoRandomizer.GetNextSequences.loop.iterations count self []
  else (0, 0)

/-! ### Vocabulary for the buffer properties of the packer -/

/-- Size in bytes of one sample of a stream: its number of elements times the size of one
element. -/
def StreamDescription.sampleByteSize (stream : StreamDescription) : Nat :=
  stream.m_sampleLayout.GetNumElements * GetSizeByType stream.m_elementType

/-- The payload `data` is one that the stream `stream` delivers for one sequence: a dense
payload for a dense stream, with one sample whose bytes are in memory; a sparse payload for a
sparse stream, with one list of row indices that are all smaller than the element count of the
stream and one value per index in memory. -/
def SequenceData.Fits (data : SequenceData) (stream : StreamDescription) : Prop :=
  match data with
  | .dense source _ numberOfSamples =>
    stream.m_storageType = StorageType.dense ∧ numberOfSamples = 1 ∧
      stream.sampleByteSize ≤ source.length
  | .sparse source indices =>
    stream.m_storageType = StorageType.sparse_csc ∧
      ∃ rowIndices, indices = [rowIndices] ∧
        (∀ r ∈ rowIndices, r < stream.m_sampleLayout.GetNumElements) ∧
        rowIndices.length * GetSizeByType stream.m_elementType ≤ source.length ∧
        source.length ≤ SIZE_MAX

/-- The packer stands on its preallocated buffers: one buffer per input stream and per output
stream, every input stream with the sample byte size of the corresponding output stream, and
the buffer of stream `j` an object of `m_mbSize` samples of the output stream. -/
def FrameModePacker.Preallocated (self : FrameModePacker) : Prop :=
  self.m_streamBuffers.length = self.m_inputStreams.length ∧
  self.m_outputStreams.length = self.m_inputStreams.length ∧
  self.m_inputStreams.length ≤ INT_MAX ∧
  ∀ (j : Nat) (input output : StreamDescription) (buffer : List Byte),
    self.m_inputStreams[j]? = some input → self.m_outputStreams[j]? = some output →
    self.m_streamBuffers[j]? = some buffer →
    input.sampleByteSize = output.sampleByteSize ∧
    buffer.length = self.m_mbSize * output.sampleByteSize ∧ buffer.length ≤ SIZE_MAX

/-! ## Neighbour-frame augmentation (`DataReader/NewHTKMLFReader/minibatchsourcehelpers.h`)

The functions of namespace `msra::dbn`.  The templates are instantiated with a `List` of frames
for `MATRIX` and a `List` for `VECTOR`; a `char` of `boundaryflags` is a signed integer. -/

/-- Modelled from the spec: the loop header `foreach_index (k, inv)` is defined in `Basics.h`,
which is not among the sources; it is taken to visit the indices `0, …, inv.size() - 1` of
`inv` in ascending order. -/
def foreach_index {α : Type} (inv : List α) : List Nat := List.range inv.length

/-- The loop of `copytosubvector` (lines 33-34) over the indices `k` not yet visited. -/
def copytosubvector.loop {α : Type} (inv : List α) (k0 : Nat) :
    List Nat → List α → Except Failure (List α)
  | [], outv => .ok outv
  | k :: rest, outv =>
    match inv[k]? with
    | none => .error .undefined
    | some x =>
      if toSizeT (k + k0) < outv.length then
        copytosubvector.loop inv k0 rest (outv.set (toSizeT (k + k0)) x)
      else .error .undefined

/-- Function `copytosubvector` (lines 28-35): implants `inv` as sub-vector `subvecindex` of
`outv`. -/
def copytosubvector {α : Type} (inv : List α) (subvecindex : Nat) (outv : List α) :
    Except Failure (List α) :=
  let subdim := inv.length
  if subdim = 0 then .error .undefined
  else if outv.length % subdim = 0 then
    let k0 := toSizeT (subvecindex * subdim)
    copytosubvector.loop inv k0 (foreach_index inv) outv
  else .error .assertion

/-- Function `augmentationextent` (lines 38-49): how many frames are added on each side. -/
def augmentationextent (featdim modeldim : Nat) : Except Failure Nat :=
  if featdim = 0 then .error .undefined
  else
    let windowframes := modeldim / featdim
    let extent := windowframes / 2
    if modeldim % featdim ≠ 0 then .error .runtime
    else if windowframes % 2 = 0 then .error .runtime
    else .ok extent

/-- The loop of the symmetric `augmentneighbors` (lines 65-92, the branch compiled without
`SAMPLING_EXPERIMENT`): `remaining` iterations are left, the counter is `n`, and `t1`, `t2` are
the indices reached on the left and on the right.  The counter stays below `SIZE_MAX` because
`extent` is at most half of a `size_t`. -/
def augmentneighbors.loop {α : Type} (frames : List (List α)) (boundaryflags : List Int)
    (extent : Nat) : Nat → Nat → Nat → Nat → List α → Except Failure (List α)
  | 0, _, _, _, v => .ok v
  | remaining + 1, n, t1, t2, v =>
    let moved : Except Failure (Nat × Nat) :=
      if boundaryflags.isEmpty then
        let t1 := if t1 > 0 then t1 - 1 else t1
        let t2 := if toSizeT (t2 + 1) < frames.length then toSizeT (t2 + 1) else t2
        .ok (t1, t2)
      else
        match boundaryflags[t1]? with
        | none => .error .undefined
        | some flag1 =>
          let t1 := if flag1 ≠ -1 then (if t1 = 0 then SIZE_MAX else t1 - 1) else t1
          match boundaryflags[t2]? with
          | none => .error .undefined
          | some flag2 =>
            let t2 := if flag2 ≠ 1 then toSizeT (t2 + 1) else t2
            .ok (t1, t2)
    match moved with
    | .error e => .error e
    | .ok (t1, t2) =>
      match frames[t1]? with
      | none => .error .undefined
      | some frame1 =>
        match copytosubvector frame1 (extent - n) v with
        | .error e => .error e
        | .ok v1 =>
          match frames[t2]? with
          | none => .error .undefined
          | some frame2 =>
            match copytosubvector frame2 (toSizeT (extent + n)) v1 with
            | .error e => .error e
            | .ok v2 =>
              augmentneighbors.loop frames boundaryflags extent remaining (n + 1) t1 t2 v2

/-- Function `augmentneighbors` with four parameters (lines 54-93): the symmetric window
around frame `t`, written to `v`. -/
def augmentneighbors {α : Type} (frames : List (List α)) (boundaryflags : List Int) (t : Nat)
    (v : List α) : Except Failure (List α) :=
  match frames[t]? with
  | none => .error .undefined
  | some frame =>
    match augmentationextent frame.length v.length with
    | .error e => .error e
    | .ok extent =>
      match copytosubvector frame extent v with
      | .error e => .error e
      | .ok v1 => augmentneighbors.loop frames boundaryflags extent extent 1 t t v1

/-- The first loop of the asymmetric `augmentneighbors` (lines 107-118), over the left
neighbours. -/
def augmentneighbors.asymmetric.left {α : Type} (frames : List (List α))
    (boundaryflags : List Int) (leftextent : Nat) :
    Nat → Nat → Nat → List α → Except Failure (List α)
  | 0, _, _, v => .ok v
  | remaining + 1, n, t1, v =>
    let moved : Except Failure Nat :=
      if boundaryflags.isEmpty then .ok (if t1 > 0 then t1 - 1 else t1)
      else
        match boundaryflags[t1]? with
        | none => .error .undefined
        | some flag1 => .ok (if flag1 ≠ -1 then (if t1 = 0 then SIZE_MAX else t1 - 1) else t1)
    match moved with
    | .error e => .error e
    | .ok t1 =>
      match frames[t1]? with
      | none => .error .undefined
      | some frame1 =>
        match copytosubvector frame1 (leftextent - n) v with
        | .error e => .error e
        | .ok v1 =>
          augmentneighbors.asymmetric.left frames boundaryflags leftextent remaining (n + 1) t1 v1

/-- The second loop of the asymmetric `augmentneighbors` (lines 119-131), over the right
neighbours. -/
def augmentneighbors.asymmetric.right {α : Type} (frames : List (List α))
    (boundaryflags : List Int) (rightextent : Nat) :
    Nat → Nat → Nat → List α → Except Failure (List α)
  | 0, _, _, v => .ok v
  | remaining + 1, n, t2, v =>
    let moved : Except Failure Nat :=
      if boundaryflags.isEmpty then
        .ok (if toSizeT (t2 + 1) < frames.length then toSizeT (t2 + 1) else t2)
      else
        match boundaryflags[t2]? with
        | none => .error .undefined
        | some flag2 => .ok (if flag2 ≠ 1 then toSizeT (t2 + 1) else t2)
    match moved with
    | .error e => .error e
    | .ok t2 =>
      match frames[t2]? with
      | none => .error .undefined
      | some frame2 =>
        match copytosubvector frame2 (toSizeT (rightextent + n)) v with
        | .error e => .error e
        | .ok v1 =>
          augmentneighbors.asymmetric.right frames boundaryflags rightextent remaining (n + 1)
            t2 v1

/-- Function `augmentneighbors` with six parameters (lines 98-132): the window of
`leftextent` frames before and `rightextent` frames after frame `t`.  The loops are followed
for `leftextent` and `rightextent` iterations: a counter could wrap only for an extent of
`SIZE_MAX`, and then a sub-vector index leaves the output vector before the counter wraps. -/
def augmentneighbors.asymmetric {α : Type} (frames : List (List α)) (boundaryflags : List Int)
    (t leftextent rightextent : Nat) (v : List α) : Except Failure (List α) :=
  match frames[t]? with
  | none => .error .undefined
  | some frame =>
    match copytosubvector frame leftextent v with
    | .error e => .error e
    | .ok v1 =>
      match augmentneighbors.asymmetric.left frames boundaryflags leftextent leftextent 1 t
          v1 with
      | .error e => .error e
      | .ok v2 =>
        augmentneighbors.asymmetric.right frames boundaryflags rightextent rightextent 1 t v2

/-! ## Layout transposition (`Source/Readers/NewImageReader/ImageTransformers.cpp`) -/

/-- Modelled from the spec: structure `ImageDimensions`, whose header is not among the
sources: width, height and number of channels of an image.  A value of it stands for the
result of the constructor call `ImageDimensions(*inputStream.sampleLayout, HWC)`. -/
structure ImageDimensions where
  m_width : Nat
  m_height : Nat
  m_numChannels : Nat
deriving DecidableEq, Repr

/-- Call `buffer.resize(count)` on a `vector<char>`: the first `count` bytes are kept, bytes
that are added are zero. -/
def vectorResize (buffer : List Byte) (count : Nat) : List Byte :=
  buffer.take count ++ List.replicate (count - buffer.length) 0

/-- The inner loop of `TypedApply` (lines 413-418) for the row `rowIndex`: `remaining`
iterations are left, the counter is `columnIndex`. -/
def TransposeTransformer.TypedApply.columns (crow numberOfChannels rowIndex : Nat) :
    Nat → Nat → List Byte → Except Failure (List Byte)
  | 0, _, buffer => .ok buffer
  | remaining + 1, columnIndex, buffer =>
    match buffer[toSizeT (toSizeT (rowIndex * numberOfChannels) + columnIndex)]? with
    | none => .error .undefined
    | some b =>
      if toSizeT (toSizeT (columnIndex * crow) + rowIndex) < buffer.length then
        TransposeTransformer.TypedApply.columns crow numberOfChannels rowIndex remaining
          (columnIndex + 1)
          (buffer.set (toSizeT (toSizeT (columnIndex * crow) + rowIndex)) b)
      else .error .undefined

/-- The outer loop of `TypedApply` (lines 411-419): `remaining` iterations are left, the
counter is `rowIndex`. -/
def TransposeTransformer.TypedApply.rows (crow numberOfChannels : Nat) :
    Nat → Nat → List Byte → Except Failure (List Byte)
  | 0, _, buffer => .ok buffer
  | remaining + 1, rowIndex, buffer =>
    match TransposeTransformer.TypedApply.columns crow numberOfChannels rowIndex
        numberOfChannels 0 buffer with
    | .error e => .error e
    | .ok buffer1 =>
      TransposeTransformer.TypedApply.rows crow numberOfChannels remaining (rowIndex + 1)
        buffer1

/-- Method `TransposeTransformer::TypedApply` (lines 392-426), for either element type: the
returned sequence and the buffer after the call.  The data of the returned sequence is the
content of `buffer`, which `result->data` points to. -/
def TransposeTransformer.TypedApply (inputSequence : SequenceData)
    (inputStream : StreamDescription) (dimensions : ImageDimensions) (buffer : List Byte)
    (outputStream : StreamDescription) : Except Failure (SequenceData × List Byte) :=
  match inputSequence with
  | .sparse _ _ => .error .undefined
  | .dense _ _ numberOfSamples =>
    if numberOfSamples = 1 then
      if inputStream.m_sampleLayout.GetNumElements
          = outputStream.m_sampleLayout.GetNumElements then
        let count := toSizeT (inputStream.m_sampleLayout.GetNumElements
          * GetSizeByType inputStream.m_elementType)
        let buffer := vectorResize buffer count
        let crow := toSizeT (dimensions.m_height * dimensions.m_width)
        let numberOfChannels := dimensions.m_numChannels
        match TransposeTransformer.TypedApply.rows crow numberOfChannels crow 0 buffer with
        | .error e => .error e
        | .ok buffer1 =>
          if buffer1.length = 0 then .error .undefined
          else .ok (.dense buffer1 outputStream.m_sampleLayout numberOfSamples, buffer1)
      else .error .assertion
    else .error .assertion

/-! ### Vocabulary for the augmentation properties -/

/-- Sub-vector `i` of a vector `v` that is made of sub-vectors of dimension `d`. -/
def subvector {α : Type} (d i : Nat) (v : List α) : List α := (v.drop (i * d)).take d

/-- The update of the left index `t1` in one iteration of `augmentneighbors` (both variants);
`none` when the flag of `t1` is read out of range. -/
def augmentneighbors.stepLeft (boundaryflags : List Int) (t1 : Nat) : Option Nat :=
  if boundaryflags.isEmpty then some (if t1 > 0 then t1 - 1 else t1)
  else
    match boundaryflags[t1]? with
    | none => none
    | some flag1 => some (if flag1 ≠ -1 then (if t1 = 0 then SIZE_MAX else t1 - 1) else t1)

/-- The update of the right index `t2` in one iteration of `augmentneighbors` (both variants)
over `numberOfFrames` frames; `none` when the flag of `t2` is read out of range. -/
def augmentneighbors.stepRight (numberOfFrames : Nat) (boundaryflags : List Int) (t2 : Nat) :
    Option Nat :=
  if boundaryflags.isEmpty then
    some (if toSizeT (t2 + 1) < numberOfFrames then toSizeT (t2 + 1) else t2)
  else
    match boundaryflags[t2]? with
    | none => none
    | some flag2 => some (if flag2 ≠ 1 then toSizeT (t2 + 1) else t2)

/-- The frame that `n` updates of the left index lead to, starting from index `t1`. -/
def augmentneighbors.leftFrame {α : Type} (frames : List (List α)) (boundaryflags : List Int) :
    Nat → Nat → Option (List α)
  | 0, t1 => frames[t1]?
  | n + 1, t1 =>
    match augmentneighbors.stepLeft boundaryflags t1 with
    | none => none
    | some t1 => augmentneighbors.leftFrame frames boundaryflags n t1

/-- The frame that `n` updates of the right index lead to, starting from index `t2`. -/
def augmentneighbors.rightFrame {α : Type} (frames : List (List α)) (boundaryflags : List Int) :
    Nat → Nat → Option (List α)
  | 0, t2 => frames[t2]?
  | n + 1, t2 =>
    match augmentneighbors.stepRight frames.length boundaryflags t2 with
    | none => none
    | some t2 => augmentneighbors.rightFrame frames boundaryflags n t2

/-! ## Concrete inputs of the examples -/

/-- A deserializer without streams over the given timeline; every payload row is empty. -/
def exampleDeserializer (timeline : Timeline) : DataDeserializer :=
  { m_streams := []
    m_sequences := timeline
    GetSequencesById := fun ids => ids.map (fun _ => []) }

/-- The value used for the constant `requestDataSize` in the examples. -/
def exampleRequestDataSize : Nat := 4611686018427387903

/-- A valid descriptor with the given id, sample count and chunk id. -/
def validDescription (id numberOfSamples chunkId : Nat) : SequenceDescription :=
  { m_id := id, m_numberOfSamples := numberOfSamples, m_chunkId := chunkId, m_isValid := true }

/-- One valid single-sample descriptor with id 0 in chunk 2. -/
def timelineStartingInChunkTwo : Timeline := [validDescription 0 1 2]

/-- Two valid descriptors in chunks 0 and 1, the second with two samples. -/
def timelineOfTwo : Timeline := [validDescription 0 1 0, validDescription 1 2 1]

/-- Five valid single-sample descriptors with ids 0 to 4 in the chunks 0, 0, 1, 1, 2. -/
def timelineOfFive : Timeline :=
  [validDescription 0 1 0, validDescription 1 1 0, validDescription 2 1 1,
   validDescription 3 1 1, validDescription 4 1 2]

/-- A scheduler over `timelineOfFive` as the constructor leaves it, but at sweep position 0. -/
def schedulerOfFive : NoRandomizer :=
  { m_deserializer := exampleDeserializer timelineOfFive
    m_numSequences := 5
    m_numChunks := 3
    m_numSamples := 5
    m_frameMode := true
    m_workerRank := 0
    m_numberOfWorkers := 0
    m_epochSize := SIZE_MAX
    m_samplePositionInEpoch := SIZE_MAX
    m_sweep := SIZE_MAX
    m_sequencePositionInSweep := 0 }

/-- The epoch configuration of worker `workerRank` out of `numberOfWorkers` for one full sweep,
with epoch index 0 and minibatch size 2. -/
def fullSweepOf (numberOfWorkers workerRank : Nat) : EpochConfiguration :=
  { m_numberOfWorkers := numberOfWorkers
    m_workerRank := workerRank
    m_minibatchSizeInSamples := 2
    m_totalEpochSizeInSamples := exampleRequestDataSize
    m_epochIndex := 0 }

/-- The scheduler `schedulerOfFive` after `StartEpoch` for worker `workerRank` out of
`numberOfWorkers` with a full sweep, at the given positions. -/
def startedOfFive (numberOfWorkers workerRank samplePosition sequencePosition : Nat) :
    NoRandomizer :=
  { schedulerOfFive with
    m_workerRank := workerRank
    m_numberOfWorkers := numberOfWorkers
    m_epochSize := 5
    m_samplePositionInEpoch := samplePosition
    m_sequencePositionInSweep := sequencePosition }

/-- The scheduler over `timeline` as the constructor leaves it, but at sweep position 0. -/
def schedulerAtStart (timeline : Timeline) : Except Failure NoRandomizer :=
  match NoRandomizer.new (exampleDeserializer timeline) 0 0 with
  | .ok constructed => .ok (constructed.withPosition constructed.m_samplePositionInEpoch 0)
  | .error e => .error e

/-- Construction over `timeline`, the sweep position set to 0, then `StartEpoch(config)`. -/
def startAtSweepStart (timeline : Timeline) (config : EpochConfiguration) :
    Except Failure NoRandomizer :=
  match schedulerAtStart timeline with
  | .ok scheduler => scheduler.StartEpoch exampleRequestDataSize config
  | .error e => .error e

/-- A dense single-precision stream with one element per sample (4 bytes per sample). -/
def denseStream : StreamDescription :=
  { m_name := "features"
    m_id := 0
    m_storageType := StorageType.dense
    m_elementType := ElementType.tfloat
    m_sampleLayout := { numElements := 1 } }

/-- A sparse single-precision stream with five elements per sample (20 bytes per sample). -/
def sparseStream : StreamDescription :=
  { m_name := "labels"
    m_id := 1
    m_storageType := StorageType.sparse_csc
    m_elementType := ElementType.tfloat
    m_sampleLayout := { numElements := 5 } }

/-- A deserializer with the stream `denseStream` over the given timeline; the sample of
sequence `id` consists of the bytes `id, 0, 0, 0`. -/
def denseDeserializer (timeline : Timeline) : DataDeserializer :=
  { m_streams := [denseStream]
    m_sequences := timeline
    GetSequencesById := fun ids =>
      ids.map (fun id => [SequenceData.dense [UInt8.ofNat id, 0, 0, 0] { numElements := 1 } 1]) }

/-- A memory provider whose buffers are zero-filled. -/
def zeroProvider : MemoryProvider :=
  { Alloc := fun elementSize numElements => List.replicate (elementSize * numElements) 0 }

/-- Ten valid single-sample descriptors with ids 0 to 9, all in chunk 0. -/
def timelineOfTen : Timeline :=
  [validDescription 0 1 0, validDescription 1 1 0, validDescription 2 1 0,
   validDescription 3 1 0, validDescription 4 1 0, validDescription 5 1 0,
   validDescription 6 1 0, validDescription 7 1 0, validDescription 8 1 0,
   validDescription 9 1 0]

/-- The end-to-end set-up: a `NoRandomizer` over `denseDeserializer timeline`, a
`FrameModePacker` of capacity `minibatchSize` on top of it, then `StartEpoch(config)` on the
scheduler the packer reads from. -/
def endToEnd (timeline : Timeline) (minibatchSize : Nat) (config : EpochConfiguration) :
    Except Failure FrameModePacker :=
  match NoRandomizer.new (denseDeserializer timeline) 0 0 with
  | .error e => .error e
  | .ok transformer =>
    match FrameModePacker.new zeroProvider transformer minibatchSize [denseStream] with
    | .error e => .error e
    | .ok packer =>
      match packer.m_transformer.StartEpoch exampleRequestDataSize config with
      | .error e => .error e
      | .ok started => .ok { packer with m_transformer := started }

/-- The packer that `endToEnd timelineOfTen 4 (fullSweepOf 1 0)` sets up, with its scheduler at
the given positions. -/
def packerOfTen (samplePosition sequencePosition : Nat) (buffer : List Byte)
    (layout : MBLayout) : FrameModePacker :=
  { m_transformer :=
      { m_deserializer := denseDeserializer timelineOfTen
        m_numSequences := 10
        m_numChunks := 1
        m_numSamples := 10
        m_frameMode := true
        m_workerRank := 0
        m_numberOfWorkers := 1
        m_epochSize := 10
        m_samplePositionInEpoch := samplePosition
        m_sweep := SIZE_MAX
        m_sequencePositionInSweep := sequencePosition }
    m_mbSize := 4
    m_inputStreams := [denseStream]
    m_outputStreams := [denseStream]
    m_minibatchLayout := layout
    m_streamBuffers := [buffer]
    m_memoryProvider := zeroProvider }

/-- What the scheduler of `packerOfTen 9 9 _ _` returns to `GetNextSequences(4)`: the last
sequence of the epoch. -/
def lastOfTen : GetNextSequencesResult :=
  { ids := [9]
    requests := [[9]]
    sequences :=
      { m_endOfEpoch := true
        m_data := [[SequenceData.dense [9, 0, 0, 0] { numElements := 1 } 1]] }
    self := (packerOfTen 10 10 [] { frameModeSamples := none }).m_transformer }

/-- A sparse sample with the values `1, 2, 3, 4` and `5, 6, 7, 8` in the rows 0 and 3. -/
def sparseSample : SequenceData :=
  SequenceData.sparse [1, 2, 3, 4, 5, 6, 7, 8] [[0, 3]]

/-- A sparse sample with the value `1, 2, 3, 4` in row 5, one past the last row of a sample
of `sparseStream`. -/
def sparseSampleOutOfRange : SequenceData :=
  SequenceData.sparse [1, 2, 3, 4] [[5]]

/-- Successive calls of `ReadMinibatch`: the minibatches returned by `n` calls. -/
def FrameModePacker.ReadMinibatches : Nat → FrameModePacker → Except Failure (List Minibatch)
  | 0, _ => .ok []
  | n + 1, self =>
    match self.ReadMinibatch with
    | .error e => .error e
    | .ok (minibatch, self1) =>
      match FrameModePacker.ReadMinibatches n self1 with
      | .error e => .error e
      | .ok minibatches => .ok (minibatch :: minibatches)

/-- What a caller sees of a returned minibatch: per stream the data size and the sample count
of the layout, and the end-of-epoch flag. -/
def Minibatch.summary (minibatch : Minibatch) : List (Nat × Option Nat) × Bool :=
  (minibatch.m_minibatch.map (fun s => (s.m_dataSize, s.m_layout.frameModeSamples)),
   minibatch.m_atEndOfEpoch)

/-- Whether a computation produced a result. -/
def succeeded {α : Type} : Except Failure α → Bool
  | .ok _ => true
  | .error _ => false

/-- Construction over `timeline`, `StartEpoch(config)` on the constructed scheduler, then
`GetNextSequences(count)`. -/
def constructStartAndGet (timeline : Timeline) (config : EpochConfiguration) (count : Nat) :
    Except Failure GetNextSequencesResult :=
  match NoRandomizer.new (exampleDeserializer timeline) 0 0 with
  | .error e => .error e
  | .ok constructed =>
    match constructed.StartEpoch exampleRequestDataSize config with
    | .error e => .error e
    | .ok started => started.GetNextSequences count

/-- A deserializer whose `FillSequenceDescriptions` appends the five descriptors of
`timelineOfFive` to the timeline it is given. -/
def baseOfFive : DataDeserializerBase :=
  DataDeserializerBase.new (fun timeline => timeline ++ timelineOfFive)

/-- Four frames of dimension one, used in the examples of the augmentation. -/
def framesOfFour : List (List Nat) := [[10], [20], [30], [40]]

/-- Boundary flags of one utterance that covers the four frames. -/
def flagsOfFour : List Int := [-1, 0, 0, 1]

/-- Input stream of the transposition example: images of two pixels (height 1, width 2) with
two channels, single precision. -/
def imageStream : StreamDescription :=
  { m_name := "features"
    m_id := 0
    m_storageType := StorageType.dense
    m_elementType := ElementType.tfloat
    m_sampleLayout := { numElements := 4 } }

/-- Dimensions of the images of `imageStream`. -/
def imageDimensions : ImageDimensions := { m_width := 2, m_height := 1, m_numChannels := 2 }

/-- One image of `imageStream` in the layout HWC: the four elements, of four bytes each, are
pixel 0 channel 0, pixel 0 channel 1, pixel 1 channel 0, pixel 1 channel 1. -/
def imageSample : List Byte :=
  [1, 1, 1, 1, 2, 2, 2, 2, 3, 3, 3, 3, 4, 4, 4, 4]

/-- The image `imageSample` in the layout CHW. -/
def imageSampleTransposed : List Byte :=
  [1, 1, 1, 1, 3, 3, 3, 3, 2, 2, 2, 2, 4, 4, 4, 4]


/-! ## Facts about machine integers and element access -/

theorem toSizeT_of_lt {n : Nat} (h : n < 18446744073709551616) : toSizeT n = n :=
  Nat.mod_eq_of_lt h

theorem toSizeT_lt (n : Nat) : toSizeT n < 18446744073709551616 :=
  Nat.mod_lt _ (by decide)

theorem toSizeT_add_toSizeT (a b c : Nat) : toSizeT (toSizeT (a + b) + c) = toSizeT (a + (b + c)) := by
  unfold toSizeT
  omega

theorem Timeline.elementAt_eq_some {timeline : Timeline} {i : Nat} {d : SequenceDescription} :
    timeline.elementAt i = some d ↔ i < SIZE_MAX ∧ timeline[i]? = some d := by
  unfold Timeline.elementAt
  split <;> simp [*]

theorem Timeline.elementAt_lt {timeline : Timeline} {i : Nat} {d : SequenceDescription}
    (h : timeline.elementAt i = some d) : i < SIZE_MAX ∧ i < timeline.length := by
  rw [Timeline.elementAt_eq_some] at h
  exact ⟨h.1, (List.getElem?_eq_some_iff.1 h.2).1⟩

theorem Timeline.elementAt_of_lt {timeline : Timeline} {i : Nat}
    (h1 : i < SIZE_MAX) (h2 : i < timeline.length) :
    ∃ d, timeline.elementAt i = some d ∧ d ∈ timeline := by
  refine ⟨timeline[i], ?_, List.getElem_mem _⟩
  rw [Timeline.elementAt_eq_some]
  exact ⟨h1, List.getElem?_eq_getElem h2⟩

theorem Timeline.samplesBetween_self (timeline : Timeline) (p : Nat) :
    timeline.samplesBetween p p = 0 := by
  simp [Timeline.samplesBetween]

theorem Timeline.samplesBetween_succ_left {timeline : Timeline} {p q : Nat}
    {d : SequenceDescription} (hd : timeline[p]? = some d) (hq : p < q) :
    timeline.samplesBetween p q = d.m_numberOfSamples + timeline.samplesBetween (p + 1) q := by
  unfold Timeline.samplesBetween
  have hp : p < timeline.length := (List.getElem?_eq_some_iff.1 hd).1
  have hdrop : timeline.drop p = d :: timeline.drop (p + 1) := by
    rw [List.drop_eq_getElem_cons hp]
    congr 1
    have := List.getElem?_eq_getElem hp
    rw [this] at hd
    exact Option.some.inj hd
  obtain ⟨m, rfl⟩ : ∃ m, q = p + 1 + m := ⟨q - p - 1, by omega⟩
  have e1 : p + 1 + m - p = m + 1 := by omega
  have e2 : p + 1 + m - (p + 1) = m := by omega
  rw [hdrop, e1, e2]
  simp

theorem Timeline.samplesBetween_succ_right {timeline : Timeline} {p q : Nat}
    {d : SequenceDescription} (hd : timeline[q]? = some d) (hq : p ≤ q) :
    timeline.samplesBetween p (q + 1) = timeline.samplesBetween p q + d.m_numberOfSamples := by
  induction hq using Nat.decreasingInduction with
  | self =>
    rw [Timeline.samplesBetween_succ_left hd (by omega), Timeline.samplesBetween_self,
      Timeline.samplesBetween_self]
    omega
  | of_succ k hk ih =>
    have hk' : k < timeline.length := by
      have := (List.getElem?_eq_some_iff.1 hd).1
      omega
    rw [Timeline.samplesBetween_succ_left (List.getElem?_eq_getElem hk') (by omega),
      Timeline.samplesBetween_succ_left (List.getElem?_eq_getElem hk') (by omega), ih]
    omega

theorem Timeline.samplesBetween_add {timeline : Timeline} {p q r : Nat}
    (hpq : p ≤ q) (hqr : q ≤ r) (hr : r ≤ timeline.length) :
    timeline.samplesBetween p r = timeline.samplesBetween p q + timeline.samplesBetween q r := by
  induction r, hqr using Nat.le_induction with
  | base => simp [Timeline.samplesBetween_self]
  | succ r hqr ih =>
    have hr' : r < timeline.length := by omega
    rw [Timeline.samplesBetween_succ_right (List.getElem?_eq_getElem hr') (by omega),
      Timeline.samplesBetween_succ_right (List.getElem?_eq_getElem hr') hqr, ih (by omega)]
    omega

/-! ## The skip loop `AdvanceToNextPositionForThisWorker` -/

theorem NoRandomizer.advance_done {s : NoRandomizer}
    (h : ¬ s.m_samplePositionInEpoch < s.m_epochSize) :
    s.AdvanceToNextPositionForThisWorker = .ok (true, s) := by
  rw [NoRandomizer.AdvanceToNextPositionForThisWorker, if_neg h]
  simp only [Except.ok.injEq, Prod.mk.injEq, decide_eq_true_eq, and_true]
  omega

theorem NoRandomizer.advance_out_of_range {s : NoRandomizer}
    (h : s.m_samplePositionInEpoch < s.m_epochSize)
    (hnone : s.m_deserializer.GetSequenceDescriptions.elementAt s.m_sequencePositionInSweep
      = none) :
    s.AdvanceToNextPositionForThisWorker = .error .undefined := by
  rw [NoRandomizer.AdvanceToNextPositionForThisWorker, if_pos h, dif_neg (by simp [hnone])]

theorem NoRandomizer.advance_no_workers {s : NoRandomizer} {d : SequenceDescription}
    (h : s.m_samplePositionInEpoch < s.m_epochSize)
    (hd : s.m_deserializer.GetSequenceDescriptions.elementAt s.m_sequencePositionInSweep
      = some d)
    (hw : s.m_numberOfWorkers = 0) :
    s.AdvanceToNextPositionForThisWorker = .error .undefined := by
  rw [NoRandomizer.AdvanceToNextPositionForThisWorker, if_pos h, dif_pos (by simp [hd])]
  simp [hw]

theorem NoRandomizer.advance_owned {s : NoRandomizer} {d : SequenceDescription}
    (h : s.m_samplePositionInEpoch < s.m_epochSize)
    (hd : s.m_deserializer.GetSequenceDescriptions.elementAt s.m_sequencePositionInSweep
      = some d)
    (hw : s.m_numberOfWorkers ≠ 0)
    (hown : d.m_chunkId % s.m_numberOfWorkers = s.m_workerRank) :
    s.AdvanceToNextPositionForThisWorker = .ok (false, s) := by
  rw [NoRandomizer.AdvanceToNextPositionForThisWorker, if_pos h, dif_pos (by simp [hd])]
  simp only [hd, Option.get_some, if_neg hw, if_pos hown, Except.ok.injEq, Prod.mk.injEq,
    decide_eq_false_iff_not, and_true]
  omega

theorem NoRandomizer.advance_skip {s : NoRandomizer} {d : SequenceDescription}
    (h : s.m_samplePositionInEpoch < s.m_epochSize)
    (hd : s.m_deserializer.GetSequenceDescriptions.elementAt s.m_sequencePositionInSweep
      = some d)
    (hw : s.m_numberOfWorkers ≠ 0)
    (hown : d.m_chunkId % s.m_numberOfWorkers ≠ s.m_workerRank) :
    s.AdvanceToNextPositionForThisWorker =
      (s.withPosition (toSizeT (s.m_samplePositionInEpoch + d.m_numberOfSamples))
        (toSizeT (s.m_sequencePositionInSweep + 1))).AdvanceToNextPositionForThisWorker := by
  rw [NoRandomizer.AdvanceToNextPositionForThisWorker, if_pos h, dif_pos (by simp [hd])]
  simp only [hd, Option.get_some, if_neg hw, if_neg hown]
  rfl

/-! ## The timeline validator -/

/-- What the validator accepts, relative to the captured `previous` descriptor. -/
theorem find_if_not_iff (timeline : Timeline) :
    ∀ (previous : SequenceDescription) (base : Nat),
      toSizeT (previous.m_id + 1) = base → previous.m_chunkId ≤ base →
      base + timeline.length < 18446744073709551616 →
      (TimelineIsValidForRandomization.find_if_not previous timeline = true ↔
        (∀ d ∈ timeline, d.m_isValid = true ∧ 0 < d.m_numberOfSamples) ∧
        (∀ k d, timeline[k]? = some d → d.m_id = base + k) ∧
        (∀ d, timeline[0]? = some d →
          previous.m_chunkId ≤ d.m_chunkId ∧ d.m_chunkId ≤ previous.m_chunkId + 1) ∧
        (∀ k a b, timeline[k]? = some a → timeline[k + 1]? = some b →
          a.m_chunkId ≤ b.m_chunkId ∧ b.m_chunkId ≤ a.m_chunkId + 1)) := by
  induction timeline with
  | nil => intro previous base _ _ _; simp [TimelineIsValidForRandomization.find_if_not]
  | cons current rest ih =>
    intro previous base hid hchunk hlen
    simp only [List.length_cons] at hlen
    have hw : toSizeT (previous.m_chunkId + 1) = previous.m_chunkId + 1 :=
      toSizeT_of_lt (by omega)
    simp only [TimelineIsValidForRandomization.find_if_not]
    constructor
    · intro h
      split at h
      · rename_i hres
        simp only [TimelineIsValidForRandomization.result, Bool.and_eq_true,
          decide_eq_true_eq, hid, hw] at hres
        obtain ⟨⟨⟨⟨hv, hi⟩, hc1⟩, hc2⟩, hn⟩ := hres
        have ih' := (ih current (base + 1)
          (by rw [← hi]; exact toSizeT_of_lt (by omega)) (by omega) (by omega)).1 h
        obtain ⟨h1, h2, h3, h4⟩ := ih'
        refine ⟨?_, ?_, ?_, ?_⟩
        · intro d hd
          rcases List.mem_cons.1 hd with rfl | hd
          · exact ⟨hv, hn⟩
          · exact h1 d hd
        · intro k d hk
          cases k with
          | zero => simp at hk; subst hk; omega
          | succ k =>
            simp only [List.getElem?_cons_succ] at hk
            have := h2 k d hk
            omega
        · intro d hd
          simp at hd; subst hd; exact ⟨hc1, hc2⟩
        · intro k a b ha hb
          cases k with
          | zero =>
            simp at ha; subst ha
            simp only [List.getElem?_cons_succ] at hb
            exact h3 b hb
          | succ k =>
            simp only [List.getElem?_cons_succ] at ha hb
            exact h4 k a b ha hb
      · simp at h
    · rintro ⟨h1, h2, h3, h4⟩
      have hv := h1 current (List.mem_cons_self _ _)
      have hi := h2 0 current (by simp)
      have hc := h3 current (by simp)
      have hres : TimelineIsValidForRandomization.result previous current = true := by
        simp only [TimelineIsValidForRandomization.result, Bool.and_eq_true,
          decide_eq_true_eq, hid, hw]
        refine ⟨⟨⟨⟨hv.1, by omega⟩, hc.1⟩, hc.2⟩, hv.2⟩
      rw [if_pos hres]
      refine (ih current (base + 1)
        (by rw [hi]; exact toSizeT_of_lt (by omega)) (by omega) (by omega)).2 ⟨?_, ?_, ?_, ?_⟩
      · intro d hd; exact h1 d (List.mem_cons_of_mem _ hd)
      · intro k d hk
        have := h2 (k + 1) d (by simpa using hk)
        omega
      · intro d hd
        exact h4 0 current d (by simp) (by simpa using hd)
      · intro k a b ha hb
        exact h4 (k + 1) a b (by simpa using ha) (by simpa using hb)

/-- What the validator accepts: the invariants of the data model, with the chunk id of the
first descriptor compared with the initial `previous.m_chunkId = 0`. -/
theorem TimelineIsValidForRandomization_iff (timeline : Timeline)
    (hsize : timeline.length < 18446744073709551616) :
    TimelineIsValidForRandomization timeline = true ↔
      (∀ d ∈ timeline, d.m_isValid = true ∧ 0 < d.m_numberOfSamples) ∧
      (∀ (k : Nat) (d : SequenceDescription), timeline[k]? = some d → d.m_id = k) ∧
      (∀ d : SequenceDescription, timeline[0]? = some d → d.m_chunkId ≤ 1) ∧
      (∀ k a b, timeline[k]? = some a → timeline[k + 1]? = some b →
        a.m_chunkId ≤ b.m_chunkId ∧ b.m_chunkId ≤ a.m_chunkId + 1) := by
  unfold TimelineIsValidForRandomization
  rw [find_if_not_iff timeline _ 0 (by decide) (by simp) (by omega)]
  simp


@[simp] theorem NoRandomizer.withPosition_deserializer (s : NoRandomizer) (a b : Nat) :
    (s.withPosition a b).m_deserializer = s.m_deserializer := rfl

@[simp] theorem NoRandomizer.withPosition_numSequences (s : NoRandomizer) (a b : Nat) :
    (s.withPosition a b).m_numSequences = s.m_numSequences := rfl

@[simp] theorem NoRandomizer.withPosition_numSamples (s : NoRandomizer) (a b : Nat) :
    (s.withPosition a b).m_numSamples = s.m_numSamples := rfl

@[simp] theorem NoRandomizer.withPosition_frameMode (s : NoRandomizer) (a b : Nat) :
    (s.withPosition a b).m_frameMode = s.m_frameMode := rfl

@[simp] theorem NoRandomizer.withPosition_workerRank (s : NoRandomizer) (a b : Nat) :
    (s.withPosition a b).m_workerRank = s.m_workerRank := rfl

@[simp] theorem NoRandomizer.withPosition_numberOfWorkers (s : NoRandomizer) (a b : Nat) :
    (s.withPosition a b).m_numberOfWorkers = s.m_numberOfWorkers := rfl

@[simp] theorem NoRandomizer.withPosition_epochSize (s : NoRandomizer) (a b : Nat) :
    (s.withPosition a b).m_epochSize = s.m_epochSize := rfl

@[simp] theorem NoRandomizer.withPosition_samplePosition (s : NoRandomizer) (a b : Nat) :
    (s.withPosition a b).m_samplePositionInEpoch = a := rfl

@[simp] theorem NoRandomizer.withPosition_sequencePosition (s : NoRandomizer) (a b : Nat) :
    (s.withPosition a b).m_sequencePositionInSweep = b := rfl

@[simp] theorem NoRandomizer.withPosition_withPosition (s : NoRandomizer) (a b c d : Nat) :
    (s.withPosition a b).withPosition c d = s.withPosition c d := rfl

@[simp] theorem NoRandomizer.withPosition_self (s : NoRandomizer) :
    s.withPosition s.m_samplePositionInEpoch s.m_sequencePositionInSweep = s := rfl

@[simp] theorem NoRandomizer.owns_withPosition (s : NoRandomizer) (a b k : Nat) :
    (s.withPosition a b).owns k = s.owns k := rfl

theorem NoRandomizer.owns_eq_true {s : NoRandomizer} {k : Nat} :
    s.owns k = true ↔ ∃ d, s.m_deserializer.GetSequenceDescriptions.elementAt k = some d ∧
      d.m_chunkId % s.m_numberOfWorkers = s.m_workerRank := by
  unfold NoRandomizer.owns
  split <;> simp [*]

theorem Timeline.Accounted.refl (timeline : Timeline) (sp p : Nat) :
    timeline.Accounted sp p sp p := Or.inl ⟨rfl, rfl⟩

theorem Timeline.Accounted.step {timeline : Timeline} {sp p : Nat} {d : SequenceDescription}
    (hd : timeline[p]? = some d) :
    timeline.Accounted sp p (toSizeT (sp + d.m_numberOfSamples)) (p + 1) := by
  refine Or.inr ⟨by omega, ?_⟩
  rw [Timeline.samplesBetween_succ_left hd (by omega), Timeline.samplesBetween_self,
    Nat.add_zero]

theorem Timeline.Accounted.trans {timeline : Timeline} {sp p sp1 p1 sp2 p2 : Nat}
    (h1 : timeline.Accounted sp p sp1 p1) (h2 : timeline.Accounted sp1 p1 sp2 p2)
    (hp : p ≤ p1) (hp2 : p2 ≤ timeline.length) :
    timeline.Accounted sp p sp2 p2 := by
  rcases h1 with ⟨rfl, rfl⟩ | ⟨h1a, h1b⟩
  · exact h2
  · rcases h2 with ⟨rfl, rfl⟩ | ⟨h2a, h2b⟩
    · exact Or.inr ⟨h1a, h1b⟩
    · refine Or.inr ⟨by omega, ?_⟩
      rw [h2b, h1b, toSizeT_add_toSizeT,
        Timeline.samplesBetween_add (le_of_lt h1a) (le_of_lt h2a) hp2]

/-- What a completed run of the skip loop did: only the two positions changed, every position
passed over exists and belongs to another worker, the sample position grew by the samples of
the positions passed over, and a `false` result leaves the scheduler on a position of its own
worker, inside the epoch. -/
theorem NoRandomizer.advance_spec (n : Nat) :
    ∀ (s : NoRandomizer) (b : Bool) (s' : NoRandomizer),
      s.m_deserializer.m_sequences.length - s.m_sequencePositionInSweep ≤ n →
      s.AdvanceToNextPositionForThisWorker = .ok (b, s') →
      s' = s.withPosition s'.m_samplePositionInEpoch s'.m_sequencePositionInSweep ∧
      s.m_sequencePositionInSweep ≤ s'.m_sequencePositionInSweep ∧
      (∀ k, s.m_sequencePositionInSweep ≤ k → k < s'.m_sequencePositionInSweep →
        s.owns k = false ∧ k < s.m_deserializer.m_sequences.length ∧ k < SIZE_MAX) ∧
      s.m_deserializer.m_sequences.Accounted s.m_samplePositionInEpoch
        s.m_sequencePositionInSweep s'.m_samplePositionInEpoch s'.m_sequencePositionInSweep ∧
      b = decide (s.m_epochSize ≤ s'.m_samplePositionInEpoch) ∧
      (b = false → s.owns s'.m_sequencePositionInSweep = true ∧ s.m_numberOfWorkers ≠ 0 ∧
        s'.m_samplePositionInEpoch < s.m_epochSize) := by
  induction n with
  | zero =>
    intro s b s' hn h
    by_cases hlt : s.m_samplePositionInEpoch < s.m_epochSize
    · have hnone : s.m_deserializer.GetSequenceDescriptions.elementAt
          s.m_sequencePositionInSweep = none := by
        cases hd : s.m_deserializer.GetSequenceDescriptions.elementAt
          s.m_sequencePositionInSweep with
        | none => rfl
        | some d =>
          have := (Timeline.elementAt_lt hd).2
          simp only [DataDeserializer.GetSequenceDescriptions] at this
          omega
      rw [NoRandomizer.advance_out_of_range hlt hnone] at h
      cases h
    · rw [NoRandomizer.advance_done hlt] at h
      cases h
      refine ⟨rfl, le_refl _, fun k h1 h2 => absurd h2 (by omega),
        Timeline.Accounted.refl _ _ _, ?_, ?_⟩
      · simp only [true_eq_decide_iff]; omega
      · intro hb; cases hb
  | succ n ih =>
    intro s b s' hn h
    by_cases hlt : s.m_samplePositionInEpoch < s.m_epochSize
    · cases hd : s.m_deserializer.GetSequenceDescriptions.elementAt
          s.m_sequencePositionInSweep with
      | none =>
        rw [NoRandomizer.advance_out_of_range hlt hd] at h
        cases h
      | some d =>
        by_cases hw : s.m_numberOfWorkers = 0
        · rw [NoRandomizer.advance_no_workers hlt hd hw] at h
          cases h
        · by_cases hown : d.m_chunkId % s.m_numberOfWorkers = s.m_workerRank
          · rw [NoRandomizer.advance_owned hlt hd hw hown] at h
            cases h
            refine ⟨rfl, le_refl _, fun k h1 h2 => absurd h2 (by omega),
              Timeline.Accounted.refl _ _ _, ?_, ?_⟩
            · simp only [false_eq_decide_iff]; omega
            · intro _
              exact ⟨NoRandomizer.owns_eq_true.2 ⟨d, hd, hown⟩, hw, hlt⟩
          · rw [NoRandomizer.advance_skip hlt hd hw hown] at h
            have hrange := Timeline.elementAt_lt hd
            simp only [DataDeserializer.GetSequenceDescriptions] at hrange
            have hp1 : toSizeT (s.m_sequencePositionInSweep + 1)
                = s.m_sequencePositionInSweep + 1 :=
              toSizeT_of_lt (by have := hrange.1; unfold SIZE_MAX at this; omega)
            rw [hp1] at h
            obtain ⟨e1, e2, e3, e4, e5, e6⟩ := ih _ b s' (by simp; omega) h
            simp only [NoRandomizer.withPosition_withPosition,
              NoRandomizer.withPosition_sequencePosition,
              NoRandomizer.withPosition_samplePosition, NoRandomizer.withPosition_deserializer,
              NoRandomizer.owns_withPosition, NoRandomizer.withPosition_epochSize,
              NoRandomizer.withPosition_numberOfWorkers] at e1 e2 e3 e4 e5 e6
            have hnot : s.owns s.m_sequencePositionInSweep = false := by
              cases ho : s.owns s.m_sequencePositionInSweep with
              | false => rfl
              | true =>
                obtain ⟨d', hd', hown'⟩ := NoRandomizer.owns_eq_true.1 ho
                rw [hd] at hd'
                cases hd'
                exact absurd hown' hown
            have hdget : s.m_deserializer.m_sequences[s.m_sequencePositionInSweep]? = some d :=
              (Timeline.elementAt_eq_some.1 hd).2
            have hle : s'.m_sequencePositionInSweep ≤ s.m_deserializer.m_sequences.length := by
              by_cases hq : s'.m_sequencePositionInSweep = s.m_sequencePositionInSweep + 1
              · omega
              · have := (e3 (s'.m_sequencePositionInSweep - 1) (by omega) (by omega)).2.1
                omega
            refine ⟨e1, by omega, ?_,
              Timeline.Accounted.trans (Timeline.Accounted.step hdget) e4 (by omega) hle,
              e5, e6⟩
            intro k h1 h2
            by_cases hk : k = s.m_sequencePositionInSweep
            · subst hk
              exact ⟨hnot, hrange.2, hrange.1⟩
            · exact e3 k (by omega) h2
    · rw [NoRandomizer.advance_done hlt] at h
      cases h
      refine ⟨rfl, le_refl _, fun k h1 h2 => absurd h2 (by omega),
        Timeline.Accounted.refl _ _ _, ?_, ?_⟩
      · simp only [true_eq_decide_iff]; omega
      · intro hb; cases hb

/-! ## The collection loop of `GetNextSequences` -/

theorem List.range'_split_at {p p1 q : Nat} (h1 : p ≤ p1) (h2 : p1 < q) :
    List.range' p (q - p) = List.range' p (p1 - p) ++ p1 :: List.range' (p1 + 1) (q - (p1 + 1)) := by
  obtain ⟨a, rfl⟩ : ∃ a, p1 = p + a := ⟨p1 - p, by omega⟩
  obtain ⟨b, rfl⟩ : ∃ b, q = p + a + 1 + b := ⟨q - (p + a + 1), by omega⟩
  have e1 : p + a + 1 + b - p = (b + 1) + a := by omega
  have e2 : p + a - p = a := by omega
  have e3 : p + a + 1 + b - (p + a + 1) = b := by omega
  rw [e1, e2, e3, ← List.range'_append_1, List.range'_succ]

theorem NoRandomizer.loop_done {count : Nat} {s : NoRandomizer} {ids : List Nat} {eoe : Bool}
    (h : ¬ ids.length < count) :
    NoRandomizer.GetNextSequences.loop count s ids eoe = .ok (ids, eoe, s) := by
  rw [NoRandomizer.GetNextSequences.loop, if_neg h]

theorem NoRandomizer.loop_error {count : Nat} {s : NoRandomizer} {ids : List Nat} {eoe : Bool}
    {e : Failure} (h : ids.length < count)
    (ha : s.AdvanceToNextPositionForThisWorker = .error e) :
    NoRandomizer.GetNextSequences.loop count s ids eoe = .error e := by
  rw [NoRandomizer.GetNextSequences.loop, if_pos h, ha]

theorem NoRandomizer.loop_end {count : Nat} {s s1 : NoRandomizer} {ids : List Nat} {eoe : Bool}
    (h : ids.length < count)
    (ha : s.AdvanceToNextPositionForThisWorker = .ok (true, s1)) :
    NoRandomizer.GetNextSequences.loop count s ids eoe = .ok (ids, true, s1) := by
  rw [NoRandomizer.GetNextSequences.loop, if_pos h, ha]

theorem NoRandomizer.loop_assert {count : Nat} {s s1 : NoRandomizer} {ids : List Nat}
    {eoe : Bool} (h : ids.length < count)
    (ha : s.AdvanceToNextPositionForThisWorker = .ok (false, s1))
    (hassert : ¬ s1.m_sequencePositionInSweep < s1.m_numSequences) :
    NoRandomizer.GetNextSequences.loop count s ids eoe = .error .assertion := by
  rw [NoRandomizer.GetNextSequences.loop, if_pos h, ha]
  simp only [if_neg hassert]

theorem NoRandomizer.loop_out_of_range {count : Nat} {s s1 : NoRandomizer} {ids : List Nat}
    {eoe : Bool} (h : ids.length < count)
    (ha : s.AdvanceToNextPositionForThisWorker = .ok (false, s1))
    (hassert : s1.m_sequencePositionInSweep < s1.m_numSequences)
    (hd : s1.m_deserializer.GetSequenceDescriptions.elementAt s1.m_sequencePositionInSweep
      = none) :
    NoRandomizer.GetNextSequences.loop count s ids eoe = .error .undefined := by
  rw [NoRandomizer.GetNextSequences.loop, if_pos h, ha]
  simp only [if_pos hassert, hd]

theorem NoRandomizer.loop_push {count : Nat} {s s1 : NoRandomizer} {ids : List Nat}
    {eoe : Bool} {d : SequenceDescription} (h : ids.length < count)
    (ha : s.AdvanceToNextPositionForThisWorker = .ok (false, s1))
    (hassert : s1.m_sequencePositionInSweep < s1.m_numSequences)
    (hd : s1.m_deserializer.GetSequenceDescriptions.elementAt s1.m_sequencePositionInSweep
      = some d) :
    NoRandomizer.GetNextSequences.loop count s ids eoe =
      NoRandomizer.GetNextSequences.loop count
        (s1.withPosition (toSizeT (s1.m_samplePositionInEpoch + d.m_numberOfSamples))
          (toSizeT (s1.m_sequencePositionInSweep + 1)))
        (ids ++ [s1.m_sequencePositionInSweep]) false := by
  rw [NoRandomizer.GetNextSequences.loop, if_pos h, ha]
  simp only [if_pos hassert, hd]
  rfl

/-- What a completed run of the collection loop did. -/
theorem NoRandomizer.loop_spec (count : Nat) (n : Nat) :
    ∀ (s : NoRandomizer) (ids : List Nat) (eoe : Bool) (ids' : List Nat) (eoe' : Bool)
      (s' : NoRandomizer),
      count - ids.length ≤ n →
      NoRandomizer.GetNextSequences.loop count s ids eoe = .ok (ids', eoe', s') →
      s' = s.withPosition s'.m_samplePositionInEpoch s'.m_sequencePositionInSweep ∧
      s.m_sequencePositionInSweep ≤ s'.m_sequencePositionInSweep ∧
      ids' = ids ++ (List.range' s.m_sequencePositionInSweep
        (s'.m_sequencePositionInSweep - s.m_sequencePositionInSweep)).filter s.owns ∧
      (∀ k, s.m_sequencePositionInSweep ≤ k → k < s'.m_sequencePositionInSweep →
        k < s.m_deserializer.m_sequences.length ∧ k < SIZE_MAX ∧
        (s.owns k = true → k < s.m_numSequences)) ∧
      s.m_deserializer.m_sequences.Accounted s.m_samplePositionInEpoch
        s.m_sequencePositionInSweep s'.m_samplePositionInEpoch s'.m_sequencePositionInSweep ∧
      (¬ ids.length < count → ids' = ids ∧ eoe' = eoe ∧ s' = s) ∧
      (ids.length < count →
        (eoe' = true ∧ s.m_epochSize ≤ s'.m_samplePositionInEpoch ∧ ids'.length < count) ∨
        (eoe' = false ∧ ids'.length = count ∧ s.m_numberOfWorkers ≠ 0)) := by
  induction n with
  | zero =>
    intro s ids eoe ids' eoe' s' hn h
    have hge : ¬ ids.length < count := by omega
    rw [NoRandomizer.loop_done hge] at h
    cases h
    refine ⟨rfl, le_refl _, by simp, fun k h1 h2 => absurd h2 (by omega),
      Timeline.Accounted.refl _ _ _, fun _ => ⟨rfl, rfl, rfl⟩, fun hc => absurd hc hge⟩
  | succ n ih =>
    intro s ids eoe ids' eoe' s' hn h
    by_cases hlt : ids.length < count
    · cases ha : s.AdvanceToNextPositionForThisWorker with
      | error e =>
        rw [NoRandomizer.loop_error hlt ha] at h
        cases h
      | ok r =>
        obtain ⟨b, s1⟩ := r
        obtain ⟨a1, a2, a3, a4, a5, a6⟩ :=
          NoRandomizer.advance_spec _ s b s1 (le_refl _) ha
        have hnil : (List.range' s.m_sequencePositionInSweep
            (s1.m_sequencePositionInSweep - s.m_sequencePositionInSweep)).filter s.owns = [] := by
          rw [List.filter_eq_nil_iff]
          intro k hk
          rw [List.mem_range'_1] at hk
          simp [(a3 k hk.1 (by omega)).1]
        cases b with
        | true =>
          rw [NoRandomizer.loop_end hlt ha] at h
          cases h
          refine ⟨a1, a2, by rw [hnil, List.append_nil], ?_, a4, fun hc => absurd hlt hc,
            fun _ => Or.inl ⟨rfl, ?_, hlt⟩⟩
          · intro k h1 h2
            have := a3 k h1 h2
            exact ⟨this.2.1, this.2.2, fun ho => by rw [this.1] at ho; cases ho⟩
          · simpa using a5
        | false =>
          obtain ⟨a6a, a6b, a6c⟩ := a6 rfl
          by_cases hassert : s1.m_sequencePositionInSweep < s1.m_numSequences
          · cases hd : s1.m_deserializer.GetSequenceDescriptions.elementAt
                s1.m_sequencePositionInSweep with
            | none =>
              rw [NoRandomizer.loop_out_of_range hlt ha hassert hd] at h
              cases h
            | some d =>
              rw [NoRandomizer.loop_push hlt ha hassert hd] at h
              have hrange := Timeline.elementAt_lt hd
              have hp1 : toSizeT (s1.m_sequencePositionInSweep + 1)
                  = s1.m_sequencePositionInSweep + 1 :=
                toSizeT_of_lt (by have := hrange.1; unfold SIZE_MAX at this; omega)
              rw [hp1] at h
              obtain ⟨e1, e2, e3, e4, e5, e6, e7⟩ :=
                ih _ _ _ ids' eoe' s' (by simp; omega) h
              have hs1d : s1.m_deserializer = s.m_deserializer := by rw [a1]; rfl
              have hs1n : s1.m_numSequences = s.m_numSequences := by rw [a1]; rfl
              have hs1o : ∀ x y, (s1.withPosition x y).owns = s.owns := by
                intro x y; rw [a1]; rfl
              have hs1w : s1.m_numberOfWorkers = s.m_numberOfWorkers := by rw [a1]; rfl
              have hs1e : s1.m_epochSize = s.m_epochSize := by rw [a1]; rfl
              simp only [NoRandomizer.withPosition_withPosition,
                NoRandomizer.withPosition_sequencePosition,
                NoRandomizer.withPosition_samplePosition,
                NoRandomizer.withPosition_deserializer,
                hs1o, NoRandomizer.withPosition_epochSize,
                NoRandomizer.withPosition_numberOfWorkers,
                NoRandomizer.withPosition_numSequences, List.length_append,
                List.length_singleton, hs1d, hs1n, hs1w, hs1e] at e1 e2 e3 e4 e5 e6 e7 hrange hd
              have e3' : ids' = ids ++ [s1.m_sequencePositionInSweep] ++
                  (List.range' (s1.m_sequencePositionInSweep + 1)
                    (s'.m_sequencePositionInSweep - (s1.m_sequencePositionInSweep + 1))).filter
                    s.owns := by
                rw [e3]
              have hle : s'.m_sequencePositionInSweep ≤ s.m_deserializer.m_sequences.length := by
                by_cases hq : s'.m_sequencePositionInSweep = s1.m_sequencePositionInSweep + 1
                · have := hrange.2
                  simp only [DataDeserializer.GetSequenceDescriptions] at this
                  omega
                · have := (e4 (s'.m_sequencePositionInSweep - 1) (by omega) (by omega)).1
                  omega
              have hdget : s.m_deserializer.m_sequences[s1.m_sequencePositionInSweep]? = some d :=
                (Timeline.elementAt_eq_some.1 hd).2
              refine ⟨?_, by omega, ?_, ?_, ?_, fun hc => absurd hlt hc, fun _ => ?_⟩
              · rw [e1, a1]; rfl
              · rw [e3', List.range'_split_at a2 (by omega : s1.m_sequencePositionInSweep
                    < s'.m_sequencePositionInSweep), List.filter_append, hnil,
                  List.filter_cons, a6a]
                simp
              · intro k h1 h2
                by_cases hk1 : k < s1.m_sequencePositionInSweep
                · have := a3 k h1 hk1
                  exact ⟨this.2.1, this.2.2, fun ho => by rw [this.1] at ho; cases ho⟩
                · by_cases hk2 : k = s1.m_sequencePositionInSweep
                  · subst hk2
                    have := hrange.2
                    simp only [DataDeserializer.GetSequenceDescriptions] at this
                    exact ⟨this, hrange.1, fun _ => by omega⟩
                  · exact e4 k (by omega) h2
              · exact Timeline.Accounted.trans a4
                  (Timeline.Accounted.trans (Timeline.Accounted.step hdget) e5 (by omega) hle)
                  a2 hle
              · by_cases hc : ids.length + 1 < count
                · rcases e7 hc with ⟨f1, f2, f3⟩ | ⟨f1, f2, f3⟩
                  · exact Or.inl ⟨f1, f2, f3⟩
                  · exact Or.inr ⟨f1, f2, f3⟩
                · obtain ⟨g1, g2, g3⟩ := e6 hc
                  refine Or.inr ⟨g2, ?_, a6b⟩
                  rw [g1]; simp; omega
          · rw [NoRandomizer.loop_assert hlt ha hassert] at h
            cases h
    · rw [NoRandomizer.loop_done hlt] at h
      cases h
      refine ⟨rfl, le_refl _, by simp, fun k h1 h2 => absurd h2 (by omega),
        Timeline.Accounted.refl _ _ _, fun _ => ⟨rfl, rfl, rfl⟩, fun hc => absurd hc hlt⟩

/-! ## `GetNextSequences` -/

theorem NoRandomizer.GetNextSequences_ok {s : NoRandomizer} {count : Nat}
    {r : GetNextSequencesResult} (h : s.GetNextSequences count = .ok r) :
    s.m_samplePositionInEpoch ≠ SIZE_MAX ∧
    NoRandomizer.GetNextSequences.loop count s [] false
      = .ok (r.ids, r.sequences.m_endOfEpoch, r.self) ∧
    r.requests = (if r.ids.length = 0 then [] else [r.ids]) ∧
    r.sequences.m_data =
      (if r.ids.length = 0 then [] else r.self.m_deserializer.GetSequencesById r.ids) := by
  unfold NoRandomizer.GetNextSequences at h
  split at h
  · rename_i hne
    split at h
    · cases h
    · rename_i ids eoe s1 hloop
      split at h
      · rename_i hz
        cases h
        exact ⟨hne, hloop, by simp [hz], by simp [hz]⟩
      · rename_i hz
        cases h
        exact ⟨hne, hloop, by simp [hz], by simp [hz]⟩
  · cases h

theorem NoRandomizer.GetNextSequences_of_loop {s : NoRandomizer} {count : Nat}
    {ids : List Nat} {eoe : Bool} {s1 : NoRandomizer}
    (hne : s.m_samplePositionInEpoch ≠ SIZE_MAX)
    (h : NoRandomizer.GetNextSequences.loop count s [] false = .ok (ids, eoe, s1)) :
    ∃ r, s.GetNextSequences count = .ok r ∧ r.ids = ids ∧ r.sequences.m_endOfEpoch = eoe ∧
      r.self = s1 := by
  unfold NoRandomizer.GetNextSequences
  rw [if_pos hne, h]
  by_cases hz : ids.length = 0
  · simp only [hz, if_true]
    exact ⟨_, rfl, rfl, rfl, rfl⟩
  · simp only [hz, if_false]
    exact ⟨_, rfl, rfl, rfl, rfl⟩

/-- Everything one completed call of `GetNextSequences` did, in terms of the scheduler before
the call. -/
theorem NoRandomizer.GetNextSequences_spec {s : NoRandomizer} {count : Nat}
    {r : GetNextSequencesResult} (h : s.GetNextSequences count = .ok r) :
    r.self = s.withPosition r.self.m_samplePositionInEpoch r.self.m_sequencePositionInSweep ∧
    s.m_sequencePositionInSweep ≤ r.self.m_sequencePositionInSweep ∧
    r.ids = (List.range' s.m_sequencePositionInSweep
      (r.self.m_sequencePositionInSweep - s.m_sequencePositionInSweep)).filter s.owns ∧
    (∀ k, s.m_sequencePositionInSweep ≤ k → k < r.self.m_sequencePositionInSweep →
      k < s.m_deserializer.m_sequences.length ∧ k < SIZE_MAX ∧
      (s.owns k = true → k < s.m_numSequences)) ∧
    s.m_deserializer.m_sequences.Accounted s.m_samplePositionInEpoch
      s.m_sequencePositionInSweep r.self.m_samplePositionInEpoch
      r.self.m_sequencePositionInSweep ∧
    (count = 0 → r.ids = [] ∧ r.sequences.m_endOfEpoch = false ∧ r.self = s) ∧
    (0 < count →
      (r.sequences.m_endOfEpoch = true ∧ s.m_epochSize ≤ r.self.m_samplePositionInEpoch ∧
        r.ids.length < count) ∨
      (r.sequences.m_endOfEpoch = false ∧ r.ids.length = count ∧ s.m_numberOfWorkers ≠ 0)) := by
  obtain ⟨_, hloop, _, _⟩ := NoRandomizer.GetNextSequences_ok h
  obtain ⟨e1, e2, e3, e4, e5, e6, e7⟩ :=
    NoRandomizer.loop_spec count _ s [] false _ _ _ (le_refl _) hloop
  refine ⟨e1, e2, by simpa using e3, e4, e5, ?_, ?_⟩
  · intro hc
    exact e6 (by simp [hc])
  · intro hc
    exact e7 (by simpa using hc)

/-! ## The constructor -/

theorem NoRandomizer.countSamples_fst_ge (timeline : Timeline) :
    ∀ (m t : Nat), m ≤ (NoRandomizer.countSamples timeline (m, t)).1 ∧
      ∀ d ∈ timeline, d.m_numberOfSamples ≤ (NoRandomizer.countSamples timeline (m, t)).1 := by
  induction timeline with
  | nil => intro m t; simp [NoRandomizer.countSamples]
  | cons c rest ih =>
    intro m t
    simp only [NoRandomizer.countSamples]
    obtain ⟨h1, h2⟩ := ih (max m c.m_numberOfSamples) (toSizeT (t + c.m_numberOfSamples))
    refine ⟨le_trans (le_max_left _ _) h1, ?_⟩
    intro d hd
    rcases List.mem_cons.1 hd with rfl | hd
    · exact le_trans (le_max_right _ _) h1
    · exact h2 d hd

theorem NoRandomizer.countSamples_frame (timeline : Timeline)
    (hone : ∀ d ∈ timeline, d.m_numberOfSamples = 1) :
    ∀ (m t : Nat), t + timeline.length < 18446744073709551616 →
      NoRandomizer.countSamples timeline (m, t)
        = (if timeline = [] then m else max m 1, t + timeline.length) := by
  induction timeline with
  | nil => intro m t _; simp [NoRandomizer.countSamples]
  | cons c rest ih =>
    intro m t ht
    simp only [List.length_cons] at ht
    have hc : c.m_numberOfSamples = 1 := hone c (List.mem_cons_self _ _)
    simp only [NoRandomizer.countSamples, hc]
    rw [toSizeT_of_lt (by omega), ih (fun d hd => hone d (List.mem_cons_of_mem _ hd)) _ _
      (by omega)]
    by_cases hr : rest = []
    · simp [hr]
    · simp [hr]; omega

theorem TimelineIsValidForRandomization.find_if_not_mem (timeline : Timeline) :
    ∀ previous, TimelineIsValidForRandomization.find_if_not previous timeline = true →
      ∀ d ∈ timeline, d.m_isValid = true ∧ 0 < d.m_numberOfSamples := by
  induction timeline with
  | nil => intro _ _ d hd; cases hd
  | cons c rest ih =>
    intro previous h d hd
    simp only [TimelineIsValidForRandomization.find_if_not] at h
    split at h
    · rename_i hres
      rcases List.mem_cons.1 hd with rfl | hd
      · simp only [TimelineIsValidForRandomization.result, Bool.and_eq_true,
          decide_eq_true_eq] at hres
        exact ⟨hres.1.1.1.1, hres.2⟩
      · exact ih c h d hd
    · cases h

theorem NoRandomizer.new_ok {deserializer : DataDeserializer} {a b : Nat} {c : NoRandomizer}
    (h : NoRandomizer.new deserializer a b = .ok c) :
    TimelineIsValidForRandomization deserializer.m_sequences = true ∧
    ∃ back, deserializer.m_sequences.getLast? = some back ∧
      c.m_deserializer = deserializer ∧
      c.m_numSequences = toSizeT (back.m_id + 1) ∧
      c.m_numChunks = toSizeT (back.m_chunkId + 1) ∧
      c.m_numSamples = (NoRandomizer.countSamples deserializer.m_sequences (0, 0)).2 ∧
      c.m_frameMode = decide ((NoRandomizer.countSamples deserializer.m_sequences (0, 0)).1 = 1) ∧
      c.m_sequencePositionInSweep = SIZE_MAX ∧ c.m_samplePositionInEpoch = SIZE_MAX ∧
      c.m_epochSize = SIZE_MAX ∧ c.m_sweep = SIZE_MAX ∧
      c.m_workerRank = a ∧ c.m_numberOfWorkers = b := by
  unfold NoRandomizer.new at h
  simp only [DataDeserializer.GetSequenceDescriptions] at h
  split at h
  · rename_i hv
    split at h
    · cases h
    · rename_i back hb
      cases h
      exact ⟨hv, back, hb, rfl, rfl, rfl, rfl, rfl, rfl, rfl, rfl, rfl, rfl, rfl⟩
  · cases h

/-- The facts about a scheduler over a frame-mode timeline that the epoch properties use. -/
theorem NoRandomizer.FromConstructor.frame {s : NoRandomizer} (h : s.FromConstructor)
    (hsize : s.m_deserializer.m_sequences.length < SIZE_MAX)
    (hone : ∀ d ∈ s.m_deserializer.m_sequences, d.m_numberOfSamples = 1) :
    s.m_deserializer.m_sequences ≠ [] ∧
    s.m_numSequences = s.m_deserializer.m_sequences.length ∧
    s.m_numSamples = s.m_deserializer.m_sequences.length ∧
    s.m_frameMode = true := by
  obtain ⟨a, b, c, hnew, h1, _, h3, h4⟩ := h
  obtain ⟨hv, back, hb, _, c1, _, c3, c4, _⟩ := NoRandomizer.new_ok hnew
  unfold SIZE_MAX at hsize
  have hne : s.m_deserializer.m_sequences ≠ [] := by
    intro hnil
    rw [hnil] at hb
    cases hb
  have hid := ((TimelineIsValidForRandomization_iff _ (by omega)).1 hv).2.1
  have hlast : s.m_deserializer.m_sequences[s.m_deserializer.m_sequences.length - 1]?
      = some back := by
    rw [← hb, List.getLast?_eq_getElem?]
  have hbid := hid _ _ hlast
  have hlen : 0 < s.m_deserializer.m_sequences.length := List.length_pos.2 hne
  have hcount := NoRandomizer.countSamples_frame _ hone 0 0 (by omega)
  refine ⟨hne, ?_, ?_, ?_⟩
  · rw [h1, c1, hbid, toSizeT_of_lt (by omega)]
    omega
  · rw [h3, c3, hcount]
    simp
  · rw [h4, c4, hcount]
    simp [hne]

/-- The flag `m_frameMode` of a scheduler over an accepted timeline is set only when every
sequence has exactly one sample. -/
theorem NoRandomizer.FromConstructor.one_sample {s : NoRandomizer} (h : s.FromConstructor)
    (hframe : s.m_frameMode = true) :
    ∀ d ∈ s.m_deserializer.m_sequences, d.m_numberOfSamples = 1 := by
  obtain ⟨a, b, c, hnew, _, _, _, h4⟩ := h
  obtain ⟨hv, back, _, _, _, _, _, c4, _⟩ := NoRandomizer.new_ok hnew
  intro d hd
  have hpos := (TimelineIsValidForRandomization.find_if_not_mem _ _ hv d hd).2
  rw [h4, c4, decide_eq_true_eq] at hframe
  have hle := (NoRandomizer.countSamples_fst_ge s.m_deserializer.m_sequences 0 0).2 d hd
  omega

/-! ## Epochs over single-sample sequences -/

theorem NoRandomizer.InFrameEpoch.withPosition {s : NoRandomizer} (h : s.InFrameEpoch)
    {q : Nat} (hq : q ≤ s.m_epochSize) : (s.withPosition q q).InFrameEpoch := by
  obtain ⟨h1, h2, _, _, h5, h6, h7⟩ := h
  exact ⟨h1, h2, rfl, hq, h5, h6, h7⟩

theorem NoRandomizer.InFrameEpoch.self_eq {s : NoRandomizer} (h : s.InFrameEpoch) :
    s.withPosition s.m_sequencePositionInSweep s.m_sequencePositionInSweep = s := by
  have := h.2.2.1
  cases s
  simp only [NoRandomizer.withPosition] at *
  simp [this]

theorem NoRandomizer.InFrameEpoch.elementAt {s : NoRandomizer} (h : s.InFrameEpoch)
    (k : Nat) (hk : k < s.m_epochSize) :
    ∃ d, s.m_deserializer.GetSequenceDescriptions.elementAt k = some d ∧
      d.m_numberOfSamples = 1 := by
  obtain ⟨h1, _, _, _, h5, h6, _⟩ := h
  obtain ⟨d, hd, hmem⟩ := @Timeline.elementAt_of_lt s.m_deserializer.m_sequences k
    (by omega) (by omega)
  exact ⟨d, hd, h1 d hmem⟩

theorem NoRandomizer.frame_advance (n : Nat) :
    ∀ s : NoRandomizer, s.InFrameEpoch → s.m_epochSize - s.m_sequencePositionInSweep ≤ n →
      ∃ q, s.m_sequencePositionInSweep ≤ q ∧ q ≤ s.m_epochSize ∧
        s.AdvanceToNextPositionForThisWorker
          = .ok (decide (s.m_epochSize ≤ q), s.withPosition q q) := by
  induction n with
  | zero =>
    intro s hs hn
    have hsp := hs.2.2.1
    have hpe := hs.2.2.2.1
    refine ⟨s.m_sequencePositionInSweep, le_refl _, hpe, ?_⟩
    rw [NoRandomizer.advance_done (by omega), hs.self_eq]
    simp; omega
  | succ n ih =>
    intro s hs hn
    have hsp := hs.2.2.1
    have hpe := hs.2.2.2.1
    by_cases hlt : s.m_samplePositionInEpoch < s.m_epochSize
    · obtain ⟨d, hd, hone⟩ := hs.elementAt s.m_sequencePositionInSweep (by omega)
      by_cases hown : d.m_chunkId % s.m_numberOfWorkers = s.m_workerRank
      · refine ⟨s.m_sequencePositionInSweep, le_refl _, hpe, ?_⟩
        rw [NoRandomizer.advance_owned hlt hd hs.2.1 hown, hs.self_eq]
        simp; omega
      · rw [NoRandomizer.advance_skip hlt hd hs.2.1 hown, hone, hsp]
        have hbound : s.m_sequencePositionInSweep + 1 < 18446744073709551616 := by
          have h5 := hs.2.2.2.2.1
          have h6 := hs.2.2.2.2.2.1
          unfold SIZE_MAX at h6
          omega
        rw [toSizeT_of_lt hbound]
        obtain ⟨q, q1, q2, q3⟩ := ih (s.withPosition (s.m_sequencePositionInSweep + 1)
          (s.m_sequencePositionInSweep + 1)) (hs.withPosition (by omega)) (by simp; omega)
        refine ⟨q, ?_, q2, ?_⟩
        · simp at q1; omega
        · simpa using q3
    · refine ⟨s.m_sequencePositionInSweep, le_refl _, hpe, ?_⟩
      rw [NoRandomizer.advance_done hlt, hs.self_eq]
      simp; omega

theorem NoRandomizer.frame_loop (count : Nat) (n : Nat) :
    ∀ (s : NoRandomizer) (ids : List Nat) (eoe : Bool), s.InFrameEpoch →
      count - ids.length ≤ n →
      ∃ ids' eoe' q, q ≤ s.m_epochSize ∧
        NoRandomizer.GetNextSequences.loop count s ids eoe
          = .ok (ids', eoe', s.withPosition q q) := by
  induction n with
  | zero =>
    intro s ids eoe hs hn
    refine ⟨ids, eoe, s.m_sequencePositionInSweep, hs.2.2.2.1, ?_⟩
    rw [NoRandomizer.loop_done (by omega), hs.self_eq]
  | succ n ih =>
    intro s ids eoe hs hn
    by_cases hlt : ids.length < count
    · obtain ⟨q, q1, q2, q3⟩ := NoRandomizer.frame_advance _ s hs (le_refl _)
      by_cases hq : s.m_epochSize ≤ q
      · refine ⟨ids, true, q, q2, ?_⟩
        rw [decide_eq_true hq] at q3
        exact NoRandomizer.loop_end hlt q3
      · rw [decide_eq_false hq] at q3
        have hs1 := hs.withPosition q2
        obtain ⟨d, hd, hone⟩ := hs.elementAt q (by omega)
        have hassert : (s.withPosition q q).m_sequencePositionInSweep
            < (s.withPosition q q).m_numSequences := by
          have h5 := hs.2.2.2.2.1
          have h7 := hs.2.2.2.2.2.2
          simp only [NoRandomizer.withPosition_sequencePosition,
            NoRandomizer.withPosition_numSequences]
          omega
        rw [NoRandomizer.loop_push hlt q3 hassert (by simpa using hd), hone]
        simp only [NoRandomizer.withPosition_withPosition,
          NoRandomizer.withPosition_sequencePosition, NoRandomizer.withPosition_samplePosition]
        have hbound : q + 1 < 18446744073709551616 := by
          have h5 := hs.2.2.2.2.1
          have h6 := hs.2.2.2.2.2.1
          unfold SIZE_MAX at h6
          omega
        rw [toSizeT_of_lt hbound]
        obtain ⟨ids', eoe', q', r1, r2⟩ := ih (s.withPosition (q + 1) (q + 1)) (ids ++ [q]) false
          (hs.withPosition (by omega)) (by simp; omega)
        exact ⟨ids', eoe', q', by simpa using r1, by simpa using r2⟩
    · refine ⟨ids, eoe, s.m_sequencePositionInSweep, hs.2.2.2.1, ?_⟩
      rw [NoRandomizer.loop_done hlt, hs.self_eq]

/-- In an epoch over single-sample sequences every call of `GetNextSequences` completes and
leaves the scheduler in such an epoch. -/
theorem NoRandomizer.frame_GetNextSequences {s : NoRandomizer} (hs : s.InFrameEpoch)
    (count : Nat) :
    ∃ r, s.GetNextSequences count = .ok r ∧ r.self.InFrameEpoch ∧
      r.self.m_samplePositionInEpoch ≤ s.m_epochSize ∧
      r.self = s.withPosition r.self.m_sequencePositionInSweep
        r.self.m_sequencePositionInSweep := by
  obtain ⟨ids', eoe', q, q1, q2⟩ := NoRandomizer.frame_loop count _ s [] false hs (le_refl _)
  have hne : s.m_samplePositionInEpoch ≠ SIZE_MAX := by
    obtain ⟨_, _, h3, h4, h5, h6, _⟩ := hs
    omega
  obtain ⟨r, r1, _, _, r4⟩ := NoRandomizer.GetNextSequences_of_loop hne q2
  refine ⟨r, r1, ?_, ?_, ?_⟩
  · rw [r4]; exact hs.withPosition q1
  · rw [r4]; exact q1
  · rw [r4]; rfl

/-- In an epoch over single-sample sequences, calls with positive counts reach the end of the
epoch, and together return the positions of the worker between the current position and the
end of the epoch. -/
theorem NoRandomizer.frame_until_end (counts : List Nat) :
    ∀ s : NoRandomizer, s.InFrameEpoch → (∀ c ∈ counts, 0 < c) →
      s.m_epochSize - s.m_sequencePositionInSweep < counts.length →
      s.GetNextSequencesUntilEndOfEpoch counts
        = .ok ((List.range' s.m_sequencePositionInSweep
            (s.m_epochSize - s.m_sequencePositionInSweep)).filter s.owns, true,
          s.withPosition s.m_epochSize s.m_epochSize) := by
  induction counts with
  | nil => intro s _ _ hlen; simp at hlen
  | cons c cs ih =>
    intro s hs hpos hlen
    obtain ⟨r, r1, r2, r3, r4⟩ := NoRandomizer.frame_GetNextSequences hs c
    obtain ⟨e1, e2, e3, e4, e5, e6, e7⟩ := NoRandomizer.GetNextSequences_spec r1
    have hrsp : r.self.m_samplePositionInEpoch = r.self.m_sequencePositionInSweep := r2.2.2.1
    have hE : r.self.m_epochSize = s.m_epochSize := by rw [r4]; rfl
    have hown : r.self.owns = s.owns := by rw [r4]; rfl
    simp only [NoRandomizer.GetNextSequencesUntilEndOfEpoch, r1]
    rcases e7 (hpos c (List.mem_cons_self _ _)) with ⟨f1, f2, f3⟩ | ⟨f1, f2, f3⟩
    · have hq : r.self.m_sequencePositionInSweep = s.m_epochSize := by omega
      rw [if_pos f1, e3, hq]
      have : r.self = s.withPosition s.m_epochSize s.m_epochSize := by rw [r4, hq]
      rw [← this]
    · have hprog : s.m_sequencePositionInSweep < r.self.m_sequencePositionInSweep := by
        by_contra hc
        have hz : r.self.m_sequencePositionInSweep - s.m_sequencePositionInSweep = 0 := by omega
        rw [hz] at e3
        simp only [List.range'_zero, List.filter_nil] at e3
        rw [e3] at f2
        have := hpos c (List.mem_cons_self _ _)
        simp at f2
        omega
      rw [if_neg (by simp [f1])]
      have hrec := ih r.self r2 (fun c' hc' => hpos c' (List.mem_cons_of_mem _ hc')) (by
        simp only [List.length_cons] at hlen
        rw [hE]; omega)
      rw [hrec]
      simp only [hE, hown]
      have hqE : r.self.m_sequencePositionInSweep ≤ s.m_epochSize := by
        have := r2.2.2.2.1
        rw [hE] at this
        exact this
      have hsplit : List.range' s.m_sequencePositionInSweep
            (s.m_epochSize - s.m_sequencePositionInSweep)
          = List.range' s.m_sequencePositionInSweep
              (r.self.m_sequencePositionInSweep - s.m_sequencePositionInSweep)
            ++ List.range' r.self.m_sequencePositionInSweep
              (s.m_epochSize - r.self.m_sequencePositionInSweep) := by
        have e : s.m_sequencePositionInSweep
            + (r.self.m_sequencePositionInSweep - s.m_sequencePositionInSweep)
            = r.self.m_sequencePositionInSweep := by omega
        have e' : s.m_epochSize - s.m_sequencePositionInSweep
            = (s.m_epochSize - r.self.m_sequencePositionInSweep)
              + (r.self.m_sequencePositionInSweep - s.m_sequencePositionInSweep) := by omega
        rw [e', ← List.range'_append_1, e]
      rw [hsplit, List.filter_append, e3]
      have : r.self.withPosition s.m_epochSize s.m_epochSize
          = s.withPosition s.m_epochSize s.m_epochSize := by rw [r4]; rfl
      rw [this]

/-! ## Successive calls within one epoch -/

theorem Timeline.samplesBetween_frame {timeline : Timeline}
    (hone : ∀ d ∈ timeline, d.m_numberOfSamples = 1) {p q : Nat} (hpq : p ≤ q)
    (hq : q ≤ timeline.length) : timeline.samplesBetween p q = q - p := by
  induction q, hpq using Nat.le_induction with
  | base => simp [Timeline.samplesBetween_self]
  | succ q hpq ih =>
    have hq' : q < timeline.length := by omega
    rw [Timeline.samplesBetween_succ_right (List.getElem?_eq_getElem hq') hpq, ih (by omega),
      hone _ (List.getElem_mem _)]
    omega

theorem List.sorted_lt_filter_range' (f : Nat → Bool) (p n : Nat) :
    List.Sorted (· < ·) ((List.range' p n).filter f) := by
  apply List.Pairwise.filter
  exact List.pairwise_lt_range' p n

theorem NoRandomizer.repeatedly_cons {s : NoRandomizer} {c : Nat} {cs : List Nat}
    {rs : List GetNextSequencesResult}
    (h : s.GetNextSequencesRepeatedly (c :: cs) = .ok rs) :
    ∃ r rs', rs = r :: rs' ∧ s.GetNextSequences c = .ok r ∧
      r.self.GetNextSequencesRepeatedly cs = .ok rs' := by
  simp only [NoRandomizer.GetNextSequencesRepeatedly] at h
  split at h
  · cases h
  · rename_i r hr
    split at h
    · cases h
    · rename_i rs' hrs
      cases h
      exact ⟨r, rs', rfl, hr, hrs⟩

/-- Ids and sequence positions over successive completed calls, from any scheduler state. -/
theorem NoRandomizer.repeatedly_sorted (counts : List Nat) :
    ∀ (s : NoRandomizer) (rs : List GetNextSequencesResult),
      s.GetNextSequencesRepeatedly counts = .ok rs →
      List.Sorted (· < ·) (rs.flatMap (fun r => r.ids)) ∧
      (∀ i ∈ rs.flatMap (fun r => r.ids), s.m_sequencePositionInSweep ≤ i) ∧
      List.Sorted (· ≤ ·)
        (s.m_sequencePositionInSweep :: rs.map (fun r => r.self.m_sequencePositionInSweep)) := by
  induction counts with
  | nil =>
    intro s rs h
    simp only [NoRandomizer.GetNextSequencesRepeatedly] at h
    cases h
    simp
  | cons c cs ih =>
    intro s rs h
    obtain ⟨r, rs', rfl, hr, hrs⟩ := NoRandomizer.repeatedly_cons h
    obtain ⟨i1, i2, i3⟩ := ih r.self rs' hrs
    obtain ⟨e1, e2, e3, _, _, _, _⟩ := NoRandomizer.GetNextSequences_spec hr
    have hids : ∀ i ∈ r.ids, s.m_sequencePositionInSweep ≤ i ∧
        i < r.self.m_sequencePositionInSweep := by
      intro i hi
      rw [e3, List.mem_filter, List.mem_range'_1] at hi
      omega
    refine ⟨?_, ?_, ?_⟩
    · simp only [List.flatMap_cons]
      rw [List.Sorted, List.pairwise_append]
      refine ⟨?_, i1, ?_⟩
      · rw [e3]; exact List.sorted_lt_filter_range' _ _ _
      · intro a ha b hb
        have := (hids a ha).2
        have := i2 b hb
        omega
    · intro i hi
      simp only [List.flatMap_cons, List.mem_append] at hi
      rcases hi with hi | hi
      · exact (hids i hi).1
      · have := i2 i hi
        omega
    · simp only [List.map_cons]
      rw [List.Sorted, List.pairwise_cons]
      refine ⟨?_, i3⟩
      intro b hb
      rw [List.Sorted, List.pairwise_cons] at i3
      rcases List.mem_cons.1 hb with rfl | hb
      · exact e2
      · exact le_trans e2 (i3.1 b hb)

/-- Sample positions over successive completed calls in an epoch over single-sample sequences
whose sample position was 0 at sequence position `p0`. -/
theorem NoRandomizer.repeatedly_samples (counts : List Nat) (p0 : Nat) :
    ∀ (s : NoRandomizer) (rs : List GetNextSequencesResult),
      (∀ d ∈ s.m_deserializer.m_sequences, d.m_numberOfSamples = 1) →
      p0 ≤ s.m_sequencePositionInSweep →
      s.m_samplePositionInEpoch = s.m_sequencePositionInSweep - p0 →
      (s.m_sequencePositionInSweep = p0 ∨ s.m_sequencePositionInSweep ≤ SIZE_MAX) →
      s.GetNextSequencesRepeatedly counts = .ok rs →
      List.Sorted (· ≤ ·)
        (s.m_samplePositionInEpoch :: rs.map (fun r => r.self.m_samplePositionInEpoch)) := by
  induction counts with
  | nil =>
    intro s rs _ _ _ _ h
    simp only [NoRandomizer.GetNextSequencesRepeatedly] at h
    cases h
    simp
  | cons c cs ih =>
    intro s rs hone hp0 hsp hb h
    obtain ⟨r, rs', rfl, hr, hrs⟩ := NoRandomizer.repeatedly_cons h
    obtain ⟨e1, e2, _, e4, e5, _, _⟩ := NoRandomizer.GetNextSequences_spec hr
    have hdes : r.self.m_deserializer = s.m_deserializer := by rw [e1]; rfl
    have hnext : r.self.m_samplePositionInEpoch = r.self.m_sequencePositionInSweep - p0 ∧
        (r.self.m_sequencePositionInSweep = p0 ∨ r.self.m_sequencePositionInSweep ≤ SIZE_MAX) := by
      rcases e5 with ⟨f1, f2⟩ | ⟨f1, f2⟩
      · rw [f1, f2]; exact ⟨hsp, hb⟩
      · have hlast := e4 (r.self.m_sequencePositionInSweep - 1) (by omega) (by omega)
        have hsum := Timeline.samplesBetween_frame hone (le_of_lt f1)
          (by omega : r.self.m_sequencePositionInSweep ≤ s.m_deserializer.m_sequences.length)
        have hmax : r.self.m_sequencePositionInSweep ≤ SIZE_MAX := by omega
        refine ⟨?_, Or.inr hmax⟩
        rw [f2, hsum, hsp, toSizeT_of_lt (by unfold SIZE_MAX at hmax; omega)]
        omega
    have hrec := ih r.self rs' (by rw [hdes]; exact hone) (by omega) hnext.1 hnext.2 hrs
    simp only [List.map_cons]
    rw [List.Sorted, List.pairwise_cons]
    refine ⟨?_, hrec⟩
    have hle : s.m_samplePositionInEpoch ≤ r.self.m_samplePositionInEpoch := by
      rw [hnext.1, hsp]; omega
    intro b hb'
    rw [List.Sorted, List.pairwise_cons] at hrec
    rcases List.mem_cons.1 hb' with rfl | hb'
    · exact hle
    · exact le_trans hle (hrec.1 b hb')

theorem NoRandomizer.StartEpoch_ok {R : Nat} {s0 s : NoRandomizer} {cfg : EpochConfiguration}
    (h : s0.StartEpoch R cfg = .ok s) :
    s0.m_frameMode = true ∧
    s = s0.started cfg (if cfg.m_totalEpochSizeInSamples = R then s0.m_numSamples
          else cfg.m_totalEpochSizeInSamples) := by
  simp only [NoRandomizer.StartEpoch] at h
  by_cases hf : s0.m_frameMode = true
  · rw [if_pos hf] at h
    by_cases ht : toSizeT ((if cfg.m_totalEpochSizeInSamples = R then s0.m_numSamples
        else cfg.m_totalEpochSizeInSamples) * cfg.m_epochIndex) ≠ SIZE_MAX
    · rw [if_pos ht] at h
      cases h
      exact ⟨hf, rfl⟩
    · rw [if_neg ht] at h
      cases h
  · rw [if_neg hf] at h
    cases h

theorem NoRandomizer.StartEpoch_of {R : Nat} {s0 : NoRandomizer} {cfg : EpochConfiguration}
    (hf : s0.m_frameMode = true)
    (ht : toSizeT ((if cfg.m_totalEpochSizeInSamples = R then s0.m_numSamples
      else cfg.m_totalEpochSizeInSamples) * cfg.m_epochIndex) ≠ SIZE_MAX) :
    s0.StartEpoch R cfg = .ok (s0.started cfg
      (if cfg.m_totalEpochSizeInSamples = R then s0.m_numSamples
        else cfg.m_totalEpochSizeInSamples)) := by
  simp only [NoRandomizer.StartEpoch]
  rw [if_pos hf, if_pos ht]
  rfl

/-! ## Worker shards -/

theorem Timeline.mem_workerShard {timeline : Timeline} {W r i : Nat} :
    i ∈ timeline.workerShard W r ↔
      ∃ d, timeline[i]? = some d ∧ d.m_chunkId % W = r := by
  unfold Timeline.workerShard
  rw [List.mem_filter, List.mem_range]
  constructor
  · rintro ⟨hi, h⟩
    rw [List.getElem?_eq_getElem hi] at h
    exact ⟨timeline[i], List.getElem?_eq_getElem hi, by simpa using h⟩
  · rintro ⟨d, hd, hr⟩
    refine ⟨(List.getElem?_eq_some_iff.1 hd).1, ?_⟩
    rw [hd]
    simpa using hr

theorem Timeline.workerShard_nodup (timeline : Timeline) (W r : Nat) :
    (timeline.workerShard W r).Nodup :=
  List.Nodup.filter _ (List.nodup_range _)

theorem Timeline.workerShard_disjoint (timeline : Timeline) (W : Nat) {r1 r2 : Nat}
    (h : r1 ≠ r2) : List.Disjoint (timeline.workerShard W r1) (timeline.workerShard W r2) := by
  intro i h1 h2
  obtain ⟨d1, hd1, e1⟩ := Timeline.mem_workerShard.1 h1
  obtain ⟨d2, hd2, e2⟩ := Timeline.mem_workerShard.1 h2
  rw [hd1] at hd2
  cases hd2
  exact h (e1.symm.trans e2)

theorem Timeline.workerShard_cover (timeline : Timeline) {W : Nat} (hW : 1 ≤ W) (i : Nat) :
    i < timeline.length ↔ ∃ r, r < W ∧ i ∈ timeline.workerShard W r := by
  constructor
  · intro hi
    exact ⟨timeline[i].m_chunkId % W, Nat.mod_lt _ (by omega),
      Timeline.mem_workerShard.2 ⟨timeline[i], List.getElem?_eq_getElem hi, rfl⟩⟩
  · rintro ⟨r, _, hr⟩
    obtain ⟨d, hd, _⟩ := Timeline.mem_workerShard.1 hr
    exact (List.getElem?_eq_some_iff.1 hd).1

theorem NoRandomizer.filter_owns_eq_workerShard (s : NoRandomizer)
    (hsize : s.m_deserializer.m_sequences.length < SIZE_MAX) :
    (List.range' 0 (s.m_deserializer.m_sequences.length - 0)).filter s.owns
      = s.m_deserializer.m_sequences.workerShard s.m_numberOfWorkers s.m_workerRank := by
  unfold Timeline.workerShard
  rw [List.range_eq_range', Nat.sub_zero]
  apply List.filter_congr
  intro k hk
  rw [List.mem_range'_1] at hk
  unfold NoRandomizer.owns Timeline.elementAt DataDeserializer.GetSequenceDescriptions
  rw [if_pos (by omega)]

theorem Timeline.workerShard_one (timeline : Timeline) :
    timeline.workerShard 1 0 = List.range timeline.length := by
  unfold Timeline.workerShard
  rw [List.filter_eq_self]
  intro i hi
  rw [List.mem_range] at hi
  rw [List.getElem?_eq_getElem hi]
  simp [Nat.mod_one]

theorem Timeline.sum_samples_frame (timeline : Timeline)
    (hone : ∀ d ∈ timeline, d.m_numberOfSamples = 1) :
    (timeline.map (fun d => d.m_numberOfSamples)).sum = timeline.length := by
  induction timeline with
  | nil => rfl
  | cons c rest ih =>
    simp only [List.map_cons, List.sum_cons, List.length_cons]
    rw [hone c (List.mem_cons_self _ _), ih (fun d hd => hone d (List.mem_cons_of_mem _ hd))]
    omega

/-- A full sweep of one worker over single-sample sequences from sweep position 0: `StartEpoch`
succeeds, and calls with positive counts end the epoch after returning the shard of the
worker. -/
theorem NoRandomizer.full_sweep {R : Nat} {s0 : NoRandomizer} {cfg : EpochConfiguration}
    {counts : List Nat} (hctor : s0.FromConstructor)
    (hsize : s0.m_deserializer.m_sequences.length < SIZE_MAX)
    (hone : ∀ d ∈ s0.m_deserializer.m_sequences, d.m_numberOfSamples = 1)
    (hpos : s0.m_sequencePositionInSweep = 0)
    (hW : cfg.m_numberOfWorkers ≠ 0)
    (htotal : cfg.m_totalEpochSizeInSamples = R)
    (htime : toSizeT (s0.m_deserializer.m_sequences.length * cfg.m_epochIndex) ≠ SIZE_MAX)
    (hcounts : ∀ c ∈ counts, 0 < c)
    (hlen : s0.m_deserializer.m_sequences.length < counts.length) :
    ∃ s1 sF, s0.StartEpoch R cfg = .ok s1 ∧
      s1.GetNextSequencesUntilEndOfEpoch counts
        = .ok (s0.m_deserializer.m_sequences.workerShard cfg.m_numberOfWorkers
            cfg.m_workerRank, true, sF) ∧
      sF.m_samplePositionInEpoch = s0.m_deserializer.m_sequences.length := by
  obtain ⟨_, hnum, hsamples, hframe⟩ := hctor.frame hsize hone
  have hstart := @NoRandomizer.StartEpoch_of R s0 cfg hframe
    (by rw [if_pos htotal, hsamples]; exact htime)
  rw [if_pos htotal] at hstart
  have hrun := NoRandomizer.frame_until_end counts (s0.started cfg s0.m_numSamples)
    ⟨hone, hW, hpos.symm, by simp [NoRandomizer.started, hpos],
      by simp [NoRandomizer.started, hsamples], hsize, hnum⟩
    hcounts (by simpa [NoRandomizer.started, hpos, hsamples] using hlen)
  refine ⟨s0.started cfg s0.m_numSamples,
    (s0.started cfg s0.m_numSamples).withPosition s0.m_numSamples s0.m_numSamples,
    hstart, ?_, hsamples⟩
  rw [hrun]
  have h3 := NoRandomizer.filter_owns_eq_workerShard (s0.started cfg s0.m_numSamples) hsize
  have e0 : (s0.started cfg s0.m_numSamples).m_deserializer = s0.m_deserializer := rfl
  have e1 : (s0.started cfg s0.m_numSamples).m_sequencePositionInSweep = 0 := hpos
  have e2 : (s0.started cfg s0.m_numSamples).m_epochSize = s0.m_numSamples := rfl
  have e3 : (s0.started cfg s0.m_numSamples).m_numberOfWorkers = cfg.m_numberOfWorkers := rfl
  have e4 : (s0.started cfg s0.m_numSamples).m_workerRank = cfg.m_workerRank := rfl
  rw [e0, e3, e4, ← hsamples] at h3
  rw [e1, e2, h3]

/-! ## Byte copies and fills -/

/-- What a completed `std::copy` loop did: the copied bytes are in place, every other byte is
as before, and source and destination ranges were in bounds. -/
theorem stdCopy.copy_loop_spec (source : List Byte) (n : Nat) :
    ∀ (first dest : Nat) (buffer buffer1 : List Byte),
      stdCopy.loop source n first dest buffer = .ok buffer1 →
      buffer1.length = buffer.length ∧
      (0 < n → dest + n ≤ buffer.length ∧ first + n ≤ source.length) ∧
      (∀ k, k < n → buffer1[dest + k]? = source[first + k]?) ∧
      (∀ off, off < dest ∨ dest + n ≤ off → buffer1[off]? = buffer[off]?) := by
  induction n with
  | zero =>
    intro first dest buffer buffer1 h
    simp only [stdCopy.loop] at h
    cases h
    exact ⟨rfl, fun h => absurd h (by omega), fun k hk => absurd hk (by omega), fun _ _ => rfl⟩
  | succ n ih =>
    intro first dest buffer buffer1 h
    simp only [stdCopy.loop] at h
    cases hs : source[first]? with
    | none => rw [hs] at h; cases h
    | some b =>
      rw [hs] at h
      simp only at h
      by_cases hd : dest < buffer.length
      · rw [if_pos hd] at h
        obtain ⟨i1, i2, i3, i4⟩ := ih _ _ _ _ h
        rw [List.length_set] at i1 i2
        have hfirst : first < source.length := (List.getElem?_eq_some_iff.1 hs).1
        refine ⟨i1, fun _ => ?_, ?_, ?_⟩
        · by_cases hn : 0 < n
          · have := i2 hn
            omega
          · omega
        · intro k hk
          cases k with
          | zero =>
            rw [Nat.add_zero, Nat.add_zero, i4 dest (Or.inl (by omega)),
              List.getElem?_set_self hd, hs]
          | succ k =>
            have := i3 k (by omega)
            rw [show dest + (k + 1) = dest + 1 + k by omega,
              show first + (k + 1) = first + 1 + k by omega]
            exact this
        · intro off hoff
          rw [i4 off (by omega), List.getElem?_set_ne (by omega)]
      · rw [if_neg hd] at h
        cases h

/-- A `std::copy` loop over ranges that are in bounds completes. -/
theorem stdCopy.copy_loop_ok (source : List Byte) (n : Nat) :
    ∀ (first dest : Nat) (buffer : List Byte),
      first + n ≤ source.length → dest + n ≤ buffer.length →
      ∃ buffer1, stdCopy.loop source n first dest buffer = .ok buffer1 := by
  induction n with
  | zero => intro first dest buffer _ _; exact ⟨buffer, rfl⟩
  | succ n ih =>
    intro first dest buffer h1 h2
    simp only [stdCopy.loop]
    rw [List.getElem?_eq_getElem (by omega : first < source.length)]
    simp only
    rw [if_pos (by omega)]
    exact ih _ _ _ (by omega) (by rw [List.length_set]; omega)

/-- What a completed `std::fill` loop did. -/
theorem stdFill.fill_loop_spec (value : Byte) (n : Nat) :
    ∀ (first : Nat) (buffer buffer1 : List Byte),
      stdFill.loop value n first buffer = .ok buffer1 →
      buffer1.length = buffer.length ∧
      (0 < n → first + n ≤ buffer.length) ∧
      (∀ k, k < n → buffer1[first + k]? = some value) ∧
      (∀ off, off < first ∨ first + n ≤ off → buffer1[off]? = buffer[off]?) := by
  induction n with
  | zero =>
    intro first buffer buffer1 h
    simp only [stdFill.loop] at h
    cases h
    exact ⟨rfl, fun h => absurd h (by omega), fun k hk => absurd hk (by omega), fun _ _ => rfl⟩
  | succ n ih =>
    intro first buffer buffer1 h
    simp only [stdFill.loop] at h
    by_cases hd : first < buffer.length
    · rw [if_pos hd] at h
      obtain ⟨i1, i2, i3, i4⟩ := ih _ _ _ h
      rw [List.length_set] at i1 i2
      refine ⟨i1, fun _ => ?_, ?_, ?_⟩
      · by_cases hn : 0 < n
        · have := i2 hn
          omega
        · omega
      · intro k hk
        cases k with
        | zero =>
          rw [Nat.add_zero, i4 first (Or.inl (by omega)), List.getElem?_set_self hd]
        | succ k =>
          have := i3 k (by omega)
          rw [show first + (k + 1) = first + 1 + k by omega]
          exact this
      · intro off hoff
        rw [i4 off (by omega), List.getElem?_set_ne (by omega)]
    · rw [if_neg hd] at h
      cases h

/-- A `std::fill` loop over a range that is in bounds completes. -/
theorem stdFill.fill_loop_ok (value : Byte) (n : Nat) :
    ∀ (first : Nat) (buffer : List Byte), first + n ≤ buffer.length →
      ∃ buffer1, stdFill.loop value n first buffer = .ok buffer1 := by
  induction n with
  | zero => intro first buffer _; exact ⟨buffer, rfl⟩
  | succ n ih =>
    intro first buffer h
    simp only [stdFill.loop]
    rw [if_pos (by omega)]
    exact ih _ _ (by rw [List.length_set]; omega)

theorem stdCopy_spec {source buffer buffer1 : List Byte} {first last dest : Nat}
    (h : stdCopy source first last buffer dest = .ok buffer1) :
    first ≤ last ∧ buffer1.length = buffer.length ∧
    (first < last → dest + (last - first) ≤ buffer.length ∧ last ≤ source.length) ∧
    (∀ k, k < last - first → buffer1[dest + k]? = source[first + k]?) ∧
    (∀ off, off < dest ∨ dest + (last - first) ≤ off → buffer1[off]? = buffer[off]?) := by
  unfold stdCopy at h
  by_cases hle : first ≤ last
  · rw [if_pos hle] at h
    obtain ⟨i1, i2, i3, i4⟩ := stdCopy.copy_loop_spec _ _ _ _ _ _ h
    refine ⟨hle, i1, fun hlt => ?_, i3, i4⟩
    have := i2 (by omega)
    omega
  · rw [if_neg hle] at h
    cases h

theorem stdFill_spec {buffer buffer1 : List Byte} {first last : Nat} {value : Byte}
    (h : stdFill buffer first last value = .ok buffer1) :
    first ≤ last ∧ buffer1.length = buffer.length ∧
    (first < last → last ≤ buffer.length) ∧
    (∀ off, first ≤ off → off < last → buffer1[off]? = some value) ∧
    (∀ off, off < first ∨ last ≤ off → buffer1[off]? = buffer[off]?) := by
  unfold stdFill at h
  by_cases hle : first ≤ last
  · rw [if_pos hle] at h
    obtain ⟨i1, i2, i3, i4⟩ := stdFill.fill_loop_spec _ _ _ _ _ h
    refine ⟨hle, i1, fun hlt => ?_, ?_, ?_⟩
    · have := i2 (by omega)
      omega
    · intro off h1 h2
      have := i3 (off - first) (by omega)
      rwa [show first + (off - first) = off by omega] at this
    · intro off hoff
      exact i4 off (by omega)
  · rw [if_neg hle] at h
    cases h

/-! ## The packing loops of `ReadMinibatch` -/

/-- What a completed dense branch did. -/
theorem FrameModePacker.ReadMinibatch.dense_spec {data : SequenceData} {dimensions i : Nat}
    {buffer buffer1 : List Byte}
    (h : FrameModePacker.ReadMinibatch.dense data dimensions i buffer = .ok buffer1) :
    (∃ layout, data = .dense data.m_data layout 1) ∧
    buffer1.length = buffer.length ∧
    (0 < dimensions → toSizeT (dimensions * i) + dimensions ≤ buffer.length ∧
      dimensions ≤ data.m_data.length) ∧
    (∀ k, k < dimensions → buffer1[toSizeT (dimensions * i) + k]? = data.m_data[k]?) ∧
    (∀ off, off < toSizeT (dimensions * i) ∨ toSizeT (dimensions * i) + dimensions ≤ off →
      buffer1[off]? = buffer[off]?) := by
  cases data with
  | sparse source indices =>
    simp only [FrameModePacker.ReadMinibatch.dense] at h
    cases h
  | dense source layout numberOfSamples =>
    simp only [FrameModePacker.ReadMinibatch.dense] at h
    by_cases hn : numberOfSamples = 1
    · rw [if_pos hn] at h
      obtain ⟨_, c2, c3, c4, c5⟩ := stdCopy_spec h
      subst hn
      refine ⟨⟨layout, rfl⟩, c2, fun hpos => ?_, ?_, ?_⟩
      · have := c3 hpos
        simp only [Nat.sub_zero] at this
        exact this
      · intro k hk
        have := c4 k (by omega)
        simpa using this
      · intro off hoff
        exact c5 off (by simpa using hoff)
    · rw [if_neg hn] at h
      cases h

/-- What a completed loop over the streams of one sequence did: the buffer of each visited
stream is the result of the loop body on it, every other buffer is as before. -/
theorem FrameModePacker.ReadMinibatch.streams_spec (inputStreams : List StreamDescription)
    (i : Nat) (row : List SequenceData) :
    ∀ (j0 : Nat) (buffers buffers1 : List (List Byte)),
      FrameModePacker.ReadMinibatch.streams inputStreams i j0 row buffers = .ok buffers1 →
      buffers1.length = buffers.length ∧
      (∀ j, j < j0 ∨ j0 + row.length ≤ j → buffers1[j]? = buffers[j]?) ∧
      (∀ k, k < row.length → ∃ stream buffer data buffer1,
        inputStreams[j0 + k]? = some stream ∧ buffers[j0 + k]? = some buffer ∧
        row[k]? = some data ∧
        FrameModePacker.ReadMinibatch.body stream data i buffer = .ok buffer1 ∧
        buffers1[j0 + k]? = some buffer1) := by
  induction row with
  | nil =>
    intro j0 buffers buffers1 h
    simp only [FrameModePacker.ReadMinibatch.streams] at h
    cases h
    exact ⟨rfl, fun _ _ => rfl, fun k hk => absurd hk (by simp)⟩
  | cons data row ih =>
    intro j0 buffers buffers1 h
    simp only [FrameModePacker.ReadMinibatch.streams] at h
    cases hs : inputStreams[j0]? with
    | none => rw [hs] at h; cases h
    | some stream =>
      cases hb : buffers[j0]? with
      | none => rw [hs, hb] at h; cases h
      | some buffer =>
        rw [hs, hb] at h
        simp only at h
        cases hbody : FrameModePacker.ReadMinibatch.body stream data i buffer with
        | error e => rw [hbody] at h; cases h
        | ok b1 =>
          rw [hbody] at h
          simp only at h
          by_cases hj : j0 < INT_MAX
          · rw [if_pos hj] at h
            obtain ⟨i1, i2, i3⟩ := ih _ _ _ h
            rw [List.length_set] at i1
            have hj0 : j0 < buffers.length := (List.getElem?_eq_some_iff.1 hb).1
            refine ⟨i1, ?_, ?_⟩
            · intro j hjj
              simp only [List.length_cons] at hjj
              rw [i2 j (by omega), List.getElem?_set_ne (by omega)]
            · intro k hk
              cases k with
              | zero =>
                refine ⟨stream, buffer, data, b1, hs, hb, List.getElem?_cons_zero, hbody, ?_⟩
                rw [Nat.add_zero, i2 j0 (Or.inl (by omega)), List.getElem?_set_self hj0]
              | succ k =>
                simp only [List.length_cons] at hk
                obtain ⟨s', b', d', b1', f1, f2, f3, f4, f5⟩ := i3 k (by omega)
                rw [List.getElem?_set_ne (by omega)] at f2
                refine ⟨s', b', d', b1', ?_, ?_, ?_, f4, ?_⟩
                · rw [show j0 + (k + 1) = j0 + 1 + k by omega]; exact f1
                · rw [show j0 + (k + 1) = j0 + 1 + k by omega]; exact f2
                · simpa using f3
                · rw [show j0 + (k + 1) = j0 + 1 + k by omega]; exact f5
          · rw [if_neg hj] at h
            cases h

theorem FrameModePacker.ReadMinibatch.sequences_cons {inputStreams : List StreamDescription}
    {i : Nat} {row : List SequenceData} {rows : List (List SequenceData)}
    {buffers buffers2 : List (List Byte)}
    (h : FrameModePacker.ReadMinibatch.sequences inputStreams i (row :: rows) buffers
      = .ok buffers2) :
    buffers.length = row.length ∧
    ∃ buffers1, FrameModePacker.ReadMinibatch.streams inputStreams i 0 row buffers
        = .ok buffers1 ∧
      FrameModePacker.ReadMinibatch.sequences inputStreams (i + 1) rows buffers1
        = .ok buffers2 := by
  simp only [FrameModePacker.ReadMinibatch.sequences] at h
  by_cases hl : buffers.length = row.length
  · rw [if_pos hl] at h
    cases hs : FrameModePacker.ReadMinibatch.streams inputStreams i 0 row buffers with
    | error e => rw [hs] at h; cases h
    | ok buffers1 =>
      rw [hs] at h
      exact ⟨hl, buffers1, rfl, h⟩
  · rw [if_neg hl] at h
    cases h

/-- What a completed loop over the received sequences did to the buffer of a dense stream:
slot `i0 + i` holds the sample of the `i`-th sequence visited, and the bytes outside the slots
of the visited sequences are as before. -/
theorem FrameModePacker.ReadMinibatch.sequences_dense (inputStreams : List StreamDescription)
    (j : Nat) (stream : StreamDescription) (S : Nat)
    (hstream : inputStreams[j]? = some stream)
    (hdense : stream.m_storageType = StorageType.dense)
    (hS : S = toSizeT (stream.m_sampleLayout.GetNumElements * GetSizeByType stream.m_elementType))
    (rows : List (List SequenceData)) :
    ∀ (i0 : Nat) (buffers buffers1 : List (List Byte)) (buffer : List Byte),
      FrameModePacker.ReadMinibatch.sequences inputStreams i0 rows buffers = .ok buffers1 →
      buffers[j]? = some buffer → buffer.length ≤ SIZE_MAX → S * i0 ≤ buffer.length →
      ∃ buffer1, buffers1[j]? = some buffer1 ∧ buffer1.length = buffer.length ∧
        (∀ i, i < rows.length → ∃ row data, rows[i]? = some row ∧ row[j]? = some data ∧
          (∃ layout, data = .dense data.m_data layout 1) ∧
          (0 < S → S * (i0 + i) + S ≤ buffer.length ∧ S ≤ data.m_data.length) ∧
          ∀ k, k < S → buffer1[S * (i0 + i) + k]? = data.m_data[k]?) ∧
        (∀ off, off < S * i0 ∨ S * (i0 + rows.length) ≤ off → buffer1[off]? = buffer[off]?) := by
  induction rows with
  | nil =>
    intro i0 buffers buffers1 buffer h hb _ _
    simp only [FrameModePacker.ReadMinibatch.sequences] at h
    cases h
    exact ⟨buffer, hb, rfl, fun i hi => absurd hi (by simp), fun _ _ => rfl⟩
  | cons row rows ih =>
    intro i0 buffers buffers2 buffer h hb hmem hslot
    obtain ⟨hl, buffers1, hs, hrest⟩ := FrameModePacker.ReadMinibatch.sequences_cons h
    obtain ⟨_, _, s3⟩ := FrameModePacker.ReadMinibatch.streams_spec _ _ _ _ _ _ hs
    have hj : j < row.length := by
      rw [← hl]
      exact (List.getElem?_eq_some_iff.1 hb).1
    obtain ⟨stream', buffer', data, b1, f1, f2, f3, f4, f5⟩ := s3 j hj
    rw [Nat.zero_add] at f1 f2 f5
    rw [hstream] at f1
    cases f1
    rw [hb] at f2
    cases f2
    simp only [FrameModePacker.ReadMinibatch.body, hdense, ← hS] at f4
    obtain ⟨d1, d2, d3, d4, d5⟩ := FrameModePacker.ReadMinibatch.dense_spec f4
    have hw : toSizeT (S * i0) = S * i0 :=
      toSizeT_of_lt (by unfold SIZE_MAX at hmem; omega)
    rw [hw] at d3 d4 d5
    have hmul : S * (i0 + 1) = S * i0 + S := Nat.mul_succ S i0
    have hnext : S * (i0 + 1) ≤ b1.length := by
      rw [d2, hmul]
      by_cases hpos : 0 < S
      · exact (d3 hpos).1
      · have : S = 0 := by omega
        rw [this]
        simp
    obtain ⟨b2, g1, g2, g3, g4⟩ := ih (i0 + 1) buffers1 buffers2 b1 hrest f5
      (by rw [d2]; exact hmem) hnext
    refine ⟨b2, g1, by rw [g2, d2], ?_, ?_⟩
    · intro i hi
      cases i with
      | zero =>
        refine ⟨row, data, List.getElem?_cons_zero, f3, d1, fun hpos => d3 hpos, ?_⟩
        intro k hk
        rw [Nat.add_zero, g4 (S * i0 + k) (Or.inl (by omega))]
        exact d4 k hk
      | succ i =>
        simp only [List.length_cons] at hi
        obtain ⟨row', data', e1, e2, e3, e4, e5⟩ := g3 i (by omega)
        have hidx : i0 + (i + 1) = i0 + 1 + i := by omega
        refine ⟨row', data', by simpa using e1, e2, e3, ?_, ?_⟩
        · intro hpos
          rw [hidx, ← d2]
          exact e4 hpos
        · intro k hk
          rw [hidx]
          exact e5 k hk
    · intro off hoff
      simp only [List.length_cons] at hoff
      have hmul2 : S * (i0 + (rows.length + 1)) = S * (i0 + 1 + rows.length) := by
        congr 1; omega
      have hmono : S * (i0 + 1) ≤ S * (i0 + 1 + rows.length) :=
        Nat.mul_le_mul_left S (by omega)
      rw [hmul2] at hoff
      rw [g4 off (by omega), d5 off (by omega)]

/-! ## The sparse branch of `ReadMinibatch` -/

theorem FrameModePacker.row_interval {E D r : Nat} (hr : r < D) :
    r * E + E ≤ D * E := by
  have := Nat.mul_le_mul_right E (by omega : r + 1 ≤ D)
  rwa [Nat.succ_mul] at this

theorem FrameModePacker.rows_apart {E r1 r2 : Nat} (h : r1 < r2) :
    r1 * E + E ≤ r2 * E := FrameModePacker.row_interval h

/-- What a completed loop over the non-zero values did, when the row indices lie below the
sample dimension `D` and slot `i` lies in the buffer: only the rows named by the indices
changed, and a row named once holds the value at the position of its index. -/
theorem FrameModePacker.ReadMinibatch.nonZeros_spec (source : List Byte) (E D S i : Nat)
    (hS : S = D * E) (rowIndices : List Nat) :
    ∀ (m : Nat) (buffer buffer1 : List Byte),
      FrameModePacker.ReadMinibatch.nonZeros source E S i m rowIndices buffer = .ok buffer1 →
      (∀ r ∈ rowIndices, r < D) → (m + rowIndices.length) * E ≤ SIZE_MAX →
      S * i + S ≤ buffer.length → buffer.length ≤ SIZE_MAX →
      buffer1.length = buffer.length ∧
      (∀ off, off < S * i ∨ S * i + S ≤ off → buffer1[off]? = buffer[off]?) ∧
      (∀ row, row < D → row ∉ rowIndices → ∀ e, e < E →
        buffer1[S * i + row * E + e]? = buffer[S * i + row * E + e]?) ∧
      (rowIndices.Nodup → ∀ p r, rowIndices[p]? = some r → ∀ e, e < E →
        buffer1[S * i + r * E + e]? = source[(m + p) * E + e]?) := by
  induction rowIndices with
  | nil =>
    intro m buffer buffer1 h _ _ _ _
    simp only [FrameModePacker.ReadMinibatch.nonZeros] at h
    cases h
    exact ⟨rfl, fun _ _ => rfl, fun _ _ _ _ _ => rfl, fun _ p r hp => by simp at hp⟩
  | cons r rest ih =>
    intro m buffer buffer2 h hrange hvalues hslot hmem
    simp only [FrameModePacker.ReadMinibatch.nonZeros] at h
    have hr : r < D := hrange r (List.mem_cons_self _ _)
    have hrE := @FrameModePacker.row_interval E _ _ hr
    have hlen : (m + (r :: rest).length) * E = m * E + E + rest.length * E := by
      simp only [List.length_cons]
      rw [show m + (rest.length + 1) = (m + 1) + rest.length by omega, Nat.add_mul,
        Nat.succ_mul]
    rw [hlen] at hvalues
    have hm1 : (m + 1) * E = m * E + E := Nat.succ_mul m E
    unfold SIZE_MAX at hvalues hmem
    have w1 : toSizeT (m * E) = m * E := toSizeT_of_lt (by omega)
    have w2 : toSizeT ((m + 1) * E) = m * E + E := by rw [hm1]; exact toSizeT_of_lt (by omega)
    have w3 : toSizeT (S * i) = S * i := toSizeT_of_lt (by omega)
    have w4 : toSizeT (r * E) = r * E := toSizeT_of_lt (by omega)
    rw [w1, w2, w3, w4] at h
    cases hc : stdCopy source (m * E) (m * E + E) buffer (S * i + r * E) with
    | error e => rw [hc] at h; cases h
    | ok b1 =>
      rw [hc] at h
      simp only at h
      obtain ⟨_, c2, _, c4, c5⟩ := stdCopy_spec hc
      rw [show m * E + E - m * E = E by omega] at c4 c5
      obtain ⟨i1, i2, i3, i4⟩ := ih (m + 1) b1 buffer2 h
        (fun r' hr' => hrange r' (List.mem_cons_of_mem _ hr'))
        (by unfold SIZE_MAX; rw [Nat.add_mul, hm1]; omega) (by rw [c2]; exact hslot)
        (by unfold SIZE_MAX; rw [c2]; exact hmem)
      refine ⟨by rw [i1, c2], ?_, ?_, ?_⟩
      · intro off hoff
        rw [i2 off hoff, c5 off (by omega)]
      · intro row hrow hnot e he
        have hne : row ≠ r := fun hh => hnot (hh ▸ List.mem_cons_self _ _)
        have hnot' : row ∉ rest := fun hh => hnot (List.mem_cons_of_mem _ hh)
        rw [i3 row hrow hnot' e he]
        apply c5
        rcases Nat.lt_or_gt_of_ne hne with hlt | hgt
        · have := @FrameModePacker.rows_apart E _ _ hlt
          omega
        · have := @FrameModePacker.rows_apart E _ _ hgt
          omega
      · intro hnodup p r' hp e he
        rw [List.nodup_cons] at hnodup
        cases p with
        | zero =>
          simp only [List.getElem?_cons_zero, Option.some.injEq] at hp
          subst hp
          rw [i3 r hr hnodup.1 e he, Nat.add_zero]
          exact c4 e he
        | succ p =>
          simp only [List.getElem?_cons_succ] at hp
          have := i4 hnodup.2 p r' hp e he
          rw [show m + (p + 1) = m + 1 + p by omega]
          exact this

/-- The loop over the non-zero values completes when one value per index can be read, the row
indices lie below the sample dimension and slot `i` lies in the buffer. -/
theorem FrameModePacker.ReadMinibatch.nonZeros_ok (source : List Byte) (E D S i : Nat)
    (hS : S = D * E) (rowIndices : List Nat) :
    ∀ (m : Nat) (buffer : List Byte),
      (∀ r ∈ rowIndices, r < D) → (m + rowIndices.length) * E ≤ source.length →
      source.length ≤ SIZE_MAX → S * i + S ≤ buffer.length → buffer.length ≤ SIZE_MAX →
      ∃ buffer1,
        FrameModePacker.ReadMinibatch.nonZeros source E S i m rowIndices buffer = .ok buffer1 := by
  induction rowIndices with
  | nil => intro m buffer _ _ _ _ _; exact ⟨buffer, rfl⟩
  | cons r rest ih =>
    intro m buffer hrange hvalues hsrc hslot hmem
    simp only [FrameModePacker.ReadMinibatch.nonZeros]
    have hr : r < D := hrange r (List.mem_cons_self _ _)
    have hrE := @FrameModePacker.row_interval E _ _ hr
    have hlen : (m + (r :: rest).length) * E = m * E + E + rest.length * E := by
      simp only [List.length_cons]
      rw [show m + (rest.length + 1) = (m + 1) + rest.length by omega, Nat.add_mul,
        Nat.succ_mul]
    rw [hlen] at hvalues
    have hm1 : (m + 1) * E = m * E + E := Nat.succ_mul m E
    unfold SIZE_MAX at hsrc hmem
    have w1 : toSizeT (m * E) = m * E := toSizeT_of_lt (by omega)
    have w2 : toSizeT ((m + 1) * E) = m * E + E := by rw [hm1]; exact toSizeT_of_lt (by omega)
    have w3 : toSizeT (S * i) = S * i := toSizeT_of_lt (by omega)
    have w4 : toSizeT (r * E) = r * E := toSizeT_of_lt (by omega)
    rw [w1, w2, w3, w4]
    obtain ⟨b1, hb1⟩ := stdCopy.copy_loop_ok source E (m * E) (S * i + r * E) buffer (by omega)
      (by omega)
    have hc : stdCopy source (m * E) (m * E + E) buffer (S * i + r * E) = .ok b1 := by
      unfold stdCopy
      rw [if_pos (by omega), show m * E + E - m * E = E by omega]
      exact hb1
    rw [hc]
    simp only
    have c2 := (stdCopy_spec hc).2.1
    exact ih (m + 1) b1 (fun r' hr' => hrange r' (List.mem_cons_of_mem _ hr'))
      (by rw [Nat.add_mul, hm1]; omega) (by unfold SIZE_MAX; exact hsrc)
      (by rw [c2]; exact hslot) (by unfold SIZE_MAX; rw [c2]; exact hmem)

/-- The sparse branch on a sample with one index list, when the row indices lie below the
sample dimension `D` and slot `i` lies in the buffer, unfolds to the fill of the slot followed
by the loop over the non-zero values. -/
theorem FrameModePacker.ReadMinibatch.sparse_eq (source : List Byte) (rowIndices : List Nat)
    (E D S i : Nat) (buffer : List Byte) (hS : S = D * E)
    (hslot : (i + 1) * S ≤ buffer.length) (hmem : buffer.length ≤ SIZE_MAX) :
    ∃ filled, stdFill buffer (i * S) (i * S + S) 0 = .ok filled ∧
      filled.length = buffer.length ∧
      (∀ off, i * S ≤ off → off < i * S + S → filled[off]? = some 0) ∧
      (∀ off, off < i * S ∨ i * S + S ≤ off → filled[off]? = buffer[off]?) ∧
      FrameModePacker.ReadMinibatch.sparse (.sparse source [rowIndices]) E S i buffer
        = FrameModePacker.ReadMinibatch.nonZeros source E S i 0 rowIndices filled := by
  have h1 : (i + 1) * S = i * S + S := Nat.succ_mul i S
  rw [h1] at hslot
  obtain ⟨filled, hf⟩ := stdFill.fill_loop_ok 0 S (i * S) buffer hslot
  have hfill : stdFill buffer (i * S) (i * S + S) 0 = .ok filled := by
    unfold stdFill
    rw [if_pos (by omega), show i * S + S - i * S = S by omega]
    exact hf
  obtain ⟨_, f2, _, f4, f5⟩ := stdFill_spec hfill
  refine ⟨filled, hfill, f2, f4, f5, ?_⟩
  simp only [FrameModePacker.ReadMinibatch.sparse]
  unfold SIZE_MAX at hmem
  rw [toSizeT_of_lt (by omega : i * S < 18446744073709551616), h1,
    toSizeT_of_lt (by omega : i * S + S < 18446744073709551616), hfill]

/-! ### The stream buffers as objects: `ReadMinibatch` keeps their number and their sizes -/

theorem FrameModePacker.ReadMinibatch.nonZeros_length (source : List Byte) (E S i : Nat)
    (rowIndices : List Nat) :
    ∀ (m : Nat) (buffer buffer1 : List Byte),
      FrameModePacker.ReadMinibatch.nonZeros source E S i m rowIndices buffer = .ok buffer1 →
      buffer1.length = buffer.length := by
  induction rowIndices with
  | nil =>
    intro m buffer buffer1 h
    simp only [FrameModePacker.ReadMinibatch.nonZeros] at h
    cases h
    rfl
  | cons r rest ih =>
    intro m buffer buffer1 h
    simp only [FrameModePacker.ReadMinibatch.nonZeros] at h
    cases hc : stdCopy source (toSizeT (m * E)) (toSizeT ((m + 1) * E)) buffer
        (toSizeT (S * i) + toSizeT (r * E)) with
    | error e => rw [hc] at h; cases h
    | ok buffer2 =>
      rw [hc] at h
      rw [ih _ _ _ h, (stdCopy_spec hc).2.1]

theorem FrameModePacker.ReadMinibatch.sparse_length {data : SequenceData} {E S i : Nat}
    {buffer buffer1 : List Byte}
    (h : FrameModePacker.ReadMinibatch.sparse data E S i buffer = .ok buffer1) :
    buffer1.length = buffer.length := by
  cases data with
  | dense source layout n =>
    simp only [FrameModePacker.ReadMinibatch.sparse] at h
    cases h
  | sparse source indices =>
    cases indices with
    | nil =>
      simp only [FrameModePacker.ReadMinibatch.sparse] at h
      cases h
    | cons rowIndices more =>
      cases more with
      | nil =>
        simp only [FrameModePacker.ReadMinibatch.sparse] at h
        cases hf : stdFill buffer (toSizeT (i * S)) (toSizeT ((i + 1) * S)) 0 with
        | error e => rw [hf] at h; cases h
        | ok buffer2 =>
          rw [hf] at h
          rw [FrameModePacker.ReadMinibatch.nonZeros_length _ _ _ _ _ _ _ _ h,
            (stdFill_spec hf).2.1]
      | cons second others =>
        simp only [FrameModePacker.ReadMinibatch.sparse] at h
        cases h

theorem FrameModePacker.ReadMinibatch.body_length {stream : StreamDescription}
    {data : SequenceData} {i : Nat} {buffer buffer1 : List Byte}
    (h : FrameModePacker.ReadMinibatch.body stream data i buffer = .ok buffer1) :
    buffer1.length = buffer.length := by
  unfold FrameModePacker.ReadMinibatch.body at h
  cases hst : stream.m_storageType with
  | dense =>
    rw [hst] at h
    exact (FrameModePacker.ReadMinibatch.dense_spec h).2.1
  | sparse_csc =>
    rw [hst] at h
    exact FrameModePacker.ReadMinibatch.sparse_length h

/-- The loop over the streams of one sequence keeps the number of buffers and the size of every
buffer. -/
theorem FrameModePacker.ReadMinibatch.streams_length {inputStreams : List StreamDescription}
    {i : Nat} {row : List SequenceData} {buffers buffers1 : List (List Byte)}
    (h : FrameModePacker.ReadMinibatch.streams inputStreams i 0 row buffers = .ok buffers1) :
    buffers1.length = buffers.length ∧
    ∀ j : Nat, (buffers1[j]?).map List.length = (buffers[j]?).map List.length := by
  obtain ⟨hlen, hout, hin⟩ :=
    FrameModePacker.ReadMinibatch.streams_spec inputStreams i row 0 buffers buffers1 h
  refine ⟨hlen, fun j => ?_⟩
  by_cases hj : j < row.length
  · obtain ⟨stream, buffer, data, buffer1, _, hb, _, hbody, hb1⟩ := hin j hj
    rw [Nat.zero_add] at hb hb1
    rw [hb, hb1, Option.map_some', Option.map_some',
      FrameModePacker.ReadMinibatch.body_length hbody]
  · rw [hout j (Or.inr (by omega))]

/-- The loop over the received sequences keeps the number of buffers and the size of every
buffer. -/
theorem FrameModePacker.ReadMinibatch.sequences_length (inputStreams : List StreamDescription)
    (rows : List (List SequenceData)) :
    ∀ (i : Nat) (buffers buffers1 : List (List Byte)),
      FrameModePacker.ReadMinibatch.sequences inputStreams i rows buffers = .ok buffers1 →
      buffers1.length = buffers.length ∧
      ∀ j : Nat, (buffers1[j]?).map List.length = (buffers[j]?).map List.length := by
  induction rows with
  | nil =>
    intro i buffers buffers1 h
    simp only [FrameModePacker.ReadMinibatch.sequences] at h
    cases h
    exact ⟨rfl, fun _ => rfl⟩
  | cons row rest ih =>
    intro i buffers buffers1 h
    obtain ⟨_, buffers2, hs, hrest⟩ := FrameModePacker.ReadMinibatch.sequences_cons h
    obtain ⟨h1, h2⟩ := FrameModePacker.ReadMinibatch.streams_length hs
    obtain ⟨h3, h4⟩ := ih _ _ _ hrest
    exact ⟨by rw [h3, h1], fun j => by rw [h4 j, h2 j]⟩

/-! ### Wrapping the buffers into the returned minibatch -/

/-- The wrapping loop returns one entry per output stream, in order: the entry of the `k`-th
stream visited refers to buffer `i0 + k`, which exists, carries the `size_t` product of the
sequence count and the stream's sample byte size, and the given layout. -/
theorem FrameModePacker.ReadMinibatch.wrap_spec (numberOfBuffers n : Nat) (layout : MBLayout)
    (streams : List StreamDescription) :
    ∀ (i0 : Nat) (wrapped : List Stream),
      FrameModePacker.ReadMinibatch.wrap numberOfBuffers n layout i0 streams = .ok wrapped →
      wrapped.length = streams.length ∧
      ∀ k stream, streams[k]? = some stream →
        i0 + k < numberOfBuffers ∧
        wrapped[k]? = some
          { m_data := i0 + k
            m_dataSize := toSizeT (n * toSizeT (stream.m_sampleLayout.GetNumElements
              * GetSizeByType stream.m_elementType))
            m_layout := layout } := by
  induction streams with
  | nil =>
    intro i0 wrapped h
    simp only [FrameModePacker.ReadMinibatch.wrap] at h
    cases h
    exact ⟨rfl, fun k stream hk => by simp at hk⟩
  | cons first rest ih =>
    intro i0 wrapped h
    simp only [FrameModePacker.ReadMinibatch.wrap] at h
    by_cases h1 : i0 < numberOfBuffers
    · rw [if_pos h1] at h
      by_cases h2 : i0 < INT_MAX
      · rw [if_pos h2] at h
        cases hw : FrameModePacker.ReadMinibatch.wrap numberOfBuffers n layout (i0 + 1) rest with
        | error e => rw [hw] at h; cases h
        | ok tail =>
          rw [hw] at h
          cases h
          obtain ⟨hlen, hent⟩ := ih _ _ hw
          refine ⟨by simp [hlen], fun k stream hk => ?_⟩
          cases k with
          | zero =>
            simp only [List.getElem?_cons_zero, Option.some.injEq] at hk
            subst hk
            exact ⟨h1, by simp⟩
          | succ k =>
            simp only [List.getElem?_cons_succ] at hk
            obtain ⟨hb, he⟩ := hent k stream hk
            refine ⟨by omega, ?_⟩
            rw [List.getElem?_cons_succ, he]
            have : i0 + 1 + k = i0 + (k + 1) := by omega
            rw [this]
      · rw [if_neg h2] at h
        cases h
    · rw [if_neg h1] at h
      cases h

/-- What a completed run of `ReadMinibatch` from line 49 on returns and leaves behind. -/
theorem FrameModePacker.ReadMinibatch.pack_spec {self self1 : FrameModePacker}
    {sequences : Sequences} {m : Minibatch}
    (h : FrameModePacker.ReadMinibatch.pack self sequences = .ok (m, self1)) :
    m.m_atEndOfEpoch = sequences.m_endOfEpoch ∧
    self1 = { self with m_streamBuffers := self1.m_streamBuffers
                        m_minibatchLayout := self1.m_minibatchLayout } ∧
    (sequences.m_data.length = 0 →
      m.m_minibatch = [] ∧ self1.m_minibatchLayout = self.m_minibatchLayout) ∧
    (sequences.m_data.length ≠ 0 →
      self1.m_minibatchLayout = { frameModeSamples := some sequences.m_data.length } ∧
      FrameModePacker.ReadMinibatch.wrap self1.m_streamBuffers.length sequences.m_data.length
        { frameModeSamples := some sequences.m_data.length } 0 self.m_outputStreams
        = .ok m.m_minibatch) := by
  unfold FrameModePacker.ReadMinibatch.pack at h
  cases hs : FrameModePacker.ReadMinibatch.sequences self.m_inputStreams 0 sequences.m_data
      self.m_streamBuffers with
  | error e => rw [hs] at h; cases h
  | ok buffers =>
    rw [hs] at h
    simp only at h
    by_cases hz : sequences.m_data.length = 0
    · rw [if_pos hz] at h
      cases h
      exact ⟨rfl, rfl, fun _ => ⟨rfl, rfl⟩, fun hn => absurd hz hn⟩
    · rw [if_neg hz] at h
      cases hw : FrameModePacker.ReadMinibatch.wrap buffers.length sequences.m_data.length
          (self.m_minibatchLayout.InitAsFrameMode sequences.m_data.length) 0
          self.m_outputStreams with
      | error e => rw [hw] at h; cases h
      | ok wrapped =>
        rw [hw] at h
        cases h
        exact ⟨rfl, rfl, fun h0 => absurd h0 hz, fun _ => ⟨rfl, hw⟩⟩

/-- A call of `ReadMinibatch` that receives no sequence returns the empty minibatch with the
upstream flag and changes only the scheduler. -/
theorem FrameModePacker.ReadMinibatch_of_empty {self : FrameModePacker}
    {received : GetNextSequencesResult}
    (hcapacity : 0 < self.m_mbSize)
    (hreceived : self.m_transformer.GetNextSequences self.m_mbSize = .ok received)
    (hnone : received.sequences.m_data.length = 0) :
    self.ReadMinibatch = .ok
      ({ m_atEndOfEpoch := received.sequences.m_endOfEpoch, m_minibatch := [] },
       { self with m_transformer := received.self }) := by
  have hdata : received.sequences.m_data = [] := List.length_eq_zero.1 hnone
  unfold FrameModePacker.ReadMinibatch
  rw [if_pos hcapacity, hreceived]
  simp only [FrameModePacker.ReadMinibatch.pack, hdata,
    FrameModePacker.ReadMinibatch.sequences, List.length_nil, if_true]

/-- The allocation loop of the constructor returns, per stream and in order, what the memory
provider answers to `Alloc(element size, size_t product of capacity and element count)`. -/
theorem FrameModePacker.new.allocate_ok (memoryProvider : MemoryProvider) (mbSize : Nat)
    (streams : List StreamDescription) :
    ∀ buffers, FrameModePacker.new.allocate memoryProvider mbSize streams = .ok buffers →
      buffers = streams.map (fun stream =>
        memoryProvider.Alloc (GetSizeByType stream.m_elementType)
          (toSizeT (mbSize * stream.m_sampleLayout.GetNumElements))) := by
  induction streams with
  | nil =>
    intro buffers h
    simp only [FrameModePacker.new.allocate] at h
    cases h
    rfl
  | cons stream rest ih =>
    intro buffers h
    simp only [FrameModePacker.new.allocate] at h
    by_cases ht : stream.m_elementType = ElementType.tfloat ∨
        stream.m_elementType = ElementType.tdouble
    · rw [if_pos ht] at h
      cases hr : FrameModePacker.new.allocate memoryProvider mbSize rest with
      | error e => rw [hr] at h; cases h
      | ok tail =>
        rw [hr] at h
        cases h
        rw [ih tail hr]
        rfl
    · rw [if_neg ht] at h
      cases h

theorem FrameModePacker.new_packer_ok {memoryProvider : MemoryProvider} {transformer : NoRandomizer}
    {minibatchSize : Nat} {streams : List StreamDescription} {packer : FrameModePacker}
    (h : FrameModePacker.new memoryProvider transformer minibatchSize streams = .ok packer) :
    packer.m_transformer = transformer ∧ packer.m_mbSize = minibatchSize ∧
    packer.m_inputStreams = transformer.GetStreams ∧ packer.m_outputStreams = streams ∧
    packer.m_minibatchLayout = { frameModeSamples := none } ∧
    packer.m_memoryProvider = memoryProvider ∧
    transformer.GetStreams.length = streams.length ∧
    FrameModePacker.new.allocate memoryProvider minibatchSize streams
      = .ok packer.m_streamBuffers := by
  unfold FrameModePacker.new at h
  simp only at h
  by_cases h1 : transformer.GetStreams.length = streams.length
  · rw [if_pos h1] at h
    by_cases h2 : streams.all (fun s => decide (s.m_storageType ≠ StorageType.sparse_csc)) = true
    · rw [if_pos h2] at h
      cases ha : FrameModePacker.new.allocate memoryProvider minibatchSize streams with
      | error e => rw [ha] at h; cases h
      | ok buffers =>
        rw [ha] at h
        cases h
        exact ⟨rfl, rfl, rfl, rfl, rfl, rfl, h1, rfl⟩
    · rw [if_neg h2] at h
      cases h
  · rw [if_neg h1] at h
    cases h

/-! ## Claims about the timeline validator -/

/-- Claim C1, as stated, fails: the timeline holding the single valid one-sample descriptor
with id 0 and chunk id 2 satisfies the four stated conditions (all valid, all sample counts
positive, ids equal to positions, chunk ids of consecutive descriptors non-decreasing with
steps of at most 1), yet `TimelineIsValidForRandomization` rejects it, because the first chunk
id is compared with the initial `previous.m_chunkId = 0`. -/
theorem C1_counterexample :
    ¬ (TimelineIsValidForRandomization timelineStartingInChunkTwo = true ↔
      (∀ d ∈ timelineStartingInChunkTwo, d.m_isValid = true) ∧
      (∀ d ∈ timelineStartingInChunkTwo, 0 < d.m_numberOfSamples) ∧
      (∀ (k : Nat) (d : SequenceDescription),
        timelineStartingInChunkTwo[k]? = some d → d.m_id = k) ∧
      (∀ (k : Nat) (a b : SequenceDescription),
        timelineStartingInChunkTwo[k]? = some a → timelineStartingInChunkTwo[k + 1]? = some b →
        a.m_chunkId ≤ b.m_chunkId ∧ b.m_chunkId ≤ a.m_chunkId + 1)) := by
  intro h
  have hfalse : TimelineIsValidForRandomization timelineStartingInChunkTwo = false := by decide
  have htrue : TimelineIsValidForRandomization timelineStartingInChunkTwo = true := by
    apply h.2
    refine ⟨?_, ?_, ?_, ?_⟩
    · intro d hd
      simp only [timelineStartingInChunkTwo, List.mem_singleton] at hd
      subst hd; rfl
    · intro d hd
      simp only [timelineStartingInChunkTwo, List.mem_singleton] at hd
      subst hd; decide
    · intro k d hk
      cases k with
      | zero =>
        simp only [timelineStartingInChunkTwo, List.getElem?_cons_zero, Option.some.injEq] at hk
        subst hk; rfl
      | succ k => simp [timelineStartingInChunkTwo] at hk
    · intro k a b _ hb
      simp [timelineStartingInChunkTwo] at hb
  rw [hfalse] at htrue
  cases htrue

/-- Claim C1, amended: for every timeline (a vector, so of at most `SIZE_MAX` entries),
`TimelineIsValidForRandomization` returns true if and only if every descriptor has
`m_isValid = true`, every descriptor has `m_numberOfSamples > 0`, the descriptor at position
`k` has `m_id = k`, the first descriptor has a chunk id of at most 1, and for every pair of
consecutive descriptors the chunk id does not decrease and increases by at most 1. -/
theorem C1_validator_accepts_iff (timeline : Timeline) (hsize : timeline.length ≤ SIZE_MAX) :
    TimelineIsValidForRandomization timeline = true ↔
      (∀ d ∈ timeline, d.m_isValid = true) ∧
      (∀ d ∈ timeline, 0 < d.m_numberOfSamples) ∧
      (∀ (k : Nat) (d : SequenceDescription), timeline[k]? = some d → d.m_id = k) ∧
      (∀ d : SequenceDescription, timeline[0]? = some d → d.m_chunkId ≤ 1) ∧
      (∀ (k : Nat) (a b : SequenceDescription),
        timeline[k]? = some a → timeline[k + 1]? = some b →
        a.m_chunkId ≤ b.m_chunkId ∧ b.m_chunkId ≤ a.m_chunkId + 1) := by
  rw [TimelineIsValidForRandomization_iff timeline (by unfold SIZE_MAX at hsize; omega)]
  constructor
  · rintro ⟨h1, h2, h3, h4⟩
    exact ⟨fun d hd => (h1 d hd).1, fun d hd => (h1 d hd).2, h2, h3, h4⟩
  · rintro ⟨h1, h1', h2, h3, h4⟩
    exact ⟨fun d hd => ⟨h1 d hd, h1' d hd⟩, h2, h3, h4⟩

/-- Claim C1, amended, at the timeline of two descriptors with ids 0, 1, chunk ids 0, 1 and
sample counts 1, 2. -/
theorem C1_validator_accepts_iff_witness :
    timelineOfTwo.length ≤ SIZE_MAX ∧
    (TimelineIsValidForRandomization timelineOfTwo = true ↔
      (∀ d ∈ timelineOfTwo, d.m_isValid = true) ∧
      (∀ d ∈ timelineOfTwo, 0 < d.m_numberOfSamples) ∧
      (∀ (k : Nat) (d : SequenceDescription), timelineOfTwo[k]? = some d → d.m_id = k) ∧
      (∀ d : SequenceDescription, timelineOfTwo[0]? = some d → d.m_chunkId ≤ 1) ∧
      (∀ (k : Nat) (a b : SequenceDescription),
        timelineOfTwo[k]? = some a → timelineOfTwo[k + 1]? = some b →
        a.m_chunkId ≤ b.m_chunkId ∧ b.m_chunkId ≤ a.m_chunkId + 1)) :=
  ⟨by decide, C1_validator_accepts_iff timelineOfTwo (by decide)⟩

/-- Claim C2: `TimelineIsValidForRandomization` returns false for every timeline (a vector, so
of at most `SIZE_MAX` entries) that contains an invalid descriptor, or a descriptor without
samples, or a first descriptor whose id is not 0, or a descriptor whose id is not its
predecessor's id plus 1, or a descriptor whose chunk id is smaller than its predecessor's, or a
descriptor whose chunk id exceeds its predecessor's by more than 1. -/
theorem C2_validator_rejects (timeline : Timeline) (hsize : timeline.length ≤ SIZE_MAX)
    (hviolation :
      (∃ d ∈ timeline, d.m_isValid = false) ∨
      (∃ d ∈ timeline, d.m_numberOfSamples = 0) ∨
      (∃ d : SequenceDescription, timeline[0]? = some d ∧ d.m_id ≠ 0) ∨
      (∃ (k : Nat) (a b : SequenceDescription),
        timeline[k]? = some a ∧ timeline[k + 1]? = some b ∧ b.m_id ≠ a.m_id + 1) ∨
      (∃ (k : Nat) (a b : SequenceDescription),
        timeline[k]? = some a ∧ timeline[k + 1]? = some b ∧ b.m_chunkId < a.m_chunkId) ∨
      (∃ (k : Nat) (a b : SequenceDescription),
        timeline[k]? = some a ∧ timeline[k + 1]? = some b ∧ a.m_chunkId + 1 < b.m_chunkId)) :
    TimelineIsValidForRandomization timeline = false := by
  cases hv : TimelineIsValidForRandomization timeline with
  | false => rfl
  | true =>
    exfalso
    obtain ⟨h1, h2, _, h4⟩ :=
      (TimelineIsValidForRandomization_iff timeline (by unfold SIZE_MAX at hsize; omega)).1 hv
    rcases hviolation with ⟨d, hd, hx⟩ | ⟨d, hd, hx⟩ | ⟨d, hd, hx⟩ | ⟨k, a, b, ha, hb, hx⟩ |
      ⟨k, a, b, ha, hb, hx⟩ | ⟨k, a, b, ha, hb, hx⟩
    · rw [(h1 d hd).1] at hx
      cases hx
    · have := (h1 d hd).2
      omega
    · exact hx (h2 0 d hd)
    · have := h2 k a ha
      have := h2 (k + 1) b hb
      omega
    · have := (h4 k a b ha hb).1
      omega
    · have := (h4 k a b ha hb).2
      omega

/-- Claim C2 at its four witnesses: ids 0, 2 (a gap), ids 0, 0 (a duplicate), chunk ids 1, 0
(decreasing) and sample counts 1, 0 (a sequence without samples) are each rejected. -/
theorem C2_validator_rejects_witness :
    TimelineIsValidForRandomization [validDescription 0 1 0, validDescription 2 1 0] = false ∧
    TimelineIsValidForRandomization [validDescription 0 1 0, validDescription 0 1 0] = false ∧
    TimelineIsValidForRandomization [validDescription 0 1 1, validDescription 1 1 0] = false ∧
    TimelineIsValidForRandomization [validDescription 0 1 0, validDescription 1 0 0] = false :=
  ⟨C2_validator_rejects _ (by decide)
      (Or.inr (Or.inr (Or.inr (Or.inl
        ⟨0, validDescription 0 1 0, validDescription 2 1 0, rfl, rfl, by decide⟩)))),
    C2_validator_rejects _ (by decide)
      (Or.inr (Or.inr (Or.inr (Or.inl
        ⟨0, validDescription 0 1 0, validDescription 0 1 0, rfl, rfl, by decide⟩)))),
    C2_validator_rejects _ (by decide)
      (Or.inr (Or.inr (Or.inr (Or.inr (Or.inl
        ⟨0, validDescription 0 1 1, validDescription 1 1 0, rfl, rfl, by decide⟩))))),
    C2_validator_rejects _ (by decide)
      (Or.inr (Or.inl ⟨validDescription 1 0 0, by simp, rfl⟩))⟩

/-! ## Claims about the epoch scheduler -/

theorem schedulerOfFive_fromConstructor : schedulerOfFive.FromConstructor :=
  ⟨0, 0, _, rfl, rfl, rfl, rfl, rfl⟩

theorem schedulerOfFive_one_sample :
    ∀ d ∈ schedulerOfFive.m_deserializer.m_sequences, d.m_numberOfSamples = 1 := by
  decide

theorem startedOfFive_StartEpoch (W r : Nat) :
    schedulerOfFive.StartEpoch exampleRequestDataSize (fullSweepOf W r)
      = .ok (startedOfFive W r 0 0) := by
  simp [NoRandomizer.StartEpoch, schedulerOfFive, fullSweepOf, startedOfFive, toSizeT, SIZE_MAX]

theorem startedOfFive_first_call :
    (startedOfFive 2 1 0 0).GetNextSequences 1 = .ok
      { ids := [2], requests := [[2]],
        sequences := { m_endOfEpoch := false, m_data := [[]] },
        self := startedOfFive 2 1 3 3 } := by
  simp [NoRandomizer.GetNextSequences, NoRandomizer.GetNextSequences.loop,
    NoRandomizer.AdvanceToNextPositionForThisWorker, startedOfFive, schedulerOfFive,
    exampleDeserializer, timelineOfFive, validDescription, SIZE_MAX, toSizeT,
    Timeline.elementAt, DataDeserializer.GetSequenceDescriptions]

theorem startedOfFive_second_call :
    (startedOfFive 2 1 3 3).GetNextSequences 2 = .ok
      { ids := [3], requests := [[3]],
        sequences := { m_endOfEpoch := true, m_data := [[]] },
        self := startedOfFive 2 1 5 5 } := by
  simp [NoRandomizer.GetNextSequences, NoRandomizer.GetNextSequences.loop,
    NoRandomizer.AdvanceToNextPositionForThisWorker, startedOfFive, schedulerOfFive,
    exampleDeserializer, timelineOfFive, validDescription, SIZE_MAX, toSizeT,
    Timeline.elementAt, DataDeserializer.GetSequenceDescriptions]

theorem startedOfFive_two_calls :
    (startedOfFive 2 1 0 0).GetNextSequencesRepeatedly [1, 2] = .ok
      [{ ids := [2], requests := [[2]],
         sequences := { m_endOfEpoch := false, m_data := [[]] },
         self := startedOfFive 2 1 3 3 },
       { ids := [3], requests := [[3]],
         sequences := { m_endOfEpoch := true, m_data := [[]] },
         self := startedOfFive 2 1 5 5 }] := by
  simp only [NoRandomizer.GetNextSequencesRepeatedly, startedOfFive_first_call,
    startedOfFive_second_call]

/-- Claim C3, as stated, fails.  Over the valid timeline of a single sequence with two samples
the constructor succeeds, but `StartEpoch` for the only worker of a full sweep from sweep
position 0 stops at `assert(m_frameMode)`, so no id is ever collected.  Over the valid timeline
of a single one-sample sequence, `StartEpoch` with epoch index `SIZE_MAX` stops at
`assert(timeframe != SIZE_MAX)`. -/
theorem C3_counterexample :
    succeeded (schedulerAtStart [validDescription 0 2 0]) = true ∧
    startAtSweepStart [validDescription 0 2 0] (fullSweepOf 1 0) = .error .assertion ∧
    succeeded (schedulerAtStart [validDescription 0 1 0]) = true ∧
    startAtSweepStart [validDescription 0 1 0]
      { fullSweepOf 1 0 with m_epochIndex := SIZE_MAX } = .error .assertion := by
  refine ⟨rfl, rfl, rfl, rfl⟩

/-- Claim C3, amended: for every scheduler over a valid non-empty timeline (a vector of fewer
than `SIZE_MAX` entries) in which every sequence has exactly one sample, and every number of
workers `W ≥ 1`: if each worker `r < W` runs its own scheduler from sweep position 0 with
`StartEpoch(workerRank = r, numberOfWorkers = W, total epoch size = requestDataSize)`, with an
epoch index for which the epoch size times the epoch index is not `SIZE_MAX` modulo `2^64`,
and calls `GetNextSequences` with positive counts until `endOfEpoch` is returned, then
`StartEpoch` and all calls complete, worker `r` collects exactly the ids of its shard, and the
lists of the `W` workers are pairwise disjoint, without repetition, and cover exactly the ids
`0, ..., numSequences - 1`. -/
theorem C3_shards_partition (R : Nat) (s0 : NoRandomizer) (W : Nat)
    (hctor : s0.FromConstructor)
    (hsize : s0.m_deserializer.m_sequences.length < SIZE_MAX)
    (hone : ∀ d ∈ s0.m_deserializer.m_sequences, d.m_numberOfSamples = 1)
    (hpos : s0.m_sequencePositionInSweep = 0)
    (hW : 1 ≤ W) :
    (∀ r, r < W → ∀ (cfg : EpochConfiguration) (counts : List Nat),
      cfg.m_workerRank = r → cfg.m_numberOfWorkers = W →
      cfg.m_totalEpochSizeInSamples = R →
      toSizeT (s0.m_deserializer.m_sequences.length * cfg.m_epochIndex) ≠ SIZE_MAX →
      (∀ c ∈ counts, 0 < c) → s0.m_deserializer.m_sequences.length < counts.length →
      ∃ s1 sF, s0.StartEpoch R cfg = .ok s1 ∧
        s1.GetNextSequencesUntilEndOfEpoch counts
          = .ok (s0.m_deserializer.m_sequences.workerShard W r, true, sF)) ∧
    (∀ r1, r1 < W → ∀ r2, r2 < W → r1 ≠ r2 →
      List.Disjoint (s0.m_deserializer.m_sequences.workerShard W r1)
        (s0.m_deserializer.m_sequences.workerShard W r2)) ∧
    (∀ r, r < W → (s0.m_deserializer.m_sequences.workerShard W r).Nodup) ∧
    (∀ i, i < s0.m_numSequences ↔
      ∃ r, r < W ∧ i ∈ s0.m_deserializer.m_sequences.workerShard W r) := by
  refine ⟨?_, ?_, ?_, ?_⟩
  · intro r _ cfg counts hr hw htotal htime hcounts hlen
    obtain ⟨s1, sF, h1, h2, _⟩ := NoRandomizer.full_sweep hctor hsize hone hpos
      (by omega : cfg.m_numberOfWorkers ≠ 0) htotal htime hcounts hlen
    rw [hw, hr] at h2
    exact ⟨s1, sF, h1, h2⟩
  · intro r1 _ r2 _ hne
    exact Timeline.workerShard_disjoint _ W hne
  · intro r _
    exact Timeline.workerShard_nodup _ W r
  · intro i
    rw [(hctor.frame hsize hone).2.1]
    exact Timeline.workerShard_cover _ hW i

/-- Claim C3, amended, at the timeline of five single-sample sequences in the chunks
0, 0, 1, 1, 2 with two workers: worker 1, calling with count 1 six times, collects its
shard. -/
theorem C3_shards_partition_witness :
    ∃ s1 sF, schedulerOfFive.StartEpoch exampleRequestDataSize (fullSweepOf 2 1) = .ok s1 ∧
      s1.GetNextSequencesUntilEndOfEpoch [1, 1, 1, 1, 1, 1]
        = .ok (timelineOfFive.workerShard 2 1, true, sF) :=
  (C3_shards_partition exampleRequestDataSize schedulerOfFive 2
    schedulerOfFive_fromConstructor (by decide) schedulerOfFive_one_sample rfl (by decide)).1
    1 (by decide) (fullSweepOf 2 1) [1, 1, 1, 1, 1, 1] rfl rfl rfl (by decide) (by decide)
    (by decide)

/-- Claim C4, as stated, fails.  Over the valid timeline with sample counts 1 and 2 the
constructor succeeds, but `StartEpoch` for a single worker and a full sweep from sweep position
0 stops at `assert(m_frameMode)`, so no call of `GetNextSequences` can follow.  Over a valid
timeline of three one-sample sequences, `StartEpoch` with epoch index `SIZE_MAX / 3` stops at
`assert(timeframe != SIZE_MAX)`. -/
theorem C4_counterexample :
    succeeded (schedulerAtStart timelineOfTwo) = true ∧
    startAtSweepStart timelineOfTwo (fullSweepOf 1 0) = .error .assertion ∧
    succeeded (schedulerAtStart
      [validDescription 0 1 0, validDescription 1 1 0, validDescription 2 1 0]) = true ∧
    startAtSweepStart [validDescription 0 1 0, validDescription 1 1 0, validDescription 2 1 0]
      { fullSweepOf 1 0 with m_epochIndex := 6148914691236517205 } = .error .assertion := by
  refine ⟨rfl, rfl, rfl, rfl⟩

/-- Claim C4, amended: for every scheduler over a valid non-empty timeline (a vector of fewer
than `SIZE_MAX` entries) in which every sequence has exactly one sample, with
`numberOfWorkers = 1`, `workerRank = 0`, `requestDataSize` as total epoch size, an epoch index
for which the epoch size times the epoch index is not `SIZE_MAX` modulo `2^64`, and the sweep
position at 0 when the epoch starts: `StartEpoch` succeeds, and repeated calls
`GetNextSequences(count)` with `count > 0` return, up to and including the first call that
reports `endOfEpoch = true`, the ids `0, 1, ..., numSequences - 1` each exactly once and in
this order; at that point `m_samplePositionInEpoch` equals the total sample count of the
timeline. -/
theorem C4_full_sweep (R : Nat) (s0 : NoRandomizer) (cfg : EpochConfiguration)
    (counts : List Nat)
    (hctor : s0.FromConstructor)
    (hsize : s0.m_deserializer.m_sequences.length < SIZE_MAX)
    (hone : ∀ d ∈ s0.m_deserializer.m_sequences, d.m_numberOfSamples = 1)
    (hpos : s0.m_sequencePositionInSweep = 0)
    (hW : cfg.m_numberOfWorkers = 1) (hr : cfg.m_workerRank = 0)
    (htotal : cfg.m_totalEpochSizeInSamples = R)
    (htime : toSizeT (s0.m_deserializer.m_sequences.length * cfg.m_epochIndex) ≠ SIZE_MAX)
    (hcounts : ∀ c ∈ counts, 0 < c)
    (hlen : s0.m_deserializer.m_sequences.length < counts.length) :
    ∃ s1 sF, s0.StartEpoch R cfg = .ok s1 ∧
      s1.GetNextSequencesUntilEndOfEpoch counts
        = .ok (List.range s0.m_numSequences, true, sF) ∧
      sF.m_samplePositionInEpoch
        = (s0.m_deserializer.m_sequences.map (fun d => d.m_numberOfSamples)).sum := by
  obtain ⟨s1, sF, h1, h2, h3⟩ := NoRandomizer.full_sweep hctor hsize hone hpos
    (by omega : cfg.m_numberOfWorkers ≠ 0) htotal htime hcounts hlen
  rw [hW, hr, Timeline.workerShard_one] at h2
  rw [(hctor.frame hsize hone).2.1, Timeline.sum_samples_frame _ hone]
  exact ⟨s1, sF, h1, h2, h3⟩

/-- Claim C4, amended, at the timeline of five single-sample sequences, with counts
2, 2, 2, 2, 2, 2. -/
theorem C4_full_sweep_witness :
    ∃ s1 sF, schedulerOfFive.StartEpoch exampleRequestDataSize (fullSweepOf 1 0) = .ok s1 ∧
      s1.GetNextSequencesUntilEndOfEpoch [2, 2, 2, 2, 2, 2] = .ok ([0, 1, 2, 3, 4], true, sF) ∧
      sF.m_samplePositionInEpoch = 5 :=
  C4_full_sweep exampleRequestDataSize schedulerOfFive (fullSweepOf 1 0) [2, 2, 2, 2, 2, 2]
    schedulerOfFive_fromConstructor (by decide) schedulerOfFive_one_sample rfl rfl rfl rfl
    (by decide) (by decide) (by decide)

/-- Claim C9: for every scheduler state and every count for which `GetNextSequences`
completes, every id `i` in the returned id list is a position of the timeline whose descriptor
satisfies `m_chunkId mod numberOfWorkers = workerRank`. -/
theorem C9_returned_ids_belong_to_worker (s : NoRandomizer) (count : Nat)
    (r : GetNextSequencesResult) (h : s.GetNextSequences count = .ok r) :
    ∀ i ∈ r.ids, ∃ d, s.m_deserializer.GetSequenceDescriptions[i]? = some d ∧
      d.m_chunkId % s.m_numberOfWorkers = s.m_workerRank := by
  intro i hi
  obtain ⟨_, _, e3, _⟩ := NoRandomizer.GetNextSequences_spec h
  rw [e3, List.mem_filter] at hi
  obtain ⟨d, hd, hown⟩ := NoRandomizer.owns_eq_true.1 hi.2
  exact ⟨d, (Timeline.elementAt_eq_some.1 hd).2, hown⟩

/-- Claim C9 at worker 1 of 2 over five single-sample sequences in the chunks 0, 0, 1, 1, 2:
the call with count 1 from position 0 completes, and its ids belong to the worker. -/
theorem C9_returned_ids_belong_to_worker_witness :
    (startedOfFive 2 1 0 0).GetNextSequences 1 = .ok
      { ids := [2], requests := [[2]],
        sequences := { m_endOfEpoch := false, m_data := [[]] },
        self := startedOfFive 2 1 3 3 } ∧
    ∃ d, timelineOfFive[2]? = some d ∧ d.m_chunkId % 2 = 1 :=
  ⟨startedOfFive_first_call,
    C9_returned_ids_belong_to_worker (startedOfFive 2 1 0 0) 1 _ startedOfFive_first_call 2
      (List.mem_singleton.2 rfl)⟩

/-- Claim C10: within one epoch, that is after a successful `StartEpoch` on a scheduler over
an accepted timeline and with no further `StartEpoch`, the concatenation in call order of the
id lists returned by successive completed `GetNextSequences` calls is strictly increasing, so no
id is returned twice, and `m_sequencePositionInSweep` and `m_samplePositionInEpoch` never
decrease from one call to a later one. -/
theorem C10_ids_strictly_increase (R : Nat) (s0 s : NoRandomizer) (cfg : EpochConfiguration)
    (counts : List Nat) (rs : List GetNextSequencesResult)
    (hctor : s0.FromConstructor)
    (hstart : s0.StartEpoch R cfg = .ok s)
    (hrun : s.GetNextSequencesRepeatedly counts = .ok rs) :
    List.Sorted (· < ·) (rs.flatMap (fun r => r.ids)) ∧
    (rs.flatMap (fun r => r.ids)).Nodup ∧
    List.Sorted (· ≤ ·)
      (s.m_sequencePositionInSweep :: rs.map (fun r => r.self.m_sequencePositionInSweep)) ∧
    List.Sorted (· ≤ ·)
      (s.m_samplePositionInEpoch :: rs.map (fun r => r.self.m_samplePositionInEpoch)) := by
  obtain ⟨h1, _, h3⟩ := NoRandomizer.repeatedly_sorted counts s rs hrun
  obtain ⟨hframe, hs⟩ := NoRandomizer.StartEpoch_ok hstart
  have hone := hctor.one_sample hframe
  refine ⟨h1, h1.nodup, h3, ?_⟩
  apply NoRandomizer.repeatedly_samples counts s.m_sequencePositionInSweep s rs _ (le_refl _) _
    (Or.inl rfl) hrun
  · rw [hs]; exact hone
  · rw [hs]; simp [NoRandomizer.started]

/-- Claim C10 at worker 1 of 2 over five single-sample sequences in the chunks 0, 0, 1, 1, 2:
after `StartEpoch` from sweep position 0 the calls with counts 1 and 2 return the ids 2 and 3,
and the positions go from 0 to 3 to 5. -/
theorem C10_ids_strictly_increase_witness :
    List.Sorted (· < ·) [2, 3] ∧ [2, 3].Nodup ∧
    List.Sorted (· ≤ ·) [0, 3, 5] ∧ List.Sorted (· ≤ ·) [0, 3, 5] :=
  C10_ids_strictly_increase exampleRequestDataSize schedulerOfFive (startedOfFive 2 1 0 0)
    (fullSweepOf 2 1) [1, 2] _ schedulerOfFive_fromConstructor (startedOfFive_StartEpoch 2 1)
    startedOfFive_two_calls

/-! ## Claims about the packer -/

theorem endToEnd_ten :
    endToEnd timelineOfTen 4 { fullSweepOf 1 0 with m_minibatchSizeInSamples := 4 }
      = .ok (packerOfTen 0 SIZE_MAX (List.replicate 16 0) { frameModeSamples := none }) := by
  rfl

theorem packerOfTen_read_undefined :
    (packerOfTen 0 SIZE_MAX (List.replicate 16 0) { frameModeSamples := none }).ReadMinibatch
      = .error .undefined := by
  simp [FrameModePacker.ReadMinibatch, NoRandomizer.GetNextSequences,
    NoRandomizer.GetNextSequences.loop, NoRandomizer.AdvanceToNextPositionForThisWorker,
    packerOfTen, SIZE_MAX, Timeline.elementAt, DataDeserializer.GetSequenceDescriptions]

theorem packerOfTen_read_first :
    (packerOfTen 0 0 (List.replicate 16 0) { frameModeSamples := none }).ReadMinibatch
      = .ok ({ m_atEndOfEpoch := false,
               m_minibatch := [{ m_data := 0, m_dataSize := 16,
                                 m_layout := { frameModeSamples := some 4 } }] },
             packerOfTen 4 4 [0, 0, 0, 0, 1, 0, 0, 0, 2, 0, 0, 0, 3, 0, 0, 0]
               { frameModeSamples := some 4 }) := by
  simp [FrameModePacker.ReadMinibatch, FrameModePacker.ReadMinibatch.pack,
    FrameModePacker.ReadMinibatch.sequences, FrameModePacker.ReadMinibatch.streams,
    FrameModePacker.ReadMinibatch.body, FrameModePacker.ReadMinibatch.dense,
    FrameModePacker.ReadMinibatch.wrap, stdCopy, stdCopy.loop, MBLayout.InitAsFrameMode,
    NoRandomizer.GetNextSequences, NoRandomizer.GetNextSequences.loop,
    NoRandomizer.AdvanceToNextPositionForThisWorker, packerOfTen, denseDeserializer,
    denseStream, timelineOfTen, validDescription, SIZE_MAX, INT_MAX, toSizeT,
    Timeline.elementAt, DataDeserializer.GetSequenceDescriptions, GetSizeByType,
    TensorShape.GetNumElements]

theorem packerOfTen_read_second :
    (packerOfTen 4 4 [0, 0, 0, 0, 1, 0, 0, 0, 2, 0, 0, 0, 3, 0, 0, 0]
        { frameModeSamples := some 4 }).ReadMinibatch
      = .ok ({ m_atEndOfEpoch := false,
               m_minibatch := [{ m_data := 0, m_dataSize := 16,
                                 m_layout := { frameModeSamples := some 4 } }] },
             packerOfTen 8 8 [4, 0, 0, 0, 5, 0, 0, 0, 6, 0, 0, 0, 7, 0, 0, 0]
               { frameModeSamples := some 4 }) := by
  simp [FrameModePacker.ReadMinibatch, FrameModePacker.ReadMinibatch.pack,
    FrameModePacker.ReadMinibatch.sequences, FrameModePacker.ReadMinibatch.streams,
    FrameModePacker.ReadMinibatch.body, FrameModePacker.ReadMinibatch.dense,
    FrameModePacker.ReadMinibatch.wrap, stdCopy, stdCopy.loop, MBLayout.InitAsFrameMode,
    NoRandomizer.GetNextSequences, NoRandomizer.GetNextSequences.loop,
    NoRandomizer.AdvanceToNextPositionForThisWorker, packerOfTen, denseDeserializer,
    denseStream, timelineOfTen, validDescription, SIZE_MAX, INT_MAX, toSizeT,
    Timeline.elementAt, DataDeserializer.GetSequenceDescriptions, GetSizeByType,
    TensorShape.GetNumElements]

theorem packerOfTen_read_third :
    (packerOfTen 8 8 [4, 0, 0, 0, 5, 0, 0, 0, 6, 0, 0, 0, 7, 0, 0, 0]
        { frameModeSamples := some 4 }).ReadMinibatch
      = .ok ({ m_atEndOfEpoch := true,
               m_minibatch := [{ m_data := 0, m_dataSize := 8,
                                 m_layout := { frameModeSamples := some 2 } }] },
             packerOfTen 10 10 [8, 0, 0, 0, 9, 0, 0, 0, 6, 0, 0, 0, 7, 0, 0, 0]
               { frameModeSamples := some 2 }) := by
  simp [FrameModePacker.ReadMinibatch, FrameModePacker.ReadMinibatch.pack,
    FrameModePacker.ReadMinibatch.sequences, FrameModePacker.ReadMinibatch.streams,
    FrameModePacker.ReadMinibatch.body, FrameModePacker.ReadMinibatch.dense,
    FrameModePacker.ReadMinibatch.wrap, stdCopy, stdCopy.loop, MBLayout.InitAsFrameMode,
    NoRandomizer.GetNextSequences, NoRandomizer.GetNextSequences.loop,
    NoRandomizer.AdvanceToNextPositionForThisWorker, packerOfTen, denseDeserializer,
    denseStream, timelineOfTen, validDescription, SIZE_MAX, INT_MAX, toSizeT,
    Timeline.elementAt, DataDeserializer.GetSequenceDescriptions, GetSizeByType,
    TensorShape.GetNumElements]

/-- Claim C5 fails on the code at N = 10, M = 4.  After construction and `StartEpoch` the
member `m_sequencePositionInSweep` still holds its initial value `SIZE_MAX`, because
`StartEpoch` does not set it, so the first `ReadMinibatch` indexes the timeline out of range:
its behaviour is undefined.  Had the sweep position been 0, three calls would return 4, 4 and 2
samples with the end-of-epoch flags false, false, true, as the claim says. -/
theorem C5_first_ReadMinibatch_out_of_range :
    (match endToEnd timelineOfTen 4 { fullSweepOf 1 0 with m_minibatchSizeInSamples := 4 } with
      | .ok packer => packer.ReadMinibatch
      | .error e => .error e) = .error .undefined ∧
    Except.map (List.map Minibatch.summary)
        ((packerOfTen 0 0 (List.replicate 16 0) { frameModeSamples := none }).ReadMinibatches 3)
      = .ok [([(16, some 4)], false), ([(16, some 4)], false), ([(8, some 2)], true)] := by
  constructor
  · rw [endToEnd_ten]
    exact packerOfTen_read_undefined
  · simp only [FrameModePacker.ReadMinibatches, packerOfTen_read_first,
      packerOfTen_read_second, packerOfTen_read_third]
    rfl

theorem FrameModePacker.ReadMinibatch.pack_ok {self self1 : FrameModePacker}
    {sequences : Sequences} {m : Minibatch}
    (h : FrameModePacker.ReadMinibatch.pack self sequences = .ok (m, self1)) :
    FrameModePacker.ReadMinibatch.sequences self.m_inputStreams 0 sequences.m_data
      self.m_streamBuffers = .ok self1.m_streamBuffers := by
  unfold FrameModePacker.ReadMinibatch.pack at h
  cases hs : FrameModePacker.ReadMinibatch.sequences self.m_inputStreams 0 sequences.m_data
      self.m_streamBuffers with
  | error e => rw [hs] at h; cases h
  | ok buffers =>
    rw [hs] at h
    simp only at h
    by_cases hz : sequences.m_data.length = 0
    · rw [if_pos hz] at h
      cases h
      rfl
    · rw [if_neg hz] at h
      cases hw : FrameModePacker.ReadMinibatch.wrap buffers.length sequences.m_data.length
          (self.m_minibatchLayout.InitAsFrameMode sequences.m_data.length) 0
          self.m_outputStreams with
      | error e => rw [hw] at h; cases h
      | ok wrapped =>
        rw [hw] at h
        cases h
        rfl

theorem FrameModePacker.ReadMinibatch_ok {self self1 : FrameModePacker} {m : Minibatch}
    (h : self.ReadMinibatch = .ok (m, self1)) :
    0 < self.m_mbSize ∧
    ∃ received, self.m_transformer.GetNextSequences self.m_mbSize = .ok received ∧
      FrameModePacker.ReadMinibatch.pack { self with m_transformer := received.self }
        received.sequences = .ok (m, self1) := by
  unfold FrameModePacker.ReadMinibatch at h
  by_cases hm : 0 < self.m_mbSize
  · rw [if_pos hm] at h
    cases hr : self.m_transformer.GetNextSequences self.m_mbSize with
    | error e => rw [hr] at h; cases h
    | ok received =>
      rw [hr] at h
      exact ⟨hm, received, rfl, h⟩
  · rw [if_neg hm] at h
    cases h

/-- Claim C6: for every completed `ReadMinibatch` call that receives `n` sequences, every
dense stream `j` with sample byte size `S` (whose buffer is an object in memory, of at most
`SIZE_MAX` bytes) and every batch position `i < n`: after the call the bytes
`[i*S, (i+1)*S)` of stream buffer `j` are the `S` payload bytes of sequence `i` for stream `j`,
in order, and every byte of buffer `j` at an offset `≥ n*S` is as before the call. -/
theorem C6_dense_pack_round_trip (self self1 : FrameModePacker)
    (received : GetNextSequencesResult) (m : Minibatch)
    (j : Nat) (stream : StreamDescription) (buffer : List Byte)
    (hreceived : self.m_transformer.GetNextSequences self.m_mbSize = .ok received)
    (hread : self.ReadMinibatch = .ok (m, self1))
    (hstream : self.m_inputStreams[j]? = some stream)
    (hdense : stream.m_storageType = StorageType.dense)
    (hbuffer : self.m_streamBuffers[j]? = some buffer)
    (hmemory : buffer.length ≤ SIZE_MAX) :
    ∃ buffer1, self1.m_streamBuffers[j]? = some buffer1 ∧
      buffer1.length = buffer.length ∧
      (∀ i, i < received.sequences.m_data.length →
        ∃ row data, received.sequences.m_data[i]? = some row ∧ row[j]? = some data ∧
          toSizeT (stream.m_sampleLayout.GetNumElements * GetSizeByType stream.m_elementType)
            ≤ data.m_data.length ∧
          (buffer1.drop (i * toSizeT (stream.m_sampleLayout.GetNumElements
              * GetSizeByType stream.m_elementType))).take
              (toSizeT (stream.m_sampleLayout.GetNumElements
                * GetSizeByType stream.m_elementType))
            = data.m_data.take (toSizeT (stream.m_sampleLayout.GetNumElements
                * GetSizeByType stream.m_elementType))) ∧
      (∀ off, received.sequences.m_data.length
          * toSizeT (stream.m_sampleLayout.GetNumElements * GetSizeByType stream.m_elementType)
          ≤ off → buffer1[off]? = buffer[off]?) := by
  obtain ⟨_, received', hr, hpack⟩ := FrameModePacker.ReadMinibatch_ok hread
  rw [hreceived] at hr
  cases hr
  have hseq := FrameModePacker.ReadMinibatch.pack_ok hpack
  simp only at hseq
  generalize hS : toSizeT (stream.m_sampleLayout.GetNumElements
    * GetSizeByType stream.m_elementType) = S
  obtain ⟨b1, g1, g2, g3, g4⟩ := FrameModePacker.ReadMinibatch.sequences_dense
    self.m_inputStreams j stream S hstream hdense hS.symm received.sequences.m_data 0 _ _ buffer
    hseq hbuffer hmemory (by simp)
  refine ⟨b1, g1, g2, ?_, ?_⟩
  · intro i hi
    obtain ⟨row, data, e1, e2, _, e4, e5⟩ := g3 i hi
    rw [Nat.zero_add] at e4 e5
    refine ⟨row, data, e1, e2, ?_, ?_⟩
    · by_cases hpos : 0 < S
      · exact (e4 hpos).2
      · omega
    · apply List.ext_getElem?
      intro k
      rw [List.getElem?_take, List.getElem?_take, List.getElem?_drop]
      by_cases hk : k < S
      · rw [if_pos hk, if_pos hk, Nat.mul_comm i S]
        exact e5 k hk
      · rw [if_neg hk, if_neg hk]
  · intro off hoff
    apply g4
    right
    rw [Nat.zero_add, Nat.mul_comm]
    exact hoff

theorem packerOfTen_received_last :
    (packerOfTen 9 9 (List.replicate 16 255) { frameModeSamples := none }).m_transformer.GetNextSequences
        (packerOfTen 9 9 (List.replicate 16 255) { frameModeSamples := none }).m_mbSize
      = .ok lastOfTen := by
  simp [NoRandomizer.GetNextSequences, NoRandomizer.GetNextSequences.loop,
    NoRandomizer.AdvanceToNextPositionForThisWorker, packerOfTen, lastOfTen, denseDeserializer,
    timelineOfTen, validDescription, SIZE_MAX, toSizeT,
    Timeline.elementAt, DataDeserializer.GetSequenceDescriptions]

theorem packerOfTen_read_last :
    (packerOfTen 9 9 (List.replicate 16 255) { frameModeSamples := none }).ReadMinibatch
      = .ok ({ m_atEndOfEpoch := true,
               m_minibatch := [{ m_data := 0, m_dataSize := 4,
                                 m_layout := { frameModeSamples := some 1 } }] },
             packerOfTen 10 10
               [9, 0, 0, 0, 255, 255, 255, 255, 255, 255, 255, 255, 255, 255, 255, 255]
               { frameModeSamples := some 1 }) := by
  simp [FrameModePacker.ReadMinibatch, FrameModePacker.ReadMinibatch.pack,
    FrameModePacker.ReadMinibatch.sequences, FrameModePacker.ReadMinibatch.streams,
    FrameModePacker.ReadMinibatch.body, FrameModePacker.ReadMinibatch.dense,
    FrameModePacker.ReadMinibatch.wrap, stdCopy, stdCopy.loop, MBLayout.InitAsFrameMode,
    NoRandomizer.GetNextSequences, NoRandomizer.GetNextSequences.loop,
    NoRandomizer.AdvanceToNextPositionForThisWorker, packerOfTen, denseDeserializer,
    denseStream, timelineOfTen, validDescription, SIZE_MAX, INT_MAX, toSizeT,
    Timeline.elementAt, DataDeserializer.GetSequenceDescriptions, GetSizeByType,
    TensorShape.GetNumElements]

/-- Claim C6 at a packer of capacity 4 over ten single-sample sequences whose scheduler stands
at the last sequence: the call receives one sequence, the first four bytes of the buffer are
its sample, and the bytes from offset 4 on are as before. -/
theorem C6_dense_pack_round_trip_witness :
    ∃ buffer1,
      (packerOfTen 10 10
        [9, 0, 0, 0, 255, 255, 255, 255, 255, 255, 255, 255, 255, 255, 255, 255]
        { frameModeSamples := some 1 }).m_streamBuffers[0]? = some buffer1 ∧
      buffer1.length = (List.replicate 16 (255 : Byte)).length ∧
      (∀ i, i < lastOfTen.sequences.m_data.length →
        ∃ row data, lastOfTen.sequences.m_data[i]? = some row ∧ row[0]? = some data ∧
          toSizeT (denseStream.m_sampleLayout.GetNumElements
            * GetSizeByType denseStream.m_elementType) ≤ data.m_data.length ∧
          (buffer1.drop (i * toSizeT (denseStream.m_sampleLayout.GetNumElements
              * GetSizeByType denseStream.m_elementType))).take
              (toSizeT (denseStream.m_sampleLayout.GetNumElements
                * GetSizeByType denseStream.m_elementType))
            = data.m_data.take (toSizeT (denseStream.m_sampleLayout.GetNumElements
                * GetSizeByType denseStream.m_elementType))) ∧
      (∀ off, lastOfTen.sequences.m_data.length
          * toSizeT (denseStream.m_sampleLayout.GetNumElements
            * GetSizeByType denseStream.m_elementType)
          ≤ off → buffer1[off]? = (List.replicate 16 (255 : Byte))[off]?) :=
  C6_dense_pack_round_trip
    (packerOfTen 9 9 (List.replicate 16 255) { frameModeSamples := none }) _ lastOfTen _
    0 denseStream (List.replicate 16 255) packerOfTen_received_last packerOfTen_read_last
    rfl rfl rfl (by decide)

/-- Claim C7: for every `sparse_csc` stream with `D` elements per sample of element byte size
`E`, and every sparse sample whose row indices are pairwise distinct and all `< D`, with one
value of `E` bytes per index, packing it into batch slot `i` (a slot that lies in the buffer;
buffer and values are objects in memory, of at most `SIZE_MAX` bytes) completes and leaves
slot `i` such that row `r_m` holds the bytes of `v_m` for every `m`, and every other row of
the slot is all zero bytes. -/
theorem C7_sparse_pack_correct (stream : StreamDescription) (source : List Byte)
    (rowIndices : List Nat) (i : Nat) (buffer : List Byte)
    (hsparse : stream.m_storageType = StorageType.sparse_csc)
    (hdistinct : rowIndices.Nodup)
    (hrange : ∀ r ∈ rowIndices, r < stream.m_sampleLayout.GetNumElements)
    (hvalues : source.length = rowIndices.length * GetSizeByType stream.m_elementType)
    (hsource : source.length ≤ SIZE_MAX)
    (hslot : (i + 1) * (stream.m_sampleLayout.GetNumElements
      * GetSizeByType stream.m_elementType) ≤ buffer.length)
    (hmemory : buffer.length ≤ SIZE_MAX) :
    ∃ buffer1,
      FrameModePacker.ReadMinibatch.body stream (SequenceData.sparse source [rowIndices]) i
        buffer = .ok buffer1 ∧
      (∀ m r, rowIndices[m]? = some r →
        (buffer1.drop (i * (stream.m_sampleLayout.GetNumElements
            * GetSizeByType stream.m_elementType)
            + r * GetSizeByType stream.m_elementType)).take
            (GetSizeByType stream.m_elementType)
          = (source.drop (m * GetSizeByType stream.m_elementType)).take
            (GetSizeByType stream.m_elementType)) ∧
      (∀ row, row < stream.m_sampleLayout.GetNumElements → row ∉ rowIndices →
        (buffer1.drop (i * (stream.m_sampleLayout.GetNumElements
            * GetSizeByType stream.m_elementType)
            + row * GetSizeByType stream.m_elementType)).take
            (GetSizeByType stream.m_elementType)
          = List.replicate (GetSizeByType stream.m_elementType) 0) := by
  generalize hD : stream.m_sampleLayout.GetNumElements = D at *
  generalize hE : GetSizeByType stream.m_elementType = E at *
  have hsucc : (i + 1) * (D * E) = i * (D * E) + D * E := Nat.succ_mul i (D * E)
  have hcomm : D * E * i = i * (D * E) := Nat.mul_comm _ _
  have hw : toSizeT (D * E) = D * E :=
    toSizeT_of_lt (by unfold SIZE_MAX at hmemory; omega)
  obtain ⟨filled, _, f2, f3, f4, f5⟩ := FrameModePacker.ReadMinibatch.sparse_eq source
    rowIndices E D (D * E) i buffer rfl hslot hmemory
  obtain ⟨b1, hb1⟩ := FrameModePacker.ReadMinibatch.nonZeros_ok source E D (D * E) i rfl
    rowIndices 0 filled hrange (by rw [Nat.zero_add, hvalues]) hsource
    (by rw [f2, hcomm]; omega) (by rw [f2]; exact hmemory)
  obtain ⟨_, _, n3, n4⟩ := FrameModePacker.ReadMinibatch.nonZeros_spec source E D (D * E) i rfl
    rowIndices 0 filled b1 hb1 hrange (by rw [Nat.zero_add, ← hvalues]; exact hsource)
    (by rw [f2, hcomm]; omega) (by rw [f2]; exact hmemory)
  rw [hcomm] at n3 n4
  refine ⟨b1, ?_, ?_, ?_⟩
  · simp only [FrameModePacker.ReadMinibatch.body, hsparse, hD, hE, hw]
    rw [f5]
    exact hb1
  · intro m r hm
    apply List.ext_getElem?
    intro k
    rw [List.getElem?_take, List.getElem?_take, List.getElem?_drop, List.getElem?_drop]
    by_cases hk : k < E
    · rw [if_pos hk, if_pos hk]
      have := n4 hdistinct m r hm k hk
      rw [Nat.zero_add] at this
      exact this
    · rw [if_neg hk, if_neg hk]
  · intro row hrow hnot
    apply List.ext_getElem?
    intro k
    rw [List.getElem?_take, List.getElem?_drop, List.getElem?_replicate]
    by_cases hk : k < E
    · rw [if_pos hk, if_pos hk, n3 row hrow hnot k hk]
      have hrE := @FrameModePacker.row_interval E _ _ hrow
      exact f3 _ (by omega) (by omega)
    · rw [if_neg hk, if_neg hk]

/-- Claim C7 at its witness: row indices 0 and 3, values `1, 2, 3, 4` and `5, 6, 7, 8`, five
single-precision elements per sample, packed into slot 1 of a buffer of two slots filled with
the byte 255: row 0 holds the first value, row 3 the second, rows 1, 2 and 4 are zero. -/
theorem C7_sparse_pack_correct_witness :
    ∃ buffer1,
      FrameModePacker.ReadMinibatch.body sparseStream sparseSample 1 (List.replicate 40 255)
        = .ok buffer1 ∧
      (buffer1.drop (1 * (5 * 4) + 0 * 4)).take 4 = [1, 2, 3, 4] ∧
      (buffer1.drop (1 * (5 * 4) + 3 * 4)).take 4 = [5, 6, 7, 8] ∧
      (buffer1.drop (1 * (5 * 4) + 1 * 4)).take 4 = [0, 0, 0, 0] ∧
      (buffer1.drop (1 * (5 * 4) + 2 * 4)).take 4 = [0, 0, 0, 0] ∧
      (buffer1.drop (1 * (5 * 4) + 4 * 4)).take 4 = [0, 0, 0, 0] := by
  obtain ⟨buffer1, h1, h2, h3⟩ := C7_sparse_pack_correct sparseStream [1, 2, 3, 4, 5, 6, 7, 8]
    [0, 3] 1 (List.replicate 40 255) rfl (by decide) (by decide) (by decide) (by decide)
    (by decide) (by decide)
  exact ⟨buffer1, h1, h2 0 0 rfl, h2 1 3 rfl, h3 1 (by decide) (by decide),
    h3 2 (by decide) (by decide), h3 4 (by decide) (by decide)⟩

/-- Claim C8, as stated, fails: the sparse sample with the single row index 5, packed into slot
0 of a stream with five single-precision elements per sample (slot 0 is the bytes `[0, 20)`),
changes byte 20 of the buffer, which lies in slot 1. -/
theorem C8_counterexample :
    ∃ buffer1,
      FrameModePacker.ReadMinibatch.body sparseStream sparseSampleOutOfRange 0
        (List.replicate 40 255) = .ok buffer1 ∧
      (List.replicate 40 (255 : Byte))[20]? = some 255 ∧ buffer1[20]? = some 1 :=
  ⟨_, rfl, rfl, rfl⟩

/-- Claim C8, amended: for every sparse sample whose row indices all lie below the number `D`
of elements per sample, one value of `E` bytes per index fitting in memory, packed into a batch
slot `i` that lies in the buffer of a `sparse_csc` stream with sample byte size `S = D*E`, the
only bytes of the stream buffer that a completed pack modified lie inside the destination slot
`[i*S, (i+1)*S)`. -/
theorem C8_sparse_writes_stay_in_slot (stream : StreamDescription) (source : List Byte)
    (rowIndices : List Nat) (i : Nat) (buffer buffer1 : List Byte)
    (hsparse : stream.m_storageType = StorageType.sparse_csc)
    (hrange : ∀ r ∈ rowIndices, r < stream.m_sampleLayout.GetNumElements)
    (hvalues : rowIndices.length * GetSizeByType stream.m_elementType ≤ SIZE_MAX)
    (hslot : (i + 1) * (stream.m_sampleLayout.GetNumElements
      * GetSizeByType stream.m_elementType) ≤ buffer.length)
    (hmemory : buffer.length ≤ SIZE_MAX)
    (hpack : FrameModePacker.ReadMinibatch.body stream (SequenceData.sparse source [rowIndices])
      i buffer = .ok buffer1) :
    buffer1.length = buffer.length ∧
    ∀ off, off < i * (stream.m_sampleLayout.GetNumElements
          * GetSizeByType stream.m_elementType) ∨
        (i + 1) * (stream.m_sampleLayout.GetNumElements
          * GetSizeByType stream.m_elementType) ≤ off →
      buffer1[off]? = buffer[off]? := by
  generalize hD : stream.m_sampleLayout.GetNumElements = D at *
  generalize hE : GetSizeByType stream.m_elementType = E at *
  have hsucc : (i + 1) * (D * E) = i * (D * E) + D * E := Nat.succ_mul i (D * E)
  have hcomm : D * E * i = i * (D * E) := Nat.mul_comm _ _
  have hw : toSizeT (D * E) = D * E :=
    toSizeT_of_lt (by unfold SIZE_MAX at hmemory; omega)
  obtain ⟨filled, _, f2, _, f4, f5⟩ := FrameModePacker.ReadMinibatch.sparse_eq source
    rowIndices E D (D * E) i buffer rfl hslot hmemory
  simp only [FrameModePacker.ReadMinibatch.body, hsparse, hD, hE, hw] at hpack
  rw [f5] at hpack
  obtain ⟨n1, n2, _, _⟩ := FrameModePacker.ReadMinibatch.nonZeros_spec source E D (D * E) i rfl
    rowIndices 0 filled buffer1 hpack hrange (by rw [Nat.zero_add]; exact hvalues)
    (by rw [f2, hcomm]; omega) (by rw [f2]; exact hmemory)
  rw [hcomm] at n2
  refine ⟨by rw [n1, f2], ?_⟩
  intro off hoff
  rw [n2 off (by omega), f4 off (by omega)]

/-- Claim C8, amended, at the sample with row indices 0 and 3 packed into slot 1 of a buffer
of two slots: the pack completes and slot 0 is as before. -/
theorem C8_sparse_writes_stay_in_slot_witness :
    ∃ buffer1,
      FrameModePacker.ReadMinibatch.body sparseStream sparseSample 1 (List.replicate 40 255)
        = .ok buffer1 ∧
      buffer1.length = 40 ∧
      ∀ off, off < 20 ∨ 40 ≤ off → buffer1[off]? = (List.replicate 40 (255 : Byte))[off]? :=
  ⟨_, rfl, C8_sparse_writes_stay_in_slot sparseStream [1, 2, 3, 4, 5, 6, 7, 8] [0, 3] 1
    (List.replicate 40 255) _ rfl (by decide) (by decide) (by decide) (by decide) rfl⟩

/-! ## Claims about `StartEpoch` and the boundary cases of `GetNextSequences` -/

theorem Timeline.sum_of_one_sample (timeline : Timeline)
    (hone : ∀ d ∈ timeline, d.m_numberOfSamples = 1) :
    (timeline.map (fun d => d.m_numberOfSamples)).sum = timeline.length := by
  induction timeline with
  | nil => rfl
  | cons d rest ih =>
    have h1 : d.m_numberOfSamples = 1 := hone d (List.mem_cons_self _ _)
    have h2 := ih (fun e he => hone e (List.mem_cons_of_mem _ he))
    simp only [List.map_cons, List.sum_cons, List.length_cons, h1, h2]
    omega

theorem NoRandomizer.FromConstructor.numSamples {s : NoRandomizer} (h : s.FromConstructor) :
    s.m_numSamples = (NoRandomizer.countSamples s.m_deserializer.m_sequences (0, 0)).2 := by
  obtain ⟨a, b, c, hnew, _, _, hsamples, _⟩ := h
  obtain ⟨_, back, _, _, _, _, hc, _⟩ := NoRandomizer.new_ok hnew
  rw [hsamples, hc]

theorem NoRandomizer.GetNextSequences_exhausted {s : NoRandomizer} {count : Nat}
    (hexhausted : s.m_epochSize ≤ s.m_samplePositionInEpoch)
    (hstarted : s.m_samplePositionInEpoch ≠ SIZE_MAX) (hcount : 0 < count) :
    s.GetNextSequences count = .ok
      { ids := [], requests := [],
        sequences := { m_endOfEpoch := true, m_data := [] }, self := s } := by
  have hloop : NoRandomizer.GetNextSequences.loop count s [] false = .ok ([], true, s) :=
    NoRandomizer.loop_end (by simpa using hcount)
      (NoRandomizer.advance_done (by omega))
  unfold NoRandomizer.GetNextSequences
  rw [if_pos hstarted, hloop]
  rfl

theorem NoRandomizer.GetNextSequences_unstarted {s : NoRandomizer} (count : Nat)
    (h : s.m_samplePositionInEpoch = SIZE_MAX) :
    s.GetNextSequences count = .error .assertion := by
  unfold NoRandomizer.GetNextSequences
  rw [if_neg (by simp [h])]

theorem NoRandomizer.new_invalid {deserializer : DataDeserializer} (a b : Nat)
    (h : TimelineIsValidForRandomization deserializer.m_sequences = false) :
    NoRandomizer.new deserializer a b = .error .assertion := by
  unfold NoRandomizer.new
  simp only [DataDeserializer.GetSequenceDescriptions, h]
  rfl

theorem startedOfFive_from_start :
    (startedOfFive 1 0 0 0).GetNextSequences 2 = .ok
      { ids := [0, 1], requests := [[0, 1]],
        sequences := { m_endOfEpoch := false, m_data := [[], []] },
        self := startedOfFive 1 0 2 2 } := by
  simp [NoRandomizer.GetNextSequences, NoRandomizer.GetNextSequences.loop,
    NoRandomizer.AdvanceToNextPositionForThisWorker, startedOfFive, schedulerOfFive,
    exampleDeserializer, timelineOfFive, validDescription, SIZE_MAX, toSizeT,
    Timeline.elementAt, DataDeserializer.GetSequenceDescriptions]

theorem startedOfFive_from_three :
    (startedOfFive 1 0 0 3).GetNextSequences 2 = .ok
      { ids := [3, 4], requests := [[3, 4]],
        sequences := { m_endOfEpoch := false, m_data := [[], []] },
        self := startedOfFive 1 0 2 5 } := by
  simp [NoRandomizer.GetNextSequences, NoRandomizer.GetNextSequences.loop,
    NoRandomizer.AdvanceToNextPositionForThisWorker, startedOfFive, schedulerOfFive,
    exampleDeserializer, timelineOfFive, validDescription, SIZE_MAX, toSizeT,
    Timeline.elementAt, DataDeserializer.GetSequenceDescriptions]

theorem startedOfFive_restart (W r samplePosition sequencePosition : Nat) :
    (startedOfFive W r samplePosition sequencePosition).StartEpoch exampleRequestDataSize
        (fullSweepOf 1 0)
      = .ok (startedOfFive 1 0 0 sequencePosition) := by
  simp [NoRandomizer.StartEpoch, schedulerOfFive, fullSweepOf, startedOfFive, toSizeT, SIZE_MAX]

theorem startedOfFive_fromConstructor (W r samplePosition sequencePosition : Nat) :
    (startedOfFive W r samplePosition sequencePosition).FromConstructor :=
  ⟨0, 0, _, rfl, rfl, rfl, rfl, rfl⟩

/-- Claim C11: for every scheduler over a timeline that the constructor accepted and every
configuration for which `StartEpoch(config)` completes, `m_epochSize` afterwards is the sample
total that the constructor computed (the `size_t` sum of `m_numberOfSamples` over the timeline,
kept in `m_numSamples`; for a vector of fewer than `SIZE_MAX` descriptors it is the plain sum)
when `config.m_totalEpochSizeInSamples` is `requestDataSize`, and is
`config.m_totalEpochSizeInSamples` itself for every other value. -/
theorem C11_StartEpoch_resolves_epoch_size (requestDataSize : Nat) (s0 s : NoRandomizer)
    (config : EpochConfiguration) (hctor : s0.FromConstructor)
    (hstart : s0.StartEpoch requestDataSize config = .ok s) :
    (config.m_totalEpochSizeInSamples = requestDataSize →
      s.m_epochSize = s0.m_numSamples ∧
      s.m_epochSize = (NoRandomizer.countSamples s0.m_deserializer.m_sequences (0, 0)).2 ∧
      (s0.m_deserializer.m_sequences.length < SIZE_MAX →
        s.m_epochSize
          = (s0.m_deserializer.m_sequences.map (fun d => d.m_numberOfSamples)).sum)) ∧
    (config.m_totalEpochSizeInSamples ≠ requestDataSize →
      s.m_epochSize = config.m_totalEpochSizeInSamples) := by
  obtain ⟨hframe, hs⟩ := NoRandomizer.StartEpoch_ok hstart
  subst hs
  refine ⟨fun heq => ?_, fun hne => ?_⟩
  · have he : (s0.started config (if config.m_totalEpochSizeInSamples = requestDataSize
        then s0.m_numSamples else config.m_totalEpochSizeInSamples)).m_epochSize
        = s0.m_numSamples := by
      simp [NoRandomizer.started, heq]
    refine ⟨he, ?_, fun hsize => ?_⟩
    · rw [he]
      exact hctor.numSamples
    · rw [he]
      have hone := hctor.one_sample hframe
      rw [(hctor.frame hsize hone).2.2.1, Timeline.sum_of_one_sample _ hone]
  · simp [NoRandomizer.started, hne]

/-- Claim C11 at the scheduler over five single-sample sequences: with the sentinel the epoch
size becomes 5, the sum of the sample counts; with the value 3 it becomes 3. -/
theorem C11_StartEpoch_resolves_epoch_size_witness :
    ((fullSweepOf 2 1).m_totalEpochSizeInSamples = exampleRequestDataSize →
      (startedOfFive 2 1 0 0).m_epochSize = schedulerOfFive.m_numSamples ∧
      (startedOfFive 2 1 0 0).m_epochSize
        = (NoRandomizer.countSamples schedulerOfFive.m_deserializer.m_sequences (0, 0)).2 ∧
      (schedulerOfFive.m_deserializer.m_sequences.length < SIZE_MAX →
        (startedOfFive 2 1 0 0).m_epochSize
          = (schedulerOfFive.m_deserializer.m_sequences.map
              (fun d => d.m_numberOfSamples)).sum)) ∧
    ((fullSweepOf 2 1).m_totalEpochSizeInSamples ≠ exampleRequestDataSize →
      (startedOfFive 2 1 0 0).m_epochSize = (fullSweepOf 2 1).m_totalEpochSizeInSamples) :=
  C11_StartEpoch_resolves_epoch_size exampleRequestDataSize schedulerOfFive
    (startedOfFive 2 1 0 0) (fullSweepOf 2 1) schedulerOfFive_fromConstructor
    (startedOfFive_StartEpoch 2 1)

/-- Claim C12: for every prior scheduler state and every configuration for which
`StartEpoch(config)` completes, afterwards `m_workerRank = config.m_workerRank`,
`m_numberOfWorkers = config.m_numberOfWorkers` and `m_samplePositionInEpoch = 0`. -/
theorem C12_StartEpoch_copies_worker_and_resets (requestDataSize : Nat) (s0 s : NoRandomizer)
    (config : EpochConfiguration) (hstart : s0.StartEpoch requestDataSize config = .ok s) :
    s.m_workerRank = config.m_workerRank ∧
    s.m_numberOfWorkers = config.m_numberOfWorkers ∧
    s.m_samplePositionInEpoch = 0 := by
  obtain ⟨_, hs⟩ := NoRandomizer.StartEpoch_ok hstart
  subst hs
  exact ⟨rfl, rfl, rfl⟩

/-- Claim C12 at a scheduler that stood at position 3 as worker 1 of 2: after
`StartEpoch` for worker 0 of 1 the rank is 0, the worker count 1 and the sample position 0. -/
theorem C12_StartEpoch_copies_worker_and_resets_witness :
    (startedOfFive 1 0 0 3).m_workerRank = (fullSweepOf 1 0).m_workerRank ∧
    (startedOfFive 1 0 0 3).m_numberOfWorkers = (fullSweepOf 1 0).m_numberOfWorkers ∧
    (startedOfFive 1 0 0 3).m_samplePositionInEpoch = 0 :=
  C12_StartEpoch_copies_worker_and_resets exampleRequestDataSize (startedOfFive 2 1 3 3)
    (startedOfFive 1 0 0 3) (fullSweepOf 1 0) (startedOfFive_restart 2 1 3 3)

/-- Claim C13 fails on the code: `StartEpoch` writes `m_samplePositionInEpoch` but never
`m_sequencePositionInSweep`.  Two schedulers over the same five sequences that differ only in
the position reached, (0, 0) and (3, 3), are left by `StartEpoch` with the same configuration in
states that differ in the sweep position (0 and 3), and the following `GetNextSequences(2)`
returns the ids 0, 1 from the one and 3, 4 from the other. -/
theorem C13_StartEpoch_keeps_sweep_position :
    startedOfFive 1 0 3 3 = (startedOfFive 1 0 0 0).withPosition 3 3 ∧
    (startedOfFive 1 0 0 0).StartEpoch exampleRequestDataSize (fullSweepOf 1 0)
      = .ok (startedOfFive 1 0 0 0) ∧
    (startedOfFive 1 0 3 3).StartEpoch exampleRequestDataSize (fullSweepOf 1 0)
      = .ok (startedOfFive 1 0 0 3) ∧
    (startedOfFive 1 0 0 0).m_sequencePositionInSweep = 0 ∧
    (startedOfFive 1 0 0 3).m_sequencePositionInSweep = 3 ∧
    ((startedOfFive 1 0 0 0).GetNextSequences 2).map (fun r => r.ids) = .ok [0, 1] ∧
    ((startedOfFive 1 0 0 3).GetNextSequences 2).map (fun r => r.ids) = .ok [3, 4] := by
  refine ⟨rfl, startedOfFive_restart 1 0 0 0, startedOfFive_restart 1 0 3 3, rfl, rfl, ?_, ?_⟩
  · rw [startedOfFive_from_start]
    rfl
  · rw [startedOfFive_from_three]
    rfl

/-- Claim C14: for every state and every count for which `GetNextSequences(count)` completes,
at most `count` ids are returned, the returned `endOfEpoch` flag is true exactly when fewer than
`count` ids are returned, a true flag comes with `m_samplePositionInEpoch >= m_epochSize`
afterwards, and a call with count 0 returns no ids and the flag false. -/
theorem C14_batch_size_and_flag (s : NoRandomizer) (count : Nat) (r : GetNextSequencesResult)
    (hcall : s.GetNextSequences count = .ok r) :
    r.ids.length ≤ count ∧
    (r.sequences.m_endOfEpoch = true ↔ r.ids.length < count) ∧
    (r.sequences.m_endOfEpoch = true → r.self.m_epochSize ≤ r.self.m_samplePositionInEpoch) ∧
    (count = 0 → r.ids = [] ∧ r.sequences.m_endOfEpoch = false) := by
  obtain ⟨e1, _, _, _, _, e6, e7⟩ := NoRandomizer.GetNextSequences_spec hcall
  have hsize : r.self.m_epochSize = s.m_epochSize := by
    rw [e1]
    rfl
  rcases Nat.eq_zero_or_pos count with hc | hc
  · obtain ⟨hids, hflag, _⟩ := e6 hc
    refine ⟨by simp [hids], ?_, ?_, fun _ => ⟨hids, hflag⟩⟩
    · simp [hflag, hids, hc]
    · simp [hflag]
  · rcases e7 hc with ⟨hflag, hpos, hlt⟩ | ⟨hflag, hlen, _⟩
    · refine ⟨le_of_lt hlt, ?_, fun _ => ?_, fun h0 => absurd h0 (by omega)⟩
      · simp [hflag, hlt]
      · rw [hsize]
        exact hpos
    · refine ⟨le_of_eq hlen, ?_, ?_, fun h0 => absurd h0 (by omega)⟩
      · simp [hflag, hlen]
      · simp [hflag]

/-- Claim C14 at worker 1 of 2 over five sequences standing at position 3: the call for two
ids returns one id, fewer than two, with the flag true and the sample position 5 at the epoch
size 5. -/
theorem C14_batch_size_and_flag_witness :
    [3].length ≤ 2 ∧
    (true = true ↔ [3].length < 2) ∧
    (true = true → (startedOfFive 2 1 5 5).m_epochSize
      ≤ (startedOfFive 2 1 5 5).m_samplePositionInEpoch) ∧
    (2 = 0 → [3] = [] ∧ true = false) :=
  C14_batch_size_and_flag (startedOfFive 2 1 3 3) 2 _ startedOfFive_second_call

/-- Claim C15: in every state with `m_samplePositionInEpoch >= m_epochSize` and
`m_samplePositionInEpoch != SIZE_MAX`, `GetNextSequences(count)` with `count > 0` completes with
no ids, no call to `GetSequencesById`, an empty sequence list, `endOfEpoch = true` and the
scheduler exactly as before; so any number of repetitions gives the same result. -/
theorem C15_exhausted_epoch (s : NoRandomizer) (count : Nat)
    (hexhausted : s.m_epochSize ≤ s.m_samplePositionInEpoch)
    (hstarted : s.m_samplePositionInEpoch ≠ SIZE_MAX) (hcount : 0 < count) :
    s.GetNextSequences count = .ok
      { ids := [], requests := [],
        sequences := { m_endOfEpoch := true, m_data := [] }, self := s } ∧
    ∀ n, s.GetNextSequencesRepeatedly (List.replicate n count) = .ok
      (List.replicate n
        { ids := [], requests := [],
          sequences := { m_endOfEpoch := true, m_data := [] }, self := s }) := by
  have hcall := @NoRandomizer.GetNextSequences_exhausted s count hexhausted hstarted hcount
  refine ⟨hcall, fun n => ?_⟩
  induction n with
  | zero => rfl
  | succ n ih =>
    simp only [List.replicate_succ, NoRandomizer.GetNextSequencesRepeatedly, hcall, ih]

/-- Claim C15 at worker 1 of 2 over five sequences after its epoch ended at position 5: a call
for two ids is answered with the empty result and the same scheduler, three times in a row. -/
theorem C15_exhausted_epoch_witness :
    (startedOfFive 2 1 5 5).GetNextSequences 2 = .ok
      { ids := [], requests := [],
        sequences := { m_endOfEpoch := true, m_data := [] }, self := startedOfFive 2 1 5 5 } ∧
    (startedOfFive 2 1 5 5).GetNextSequencesRepeatedly (List.replicate 3 2) = .ok
      (List.replicate 3
        { ids := [], requests := [],
          sequences := { m_endOfEpoch := true, m_data := [] },
          self := startedOfFive 2 1 5 5 }) :=
  ⟨(C15_exhausted_epoch (startedOfFive 2 1 5 5) 2 (by decide) (by decide) (by decide)).1,
   (C15_exhausted_epoch (startedOfFive 2 1 5 5) 2 (by decide) (by decide) (by decide)).2 3⟩

/-- Claim C16: on every scheduler that the constructor returns, before any `StartEpoch`, the
sample position holds `SIZE_MAX` and `GetNextSequences(count)` stops at its first statement, the
assertion, for every count: no sequences are returned and no member is written. -/
theorem C16_GetNextSequences_before_StartEpoch (deserializer : DataDeserializer)
    (workerRank numberOfWorkers : Nat) (constructed : NoRandomizer)
    (hnew : NoRandomizer.new deserializer workerRank numberOfWorkers = .ok constructed) :
    constructed.m_samplePositionInEpoch = SIZE_MAX ∧
    ∀ count, constructed.GetNextSequences count = .error .assertion := by
  obtain ⟨_, back, _, _, _, _, _, _, _, hpos, _⟩ := NoRandomizer.new_ok hnew
  exact ⟨hpos, fun count => NoRandomizer.GetNextSequences_unstarted count hpos⟩

/-- Claim C16 at the scheduler constructed over five single-sample sequences: a call for two
ids stops at the assertion. -/
theorem C16_GetNextSequences_before_StartEpoch_witness :
    ∃ constructed, NoRandomizer.new (exampleDeserializer timelineOfFive) 0 0 = .ok constructed ∧
      constructed.m_samplePositionInEpoch = SIZE_MAX ∧
      constructed.GetNextSequences 2 = .error .assertion :=
  ⟨_, rfl,
    (C16_GetNextSequences_before_StartEpoch (exampleDeserializer timelineOfFive) 0 0 _ rfl).1,
    (C16_GetNextSequences_before_StartEpoch (exampleDeserializer timelineOfFive) 0 0 _ rfl).2 2⟩

/-- Claim C17: over a timeline that `TimelineIsValidForRandomization` rejects, the constructor
stops at its first statement, the assertion, whatever the other arguments, so it returns no
scheduler; and every scheduler that the constructor did return stands over a timeline that the
validator accepts. -/
theorem C17_no_scheduler_over_invalid_timeline (deserializer : DataDeserializer)
    (hinvalid : TimelineIsValidForRandomization deserializer.m_sequences = false) :
    (∀ workerRank numberOfWorkers,
      NoRandomizer.new deserializer workerRank numberOfWorkers = .error .assertion) ∧
    (∀ workerRank numberOfWorkers constructed,
      NoRandomizer.new deserializer workerRank numberOfWorkers ≠ .ok constructed) ∧
    (∀ s : NoRandomizer, s.m_deserializer = deserializer → ¬ s.FromConstructor) := by
  refine ⟨fun a b => NoRandomizer.new_invalid a b hinvalid, fun a b c hc => ?_, ?_⟩
  · rw [NoRandomizer.new_invalid a b hinvalid] at hc
    cases hc
  · rintro s rfl ⟨a, b, c, hnew, _⟩
    rw [NoRandomizer.new_invalid a b hinvalid] at hnew
    cases hnew

/-- Claim C17 at the timeline whose two descriptors have the ids 0 and 2: the validator rejects
it and the constructor stops at the assertion. -/
theorem C17_no_scheduler_over_invalid_timeline_witness :
    TimelineIsValidForRandomization
      (exampleDeserializer [validDescription 0 1 0, validDescription 2 1 0]).m_sequences = false ∧
    NoRandomizer.new (exampleDeserializer [validDescription 0 1 0, validDescription 2 1 0]) 0 1
      = .error .assertion :=
  ⟨by decide,
   (C17_no_scheduler_over_invalid_timeline
      (exampleDeserializer [validDescription 0 1 0, validDescription 2 1 0]) (by decide)).1 0 1⟩

/-! ## Claims about the returned minibatch and the stream buffers -/

theorem packerOfTen_received_none (buffer : List Byte) (layout : MBLayout) :
    (packerOfTen 10 10 buffer layout).m_transformer.GetNextSequences
        (packerOfTen 10 10 buffer layout).m_mbSize
      = .ok { ids := [], requests := [],
              sequences := { m_endOfEpoch := true, m_data := [] },
              self := (packerOfTen 10 10 buffer layout).m_transformer } :=
  NoRandomizer.GetNextSequences_exhausted (Nat.le_refl 10)
    (by decide : (10 : Nat) ≠ SIZE_MAX) (by decide : 0 < 4)

/-- Claim C18: for every completed `ReadMinibatch` call that receives `n > 0` sequences, the
returned minibatch has exactly one entry per output stream, in output-stream order; entry `j`
refers to stream buffer `j`, one of the buffers held before and after the call; its data size
is the product of `n`, the element count of output stream `j` and its element byte size as the
code computes it in `size_t`, which is `n * elements * element size` whenever that product is at
most `SIZE_MAX`; and its layout is the shared layout of the packer, initialised as frame mode
with `n` samples. -/
theorem C18_minibatch_stream_entries (self self1 : FrameModePacker)
    (received : GetNextSequencesResult) (m : Minibatch)
    (hreceived : self.m_transformer.GetNextSequences self.m_mbSize = .ok received)
    (hread : self.ReadMinibatch = .ok (m, self1))
    (hn : 0 < received.sequences.m_data.length) :
    m.m_minibatch.length = self.m_outputStreams.length ∧
    self1.m_minibatchLayout = { frameModeSamples := some received.sequences.m_data.length } ∧
    ∀ (j : Nat) (stream : StreamDescription), self.m_outputStreams[j]? = some stream →
      j < self.m_streamBuffers.length ∧ j < self1.m_streamBuffers.length ∧
      ∃ entry, m.m_minibatch[j]? = some entry ∧
        entry.m_data = j ∧
        entry.m_layout = self1.m_minibatchLayout ∧
        entry.m_dataSize = toSizeT (received.sequences.m_data.length *
          toSizeT (stream.m_sampleLayout.GetNumElements * GetSizeByType stream.m_elementType)) ∧
        (received.sequences.m_data.length *
            (stream.m_sampleLayout.GetNumElements * GetSizeByType stream.m_elementType)
            ≤ SIZE_MAX →
          entry.m_dataSize = received.sequences.m_data.length *
            stream.m_sampleLayout.GetNumElements * GetSizeByType stream.m_elementType) := by
  obtain ⟨_, received1, hr, hpack⟩ := FrameModePacker.ReadMinibatch_ok hread
  rw [hreceived] at hr
  cases hr
  obtain ⟨_, _, _, hfull⟩ := FrameModePacker.ReadMinibatch.pack_spec hpack
  obtain ⟨hlayout, hwrap⟩ := hfull (by omega)
  obtain ⟨hlen, hentries⟩ := FrameModePacker.ReadMinibatch.wrap_spec _ _ _ _ _ _ hwrap
  have hbuffers := (FrameModePacker.ReadMinibatch.sequences_length _ _ _ _ _
    (FrameModePacker.ReadMinibatch.pack_ok hpack)).1
  refine ⟨hlen, hlayout, fun j stream hj => ?_⟩
  obtain ⟨hb, he⟩ := hentries j stream hj
  rw [Nat.zero_add] at hb he
  have hb0 : j < self.m_streamBuffers.length := by
    have : j < self1.m_streamBuffers.length := hb
    rw [hbuffers] at this
    exact this
  refine ⟨hb0, hb, _, he, rfl, hlayout.symm, rfl, fun hfit => ?_⟩
  have hle : stream.m_sampleLayout.GetNumElements * GetSizeByType stream.m_elementType
      ≤ received.sequences.m_data.length *
        (stream.m_sampleLayout.GetNumElements * GetSizeByType stream.m_elementType) :=
    Nat.le_mul_of_pos_left _ hn
  have h1 : toSizeT (stream.m_sampleLayout.GetNumElements
      * GetSizeByType stream.m_elementType)
      = stream.m_sampleLayout.GetNumElements * GetSizeByType stream.m_elementType :=
    toSizeT_of_lt (by simp only [SIZE_MAX] at hfit; omega)
  show toSizeT _ = _
  rw [h1, toSizeT_of_lt (by simp only [SIZE_MAX] at hfit; omega), Nat.mul_assoc]

/-- Claim C18 at a packer of capacity 4 over ten single-sample sequences whose scheduler stands
at the last sequence: the call receives one sequence and returns one entry for the one output
stream, which refers to buffer 0, has data size 1 * 1 * 4 = 4 and the layout of one sample. -/
theorem C18_minibatch_stream_entries_witness :
    [({ m_data := 0, m_dataSize := 4, m_layout := { frameModeSamples := some 1 } } :
      Stream)].length = [denseStream].length ∧
    ∃ entry : Stream,
      [({ m_data := 0, m_dataSize := 4, m_layout := { frameModeSamples := some 1 } } :
        Stream)][0]? = some entry ∧
      entry.m_data = 0 ∧ entry.m_layout = { frameModeSamples := some 1 } ∧
      entry.m_dataSize = 1 * 1 * 4 := by
  obtain ⟨hlen, _, hentries⟩ := C18_minibatch_stream_entries
    (packerOfTen 9 9 (List.replicate 16 255) { frameModeSamples := none }) _ lastOfTen _
    packerOfTen_received_last packerOfTen_read_last (by decide)
  obtain ⟨_, _, entry, he, hdata, hlayout, _, hsize⟩ := hentries 0 denseStream rfl
  exact ⟨hlen, entry, he, hdata, hlayout, hsize (by decide)⟩

/-- Claim C19: for every `ReadMinibatch` call in which the upstream call returns zero
sequences, the call completes with a minibatch without stream entries whose end-of-epoch flag
is the upstream flag, and the packer afterwards differs from the packer before only in the
scheduler: every stream buffer and the layout are as before.  In every completed
`ReadMinibatch` call, empty or not, the end-of-epoch flag of the minibatch is the upstream
flag. -/
theorem C19_empty_minibatch_and_flag (self : FrameModePacker)
    (received : GetNextSequencesResult)
    (hreceived : self.m_transformer.GetNextSequences self.m_mbSize = .ok received) :
    (0 < self.m_mbSize → received.sequences.m_data.length = 0 →
      self.ReadMinibatch = .ok
        ({ m_atEndOfEpoch := received.sequences.m_endOfEpoch, m_minibatch := [] },
         { self with m_transformer := received.self })) ∧
    (∀ m self1, self.ReadMinibatch = .ok (m, self1) →
      m.m_atEndOfEpoch = received.sequences.m_endOfEpoch ∧
      (received.sequences.m_data.length = 0 →
        m.m_minibatch = [] ∧ self1.m_streamBuffers = self.m_streamBuffers ∧
        self1.m_minibatchLayout = self.m_minibatchLayout)) := by
  refine ⟨fun hcapacity hnone =>
    FrameModePacker.ReadMinibatch_of_empty hcapacity hreceived hnone, fun m self1 hread => ?_⟩
  obtain ⟨hcapacity, received1, hr, hpack⟩ := FrameModePacker.ReadMinibatch_ok hread
  rw [hreceived] at hr
  cases hr
  refine ⟨(FrameModePacker.ReadMinibatch.pack_spec hpack).1, fun hnone => ?_⟩
  have hall := FrameModePacker.ReadMinibatch_of_empty hcapacity hreceived hnone
  rw [hread] at hall
  cases hall
  exact ⟨rfl, rfl, rfl⟩

/-- Claim C19 at a packer of capacity 4 over ten single-sample sequences whose epoch is
exhausted: the call returns the empty minibatch with the flag true, and the packer, with its
buffer and its layout of the previous call, is as before. -/
theorem C19_empty_minibatch_and_flag_witness :
    (packerOfTen 10 10 (List.replicate 16 7) { frameModeSamples := some 2 }).ReadMinibatch
      = .ok ({ m_atEndOfEpoch := true, m_minibatch := [] },
             packerOfTen 10 10 (List.replicate 16 7) { frameModeSamples := some 2 }) :=
  (C19_empty_minibatch_and_flag
    (packerOfTen 10 10 (List.replicate 16 7) { frameModeSamples := some 2 }) _
    (packerOfTen_received_none _ _)).1 (by decide) rfl

/-- Claim C20: for every memory provider, a completed constructor holds exactly one buffer per
output stream, in stream order, and the buffer of stream `j` is what the provider returned for
`Alloc(element byte size of stream j, capacity * elements per sample of stream j)`, the second
argument computed in `size_t` (it is the plain product whenever that is at most `SIZE_MAX`);
with a provider that returns `elementSize * numElements` bytes, that buffer has
`capacity * sampleByteSize(j)` bytes.  `ReadMinibatch` does not touch the memory provider: for
every completed call, the packer holds the same number of buffers, each of the same size, and
the same provider before and after. -/
theorem C20_buffers_allocated_once (memoryProvider : MemoryProvider)
    (transformer : NoRandomizer) (capacity : Nat) (streams : List StreamDescription)
    (packer : FrameModePacker)
    (hnew : FrameModePacker.new memoryProvider transformer capacity streams = .ok packer) :
    packer.m_outputStreams = streams ∧
    packer.m_streamBuffers.length = streams.length ∧
    packer.m_streamBuffers = streams.map (fun stream =>
      memoryProvider.Alloc (GetSizeByType stream.m_elementType)
        (toSizeT (capacity * stream.m_sampleLayout.GetNumElements))) ∧
    (∀ (j : Nat) (stream : StreamDescription), streams[j]? = some stream →
      capacity * stream.m_sampleLayout.GetNumElements ≤ SIZE_MAX →
      packer.m_streamBuffers[j]? = some (memoryProvider.Alloc
        (GetSizeByType stream.m_elementType)
        (capacity * stream.m_sampleLayout.GetNumElements)) ∧
      ((∀ elementSize numElements,
          (memoryProvider.Alloc elementSize numElements).length = elementSize * numElements) →
        (packer.m_streamBuffers[j]?).map List.length = some (capacity *
          (stream.m_sampleLayout.GetNumElements * GetSizeByType stream.m_elementType)))) ∧
    (∀ self m self1, FrameModePacker.ReadMinibatch self = .ok (m, self1) →
      self1.m_streamBuffers.length = self.m_streamBuffers.length ∧
      (∀ j : Nat, (self1.m_streamBuffers[j]?).map List.length
        = (self.m_streamBuffers[j]?).map List.length) ∧
      self1.m_memoryProvider = self.m_memoryProvider) := by
  obtain ⟨_, _, _, hout, _, _, _, halloc⟩ := FrameModePacker.new_packer_ok hnew
  have hbuffers := FrameModePacker.new.allocate_ok _ _ _ _ halloc
  refine ⟨hout, by rw [hbuffers, List.length_map], hbuffers, fun j stream hj hfit => ?_,
    fun self m self1 hread => ?_⟩
  · have hw : toSizeT (capacity * stream.m_sampleLayout.GetNumElements)
        = capacity * stream.m_sampleLayout.GetNumElements :=
      toSizeT_of_lt (by simp only [SIZE_MAX] at hfit; omega)
    have hget : packer.m_streamBuffers[j]? = some (memoryProvider.Alloc
        (GetSizeByType stream.m_elementType)
        (capacity * stream.m_sampleLayout.GetNumElements)) := by
      rw [hbuffers, List.getElem?_map, hj, Option.map_some', hw]
    refine ⟨hget, fun hprovider => ?_⟩
    rw [hget, Option.map_some', hprovider]
    congr 1
    rw [Nat.mul_comm (GetSizeByType stream.m_elementType), Nat.mul_assoc]
  · obtain ⟨_, received, _, hpack⟩ := FrameModePacker.ReadMinibatch_ok hread
    obtain ⟨hlen, hsizes⟩ := FrameModePacker.ReadMinibatch.sequences_length _ _ _ _ _
      (FrameModePacker.ReadMinibatch.pack_ok hpack)
    obtain ⟨_, hself1, _, _⟩ := FrameModePacker.ReadMinibatch.pack_spec hpack
    have hprovider := congrArg FrameModePacker.m_memoryProvider hself1
    exact ⟨hlen, hsizes, hprovider⟩

/-- Claim C20 at the packer of capacity 4 with one dense single-precision stream of one
element per sample over the zero-filling provider: the constructor holds the one buffer
`Alloc(4, 4 * 1)` of 16 bytes, and the `ReadMinibatch` call that packs the last of ten
sequences leaves one buffer of 16 bytes. -/
theorem C20_buffers_allocated_once_witness :
    ∃ packer, FrameModePacker.new zeroProvider
        (packerOfTen SIZE_MAX SIZE_MAX [] { frameModeSamples := none }).m_transformer 4
        [denseStream] = .ok packer ∧
      packer.m_streamBuffers = [zeroProvider.Alloc 4 (toSizeT (4 * 1))] ∧
      packer.m_streamBuffers[0]? = some (zeroProvider.Alloc 4 (4 * 1)) ∧
      (packer.m_streamBuffers[0]?).map List.length = some (4 * (1 * 4)) ∧
      [[(9 : Byte), 0, 0, 0, 255, 255, 255, 255, 255, 255, 255, 255, 255, 255, 255, 255]].length
        = [List.replicate 16 (255 : Byte)].length := by
  have h := C20_buffers_allocated_once zeroProvider
    (packerOfTen SIZE_MAX SIZE_MAX [] { frameModeSamples := none }).m_transformer 4
    [denseStream] _ rfl
  obtain ⟨_, _, hbuffers, hstream, hread⟩ := h
  obtain ⟨hget, hsize⟩ := hstream 0 denseStream rfl (by decide)
  exact ⟨_, rfl, hbuffers, hget,
    hsize (fun e k => by simp [zeroProvider]),
    (hread _ _ _ packerOfTen_read_last).1⟩

/-! ## The additions to the sample position, one by one -/

theorem toSizeT_toSizeT_add (a b : Nat) : toSizeT (toSizeT a + b) = toSizeT (a + b) := by
  unfold toSizeT
  omega

theorem Timeline.Advanced.concat {timeline : Timeline} {E sp p sp1 p1 sp2 p2 : Nat}
    (h1 : timeline.Advanced E sp p sp1 p1) (h2 : timeline.Advanced E sp1 p1 sp2 p2) :
    timeline.Advanced E sp p sp2 p2 := by
  induction h1 with
  | refl _ _ => exact h2
  | step hlt hd _ ih => exact Timeline.Advanced.step hlt hd (ih h2)

/-- When no single addition can leave `size_t`, the additions add up to the plain sum. -/
theorem Timeline.Advanced.exact {timeline : Timeline} {E sp p sp1 q : Nat}
    (hbound : ∀ d ∈ timeline, E + d.m_numberOfSamples ≤ SIZE_MAX + 1)
    (h : timeline.Advanced E sp p sp1 q) :
    p ≤ q ∧ (p < q → q ≤ timeline.length) ∧ sp1 = sp + timeline.samplesBetween p q := by
  induction h with
  | refl sp p =>
    exact ⟨le_refl _, fun hlt => absurd hlt (lt_irrefl _),
      by rw [Timeline.samplesBetween_self, Nat.add_zero]⟩
  | @step sp p sp1 q d hlt hd _ ih =>
    obtain ⟨i1, i2, i3⟩ := ih
    have hp : p < timeline.length := (List.getElem?_eq_some_iff.1 hd).1
    have hmem : d ∈ timeline := by
      obtain ⟨hlt', hget⟩ := List.getElem?_eq_some_iff.1 hd
      rw [← hget]
      exact List.getElem_mem _
    have hb := hbound d hmem
    simp only [SIZE_MAX] at hb
    refine ⟨by omega, fun _ => ?_, ?_⟩
    · by_cases hq : p + 1 = q
      · omega
      · exact i2 (by omega)
    · rw [i3, toSizeT_of_lt (by omega), Timeline.samplesBetween_succ_left hd (by omega)]
      omega

theorem NoRandomizer.advance_advanced (n : Nat) :
    ∀ (s : NoRandomizer) (b : Bool) (s' : NoRandomizer),
      s.m_deserializer.m_sequences.length - s.m_sequencePositionInSweep ≤ n →
      s.AdvanceToNextPositionForThisWorker = .ok (b, s') →
      s.m_deserializer.m_sequences.Advanced s.m_epochSize s.m_samplePositionInEpoch
        s.m_sequencePositionInSweep s'.m_samplePositionInEpoch s'.m_sequencePositionInSweep := by
  induction n with
  | zero =>
    intro s b s' hn h
    by_cases hlt : s.m_samplePositionInEpoch < s.m_epochSize
    · have hnone : s.m_deserializer.GetSequenceDescriptions.elementAt
          s.m_sequencePositionInSweep = none := by
        cases hd : s.m_deserializer.GetSequenceDescriptions.elementAt
          s.m_sequencePositionInSweep with
        | none => rfl
        | some d =>
          have := (Timeline.elementAt_lt hd).2
          simp only [DataDeserializer.GetSequenceDescriptions] at this
          omega
      rw [NoRandomizer.advance_out_of_range hlt hnone] at h
      cases h
    · rw [NoRandomizer.advance_done hlt] at h
      cases h
      exact Timeline.Advanced.refl _ _
  | succ n ih =>
    intro s b s' hn h
    by_cases hlt : s.m_samplePositionInEpoch < s.m_epochSize
    · cases hd : s.m_deserializer.GetSequenceDescriptions.elementAt
          s.m_sequencePositionInSweep with
      | none =>
        rw [NoRandomizer.advance_out_of_range hlt hd] at h
        cases h
      | some d =>
        by_cases hw : s.m_numberOfWorkers = 0
        · rw [NoRandomizer.advance_no_workers hlt hd hw] at h
          cases h
        · by_cases hown : d.m_chunkId % s.m_numberOfWorkers = s.m_workerRank
          · rw [NoRandomizer.advance_owned hlt hd hw hown] at h
            cases h
            exact Timeline.Advanced.refl _ _
          · rw [NoRandomizer.advance_skip hlt hd hw hown] at h
            have hrange := Timeline.elementAt_lt hd
            simp only [DataDeserializer.GetSequenceDescriptions] at hrange
            have hp1 : toSizeT (s.m_sequencePositionInSweep + 1)
                = s.m_sequencePositionInSweep + 1 :=
              toSizeT_of_lt (by have := hrange.1; unfold SIZE_MAX at this; omega)
            rw [hp1] at h
            have hrec := ih _ b s' (by simp; omega) h
            simp only [NoRandomizer.withPosition_sequencePosition,
              NoRandomizer.withPosition_samplePosition, NoRandomizer.withPosition_deserializer,
              NoRandomizer.withPosition_epochSize] at hrec
            exact Timeline.Advanced.step hlt (Timeline.elementAt_eq_some.1 hd).2 hrec
    · rw [NoRandomizer.advance_done hlt] at h
      cases h
      exact Timeline.Advanced.refl _ _

theorem NoRandomizer.loop_advanced (count : Nat) (n : Nat) :
    ∀ (s : NoRandomizer) (ids : List Nat) (eoe : Bool) (ids' : List Nat) (eoe' : Bool)
      (s' : NoRandomizer),
      count - ids.length ≤ n →
      NoRandomizer.GetNextSequences.loop count s ids eoe = .ok (ids', eoe', s') →
      s.m_deserializer.m_sequences.Advanced s.m_epochSize s.m_samplePositionInEpoch
        s.m_sequencePositionInSweep s'.m_samplePositionInEpoch s'.m_sequencePositionInSweep := by
  induction n with
  | zero =>
    intro s ids eoe ids' eoe' s' hn h
    rw [NoRandomizer.loop_done (by omega)] at h
    cases h
    exact Timeline.Advanced.refl _ _
  | succ n ih =>
    intro s ids eoe ids' eoe' s' hn h
    by_cases hlt : ids.length < count
    · cases ha : s.AdvanceToNextPositionForThisWorker with
      | error e =>
        rw [NoRandomizer.loop_error hlt ha] at h
        cases h
      | ok r =>
        obtain ⟨b, s1⟩ := r
        obtain ⟨a1, _, _, _, _, a6⟩ := NoRandomizer.advance_spec _ s b s1 (le_refl _) ha
        have hadv := NoRandomizer.advance_advanced _ s b s1 (le_refl _) ha
        cases b with
        | true =>
          rw [NoRandomizer.loop_end hlt ha] at h
          cases h
          exact hadv
        | false =>
          obtain ⟨_, _, a6c⟩ := a6 rfl
          by_cases hassert : s1.m_sequencePositionInSweep < s1.m_numSequences
          · cases hd : s1.m_deserializer.GetSequenceDescriptions.elementAt
                s1.m_sequencePositionInSweep with
            | none =>
              rw [NoRandomizer.loop_out_of_range hlt ha hassert hd] at h
              cases h
            | some d =>
              rw [NoRandomizer.loop_push hlt ha hassert hd] at h
              have hrange := Timeline.elementAt_lt hd
              have hp1 : toSizeT (s1.m_sequencePositionInSweep + 1)
                  = s1.m_sequencePositionInSweep + 1 :=
                toSizeT_of_lt (by have := hrange.1; unfold SIZE_MAX at this; omega)
              rw [hp1] at h
              have hrec := ih _ _ _ ids' eoe' s' (by simp; omega) h
              have hs1d : s1.m_deserializer = s.m_deserializer := by rw [a1]; rfl
              have hs1e : s1.m_epochSize = s.m_epochSize := by rw [a1]; rfl
              simp only [NoRandomizer.withPosition_sequencePosition,
                NoRandomizer.withPosition_samplePosition,
                NoRandomizer.withPosition_deserializer, NoRandomizer.withPosition_epochSize,
                hs1d, hs1e] at hrec hd
              exact hadv.concat
                (Timeline.Advanced.step a6c (Timeline.elementAt_eq_some.1 hd).2 hrec)
          · rw [NoRandomizer.loop_assert hlt ha hassert] at h
            cases h
    · rw [NoRandomizer.loop_done hlt] at h
      cases h
      exact Timeline.Advanced.refl _ _

/-- The additions that a completed `GetNextSequences` call made to the sample position. -/
theorem NoRandomizer.GetNextSequences_advanced {s : NoRandomizer} {count : Nat}
    {r : GetNextSequencesResult} (h : s.GetNextSequences count = .ok r) :
    s.m_deserializer.m_sequences.Advanced s.m_epochSize s.m_samplePositionInEpoch
      s.m_sequencePositionInSweep r.self.m_samplePositionInEpoch
      r.self.m_sequencePositionInSweep := by
  obtain ⟨_, hloop, _, _⟩ := NoRandomizer.GetNextSequences_ok h
  exact NoRandomizer.loop_advanced count _ s [] false _ _ _ (le_refl _) hloop

/-! ## An epoch inside the sweep: no lookup leaves the timeline -/

theorem NoRandomizer.countSamples_snd (timeline : Timeline) :
    ∀ (m t : Nat), t < 18446744073709551616 →
      (NoRandomizer.countSamples timeline (m, t)).2
        = toSizeT (t + (timeline.map (fun d => d.m_numberOfSamples)).sum) := by
  induction timeline with
  | nil =>
    intro m t ht
    simp only [NoRandomizer.countSamples, List.map_nil, List.sum_nil, Nat.add_zero]
    exact (toSizeT_of_lt ht).symm
  | cons c rest ih =>
    intro m t _
    simp only [NoRandomizer.countSamples, List.map_cons, List.sum_cons]
    rw [ih _ _ (toSizeT_lt _), toSizeT_toSizeT_add, Nat.add_assoc]

theorem Timeline.samplesBetween_all (timeline : Timeline) :
    timeline.samplesBetween 0 timeline.length
      = (timeline.map (fun d => d.m_numberOfSamples)).sum := by
  simp [Timeline.samplesBetween]

/-- The number of sequences that the constructor derives from the last id is the length of
the timeline. -/
theorem NoRandomizer.FromConstructor.numSequences {s : NoRandomizer} (h : s.FromConstructor)
    (hsize : s.m_deserializer.m_sequences.length < SIZE_MAX) :
    s.m_numSequences = s.m_deserializer.m_sequences.length := by
  obtain ⟨a, b, c, hnew, h1, _, _, _⟩ := h
  obtain ⟨hv, back, hb, _, c1, _⟩ := NoRandomizer.new_ok hnew
  unfold SIZE_MAX at hsize
  have hne : s.m_deserializer.m_sequences ≠ [] := by
    intro hnil
    rw [hnil] at hb
    cases hb
  have hid := ((TimelineIsValidForRandomization_iff _ (by omega)).1 hv).2.1
  have hlast : s.m_deserializer.m_sequences[s.m_deserializer.m_sequences.length - 1]?
      = some back := by
    rw [← hb, List.getLast?_eq_getElem?]
  have hbid := hid _ _ hlast
  have hlen : 0 < s.m_deserializer.m_sequences.length := List.length_pos.2 hne
  rw [h1, c1, hbid, toSizeT_of_lt (by omega)]
  omega

/-- A scheduler over an accepted timeline that stands at sweep position 0 with sample position
0 and an epoch size of at most `m_numSamples` is inside the sweep. -/
theorem NoRandomizer.InSweep.of_start {s : NoRandomizer} (hctor : s.FromConstructor)
    (hsize : s.m_deserializer.m_sequences.length < SIZE_MAX)
    (hworkers : s.m_numberOfWorkers ≠ 0)
    (hsample : s.m_samplePositionInEpoch = 0) (hsequence : s.m_sequencePositionInSweep = 0)
    (hepoch : s.m_epochSize ≤ s.m_numSamples) : s.InSweep := by
  refine ⟨?_, ?_, ?_, hctor.numSequences hsize, hsize, hworkers⟩
  · rw [hsample, hsequence, Timeline.samplesBetween_self]
    rfl
  · rw [hsequence]
    exact Nat.zero_le _
  · have hsum := hctor.numSamples
    rw [NoRandomizer.countSamples_snd _ 0 0 (by decide), Nat.zero_add] at hsum
    rw [Timeline.samplesBetween_all, ← hsum]
    exact hepoch

theorem NoRandomizer.InSweep.lookup {s : NoRandomizer} (h : s.InSweep)
    (hlt : s.m_samplePositionInEpoch < s.m_epochSize) :
    s.m_sequencePositionInSweep < s.m_deserializer.m_sequences.length := by
  obtain ⟨h1, h2, h3, _⟩ := h
  by_contra hge
  have hp : s.m_sequencePositionInSweep = s.m_deserializer.m_sequences.length := by omega
  rw [hp] at h1
  omega

theorem NoRandomizer.InSweep.advance_one {s : NoRandomizer} (h : s.InSweep) {d : SequenceDescription}
    (hd : s.m_deserializer.GetSequenceDescriptions.elementAt s.m_sequencePositionInSweep
      = some d) :
    (s.withPosition (toSizeT (s.m_samplePositionInEpoch + d.m_numberOfSamples))
      (s.m_sequencePositionInSweep + 1)).InSweep := by
  obtain ⟨h1, h2, h3, h4, h5, h6⟩ := h
  have hget : s.m_deserializer.m_sequences[s.m_sequencePositionInSweep]? = some d :=
    (Timeline.elementAt_eq_some.1 hd).2
  have hp : s.m_sequencePositionInSweep < s.m_deserializer.m_sequences.length :=
    (List.getElem?_eq_some_iff.1 hget).1
  refine ⟨?_, ?_, h3, h4, h5, h6⟩
  · simp only [NoRandomizer.withPosition_samplePosition, NoRandomizer.withPosition_deserializer,
      NoRandomizer.withPosition_sequencePosition]
    rw [h1, toSizeT_toSizeT_add, Timeline.samplesBetween_succ_right hget (Nat.zero_le _)]
  · simp only [NoRandomizer.withPosition_deserializer,
      NoRandomizer.withPosition_sequencePosition]
    omega

/-- Inside the sweep the skip loop completes and stays inside the sweep. -/
theorem NoRandomizer.sweep_advance (n : Nat) :
    ∀ s : NoRandomizer, s.InSweep →
      s.m_deserializer.m_sequences.length - s.m_sequencePositionInSweep ≤ n →
      ∃ b s', s.AdvanceToNextPositionForThisWorker = .ok (b, s') ∧ s'.InSweep ∧
        (b = false → s'.m_samplePositionInEpoch < s'.m_epochSize) := by
  induction n with
  | zero =>
    intro s hs hn
    have hge : ¬ s.m_samplePositionInEpoch < s.m_epochSize := by
      intro hlt
      have := hs.lookup hlt
      omega
    exact ⟨true, s, NoRandomizer.advance_done hge, hs, fun hb => by cases hb⟩
  | succ n ih =>
    intro s hs hn
    by_cases hlt : s.m_samplePositionInEpoch < s.m_epochSize
    · have hp := hs.lookup hlt
      have hsize := hs.2.2.2.2.1
      obtain ⟨d, hd, _⟩ := @Timeline.elementAt_of_lt s.m_deserializer.m_sequences
        s.m_sequencePositionInSweep (by omega) hp
      by_cases hown : d.m_chunkId % s.m_numberOfWorkers = s.m_workerRank
      · exact ⟨false, s, NoRandomizer.advance_owned hlt hd hs.2.2.2.2.2 hown, hs, fun _ => hlt⟩
      · have hp1 : toSizeT (s.m_sequencePositionInSweep + 1)
            = s.m_sequencePositionInSweep + 1 :=
          toSizeT_of_lt (by unfold SIZE_MAX at hsize; omega)
        rw [NoRandomizer.advance_skip hlt hd hs.2.2.2.2.2 hown, hp1]
        exact ih _ (hs.advance_one hd) (by simp; omega)
    · exact ⟨true, s, NoRandomizer.advance_done hlt, hs, fun hb => by cases hb⟩

/-- Inside the sweep the collection loop completes and stays inside the sweep. -/
theorem NoRandomizer.sweep_loop (count : Nat) (n : Nat) :
    ∀ (s : NoRandomizer) (ids : List Nat) (eoe : Bool), s.InSweep →
      count - ids.length ≤ n →
      ∃ ids' eoe' s', NoRandomizer.GetNextSequences.loop count s ids eoe
          = .ok (ids', eoe', s') ∧ s'.InSweep := by
  induction n with
  | zero =>
    intro s ids eoe hs hn
    exact ⟨ids, eoe, s, NoRandomizer.loop_done (by omega), hs⟩
  | succ n ih =>
    intro s ids eoe hs hn
    by_cases hlt : ids.length < count
    · obtain ⟨b, s1, ha, hs1, hb⟩ := NoRandomizer.sweep_advance _ s hs (le_refl _)
      cases b with
      | true => exact ⟨ids, true, s1, NoRandomizer.loop_end hlt ha, hs1⟩
      | false =>
        have hp := hs1.lookup (hb rfl)
        have hsize := hs1.2.2.2.2.1
        have hassert : s1.m_sequencePositionInSweep < s1.m_numSequences := by
          rw [hs1.2.2.2.1]
          exact hp
        obtain ⟨d, hd, _⟩ := @Timeline.elementAt_of_lt s1.m_deserializer.m_sequences
          s1.m_sequencePositionInSweep (by omega) hp
        have hp1 : toSizeT (s1.m_sequencePositionInSweep + 1)
            = s1.m_sequencePositionInSweep + 1 :=
          toSizeT_of_lt (by unfold SIZE_MAX at hsize; omega)
        rw [NoRandomizer.loop_push hlt ha hassert hd, hp1]
        exact ih _ _ _ (hs1.advance_one hd) (by simp; omega)
    · exact ⟨ids, eoe, s, NoRandomizer.loop_done hlt, hs⟩

/-- Inside the sweep a call of `GetNextSequences` can only stop at its first assertion. -/
theorem NoRandomizer.sweep_GetNextSequences {s : NoRandomizer} (hs : s.InSweep) (count : Nat) :
    (∃ r, s.GetNextSequences count = .ok r ∧ r.self.InSweep) ∨
    (s.GetNextSequences count = .error .assertion ∧ s.m_samplePositionInEpoch = SIZE_MAX) := by
  by_cases hne : s.m_samplePositionInEpoch = SIZE_MAX
  · exact Or.inr ⟨NoRandomizer.GetNextSequences_unstarted count hne, hne⟩
  · obtain ⟨ids', eoe', s', hloop, hs'⟩ :=
      NoRandomizer.sweep_loop count _ s [] false hs (le_refl _)
    obtain ⟨r, hr, _, _, hself⟩ := NoRandomizer.GetNextSequences_of_loop hne hloop
    exact Or.inl ⟨r, hr, by rw [hself]; exact hs'⟩

theorem NoRandomizer.InSweep.sample_position_ne {s : NoRandomizer} (hs : s.InSweep)
    (hone : ∀ d ∈ s.m_deserializer.m_sequences, d.m_numberOfSamples = 1) :
    s.m_samplePositionInEpoch ≠ SIZE_MAX := by
  obtain ⟨h1, h2, _, _, h5, _⟩ := hs
  rw [Timeline.samplesBetween_frame hone (Nat.zero_le _) h2, Nat.sub_zero,
    toSizeT_of_lt (by unfold SIZE_MAX at h5; omega)] at h1
  omega

/-- Inside the sweep successive calls never run into undefined behaviour; they complete, all
of them over single-sample sequences, or stop at the first assertion of a call. -/
theorem NoRandomizer.sweep_repeatedly (counts : List Nat) :
    ∀ s : NoRandomizer, s.InSweep →
      ((∃ rs, s.GetNextSequencesRepeatedly counts = .ok rs ∧
          ∀ r ∈ rs, r.self.InSweep ∧ r.self.m_deserializer = s.m_deserializer ∧
            r.self.m_numSequences = s.m_numSequences) ∨
        s.GetNextSequencesRepeatedly counts = .error .assertion) ∧
      ((∀ d ∈ s.m_deserializer.m_sequences, d.m_numberOfSamples = 1) →
        ∃ rs, s.GetNextSequencesRepeatedly counts = .ok rs) := by
  induction counts with
  | nil =>
    intro s _
    exact ⟨Or.inl ⟨[], rfl, fun r hr => by cases hr⟩, fun _ => ⟨[], rfl⟩⟩
  | cons c cs ih =>
    intro s hs
    rcases NoRandomizer.sweep_GetNextSequences hs c with ⟨r, hr, hrs⟩ | ⟨herr, hmax⟩
    · obtain ⟨e1, _⟩ := NoRandomizer.GetNextSequences_spec hr
      have hdes : r.self.m_deserializer = s.m_deserializer := by rw [e1]; rfl
      have hnum : r.self.m_numSequences = s.m_numSequences := by rw [e1]; rfl
      obtain ⟨i1, i2⟩ := ih r.self hrs
      refine ⟨?_, fun hone => ?_⟩
      · rcases i1 with ⟨rs, hrun, hall⟩ | herr
        · refine Or.inl ⟨r :: rs, ?_, ?_⟩
          · simp only [NoRandomizer.GetNextSequencesRepeatedly, hr, hrun]
          · intro x hx
            rcases List.mem_cons.1 hx with rfl | hx
            · exact ⟨hrs, hdes, hnum⟩
            · obtain ⟨x1, x2, x3⟩ := hall x hx
              exact ⟨x1, x2.trans hdes, x3.trans hnum⟩
        · refine Or.inr ?_
          simp only [NoRandomizer.GetNextSequencesRepeatedly, hr, herr]
      · obtain ⟨rs, hrun⟩ := i2 (by rw [hdes]; exact hone)
        refine ⟨r :: rs, ?_⟩
        simp only [NoRandomizer.GetNextSequencesRepeatedly, hr, hrun]
    · refine ⟨Or.inr ?_, fun hone => absurd hmax (hs.sample_position_ne hone)⟩
      simp only [NoRandomizer.GetNextSequencesRepeatedly, herr]

/-! ## Claims about the lazily built timeline, the constructor and the validator -/

theorem DataDeserializerBase.GetSequenceDescriptions_initialized {self : DataDeserializerBase}
    (h : self.m_sequencesInitialized = true) :
    self.GetSequenceDescriptions
      = { timeline := self.m_sequences, fills := [], self := self } := by
  unfold DataDeserializerBase.GetSequenceDescriptions
  rw [if_neg (by simp [h])]

theorem DataDeserializerBase.repeatedly_initialized (n : Nat) {self : DataDeserializerBase}
    (h : self.m_sequencesInitialized = true) :
    self.GetSequenceDescriptionsRepeatedly n
      = List.replicate n { timeline := self.m_sequences, fills := [], self := self } := by
  induction n with
  | zero => rfl
  | succ n ih =>
    simp only [DataDeserializerBase.GetSequenceDescriptionsRepeatedly,
      DataDeserializerBase.GetSequenceDescriptions_initialized h, ih, List.replicate_succ]

/-- Claim C21: on a `DataDeserializerBase` whose timeline is not yet initialised, the first
`GetSequenceDescriptions` call invokes `FillSequenceDescriptions` exactly once, on the stored
timeline, returns the filled timeline and marks the timeline initialised; each of any number
of later calls returns that same timeline, does not invoke `FillSequenceDescriptions` and
leaves the deserializer exactly as the first call left it. -/
theorem C21_timeline_is_cached (self : DataDeserializerBase)
    (hfirst : self.m_sequencesInitialized = false) :
    self.GetSequenceDescriptions.fills = [self.m_sequences] ∧
    self.GetSequenceDescriptions.timeline = self.FillSequenceDescriptions self.m_sequences ∧
    self.GetSequenceDescriptions.self.m_sequencesInitialized = true ∧
    self.GetSequenceDescriptions.self.m_sequences = self.GetSequenceDescriptions.timeline ∧
    ∀ n, self.GetSequenceDescriptions.self.GetSequenceDescriptionsRepeatedly n
      = List.replicate n
          { timeline := self.GetSequenceDescriptions.timeline
            fills := []
            self := self.GetSequenceDescriptions.self } := by
  have hcall : self.GetSequenceDescriptions
      = { timeline := self.FillSequenceDescriptions self.m_sequences
          fills := [self.m_sequences]
          self := { self with
            m_sequences := self.FillSequenceDescriptions self.m_sequences
            m_sequencesInitialized := true } } := by
    unfold DataDeserializerBase.GetSequenceDescriptions
    rw [if_pos hfirst]
  refine ⟨by rw [hcall], by rw [hcall], by rw [hcall], by rw [hcall], fun n => ?_⟩
  rw [hcall]
  exact DataDeserializerBase.repeatedly_initialized n rfl

/-- Claim C21 at a freshly constructed deserializer whose `FillSequenceDescriptions` produces
the five descriptors of `timelineOfFive`: the first call fills once and returns them, and
three further calls return them without filling. -/
theorem C21_timeline_is_cached_witness :
    baseOfFive.GetSequenceDescriptions.fills = [[]] ∧
    baseOfFive.GetSequenceDescriptions.timeline = timelineOfFive ∧
    (baseOfFive.GetSequenceDescriptions.self.GetSequenceDescriptionsRepeatedly 3).map
      (fun r => (r.timeline, r.fills))
      = [(timelineOfFive, []), (timelineOfFive, []), (timelineOfFive, [])] := by
  obtain ⟨h1, h2, _, _, h5⟩ := C21_timeline_is_cached baseOfFive rfl
  refine ⟨h1, h2, ?_⟩
  rw [h5 3]
  rfl

theorem NoRandomizer.countSamples_fst (timeline : Timeline) :
    ∀ (m t : Nat), (NoRandomizer.countSamples timeline (m, t)).1
      = (timeline.map (fun d => d.m_numberOfSamples)).foldl max m := by
  induction timeline with
  | nil => intro m t; rfl
  | cons c rest ih =>
    intro m t
    simp only [NoRandomizer.countSamples, List.map_cons, List.foldl_cons]
    exact ih _ _

theorem NoRandomizer.countSamples_fst_one (timeline : Timeline)
    (hone : ∀ d ∈ timeline, d.m_numberOfSamples = 1) :
    ∀ (m t : Nat), (NoRandomizer.countSamples timeline (m, t)).1
      = if timeline = [] then m else max m 1 := by
  induction timeline with
  | nil => intro m t; rfl
  | cons c rest ih =>
    intro m t
    have hc : c.m_numberOfSamples = 1 := hone c (List.mem_cons_self _ _)
    simp only [NoRandomizer.countSamples, hc]
    rw [ih (fun d hd => hone d (List.mem_cons_of_mem _ hd))]
    by_cases hr : rest = []
    · simp [hr]
    · simp [hr]

theorem NoRandomizer.new_of_valid {deserializer : DataDeserializer} (a b : Nat)
    (hvalid : TimelineIsValidForRandomization deserializer.m_sequences = true)
    (hne : deserializer.m_sequences ≠ []) :
    ∃ c, NoRandomizer.new deserializer a b = .ok c := by
  obtain ⟨back, hback⟩ : ∃ back, deserializer.m_sequences.getLast? = some back := by
    cases hl : deserializer.m_sequences.getLast? with
    | none => exact absurd (List.getLast?_eq_none_iff.1 hl) hne
    | some back => exact ⟨back, rfl⟩
  unfold NoRandomizer.new
  simp only [DataDeserializer.GetSequenceDescriptions, hvalid, hback, if_true]
  exact ⟨_, rfl⟩

/-- Claim C22: for every valid non-empty timeline the constructor completes, and the flag
`m_frameMode` it computes is true exactly when every sequence of the timeline has exactly one
sample, and exactly when the maximum of `m_numberOfSamples` over the timeline is 1. -/
theorem C22_frame_mode_flag (deserializer : DataDeserializer) (workerRank numberOfWorkers : Nat)
    (hvalid : TimelineIsValidForRandomization deserializer.m_sequences = true)
    (hne : deserializer.m_sequences ≠ []) :
    ∃ constructed,
      NoRandomizer.new deserializer workerRank numberOfWorkers = .ok constructed ∧
      (constructed.m_frameMode = true ↔
        ∀ d ∈ deserializer.m_sequences, d.m_numberOfSamples = 1) ∧
      (constructed.m_frameMode = true ↔
        (deserializer.m_sequences.map (fun d => d.m_numberOfSamples)).foldl max 0 = 1) := by
  obtain ⟨c, hc⟩ := NoRandomizer.new_of_valid workerRank numberOfWorkers hvalid hne
  obtain ⟨_, back, _, _, _, _, _, hframe, _⟩ := NoRandomizer.new_ok hc
  refine ⟨c, hc, ?_, ?_⟩
  · rw [hframe, decide_eq_true_eq]
    constructor
    · intro hmax d hd
      have hpos := (TimelineIsValidForRandomization.find_if_not_mem _ _ hvalid d hd).2
      have hle := (NoRandomizer.countSamples_fst_ge deserializer.m_sequences 0 0).2 d hd
      omega
    · intro hone
      rw [NoRandomizer.countSamples_fst_one _ hone, if_neg hne]
      rfl
  · rw [hframe, decide_eq_true_eq, NoRandomizer.countSamples_fst]

/-- Claim C22 at the valid timeline with the sample counts 1 and 2: the constructor completes
with `m_frameMode = false`, one sequence does not have exactly one sample, and the maximum
is 2. -/
theorem C22_frame_mode_flag_witness :
    ∃ constructed,
      NoRandomizer.new (exampleDeserializer timelineOfTwo) 0 0 = .ok constructed ∧
      (constructed.m_frameMode = true ↔
        ∀ d ∈ (exampleDeserializer timelineOfTwo).m_sequences, d.m_numberOfSamples = 1) ∧
      (constructed.m_frameMode = true ↔
        ((exampleDeserializer timelineOfTwo).m_sequences.map
          (fun d => d.m_numberOfSamples)).foldl max 0 = 1) :=
  C22_frame_mode_flag (exampleDeserializer timelineOfTwo) 0 0 (by decide) (by decide)

theorem TimelineIsValidForRandomization.find_if_not_reference (timeline : Timeline) :
    ∀ previous : SequenceDescription,
      previous.m_id + timeline.length ≤ SIZE_MAX →
      previous.m_chunkId + timeline.length ≤ SIZE_MAX →
      TimelineIsValidForRandomization.find_if_not previous timeline
        = (List.zip (((previous.m_id : Int), previous.m_chunkId) ::
              timeline.map (fun d => ((d.m_id : Int), d.m_chunkId))) timeline).all
            (fun pair =>
              TimelineIsValidForRandomization.referenceStep pair.1.1 pair.1.2 pair.2) := by
  induction timeline with
  | nil => intro previous _ _; rfl
  | cons current rest ih =>
    intro previous hid hchunk
    simp only [List.length_cons, SIZE_MAX] at hid hchunk
    have h1 : toSizeT (previous.m_id + 1) = previous.m_id + 1 := toSizeT_of_lt (by omega)
    have h2 : toSizeT (previous.m_chunkId + 1) = previous.m_chunkId + 1 :=
      toSizeT_of_lt (by omega)
    have hstep : TimelineIsValidForRandomization.result previous current
        = TimelineIsValidForRandomization.referenceStep previous.m_id previous.m_chunkId
            current := by
      have hiff : (previous.m_id + 1 = current.m_id)
          ↔ ((current.m_id : Int) = (previous.m_id : Int) + 1) := by omega
      simp only [TimelineIsValidForRandomization.result,
        TimelineIsValidForRandomization.referenceStep, h1, h2, hiff]
    simp only [TimelineIsValidForRandomization.find_if_not, List.map_cons, List.zip_cons_cons,
      List.all_cons, ← hstep]
    by_cases hres : TimelineIsValidForRandomization.result previous current = true
    · rw [if_pos hres, hres, Bool.true_and]
      simp only [TimelineIsValidForRandomization.result, Bool.and_eq_true,
        decide_eq_true_eq, h1, h2] at hres
      obtain ⟨⟨⟨⟨_, hi⟩, _⟩, hc⟩, _⟩ := hres
      exact ih current (by simp only [SIZE_MAX]; omega) (by simp only [SIZE_MAX]; omega)
    · rw [if_neg hres]
      simp only [Bool.not_eq_true] at hres
      rw [hres, Bool.false_and]

/-- Claim C23: for every timeline (a vector, of at most `SIZE_MAX` descriptors) the validator
returns what the reference check of the specification returns: true exactly when each
descriptor passes the check against its predecessor, the first one against the sentinel with
id `-1` and chunk id `0`.  The empty timeline is accepted, and an accepted non-empty timeline
starts with id 0 and with chunk id 0 or 1. -/
theorem C23_validator_equals_reference (timeline : Timeline)
    (hsize : timeline.length ≤ SIZE_MAX) :
    TimelineIsValidForRandomization timeline
      = TimelineIsValidForRandomization.reference timeline ∧
    TimelineIsValidForRandomization [] = true ∧
    ∀ first rest, timeline = first :: rest →
      TimelineIsValidForRandomization timeline = true →
      first.m_id = 0 ∧ (first.m_chunkId = 0 ∨ first.m_chunkId = 1) := by
  refine ⟨?_, rfl, ?_⟩
  · cases timeline with
    | nil => rfl
    | cons current rest =>
      simp only [List.length_cons, SIZE_MAX] at hsize
      have hstep : TimelineIsValidForRandomization.result
          { m_id := SIZE_MAX, m_numberOfSamples := 0, m_chunkId := 0, m_isValid := true } current
          = TimelineIsValidForRandomization.referenceStep (-1) 0 current := by
        have hiff : (0 = current.m_id) ↔ ((current.m_id : Int) = -1 + 1) := by omega
        have h0 : toSizeT (SIZE_MAX + 1) = 0 := by decide
        have h1 : toSizeT (0 + 1) = 0 + 1 := by decide
        simp only [TimelineIsValidForRandomization.result,
          TimelineIsValidForRandomization.referenceStep, h0, h1, hiff]
      simp only [TimelineIsValidForRandomization, TimelineIsValidForRandomization.reference,
        TimelineIsValidForRandomization.find_if_not, List.map_cons, List.zip_cons_cons,
        List.all_cons, ← hstep]
      by_cases hres : TimelineIsValidForRandomization.result
          { m_id := SIZE_MAX, m_numberOfSamples := 0, m_chunkId := 0, m_isValid := true }
          current = true
      · rw [if_pos hres, hres, Bool.true_and]
        simp only [TimelineIsValidForRandomization.result, Bool.and_eq_true,
          decide_eq_true_eq] at hres
        obtain ⟨⟨⟨⟨_, hi⟩, _⟩, hc⟩, _⟩ := hres
        have h0 : toSizeT (SIZE_MAX + 1) = 0 := by decide
        have h1 : toSizeT (0 + 1) = 1 := by decide
        rw [h0] at hi
        rw [h1] at hc
        exact TimelineIsValidForRandomization.find_if_not_reference rest current
          (by simp only [SIZE_MAX]; omega) (by simp only [SIZE_MAX]; omega)
      · rw [if_neg hres]
        simp only [Bool.not_eq_true] at hres
        rw [hres, Bool.false_and]
  · intro first rest htl hvalid
    subst htl
    simp only [TimelineIsValidForRandomization,
      TimelineIsValidForRandomization.find_if_not] at hvalid
    split at hvalid
    · rename_i hres
      simp only [TimelineIsValidForRandomization.result, Bool.and_eq_true,
        decide_eq_true_eq] at hres
      obtain ⟨⟨⟨⟨_, hi⟩, _⟩, hc⟩, _⟩ := hres
      have h0 : toSizeT (SIZE_MAX + 1) = 0 := by decide
      have h1 : toSizeT (0 + 1) = 1 := by decide
      rw [h0] at hi
      rw [h1] at hc
      omega
    · cases hvalid

/-- Claim C23 at the timeline of five descriptors in the chunks 0, 0, 1, 1, 2: the validator
and the reference check agree (both accept), and the timeline starts with id 0 in chunk 0 or
1. -/
theorem C23_validator_equals_reference_witness :
    TimelineIsValidForRandomization timelineOfFive
      = TimelineIsValidForRandomization.reference timelineOfFive ∧
    (validDescription 0 1 0).m_id = 0 ∧
    ((validDescription 0 1 0).m_chunkId = 0 ∨ (validDescription 0 1 0).m_chunkId = 1) :=
  ⟨(C23_validator_equals_reference timelineOfFive (by decide)).1,
   (C23_validator_equals_reference timelineOfFive (by decide)).2.2 _ _ rfl (by decide)⟩

theorem TimelineIsValidForRandomization.find_if_not_append (t u : Timeline) :
    ∀ previous, TimelineIsValidForRandomization.find_if_not previous (t ++ u) = true →
      TimelineIsValidForRandomization.find_if_not previous t = true := by
  induction t with
  | nil => intro _ _; rfl
  | cons c rest ih =>
    intro previous h
    simp only [List.cons_append, TimelineIsValidForRandomization.find_if_not] at h ⊢
    split at h
    · rename_i hres
      rw [if_pos hres]
      exact ih c h
    · cases h

/-- Claim C24: for all timelines `t` and `u`, if the validator accepts the concatenation
`t ++ u` then it accepts `t`.  (Read the other way round: when `t` is rejected, `t ++ u` is
rejected whatever `u` holds.) -/
theorem C24_validity_prefix_closed (t u : Timeline)
    (h : TimelineIsValidForRandomization (t ++ u) = true) :
    TimelineIsValidForRandomization t = true :=
  TimelineIsValidForRandomization.find_if_not_append t u _ h

/-- Claim C24 at the timeline of five descriptors, split after the second one: the whole
timeline is accepted, hence so are its first two descriptors. -/
theorem C24_validity_prefix_closed_witness :
    TimelineIsValidForRandomization [validDescription 0 1 0, validDescription 1 1 0] = true :=
  C24_validity_prefix_closed [validDescription 0 1 0, validDescription 1 1 0]
    [validDescription 2 1 1, validDescription 3 1 1, validDescription 4 1 2] (by decide)

/-- Claim C25: for every `GetNextSequences` call that completes, with the sequence position
`p` before and `q` after the call, `p ≤ q`, every position from `p` to `q - 1` exists in the
timeline, and the returned id list is exactly the ascending list of the positions `k` with
`p ≤ k < q` whose descriptor satisfies `m_chunkId mod numberOfWorkers = workerRank`; a
position in that range that belongs to another worker is not in the list. -/
theorem C25_no_owned_sequence_skipped (s : NoRandomizer) (count : Nat)
    (r : GetNextSequencesResult) (hcall : s.GetNextSequences count = .ok r) :
    s.m_sequencePositionInSweep ≤ r.self.m_sequencePositionInSweep ∧
    r.ids = (List.range' s.m_sequencePositionInSweep
      (r.self.m_sequencePositionInSweep - s.m_sequencePositionInSweep)).filter (fun k =>
        match s.m_deserializer.m_sequences[k]? with
        | some d => decide (d.m_chunkId % s.m_numberOfWorkers = s.m_workerRank)
        | none => false) ∧
    List.Sorted (· < ·) r.ids ∧
    ∀ k, s.m_sequencePositionInSweep ≤ k → k < r.self.m_sequencePositionInSweep →
      ∃ d, s.m_deserializer.m_sequences[k]? = some d ∧
        (k ∈ r.ids ↔ d.m_chunkId % s.m_numberOfWorkers = s.m_workerRank) := by
  obtain ⟨_, e2, e3, e4, _⟩ := NoRandomizer.GetNextSequences_spec hcall
  have howns : ∀ k, s.m_sequencePositionInSweep ≤ k → k < r.self.m_sequencePositionInSweep →
      s.owns k = (match s.m_deserializer.m_sequences[k]? with
        | some d => decide (d.m_chunkId % s.m_numberOfWorkers = s.m_workerRank)
        | none => false) := by
    intro k h1 h2
    unfold NoRandomizer.owns Timeline.elementAt DataDeserializer.GetSequenceDescriptions
    rw [if_pos (e4 k h1 h2).2.1]
  have hids : r.ids = (List.range' s.m_sequencePositionInSweep
      (r.self.m_sequencePositionInSweep - s.m_sequencePositionInSweep)).filter (fun k =>
        match s.m_deserializer.m_sequences[k]? with
        | some d => decide (d.m_chunkId % s.m_numberOfWorkers = s.m_workerRank)
        | none => false) := by
    rw [e3]
    apply List.filter_congr
    intro k hk
    rw [List.mem_range'_1] at hk
    exact howns k hk.1 (by omega)
  refine ⟨e2, hids, ?_, fun k h1 h2 => ?_⟩
  · rw [e3]
    exact List.sorted_lt_filter_range' _ _ _
  · have hk := (e4 k h1 h2).1
    refine ⟨s.m_deserializer.m_sequences[k], List.getElem?_eq_getElem hk, ?_⟩
    rw [hids, List.mem_filter, List.mem_range'_1, List.getElem?_eq_getElem hk]
    simp only [decide_eq_true_eq]
    constructor
    · exact fun h => h.2
    · exact fun h => ⟨⟨h1, by omega⟩, h⟩

/-- Claim C25 at worker 1 of 2 over five sequences in the chunks 0, 0, 1, 1, 2: the call for
one id moves the sequence position from 0 to 3 and returns the id 2, the only position below
3 in a chunk of worker 1; position 1, in chunk 0, is not returned. -/
theorem C25_no_owned_sequence_skipped_witness :
    [2] = (List.range' 0 (3 - 0)).filter (fun k =>
        match timelineOfFive[k]? with
        | some d => decide (d.m_chunkId % 2 = 1)
        | none => false) ∧
    ∃ d, timelineOfFive[1]? = some d ∧ (1 ∈ [2] ↔ d.m_chunkId % 2 = 1) :=
  ⟨(C25_no_owned_sequence_skipped (startedOfFive 2 1 0 0) 1 _ startedOfFive_first_call).2.1,
   (C25_no_owned_sequence_skipped (startedOfFive 2 1 0 0) 1 _ startedOfFive_first_call).2.2.2
     1 (by decide) (by decide)⟩

/-! ## Claims about the positions of the scheduler within an epoch -/

/-- Claim C26: for every `GetNextSequences` call that completes, with the sequence position
`p` before and `q` after the call, `m_samplePositionInEpoch` afterwards is the `size_t` sum of
its value before and `m_numberOfSamples` of all timeline positions from `p` (inclusive) to `q`
(exclusive), skipped or returned.  Whenever no single addition can leave `size_t` (the epoch
size plus the sample count of any one sequence is at most `SIZE_MAX + 1`; so it is for every
scheduler over an accepted timeline with `m_frameMode` set), the increase is exactly that sum,
and the difference between `m_samplePositionInEpoch` and the sample total of the first
`m_sequencePositionInSweep` descriptors is the same before and after the call. -/
theorem C26_sample_accounting (s : NoRandomizer) (count : Nat) (r : GetNextSequencesResult)
    (hcall : s.GetNextSequences count = .ok r) :
    s.m_sequencePositionInSweep ≤ r.self.m_sequencePositionInSweep ∧
    ((r.self.m_sequencePositionInSweep = s.m_sequencePositionInSweep ∧
        r.self.m_samplePositionInEpoch = s.m_samplePositionInEpoch) ∨
      (s.m_sequencePositionInSweep < r.self.m_sequencePositionInSweep ∧
        r.self.m_samplePositionInEpoch = toSizeT (s.m_samplePositionInEpoch +
          s.m_deserializer.m_sequences.samplesBetween s.m_sequencePositionInSweep
            r.self.m_sequencePositionInSweep))) ∧
    ((∀ d ∈ s.m_deserializer.m_sequences,
        s.m_epochSize + d.m_numberOfSamples ≤ SIZE_MAX + 1) →
      r.self.m_samplePositionInEpoch = s.m_samplePositionInEpoch +
        s.m_deserializer.m_sequences.samplesBetween s.m_sequencePositionInSweep
          r.self.m_sequencePositionInSweep ∧
      (r.self.m_samplePositionInEpoch : Int)
          - s.m_deserializer.m_sequences.samplesBetween 0 r.self.m_sequencePositionInSweep
        = (s.m_samplePositionInEpoch : Int)
          - s.m_deserializer.m_sequences.samplesBetween 0 s.m_sequencePositionInSweep) ∧
    (s.FromConstructor → s.m_frameMode = true → s.m_epochSize ≤ SIZE_MAX →
      ∀ d ∈ s.m_deserializer.m_sequences,
        s.m_epochSize + d.m_numberOfSamples ≤ SIZE_MAX + 1) := by
  obtain ⟨_, e2, _, _, e5, _⟩ := NoRandomizer.GetNextSequences_spec hcall
  refine ⟨e2, e5, fun hbound => ?_, fun hctor hframe hsize d hd => ?_⟩
  · obtain ⟨x1, x2, x3⟩ := (NoRandomizer.GetNextSequences_advanced hcall).exact hbound
    refine ⟨x3, ?_⟩
    rcases Nat.eq_or_lt_of_le x1 with heq | hlt
    · rw [x3, ← heq, Timeline.samplesBetween_self]
      simp
    · rw [x3, Timeline.samplesBetween_add (Nat.zero_le _) x1 (x2 hlt)]
      push_cast
      ring
  · rw [hctor.one_sample hframe d hd]
    omega

/-- Claim C26 at worker 1 of 2 over five single-sample sequences: the call for one id moves
the sequence position from 0 to 3, skipping the positions 0 and 1 and returning 2, and the
sample position from 0 to 0 + 3; the difference to the samples of the descriptors passed is 0
before and after. -/
theorem C26_sample_accounting_witness :
    (startedOfFive 2 1 3 3).m_samplePositionInEpoch
      = (startedOfFive 2 1 0 0).m_samplePositionInEpoch + timelineOfFive.samplesBetween 0 3 ∧
    ((startedOfFive 2 1 3 3).m_samplePositionInEpoch : Int)
        - timelineOfFive.samplesBetween 0 3
      = ((startedOfFive 2 1 0 0).m_samplePositionInEpoch : Int)
        - timelineOfFive.samplesBetween 0 0 :=
  (C26_sample_accounting (startedOfFive 2 1 0 0) 1 _ startedOfFive_first_call).2.2.1
    (by decide)

theorem constructedOfFive_new :
    NoRandomizer.new (exampleDeserializer timelineOfFive) 0 0
      = .ok (schedulerOfFive.withPosition SIZE_MAX SIZE_MAX) := rfl

theorem constructedOfFive_StartEpoch :
    (schedulerOfFive.withPosition SIZE_MAX SIZE_MAX).StartEpoch exampleRequestDataSize
        (fullSweepOf 1 0)
      = .ok (startedOfFive 1 0 0 SIZE_MAX) := by
  simp [NoRandomizer.StartEpoch, NoRandomizer.withPosition, schedulerOfFive, fullSweepOf,
    startedOfFive, toSizeT, SIZE_MAX]

theorem startedOfFive_from_marker :
    (startedOfFive 1 0 0 SIZE_MAX).GetNextSequences 1 = .error .undefined := by
  simp [NoRandomizer.GetNextSequences, NoRandomizer.GetNextSequences.loop,
    NoRandomizer.AdvanceToNextPositionForThisWorker, startedOfFive, schedulerOfFive,
    exampleDeserializer, timelineOfFive, validDescription, SIZE_MAX, toSizeT,
    Timeline.elementAt, DataDeserializer.GetSequenceDescriptions]

theorem startedOfFive_past_the_end :
    ({ startedOfFive 1 0 0 0 with m_epochSize := 6 } : NoRandomizer).GetNextSequences 6
      = .error .undefined := by
  simp [NoRandomizer.GetNextSequences, NoRandomizer.GetNextSequences.loop,
    NoRandomizer.AdvanceToNextPositionForThisWorker, startedOfFive, schedulerOfFive,
    exampleDeserializer, timelineOfFive, validDescription, SIZE_MAX, toSizeT,
    Timeline.elementAt, DataDeserializer.GetSequenceDescriptions]

/-- Claim C27 fails on the code.  Over the valid timeline of five single-sample sequences, the
constructor leaves `m_sequencePositionInSweep = SIZE_MAX`, `StartEpoch` for worker 0 of 1 with
a full sweep does not change it, and the first `GetNextSequences(1)` looks up
`timeline[SIZE_MAX]`, outside the five descriptors, before the assertion
`m_sequencePositionInSweep < m_numSequences` is reached.  A scheduler placed at sweep position
0 with epoch size 6, one more than the five samples, runs past the end of the timeline as
well. -/
theorem C27_lookup_out_of_bounds_after_construction :
    constructStartAndGet timelineOfFive (fullSweepOf 1 0) 1 = .error .undefined ∧
    (startedOfFive 1 0 0 SIZE_MAX).m_sequencePositionInSweep = SIZE_MAX ∧
    (startedOfFive 1 0 0 SIZE_MAX).m_numSequences = 5 ∧
    (startedOfFive 1 0 0 SIZE_MAX).m_deserializer.GetSequenceDescriptions.elementAt SIZE_MAX
      = none ∧
    ({ startedOfFive 1 0 0 0 with m_epochSize := 6 } : NoRandomizer).GetNextSequences 6
      = .error .undefined := by
  refine ⟨?_, rfl, rfl, rfl, startedOfFive_past_the_end⟩
  simp only [constructStartAndGet, constructedOfFive_new, constructedOfFive_StartEpoch,
    startedOfFive_from_marker]

/-- Claim C28: for every scheduler over a valid non-empty timeline (a vector of fewer than
`SIZE_MAX` descriptors) with `numberOfWorkers ≥ 1` that stands, at the start of an epoch, at
sweep position 0 with sample position 0 and an epoch size of at most the sample total of the
timeline (`m_numSamples`): no sequence of `GetNextSequences` calls of that epoch runs into
undefined behaviour, so no timeline lookup is out of range; after every call the sequence
position is at most `m_numSequences`, and every position looked up lies before it; and when
every sequence has one sample (`m_frameMode`), all calls complete. -/
theorem C28_lookups_in_bounds_in_sweep (s : NoRandomizer) (counts : List Nat)
    (hctor : s.FromConstructor)
    (hsize : s.m_deserializer.m_sequences.length < SIZE_MAX)
    (hworkers : 1 ≤ s.m_numberOfWorkers)
    (hsample : s.m_samplePositionInEpoch = 0) (hsequence : s.m_sequencePositionInSweep = 0)
    (hepoch : s.m_epochSize ≤ s.m_numSamples) :
    s.GetNextSequencesRepeatedly counts ≠ .error .undefined ∧
    (∀ rs, s.GetNextSequencesRepeatedly counts = .ok rs →
      ∀ r ∈ rs, r.self.m_sequencePositionInSweep ≤ s.m_numSequences ∧
        r.self.m_sequencePositionInSweep ≤ s.m_deserializer.m_sequences.length) ∧
    (s.m_frameMode = true → ∃ rs, s.GetNextSequencesRepeatedly counts = .ok rs) := by
  have hs : s.InSweep :=
    NoRandomizer.InSweep.of_start hctor hsize (by omega) hsample hsequence hepoch
  obtain ⟨h1, h2⟩ := NoRandomizer.sweep_repeatedly counts s hs
  refine ⟨?_, ?_, fun hframe => h2 (hctor.one_sample hframe)⟩
  · rcases h1 with ⟨rs, hrun, _⟩ | herr
    · rw [hrun]
      intro hc
      cases hc
    · rw [herr]
      intro hc
      cases hc
  · intro rs hrun r hr
    rcases h1 with ⟨rs', hrun', hall⟩ | herr
    · rw [hrun] at hrun'
      cases hrun'
      obtain ⟨x1, x2, x3⟩ := hall r hr
      have hq := x1.2.1
      rw [x2] at hq
      exact ⟨by rw [hs.2.2.2.1]; exact hq, hq⟩
    · rw [hrun] at herr
      cases herr

/-- Claim C28 at worker 1 of 2 over five single-sample sequences, from sweep position 0 with
epoch size 5: the calls with the counts 1, 2, 2 do not run into undefined behaviour and all
complete. -/
theorem C28_lookups_in_bounds_in_sweep_witness :
    (startedOfFive 2 1 0 0).GetNextSequencesRepeatedly [1, 2, 2] ≠ .error .undefined ∧
    ∃ rs, (startedOfFive 2 1 0 0).GetNextSequencesRepeatedly [1, 2, 2] = .ok rs :=
  ⟨(C28_lookups_in_bounds_in_sweep (startedOfFive 2 1 0 0) [1, 2, 2]
      (startedOfFive_fromConstructor 2 1 0 0) (by decide) (by decide) rfl rfl
      (by decide)).1,
   (C28_lookups_in_bounds_in_sweep (startedOfFive 2 1 0 0) [1, 2, 2]
      (startedOfFive_fromConstructor 2 1 0 0) (by decide) (by decide) rfl rfl
      (by decide)).2.2 rfl⟩

theorem NoRandomizer.filter_owns_eq_take_workerShard (s : NoRandomizer) (E : Nat)
    (hE : E ≤ s.m_deserializer.m_sequences.length)
    (hsize : s.m_deserializer.m_sequences.length < SIZE_MAX) :
    (List.range' 0 (E - 0)).filter s.owns
      = Timeline.workerShard (s.m_deserializer.m_sequences.take E) s.m_numberOfWorkers
          s.m_workerRank := by
  unfold Timeline.workerShard
  rw [List.range_eq_range', Nat.sub_zero, List.length_take, Nat.min_eq_left hE]
  apply List.filter_congr
  intro k hk
  rw [List.mem_range'_1] at hk
  unfold NoRandomizer.owns Timeline.elementAt DataDeserializer.GetSequenceDescriptions
  rw [if_pos (by omega), List.getElem?_take, if_pos (by omega)]

/-- An epoch over single-sample sequences that was started at sweep position 0 with an epoch
size inside the timeline: calls with positive counts end the epoch after returning the shard
of the worker among the first `m_epochSize` descriptors. -/
theorem NoRandomizer.partial_sweep {R : Nat} {s0 s1 : NoRandomizer} {cfg : EpochConfiguration}
    {counts : List Nat} (hctor : s0.FromConstructor)
    (hsize : s0.m_deserializer.m_sequences.length < SIZE_MAX)
    (hone : ∀ d ∈ s0.m_deserializer.m_sequences, d.m_numberOfSamples = 1)
    (hpos : s0.m_sequencePositionInSweep = 0)
    (hW : cfg.m_numberOfWorkers ≠ 0)
    (hstart : s0.StartEpoch R cfg = .ok s1)
    (hE : s1.m_epochSize ≤ s0.m_numSequences)
    (hcounts : ∀ c ∈ counts, 0 < c)
    (hlen : s1.m_epochSize < counts.length) :
    ∃ sF, s1.GetNextSequencesUntilEndOfEpoch counts
        = .ok (Timeline.workerShard (s0.m_deserializer.m_sequences.take s1.m_epochSize)
            cfg.m_numberOfWorkers cfg.m_workerRank, true, sF) ∧
      sF.m_samplePositionInEpoch = s1.m_epochSize := by
  obtain ⟨_, hnum, _, _⟩ := hctor.frame hsize hone
  obtain ⟨_, hs1⟩ := NoRandomizer.StartEpoch_ok hstart
  generalize (if cfg.m_totalEpochSizeInSamples = R then s0.m_numSamples
    else cfg.m_totalEpochSizeInSamples) = E at hs1
  subst hs1
  have e0 : (s0.started cfg E).m_deserializer = s0.m_deserializer := rfl
  have e1 : (s0.started cfg E).m_sequencePositionInSweep = 0 := hpos
  have e2 : (s0.started cfg E).m_epochSize = E := rfl
  have e3 : (s0.started cfg E).m_numberOfWorkers = cfg.m_numberOfWorkers := rfl
  have e4 : (s0.started cfg E).m_workerRank = cfg.m_workerRank := rfl
  rw [e2] at hE hlen
  have hEl : E ≤ s0.m_deserializer.m_sequences.length := by rw [← hnum]; exact hE
  have hrun := NoRandomizer.frame_until_end counts (s0.started cfg E)
    ⟨hone, hW, hpos.symm, by simp [NoRandomizer.started, hpos], hEl, hsize, hnum⟩
    hcounts (by simpa [NoRandomizer.started, hpos] using hlen)
  refine ⟨(s0.started cfg E).withPosition E E, ?_, rfl⟩
  rw [hrun]
  have h3 := NoRandomizer.filter_owns_eq_take_workerShard (s0.started cfg E) E hEl hsize
  rw [e0, e3, e4] at h3
  rw [e1, e2, h3]

/-- Claim C29: in frame mode (a scheduler over a valid non-empty timeline, a vector of fewer
than `SIZE_MAX` descriptors, in which every sequence has one sample), for every epoch started
by `StartEpoch` at sweep position 0 with an epoch size `E ≤ numSequences` and
`numberOfWorkers ≥ 1`: calling `GetNextSequences` with positive counts until `endOfEpoch` is
returned completes and yields, concatenated, exactly the ascending list of the ids `i < E`
with `timeline[i].m_chunkId mod numberOfWorkers = workerRank`: at most `E` ids, and none when
the worker owns no chunk among the first `E` sequences. -/
theorem C29_partial_epoch_shard (R : Nat) (s0 s1 : NoRandomizer) (cfg : EpochConfiguration)
    (counts : List Nat)
    (hctor : s0.FromConstructor)
    (hsize : s0.m_deserializer.m_sequences.length < SIZE_MAX)
    (hone : ∀ d ∈ s0.m_deserializer.m_sequences, d.m_numberOfSamples = 1)
    (hpos : s0.m_sequencePositionInSweep = 0)
    (hW : 1 ≤ cfg.m_numberOfWorkers)
    (hstart : s0.StartEpoch R cfg = .ok s1)
    (hE : s1.m_epochSize ≤ s0.m_numSequences)
    (hcounts : ∀ c ∈ counts, 0 < c)
    (hlen : s1.m_epochSize < counts.length) :
    ∃ sF ids,
      s1.GetNextSequencesUntilEndOfEpoch counts = .ok (ids, true, sF) ∧
      List.Sorted (· < ·) ids ∧
      (∀ i, i ∈ ids ↔ i < s1.m_epochSize ∧
        ∃ d, s0.m_deserializer.m_sequences[i]? = some d ∧
          d.m_chunkId % cfg.m_numberOfWorkers = cfg.m_workerRank) ∧
      ids.length ≤ s1.m_epochSize ∧
      ((∀ i d, i < s1.m_epochSize → s0.m_deserializer.m_sequences[i]? = some d →
        d.m_chunkId % cfg.m_numberOfWorkers ≠ cfg.m_workerRank) → ids = []) := by
  obtain ⟨sF, h2, _⟩ := NoRandomizer.partial_sweep hctor hsize hone hpos
    (by omega : cfg.m_numberOfWorkers ≠ 0) hstart hE hcounts hlen
  have hmem : ∀ i, i ∈ Timeline.workerShard (s0.m_deserializer.m_sequences.take s1.m_epochSize)
      cfg.m_numberOfWorkers cfg.m_workerRank ↔
      i < s1.m_epochSize ∧ ∃ d, s0.m_deserializer.m_sequences[i]? = some d ∧
        d.m_chunkId % cfg.m_numberOfWorkers = cfg.m_workerRank := by
    intro i
    rw [Timeline.mem_workerShard, List.getElem?_take]
    by_cases hi : i < s1.m_epochSize
    · rw [if_pos hi]
      exact ⟨fun h => ⟨hi, h⟩, fun h => h.2⟩
    · rw [if_neg hi]
      constructor
      · rintro ⟨d, hd, _⟩
        cases hd
      · rintro ⟨h, _⟩
        exact absurd h hi
  refine ⟨sF, _, h2, ?_, hmem, ?_, fun hnone => ?_⟩
  · unfold Timeline.workerShard
    rw [List.range_eq_range']
    exact List.sorted_lt_filter_range' _ _ _
  · unfold Timeline.workerShard
    refine le_trans (List.length_filter_le _ _) ?_
    rw [List.length_range, List.length_take]
    exact Nat.min_le_left _ _
  · rw [List.eq_nil_iff_forall_not_mem]
    intro i hi
    obtain ⟨hiE, d, hd, hown⟩ := (hmem i).1 hi
    exact hnone i d hiE hd hown

theorem startedOfFive_StartEpoch_three :
    schedulerOfFive.StartEpoch exampleRequestDataSize
        { fullSweepOf 2 1 with m_totalEpochSizeInSamples := 3 }
      = .ok { startedOfFive 2 1 0 0 with m_epochSize := 3 } := by
  simp [NoRandomizer.StartEpoch, schedulerOfFive, fullSweepOf, startedOfFive, toSizeT, SIZE_MAX,
    exampleRequestDataSize]

/-- Claim C29 at the timeline of five single-sample sequences in the chunks 0, 0, 1, 1, 2, with
epoch size 3: worker 1 of 2, calling with count 1 four times, collects exactly the id 2, the
only id below 3 in a chunk of its own. -/
theorem C29_partial_epoch_shard_witness :
    ∃ sF ids,
      ({ startedOfFive 2 1 0 0 with m_epochSize := 3 } :
        NoRandomizer).GetNextSequencesUntilEndOfEpoch [1, 1, 1, 1] = .ok (ids, true, sF) ∧
      List.Sorted (· < ·) ids ∧
      (∀ i, i ∈ ids ↔ i < 3 ∧ ∃ d, timelineOfFive[i]? = some d ∧ d.m_chunkId % 2 = 1) ∧
      ids.length ≤ 3 ∧
      ((∀ i d, i < 3 → timelineOfFive[i]? = some d → d.m_chunkId % 2 ≠ 1) → ids = []) :=
  C29_partial_epoch_shard exampleRequestDataSize schedulerOfFive _
    { fullSweepOf 2 1 with m_totalEpochSizeInSamples := 3 } [1, 1, 1, 1]
    schedulerOfFive_fromConstructor (by decide) schedulerOfFive_one_sample rfl (by decide)
    startedOfFive_StartEpoch_three (by decide) (by decide) (by decide)

/-- Claim C30, as stated, fails.  On the scheduler over five single-sample sequences,
`StartEpoch` with a full sweep and epoch index 0 completes, but with epoch index
3689348814741910323, the only member changed, `5 * 3689348814741910323 = SIZE_MAX` and the
call stops at `assert(timeframe != SIZE_MAX)`: no scheduler state is produced. -/
theorem C30_counterexample :
    schedulerOfFive.StartEpoch exampleRequestDataSize (fullSweepOf 1 0)
      = .ok (startedOfFive 1 0 0 0) ∧
    schedulerOfFive.StartEpoch exampleRequestDataSize
      { fullSweepOf 1 0 with m_epochIndex := 3689348814741910323 } = .error .assertion := by
  refine ⟨startedOfFive_StartEpoch 1 0, ?_⟩
  simp [NoRandomizer.StartEpoch, schedulerOfFive, fullSweepOf, toSizeT, SIZE_MAX]

/-- Claim C30, amended: for every scheduler state and every two configurations that differ
only in `m_epochIndex`, `StartEpoch` completes exactly when `m_frameMode` holds and the epoch
size times the epoch index is not `SIZE_MAX` modulo `2^64`; when it completes for both
configurations it produces the same scheduler state, and therefore every sequence of following
`GetNextSequences` calls gives the same results. -/
theorem C30_epoch_index_only_asserted (R : Nat) (s0 : NoRandomizer)
    (cfg1 cfg2 : EpochConfiguration)
    (hsame : cfg2 = { cfg1 with m_epochIndex := cfg2.m_epochIndex }) :
    (∀ s1 s2, s0.StartEpoch R cfg1 = .ok s1 → s0.StartEpoch R cfg2 = .ok s2 →
      s1 = s2 ∧ ∀ counts, s1.GetNextSequencesRepeatedly counts
        = s2.GetNextSequencesRepeatedly counts) ∧
    ((∃ s2, s0.StartEpoch R cfg2 = .ok s2) ↔
      s0.m_frameMode = true ∧
      toSizeT ((if cfg1.m_totalEpochSizeInSamples = R then s0.m_numSamples
        else cfg1.m_totalEpochSizeInSamples) * cfg2.m_epochIndex) ≠ SIZE_MAX) := by
  have htotal : cfg2.m_totalEpochSizeInSamples = cfg1.m_totalEpochSizeInSamples := by
    rw [hsame]
  have hrank : cfg2.m_workerRank = cfg1.m_workerRank := by rw [hsame]
  have hworkers : cfg2.m_numberOfWorkers = cfg1.m_numberOfWorkers := by rw [hsame]
  refine ⟨fun s1 s2 h1 h2 => ?_, ?_⟩
  · obtain ⟨_, e1⟩ := NoRandomizer.StartEpoch_ok h1
    obtain ⟨_, e2⟩ := NoRandomizer.StartEpoch_ok h2
    have heq : s1 = s2 := by
      rw [e1, e2]
      simp only [NoRandomizer.started, htotal, hrank, hworkers]
    exact ⟨heq, fun counts => by rw [heq]⟩
  · constructor
    · rintro ⟨s2, h2⟩
      refine ⟨(NoRandomizer.StartEpoch_ok h2).1, ?_⟩
      intro htime
      simp only [NoRandomizer.StartEpoch, htotal, htime,
        (NoRandomizer.StartEpoch_ok h2).1] at h2
      simp at h2
    · rintro ⟨hframe, htime⟩
      exact ⟨_, NoRandomizer.StartEpoch_of hframe (by rw [htotal]; exact htime)⟩

theorem startedOfFive_StartEpoch_seven :
    schedulerOfFive.StartEpoch exampleRequestDataSize
        { fullSweepOf 1 0 with m_epochIndex := 7 }
      = .ok (startedOfFive 1 0 0 0) := by
  simp [NoRandomizer.StartEpoch, schedulerOfFive, fullSweepOf, startedOfFive, toSizeT, SIZE_MAX]

/-- Claim C30, amended, at the scheduler over five single-sample sequences with the epoch
indices 0 and 7: both calls complete, and with the same state. -/
theorem C30_epoch_index_only_asserted_witness :
    ∃ s1 s2,
      schedulerOfFive.StartEpoch exampleRequestDataSize (fullSweepOf 1 0) = .ok s1 ∧
      schedulerOfFive.StartEpoch exampleRequestDataSize
        { fullSweepOf 1 0 with m_epochIndex := 7 } = .ok s2 ∧
      s1 = s2 :=
  ⟨_, _, startedOfFive_StartEpoch 1 0, startedOfFive_StartEpoch_seven,
    ((C30_epoch_index_only_asserted exampleRequestDataSize schedulerOfFive (fullSweepOf 1 0)
      { fullSweepOf 1 0 with m_epochIndex := 7 } rfl).1 _ _ (startedOfFive_StartEpoch 1 0)
      startedOfFive_StartEpoch_seven).1⟩

/-! ## Iteration counts of the scheduler loops -/

theorem NoRandomizer.iterations_done {s : NoRandomizer}
    (h : ¬ s.m_samplePositionInEpoch < s.m_epochSize) :
    NoRandomizer.AdvanceToNextPositionForThisWorker.iterations s = 0 := by
  rw [NoRandomizer.AdvanceToNextPositionForThisWorker.iterations, if_neg h]

theorem NoRandomizer.iterations_out_of_range {s : NoRandomizer}
    (hnone : s.m_deserializer.GetSequenceDescriptions.elementAt s.m_sequencePositionInSweep
      = none) :
    NoRandomizer.AdvanceToNextPositionForThisWorker.iterations s = 0 := by
  rw [NoRandomizer.AdvanceToNextPositionForThisWorker.iterations, dif_neg (by simp [hnone])]
  simp

theorem NoRandomizer.iterations_no_workers {s : NoRandomizer}
    (hw : s.m_numberOfWorkers = 0) :
    NoRandomizer.AdvanceToNextPositionForThisWorker.iterations s = 0 := by
  rw [NoRandomizer.AdvanceToNextPositionForThisWorker.iterations]
  simp [hw]

theorem NoRandomizer.iterations_owned {s : NoRandomizer} {d : SequenceDescription}
    (hd : s.m_deserializer.GetSequenceDescriptions.elementAt s.m_sequencePositionInSweep
      = some d)
    (hown : d.m_chunkId % s.m_numberOfWorkers = s.m_workerRank) :
    NoRandomizer.AdvanceToNextPositionForThisWorker.iterations s = 0 := by
  rw [NoRandomizer.AdvanceToNextPositionForThisWorker.iterations]
  simp [hd, hown]

theorem NoRandomizer.iterations_skip {s : NoRandomizer} {d : SequenceDescription}
    (h : s.m_samplePositionInEpoch < s.m_epochSize)
    (hd : s.m_deserializer.GetSequenceDescriptions.elementAt s.m_sequencePositionInSweep
      = some d)
    (hw : s.m_numberOfWorkers ≠ 0)
    (hown : d.m_chunkId % s.m_numberOfWorkers ≠ s.m_workerRank) :
    NoRandomizer.AdvanceToNextPositionForThisWorker.iterations s =
      NoRandomizer.AdvanceToNextPositionForThisWorker.iterations
        (s.withPosition (toSizeT (s.m_samplePositionInEpoch + d.m_numberOfSamples))
          (toSizeT (s.m_sequencePositionInSweep + 1))) + 1 := by
  rw [NoRandomizer.AdvanceToNextPositionForThisWorker.iterations, if_pos h,
    dif_pos (by simp [hd])]
  simp only [hd, Option.get_some, if_neg hw, if_neg hown]
  rfl

/-- The skip loop passes over at most the positions that are left in the timeline, and a
completed run leaves the sequence position increased by one for each pass. -/
theorem NoRandomizer.iterations_spec (n : Nat) :
    ∀ (s : NoRandomizer),
      s.m_deserializer.m_sequences.length - s.m_sequencePositionInSweep ≤ n →
      NoRandomizer.AdvanceToNextPositionForThisWorker.iterations s
        ≤ s.m_deserializer.m_sequences.length - s.m_sequencePositionInSweep ∧
      ∀ b s', s.AdvanceToNextPositionForThisWorker = .ok (b, s') →
        s'.m_sequencePositionInSweep = s.m_sequencePositionInSweep
          + NoRandomizer.AdvanceToNextPositionForThisWorker.iterations s := by
  induction n with
  | zero =>
    intro s hn
    by_cases hlt : s.m_samplePositionInEpoch < s.m_epochSize
    · have hnone : s.m_deserializer.GetSequenceDescriptions.elementAt
          s.m_sequencePositionInSweep = none := by
        cases hd : s.m_deserializer.GetSequenceDescriptions.elementAt
          s.m_sequencePositionInSweep with
        | none => rfl
        | some d =>
          have := (Timeline.elementAt_lt hd).2
          simp only [DataDeserializer.GetSequenceDescriptions] at this
          omega
      rw [NoRandomizer.iterations_out_of_range hnone,
        NoRandomizer.advance_out_of_range hlt hnone]
      exact ⟨Nat.zero_le _, fun b s' h => by cases h⟩
    · rw [NoRandomizer.iterations_done hlt, NoRandomizer.advance_done hlt]
      refine ⟨Nat.zero_le _, fun b s' h => ?_⟩
      cases h
      rfl
  | succ n ih =>
    intro s hn
    by_cases hlt : s.m_samplePositionInEpoch < s.m_epochSize
    · cases hd : s.m_deserializer.GetSequenceDescriptions.elementAt
          s.m_sequencePositionInSweep with
      | none =>
        rw [NoRandomizer.iterations_out_of_range hd, NoRandomizer.advance_out_of_range hlt hd]
        exact ⟨Nat.zero_le _, fun b s' h => by cases h⟩
      | some d =>
        by_cases hw : s.m_numberOfWorkers = 0
        · rw [NoRandomizer.iterations_no_workers hw, NoRandomizer.advance_no_workers hlt hd hw]
          exact ⟨Nat.zero_le _, fun b s' h => by cases h⟩
        · by_cases hown : d.m_chunkId % s.m_numberOfWorkers = s.m_workerRank
          · rw [NoRandomizer.iterations_owned hd hown,
              NoRandomizer.advance_owned hlt hd hw hown]
            refine ⟨Nat.zero_le _, fun b s' h => ?_⟩
            cases h
            rfl
          · rw [NoRandomizer.iterations_skip hlt hd hw hown,
              NoRandomizer.advance_skip hlt hd hw hown]
            have hrange := Timeline.elementAt_lt hd
            simp only [DataDeserializer.GetSequenceDescriptions] at hrange
            have hp1 : toSizeT (s.m_sequencePositionInSweep + 1)
                = s.m_sequencePositionInSweep + 1 :=
              toSizeT_of_lt (by have := hrange.1; unfold SIZE_MAX at this; omega)
            rw [hp1]
            obtain ⟨e1, e2⟩ := ih (s.withPosition
              (toSizeT (s.m_samplePositionInEpoch + d.m_numberOfSamples))
              (s.m_sequencePositionInSweep + 1)) (by simp; omega)
            simp only [NoRandomizer.withPosition_sequencePosition,
              NoRandomizer.withPosition_deserializer] at e1 e2
            refine ⟨by omega, fun b s' h => ?_⟩
            rw [e2 b s' h]
            omega
    · rw [NoRandomizer.iterations_done hlt, NoRandomizer.advance_done hlt]
      refine ⟨Nat.zero_le _, fun b s' h => ?_⟩
      cases h
      rfl

theorem NoRandomizer.iterations_loop_done {count : Nat} {s : NoRandomizer} {ids : List Nat}
    (h : ¬ ids.length < count) :
    NoRandomizer.GetNextSequences.loop.iterations count s ids = (0, 0) := by
  rw [NoRandomizer.GetNextSequences.loop.iterations, if_neg h]

theorem NoRandomizer.iterations_loop_error {count : Nat} {s : NoRandomizer} {ids : List Nat}
    {e : Failure} (h : ids.length < count)
    (ha : s.AdvanceToNextPositionForThisWorker = .error e) :
    NoRandomizer.GetNextSequences.loop.iterations count s ids
      = (NoRandomizer.AdvanceToNextPositionForThisWorker.iterations s, 0) := by
  rw [NoRandomizer.GetNextSequences.loop.iterations, if_pos h, ha]

theorem NoRandomizer.iterations_loop_end {count : Nat} {s s1 : NoRandomizer} {ids : List Nat}
    (h : ids.length < count)
    (ha : s.AdvanceToNextPositionForThisWorker = .ok (true, s1)) :
    NoRandomizer.GetNextSequences.loop.iterations count s ids
      = (NoRandomizer.AdvanceToNextPositionForThisWorker.iterations s, 0) := by
  rw [NoRandomizer.GetNextSequences.loop.iterations, if_pos h, ha]

theorem NoRandomizer.iterations_loop_assert {count : Nat} {s s1 : NoRandomizer}
    {ids : List Nat} (h : ids.length < count)
    (ha : s.AdvanceToNextPositionForThisWorker = .ok (false, s1))
    (hassert : ¬ s1.m_sequencePositionInSweep < s1.m_numSequences) :
    NoRandomizer.GetNextSequences.loop.iterations count s ids
      = (NoRandomizer.AdvanceToNextPositionForThisWorker.iterations s, 0) := by
  rw [NoRandomizer.GetNextSequences.loop.iterations, if_pos h, ha]
  simp only [if_neg hassert]

theorem NoRandomizer.iterations_loop_out_of_range {count : Nat} {s s1 : NoRandomizer}
    {ids : List Nat} (h : ids.length < count)
    (ha : s.AdvanceToNextPositionForThisWorker = .ok (false, s1))
    (hassert : s1.m_sequencePositionInSweep < s1.m_numSequences)
    (hd : s1.m_deserializer.GetSequenceDescriptions.elementAt s1.m_sequencePositionInSweep
      = none) :
    NoRandomizer.GetNextSequences.loop.iterations count s ids
      = (NoRandomizer.AdvanceToNextPositionForThisWorker.iterations s, 0) := by
  rw [NoRandomizer.GetNextSequences.loop.iterations, if_pos h, ha]
  simp only [if_pos hassert, hd]

theorem NoRandomizer.iterations_loop_push {count : Nat} {s s1 : NoRandomizer}
    {ids : List Nat} {d : SequenceDescription} (h : ids.length < count)
    (ha : s.AdvanceToNextPositionForThisWorker = .ok (false, s1))
    (hassert : s1.m_sequencePositionInSweep < s1.m_numSequences)
    (hd : s1.m_deserializer.GetSequenceDescriptions.elementAt s1.m_sequencePositionInSweep
      = some d) :
    NoRandomizer.GetNextSequences.loop.iterations count s ids =
      (NoRandomizer.AdvanceToNextPositionForThisWorker.iterations s
        + (NoRandomizer.GetNextSequences.loop.iterations count
            (s1.withPosition (toSizeT (s1.m_samplePositionInEpoch + d.m_numberOfSamples))
              (toSizeT (s1.m_sequencePositionInSweep + 1)))
            (ids ++ [s1.m_sequencePositionInSweep])).1,
       (NoRandomizer.GetNextSequences.loop.iterations count
            (s1.withPosition (toSizeT (s1.m_samplePositionInEpoch + d.m_numberOfSamples))
              (toSizeT (s1.m_sequencePositionInSweep + 1)))
            (ids ++ [s1.m_sequencePositionInSweep])).2 + 1) := by
  rw [NoRandomizer.GetNextSequences.loop.iterations, if_pos h, ha]
  simp only [if_pos hassert, hd]
  rfl

/-- The collection loop makes at most `count - ids.size()` passes of its own, all passes
together consume at most the positions that are left in the timeline, and a completed run
leaves the sequence position increased by one for each pass and `ids` grown by one for each
pass of the collection loop. -/
theorem NoRandomizer.iterations_loop_spec (count : Nat) (n : Nat) :
    ∀ (s : NoRandomizer) (ids : List Nat),
      count - ids.length ≤ n →
      (NoRandomizer.GetNextSequences.loop.iterations count s ids).2 ≤ count - ids.length ∧
      (NoRandomizer.GetNextSequences.loop.iterations count s ids).1
        + (NoRandomizer.GetNextSequences.loop.iterations count s ids).2
        ≤ s.m_deserializer.m_sequences.length - s.m_sequencePositionInSweep ∧
      ∀ eoe ids' eoe' s',
        NoRandomizer.GetNextSequences.loop count s ids eoe = .ok (ids', eoe', s') →
        s'.m_sequencePositionInSweep = s.m_sequencePositionInSweep
          + ((NoRandomizer.GetNextSequences.loop.iterations count s ids).1
            + (NoRandomizer.GetNextSequences.loop.iterations count s ids).2) ∧
        ids'.length = ids.length
          + (NoRandomizer.GetNextSequences.loop.iterations count s ids).2 := by
  induction n with
  | zero =>
    intro s ids hn
    have hge : ¬ ids.length < count := by omega
    rw [NoRandomizer.iterations_loop_done hge]
    refine ⟨Nat.zero_le _, Nat.zero_le _, fun eoe ids' eoe' s' h => ?_⟩
    rw [NoRandomizer.loop_done hge] at h
    cases h
    exact ⟨rfl, rfl⟩
  | succ n ih =>
    intro s ids hn
    by_cases hlt : ids.length < count
    · obtain ⟨b1, b2⟩ := NoRandomizer.iterations_spec _ s (le_refl _)
      cases ha : s.AdvanceToNextPositionForThisWorker with
      | error e =>
        rw [NoRandomizer.iterations_loop_error hlt ha]
        refine ⟨Nat.zero_le _, by simpa using b1, fun eoe ids' eoe' s' h => ?_⟩
        rw [NoRandomizer.loop_error hlt ha] at h
        cases h
      | ok r =>
        obtain ⟨b, s1⟩ := r
        have hpos := b2 b s1 ha
        cases b with
        | true =>
          rw [NoRandomizer.iterations_loop_end hlt ha]
          refine ⟨Nat.zero_le _, by simpa using b1, fun eoe ids' eoe' s' h => ?_⟩
          rw [NoRandomizer.loop_end hlt ha] at h
          cases h
          exact ⟨by simpa using hpos, rfl⟩
        | false =>
          by_cases hassert : s1.m_sequencePositionInSweep < s1.m_numSequences
          · cases hd : s1.m_deserializer.GetSequenceDescriptions.elementAt
                s1.m_sequencePositionInSweep with
            | none =>
              rw [NoRandomizer.iterations_loop_out_of_range hlt ha hassert hd]
              refine ⟨Nat.zero_le _, by simpa using b1, fun eoe ids' eoe' s' h => ?_⟩
              rw [NoRandomizer.loop_out_of_range hlt ha hassert hd] at h
              cases h
            | some d =>
              rw [NoRandomizer.iterations_loop_push hlt ha hassert hd]
              have hrange := Timeline.elementAt_lt hd
              have hp1 : toSizeT (s1.m_sequencePositionInSweep + 1)
                  = s1.m_sequencePositionInSweep + 1 :=
                toSizeT_of_lt (by have := hrange.1; unfold SIZE_MAX at this; omega)
              have hs1d : s1.m_deserializer = s.m_deserializer := by
                rw [(NoRandomizer.advance_spec _ s false s1 (le_refl _) ha).1]
                rfl
              simp only [DataDeserializer.GetSequenceDescriptions, hs1d] at hrange
              rw [hp1]
              obtain ⟨e1, e2, e3⟩ := ih (s1.withPosition
                (toSizeT (s1.m_samplePositionInEpoch + d.m_numberOfSamples))
                (s1.m_sequencePositionInSweep + 1)) (ids ++ [s1.m_sequencePositionInSweep])
                (by simp; omega)
              simp only [NoRandomizer.withPosition_sequencePosition,
                NoRandomizer.withPosition_deserializer, List.length_append,
                List.length_singleton, hs1d] at e1 e2 e3
              refine ⟨by simp only; omega, by simp only; omega,
                fun eoe ids' eoe' s' h => ?_⟩
              rw [NoRandomizer.loop_push hlt ha hassert hd, hp1] at h
              obtain ⟨f1, f2⟩ := e3 _ _ _ _ h
              simp only
              exact ⟨by omega, by omega⟩
          · rw [NoRandomizer.iterations_loop_assert hlt ha hassert]
            refine ⟨Nat.zero_le _, by simpa using b1, fun eoe ids' eoe' s' h => ?_⟩
            rw [NoRandomizer.loop_assert hlt ha hassert] at h
            cases h
    · rw [NoRandomizer.iterations_loop_done hlt]
      refine ⟨Nat.zero_le _, Nat.zero_le _, fun eoe ids' eoe' s' h => ?_⟩
      rw [NoRandomizer.loop_done hlt] at h
      cases h
      exact ⟨rfl, rfl⟩

/-- The counts on the timeline of five sequences in the chunks 0, 0, 1, 1, 2: worker 1 of 2
skips two sequences and collects two, then skips the last one; asked for one sequence it skips
two and collects one; the only worker collects without skipping. -/
theorem startedOfFive_iterations :
    NoRandomizer.GetNextSequences.iterations (startedOfFive 2 1 0 0) 5 = (3, 2) ∧
    NoRandomizer.GetNextSequences.iterations (startedOfFive 2 1 0 0) 1 = (2, 1) ∧
    NoRandomizer.GetNextSequences.iterations (startedOfFive 1 0 0 0) 2 = (0, 2) := by
  simp [NoRandomizer.GetNextSequences.iterations, NoRandomizer.GetNextSequences.loop.iterations,
    NoRandomizer.AdvanceToNextPositionForThisWorker.iterations,
    NoRandomizer.AdvanceToNextPositionForThisWorker, startedOfFive, schedulerOfFive,
    exampleDeserializer, timelineOfFive, validDescription, SIZE_MAX, toSizeT,
    Timeline.elementAt, DataDeserializer.GetSequenceDescriptions]

/-! ## Claim C31: termination of `GetNextSequences` -/

/-- Claim C31: `GetNextSequences` terminates for every state, every count and every timeline.
The embedding is a total function (its loops are defined by well-founded recursion on the
positions left in the timeline and on `count - ids.size()`), so every call has an outcome; the
collection loop makes at most `count` passes, the passes of the skip loop and of the collection
loop together are at most the timeline positions that remain, hence at most that number plus
`count`; and each pass increases `sequencePositionInSweep` by exactly one: a completed call
ends at the old position plus the number of passes, with one id per pass of the collection
loop. -/
theorem C31_GetNextSequences_terminates (s : NoRandomizer) (count : Nat) :
    ((∃ r, s.GetNextSequences count = .ok r) ∨ (∃ e, s.GetNextSequences count = .error e)) ∧
    (NoRandomizer.GetNextSequences.iterations s count).2 ≤ count ∧
    (NoRandomizer.GetNextSequences.iterations s count).1
      + (NoRandomizer.GetNextSequences.iterations s count).2
      ≤ s.m_deserializer.m_sequences.length - s.m_sequencePositionInSweep ∧
    (NoRandomizer.GetNextSequences.iterations s count).1
      + (NoRandomizer.GetNextSequences.iterations s count).2
      ≤ (s.m_deserializer.m_sequences.length - s.m_sequencePositionInSweep) + count ∧
    ∀ r, s.GetNextSequences count = .ok r →
      r.self.m_sequencePositionInSweep = s.m_sequencePositionInSweep
        + ((NoRandomizer.GetNextSequences.iterations s count).1
          + (NoRandomizer.GetNextSequences.iterations s count).2) ∧
      r.ids.length = (NoRandomizer.GetNextSequences.iterations s count).2 := by
  have htotal : (∃ r, s.GetNextSequences count = .ok r) ∨
      (∃ e, s.GetNextSequences count = .error e) := by
    cases h : s.GetNextSequences count with
    | ok r => exact Or.inl ⟨r, rfl⟩
    | error e => exact Or.inr ⟨e, rfl⟩
  by_cases hne : s.m_samplePositionInEpoch ≠ SIZE_MAX
  · obtain ⟨e1, e2, e3⟩ := NoRandomizer.iterations_loop_spec count _ s [] (le_refl _)
    simp only [List.length_nil, Nat.sub_zero, Nat.zero_add] at e1 e3
    simp only [NoRandomizer.GetNextSequences.iterations, if_pos hne]
    refine ⟨htotal, e1, e2, by omega, fun r hr => ?_⟩
    exact e3 _ _ _ _ (NoRandomizer.GetNextSequences_ok hr).2.1
  · simp only [NoRandomizer.GetNextSequences.iterations, if_neg hne]
    refine ⟨htotal, Nat.zero_le _, Nat.zero_le _, Nat.zero_le _, fun r hr => ?_⟩
    exact absurd (NoRandomizer.GetNextSequences_ok hr).1 hne

/-! ## Two runs of the packer on different buffer contents -/

/-- Two runs of one `std::copy` on two buffers: the results agree on the copied range and
wherever the buffers agreed. -/
theorem stdCopy_agree {source a b a1 b1 : List Byte} {first last dest : Nat}
    (ha : stdCopy source first last a dest = .ok a1)
    (hb : stdCopy source first last b dest = .ok b1) (off : Nat)
    (h : a[off]? = b[off]? ∨ (dest ≤ off ∧ off < dest + (last - first))) :
    a1[off]? = b1[off]? := by
  obtain ⟨_, _, _, a4, a5⟩ := stdCopy_spec ha
  obtain ⟨_, _, _, b4, b5⟩ := stdCopy_spec hb
  by_cases hin : dest ≤ off ∧ off < dest + (last - first)
  · have e1 := a4 (off - dest) (by omega)
    have e2 := b4 (off - dest) (by omega)
    rw [show dest + (off - dest) = off by omega] at e1 e2
    rw [e1, e2]
  · rcases h with h | h
    · rw [a5 off (by omega), b5 off (by omega), h]
    · exact absurd h hin

/-- Two runs of one `std::fill` on two buffers: the results agree on the filled range and
wherever the buffers agreed. -/
theorem stdFill_agree {a b a1 b1 : List Byte} {first last : Nat} {value : Byte}
    (ha : stdFill a first last value = .ok a1)
    (hb : stdFill b first last value = .ok b1) (off : Nat)
    (h : a[off]? = b[off]? ∨ (first ≤ off ∧ off < last)) :
    a1[off]? = b1[off]? := by
  obtain ⟨_, _, _, a4, a5⟩ := stdFill_spec ha
  obtain ⟨_, _, _, b4, b5⟩ := stdFill_spec hb
  by_cases hin : first ≤ off ∧ off < last
  · rw [a4 off hin.1 hin.2, b4 off hin.1 hin.2]
  · rcases h with h | h
    · rw [a5 off (by omega), b5 off (by omega), h]
    · exact absurd h hin

/-- Two runs of the loop over the non-zero values on two buffers: the results agree wherever
the buffers agreed. -/
theorem FrameModePacker.ReadMinibatch.nonZeros_agree (source : List Byte) (E S i : Nat)
    (rowIndices : List Nat) :
    ∀ (m : Nat) (a b a1 b1 : List Byte),
      FrameModePacker.ReadMinibatch.nonZeros source E S i m rowIndices a = .ok a1 →
      FrameModePacker.ReadMinibatch.nonZeros source E S i m rowIndices b = .ok b1 →
      ∀ off : Nat, a[off]? = b[off]? → a1[off]? = b1[off]? := by
  induction rowIndices with
  | nil =>
    intro m a b a1 b1 ha hb off h
    simp only [FrameModePacker.ReadMinibatch.nonZeros] at ha hb
    cases ha
    cases hb
    exact h
  | cons r rest ih =>
    intro m a b a1 b1 ha hb off h
    simp only [FrameModePacker.ReadMinibatch.nonZeros] at ha hb
    cases hca : stdCopy source (toSizeT (m * E)) (toSizeT ((m + 1) * E)) a
        (toSizeT (S * i) + toSizeT (r * E)) with
    | error e => rw [hca] at ha; cases ha
    | ok a2 =>
      cases hcb : stdCopy source (toSizeT (m * E)) (toSizeT ((m + 1) * E)) b
          (toSizeT (S * i) + toSizeT (r * E)) with
      | error e => rw [hcb] at hb; cases hb
      | ok b2 =>
        rw [hca] at ha
        rw [hcb] at hb
        exact ih _ _ _ _ _ ha hb off (stdCopy_agree hca hcb off (Or.inl h))

/-- A completed loop body on a buffer that holds the slots before slot `i`: slot `i` lies in
the buffer as well. -/
theorem FrameModePacker.ReadMinibatch.body_slot {stream : StreamDescription}
    {data : SequenceData} {i S : Nat} {a a1 : List Byte}
    (hS : S = toSizeT (stream.m_sampleLayout.GetNumElements
      * GetSizeByType stream.m_elementType))
    (ha : FrameModePacker.ReadMinibatch.body stream data i a = .ok a1)
    (hslot : S * i ≤ a.length) (hmem : a.length ≤ SIZE_MAX) :
    S * (i + 1) ≤ a.length ∧ S * (i + 1) ≤ SIZE_MAX := by
  have hmul : S * (i + 1) = S * i + S := Nat.mul_succ S i
  have hw : toSizeT (S * i) = S * i := toSizeT_of_lt (by unfold SIZE_MAX at hmem; omega)
  have hSlt : S < 18446744073709551616 := by rw [hS]; exact toSizeT_lt _
  rcases Nat.eq_zero_or_pos S with h0 | hpos
  · rw [h0]
    simp
  · suffices h : S * i + S ≤ a.length by
      rw [hmul]
      exact ⟨h, by omega⟩
    unfold FrameModePacker.ReadMinibatch.body at ha
    simp only [← hS] at ha
    cases hst : stream.m_storageType with
    | dense =>
      rw [hst] at ha
      obtain ⟨_, _, d3, _, _⟩ := FrameModePacker.ReadMinibatch.dense_spec ha
      rw [hw] at d3
      exact (d3 hpos).1
    | sparse_csc =>
      rw [hst] at ha
      cases data with
      | dense source layout n =>
        simp only [FrameModePacker.ReadMinibatch.sparse] at ha
        cases ha
      | sparse source indices =>
        cases indices with
        | nil =>
          simp only [FrameModePacker.ReadMinibatch.sparse] at ha
          cases ha
        | cons rowIndices more =>
          cases more with
          | nil =>
            simp only [FrameModePacker.ReadMinibatch.sparse] at ha
            cases hf : stdFill a (toSizeT (i * S)) (toSizeT ((i + 1) * S)) 0 with
            | error e => rw [hf] at ha; cases ha
            | ok filled =>
              obtain ⟨f1, _, f3, _, _⟩ := stdFill_spec hf
              have hw2 : toSizeT (i * S) = S * i := by rw [Nat.mul_comm]; exact hw
              have hsum : (i + 1) * S = S * i + S := by rw [Nat.mul_comm]; exact hmul
              rw [hw2, hsum] at f1 f3
              have hlast : toSizeT (S * i + S) = S * i + S := by
                by_contra hne
                have hge : 18446744073709551616 ≤ S * i + S := by
                  by_contra hlt
                  exact hne (toSizeT_of_lt (by omega))
                have : toSizeT (S * i + S) = S * i + S - 18446744073709551616 := by
                  unfold toSizeT
                  unfold SIZE_MAX at hmem
                  omega
                omega
              rw [hlast] at f1 f3
              exact f3 (by omega)
          | cons second others =>
            simp only [FrameModePacker.ReadMinibatch.sparse] at ha
            cases ha

/-- Two runs of the loop body for the same payload on two buffers: the results agree wherever
the buffers agreed, and on slot `i` when the slots before it lie in the first buffer. -/
theorem FrameModePacker.ReadMinibatch.body_agree {stream : StreamDescription}
    {data : SequenceData} {i S : Nat} {a b a1 b1 : List Byte}
    (hS : S = toSizeT (stream.m_sampleLayout.GetNumElements
      * GetSizeByType stream.m_elementType))
    (ha : FrameModePacker.ReadMinibatch.body stream data i a = .ok a1)
    (hb : FrameModePacker.ReadMinibatch.body stream data i b = .ok b1)
    (hslot : S * i ≤ a.length) (hmem : a.length ≤ SIZE_MAX) (off : Nat)
    (h : a[off]? = b[off]? ∨ (S * i ≤ off ∧ off < S * (i + 1))) :
    a1[off]? = b1[off]? := by
  have hfit := FrameModePacker.ReadMinibatch.body_slot hS ha hslot hmem
  have hmul : S * (i + 1) = S * i + S := Nat.mul_succ S i
  have hw : toSizeT (S * i) = S * i := toSizeT_of_lt (by unfold SIZE_MAX at hmem; omega)
  rw [hmul] at h
  unfold FrameModePacker.ReadMinibatch.body at ha hb
  simp only [← hS] at ha hb
  cases hst : stream.m_storageType with
  | dense =>
    rw [hst] at ha hb
    cases data with
    | sparse source indices =>
      simp only [FrameModePacker.ReadMinibatch.dense] at ha
      cases ha
    | dense source layout n =>
      simp only [FrameModePacker.ReadMinibatch.dense] at ha hb
      by_cases hn : n = 1
      · rw [if_pos hn, hw] at ha hb
        exact stdCopy_agree ha hb off (by simpa using h)
      · rw [if_neg hn] at ha
        cases ha
  | sparse_csc =>
    rw [hst] at ha hb
    cases data with
    | dense source layout n =>
      simp only [FrameModePacker.ReadMinibatch.sparse] at ha
      cases ha
    | sparse source indices =>
      cases indices with
      | nil =>
        simp only [FrameModePacker.ReadMinibatch.sparse] at ha
        cases ha
      | cons rowIndices more =>
        cases more with
        | nil =>
          simp only [FrameModePacker.ReadMinibatch.sparse] at ha hb
          have hw2 : toSizeT (i * S) = S * i := by rw [Nat.mul_comm]; exact hw
          have hlast : toSizeT ((i + 1) * S) = S * i + S := by
            rw [Nat.mul_comm, hmul]
            exact toSizeT_of_lt (by have := hfit.2; unfold SIZE_MAX at this; omega)
          rw [hw2, hlast] at ha hb
          cases hfa : stdFill a (S * i) (S * i + S) 0 with
          | error e => rw [hfa] at ha; cases ha
          | ok fa =>
            cases hfb : stdFill b (S * i) (S * i + S) 0 with
            | error e => rw [hfb] at hb; cases hb
            | ok fb =>
              rw [hfa] at ha
              rw [hfb] at hb
              exact FrameModePacker.ReadMinibatch.nonZeros_agree _ _ _ _ _ _ _ _ _ _ ha hb off
                (stdFill_agree hfa hfb off h)
        | cons second others =>
          simp only [FrameModePacker.ReadMinibatch.sparse] at ha
          cases ha

/-- Two runs of the loop over the received sequences on two sets of buffers, for the stream
`j`: both buffers hold the slots of the visited sequences, and the results agree on these
slots and wherever the buffers agreed. -/
theorem FrameModePacker.ReadMinibatch.sequences_agree (inputStreams : List StreamDescription)
    (j : Nat) (stream : StreamDescription) (S : Nat)
    (hstream : inputStreams[j]? = some stream)
    (hS : S = toSizeT (stream.m_sampleLayout.GetNumElements
      * GetSizeByType stream.m_elementType))
    (rows : List (List SequenceData)) :
    ∀ (i0 : Nat) (as bs as1 bs1 : List (List Byte)) (a b : List Byte),
      FrameModePacker.ReadMinibatch.sequences inputStreams i0 rows as = .ok as1 →
      FrameModePacker.ReadMinibatch.sequences inputStreams i0 rows bs = .ok bs1 →
      as[j]? = some a → bs[j]? = some b → a.length ≤ SIZE_MAX → b.length ≤ SIZE_MAX →
      S * i0 ≤ a.length → S * i0 ≤ b.length →
      ∃ a1 b1, as1[j]? = some a1 ∧ bs1[j]? = some b1 ∧
        a1.length = a.length ∧ b1.length = b.length ∧
        S * (i0 + rows.length) ≤ a.length ∧ S * (i0 + rows.length) ≤ b.length ∧
        ∀ off : Nat, (a[off]? = b[off]? ∨ (S * i0 ≤ off ∧ off < S * (i0 + rows.length))) →
          a1[off]? = b1[off]? := by
  induction rows with
  | nil =>
    intro i0 as bs as1 bs1 a b ha hb haj hbj _ _ h1 h2
    simp only [FrameModePacker.ReadMinibatch.sequences] at ha hb
    cases ha
    cases hb
    refine ⟨a, b, haj, hbj, rfl, rfl, by simpa using h1, by simpa using h2, ?_⟩
    intro off h
    rcases h with h | h
    · exact h
    · simp only [List.length_nil, Nat.add_zero] at h
      omega
  | cons row rows ih =>
    intro i0 as bs as2 bs2 a b ha hb haj hbj hma hmb h1 h2
    obtain ⟨hla, as1, hsa, hresta⟩ := FrameModePacker.ReadMinibatch.sequences_cons ha
    obtain ⟨hlb, bs1, hsb, hrestb⟩ := FrameModePacker.ReadMinibatch.sequences_cons hb
    obtain ⟨_, _, sa⟩ := FrameModePacker.ReadMinibatch.streams_spec _ _ _ _ _ _ hsa
    obtain ⟨_, _, sb⟩ := FrameModePacker.ReadMinibatch.streams_spec _ _ _ _ _ _ hsb
    have hj : j < row.length := by
      rw [← hla]
      exact (List.getElem?_eq_some_iff.1 haj).1
    obtain ⟨sta, a', da, a1, p1, p2, p3, p4, p5⟩ := sa j hj
    obtain ⟨stb, b', db, b1, q1, q2, q3, q4, q5⟩ := sb j hj
    rw [Nat.zero_add] at p1 p2 p5 q1 q2 q5
    rw [hstream] at p1 q1
    cases p1
    cases q1
    rw [haj] at p2
    rw [hbj] at q2
    cases p2
    cases q2
    rw [p3] at q3
    cases q3
    have fa := FrameModePacker.ReadMinibatch.body_slot hS p4 h1 hma
    have fb := FrameModePacker.ReadMinibatch.body_slot hS q4 h2 hmb
    have la := FrameModePacker.ReadMinibatch.body_length p4
    have lb := FrameModePacker.ReadMinibatch.body_length q4
    obtain ⟨a2, b2, g1, g2, g3, g4, g5, g6, g7⟩ := ih (i0 + 1) as1 bs1 as2 bs2 a1 b1
      hresta hrestb p5 q5 (by rw [la]; exact hma) (by rw [lb]; exact hmb)
      (by rw [la]; exact fa.1) (by rw [lb]; exact fb.1)
    have hidx : i0 + (rows.length + 1) = i0 + 1 + rows.length := by omega
    refine ⟨a2, b2, g1, g2, by rw [g3, la], by rw [g4, lb], ?_, ?_, ?_⟩
    · simp only [List.length_cons]
      rw [hidx, ← la]
      exact g5
    · simp only [List.length_cons]
      rw [hidx, ← lb]
      exact g6
    · intro off h
      simp only [List.length_cons] at h
      rw [hidx] at h
      apply g7
      by_cases hnext : S * (i0 + 1) ≤ off ∧ off < S * (i0 + 1 + rows.length)
      · exact Or.inr hnext
      · left
        apply FrameModePacker.ReadMinibatch.body_agree hS p4 q4 h1 hma off
        rcases h with h | h
        · exact Or.inl h
        · exact Or.inr ⟨h.1, by omega⟩

/-! ## The packer on preallocated buffers completes -/

/-- The loop body on a payload that fits the stream and a slot that lies in the buffer
completes, keeps the size of the buffer and changes no byte outside the slot. -/
theorem FrameModePacker.ReadMinibatch.body_ok {stream : StreamDescription}
    {data : SequenceData} {i : Nat} {buffer : List Byte} (hfit : data.Fits stream)
    (hslot : (i + 1) * stream.sampleByteSize ≤ buffer.length)
    (hmem : buffer.length ≤ SIZE_MAX) :
    ∃ buffer1, FrameModePacker.ReadMinibatch.body stream data i buffer = .ok buffer1 ∧
      buffer1.length = buffer.length ∧
      ∀ off : Nat, off < i * stream.sampleByteSize ∨ (i + 1) * stream.sampleByteSize ≤ off →
        buffer1[off]? = buffer[off]? := by
  generalize hS : stream.sampleByteSize = S at hslot
  have hsucc : (i + 1) * S = i * S + S := Nat.succ_mul i S
  have hw : toSizeT (stream.m_sampleLayout.GetNumElements
      * GetSizeByType stream.m_elementType) = S := by
    rw [← hS]
    exact toSizeT_of_lt (by
      unfold StreamDescription.sampleByteSize at hS
      unfold SIZE_MAX at hmem
      omega)
  have hwi : toSizeT (S * i) = i * S := by
    rw [Nat.mul_comm]
    exact toSizeT_of_lt (by unfold SIZE_MAX at hmem; omega)
  unfold FrameModePacker.ReadMinibatch.body
  simp only [hw]
  cases data with
  | dense source layout n =>
    obtain ⟨hst, hn, hsrc⟩ := hfit
    rw [hS] at hsrc
    subst hn
    rw [hst]
    simp only [FrameModePacker.ReadMinibatch.dense, if_true, hwi]
    obtain ⟨b1, hb1⟩ := stdCopy.copy_loop_ok source S 0 (i * S) buffer (by omega) (by omega)
    have hcopy : stdCopy source 0 S buffer (i * S) = .ok b1 := by
      unfold stdCopy
      rw [if_pos (Nat.zero_le _), Nat.sub_zero]
      exact hb1
    obtain ⟨_, c2, _, _, c5⟩ := stdCopy_spec hcopy
    refine ⟨b1, hcopy, c2, fun off hoff => c5 off ?_⟩
    rw [Nat.sub_zero]
    omega
  | sparse source indices =>
    obtain ⟨hst, rowIndices, hidx, hrange, hvalues, hsrc⟩ := hfit
    subst hidx
    rw [hst]
    simp only
    have hSD : S = stream.m_sampleLayout.GetNumElements
        * GetSizeByType stream.m_elementType := by
      rw [← hS]
      rfl
    obtain ⟨filled, _, f2, _, f5, hsparse⟩ := FrameModePacker.ReadMinibatch.sparse_eq source
      rowIndices (GetSizeByType stream.m_elementType) stream.m_sampleLayout.GetNumElements S i
      buffer hSD hslot hmem
    rw [hsparse]
    have hslot2 : S * i + S ≤ filled.length := by
      rw [f2, Nat.mul_comm]
      omega
    obtain ⟨b1, hb1⟩ := FrameModePacker.ReadMinibatch.nonZeros_ok source
      (GetSizeByType stream.m_elementType) stream.m_sampleLayout.GetNumElements S i hSD
      rowIndices 0 filled hrange (by rw [Nat.zero_add]; exact hvalues) hsrc hslot2
      (by rw [f2]; exact hmem)
    obtain ⟨n1, n2, _, _⟩ := FrameModePacker.ReadMinibatch.nonZeros_spec source
      (GetSizeByType stream.m_elementType) stream.m_sampleLayout.GetNumElements S i hSD
      rowIndices 0 filled b1 hb1 hrange (by rw [Nat.zero_add]; omega) hslot2
      (by rw [f2]; exact hmem)
    refine ⟨b1, hb1, by rw [n1, f2], fun off hoff => ?_⟩
    rw [n2 off (by rw [Nat.mul_comm]; omega), f5 off (by omega)]

/-- The loop over the streams of one sequence completes when every payload fits its stream and
slot `i` lies in every buffer visited. -/
theorem FrameModePacker.ReadMinibatch.streams_ok (inputStreams : List StreamDescription)
    (i : Nat) (row : List SequenceData) :
    ∀ (j0 : Nat) (buffers : List (List Byte)),
      j0 + row.length ≤ INT_MAX →
      (∀ (k : Nat) (data : SequenceData), row[k]? = some data →
        ∃ stream buffer, inputStreams[j0 + k]? = some stream ∧
          buffers[j0 + k]? = some buffer ∧ data.Fits stream ∧
          (i + 1) * stream.sampleByteSize ≤ buffer.length ∧ buffer.length ≤ SIZE_MAX) →
      ∃ buffers1,
        FrameModePacker.ReadMinibatch.streams inputStreams i j0 row buffers = .ok buffers1 := by
  induction row with
  | nil => intro j0 buffers _ _; exact ⟨buffers, rfl⟩
  | cons data row ih =>
    intro j0 buffers hint h
    obtain ⟨stream, buffer, h1, h2, h3, h4, h5⟩ := h 0 data List.getElem?_cons_zero
    rw [Nat.add_zero] at h1 h2
    obtain ⟨b1, hb1, _, _⟩ := @FrameModePacker.ReadMinibatch.body_ok stream data i buffer h3 h4 h5
    simp only [List.length_cons] at hint
    have hj0 : j0 < buffers.length := (List.getElem?_eq_some_iff.1 h2).1
    simp only [FrameModePacker.ReadMinibatch.streams, h1, h2, hb1]
    rw [if_pos (by omega)]
    apply ih (j0 + 1) (buffers.set j0 b1) (by omega)
    intro k data' hk
    obtain ⟨stream', buffer', g1, g2, g3, g4, g5⟩ := h (k + 1) data' (by simpa using hk)
    refine ⟨stream', buffer', ?_, ?_, g3, g4, g5⟩
    · rw [show j0 + 1 + k = j0 + (k + 1) by omega]
      exact g1
    · rw [List.getElem?_set_ne (by omega), show j0 + 1 + k = j0 + (k + 1) by omega]
      exact g2

/-- The loop over the received sequences completes when every sequence carries one payload per
stream that fits the stream and the slots of all sequences lie in the buffers; it keeps the
number and the sizes of the buffers and changes no byte outside these slots. -/
theorem FrameModePacker.ReadMinibatch.sequences_ok (inputStreams : List StreamDescription)
    (hcount : inputStreams.length ≤ INT_MAX) (rows : List (List SequenceData)) :
    ∀ (i0 : Nat) (buffers : List (List Byte)),
      buffers.length = inputStreams.length →
      (∀ row ∈ rows, row.length = inputStreams.length ∧
        ∀ (k : Nat) (data : SequenceData) (stream : StreamDescription),
          row[k]? = some data → inputStreams[k]? = some stream → data.Fits stream) →
      (∀ (j : Nat) (stream : StreamDescription) (buffer : List Byte),
        inputStreams[j]? = some stream → buffers[j]? = some buffer →
        (i0 + rows.length) * stream.sampleByteSize ≤ buffer.length ∧
          buffer.length ≤ SIZE_MAX) →
      ∃ buffers1,
        FrameModePacker.ReadMinibatch.sequences inputStreams i0 rows buffers = .ok buffers1 ∧
        buffers1.length = buffers.length ∧
        ∀ (j : Nat) (stream : StreamDescription) (buffer : List Byte),
          inputStreams[j]? = some stream → buffers[j]? = some buffer →
          ∃ buffer1, buffers1[j]? = some buffer1 ∧ buffer1.length = buffer.length ∧
            ∀ off : Nat, off < i0 * stream.sampleByteSize ∨
                (i0 + rows.length) * stream.sampleByteSize ≤ off →
              buffer1[off]? = buffer[off]? := by
  induction rows with
  | nil =>
    intro i0 buffers _ _ _
    exact ⟨buffers, rfl, rfl, fun j stream buffer _ hb => ⟨buffer, hb, rfl, fun _ _ => rfl⟩⟩
  | cons row rows ih =>
    intro i0 buffers hlen hrows hsize
    obtain ⟨hrl, hfits⟩ := hrows row (List.mem_cons_self _ _)
    have hgrow : ∀ S : Nat, (i0 + 1) * S ≤ (i0 + (row :: rows).length) * S := by
      intro S
      apply Nat.mul_le_mul_right
      simp only [List.length_cons]
      omega
    have hpre : ∀ (k : Nat) (data : SequenceData), row[k]? = some data →
        ∃ stream buffer, inputStreams[0 + k]? = some stream ∧
          buffers[0 + k]? = some buffer ∧ data.Fits stream ∧
          (i0 + 1) * stream.sampleByteSize ≤ buffer.length ∧ buffer.length ≤ SIZE_MAX := by
      intro k data hk
      have hkl : k < row.length := (List.getElem?_eq_some_iff.1 hk).1
      obtain ⟨stream, hs⟩ : ∃ stream, inputStreams[k]? = some stream :=
        ⟨_, List.getElem?_eq_getElem (by omega)⟩
      obtain ⟨buffer, hb⟩ : ∃ buffer, buffers[k]? = some buffer :=
        ⟨_, List.getElem?_eq_getElem (by omega)⟩
      obtain ⟨z1, z2⟩ := hsize k stream buffer hs hb
      rw [Nat.zero_add]
      exact ⟨stream, buffer, hs, hb, hfits k data stream hk hs,
        Nat.le_trans (hgrow _) z1, z2⟩
    obtain ⟨buffers1, hs1⟩ := FrameModePacker.ReadMinibatch.streams_ok inputStreams i0 row 0
      buffers (by omega) hpre
    obtain ⟨s1, s2, s3⟩ := FrameModePacker.ReadMinibatch.streams_spec _ _ _ _ _ _ hs1
    have hstep : ∀ (j : Nat) (stream : StreamDescription) (buffer : List Byte),
        inputStreams[j]? = some stream → buffers[j]? = some buffer →
        ∃ buffer1, buffers1[j]? = some buffer1 ∧ buffer1.length = buffer.length ∧
          ∀ off : Nat, off < i0 * stream.sampleByteSize ∨
              (i0 + 1) * stream.sampleByteSize ≤ off →
            buffer1[off]? = buffer[off]? := by
      intro j stream buffer hs hb
      have hj : j < row.length := by
        rw [hrl, ← hlen]
        exact (List.getElem?_eq_some_iff.1 hb).1
      obtain ⟨stream', buffer', data, b1, p1, p2, p3, p4, p5⟩ := s3 j hj
      rw [Nat.zero_add] at p1 p2 p5
      rw [hs] at p1
      cases p1
      rw [hb] at p2
      cases p2
      obtain ⟨z1, z2⟩ := hsize j stream buffer hs hb
      obtain ⟨b1', q1, q2, q3⟩ := @FrameModePacker.ReadMinibatch.body_ok stream data i0 buffer
        (hfits j data stream p3 hs) (Nat.le_trans (hgrow _) z1) z2
      rw [p4] at q1
      cases q1
      exact ⟨b1, p5, q2, q3⟩
    obtain ⟨buffers2, r1, r2, r3⟩ := ih (i0 + 1) buffers1 (by rw [s1, hlen])
      (fun row' hrow' => hrows row' (List.mem_cons_of_mem _ hrow'))
      (fun j stream buffer1 hs hb1 => by
        obtain ⟨buffer, hb⟩ : ∃ buffer, buffers[j]? = some buffer :=
          ⟨_, List.getElem?_eq_getElem (by
            rw [← s1]
            exact (List.getElem?_eq_some_iff.1 hb1).1)⟩
        obtain ⟨b1, t1, t2, _⟩ := hstep j stream buffer hs hb
        rw [hb1] at t1
        cases t1
        obtain ⟨z1, z2⟩ := hsize j stream buffer hs hb
        simp only [List.length_cons] at z1
        rw [t2]
        exact ⟨by rw [show i0 + 1 + rows.length = i0 + (rows.length + 1) by omega]; exact z1,
          z2⟩)
    refine ⟨buffers2, ?_, by rw [r2, s1], ?_⟩
    · simp only [FrameModePacker.ReadMinibatch.sequences]
      rw [if_pos (by rw [hlen, hrl]), hs1]
      exact r1
    · intro j stream buffer hs hb
      obtain ⟨b1, t1, t2, t3⟩ := hstep j stream buffer hs hb
      obtain ⟨b2, u1, u2, u3⟩ := r3 j stream b1 hs t1
      refine ⟨b2, u1, by rw [u2, t2], fun off hoff => ?_⟩
      simp only [List.length_cons] at hoff
      have hmono : (i0 + 1) * stream.sampleByteSize
          ≤ (i0 + 1 + rows.length) * stream.sampleByteSize :=
        Nat.mul_le_mul_right _ (by omega)
      have hsucc : (i0 + 1) * stream.sampleByteSize
          = i0 * stream.sampleByteSize + stream.sampleByteSize := Nat.succ_mul _ _
      rw [show i0 + (rows.length + 1) = i0 + 1 + rows.length by omega] at hoff
      rw [u3 off (by omega), t3 off (by omega)]

/-- The wrapping loop completes when there is a buffer for every output stream. -/
theorem FrameModePacker.ReadMinibatch.wrap_ok (numberOfBuffers n : Nat) (layout : MBLayout)
    (streams : List StreamDescription) :
    ∀ (i0 : Nat), i0 + streams.length ≤ numberOfBuffers → i0 + streams.length ≤ INT_MAX →
      ∃ wrapped,
        FrameModePacker.ReadMinibatch.wrap numberOfBuffers n layout i0 streams = .ok wrapped := by
  induction streams with
  | nil => intro i0 _ _; exact ⟨[], rfl⟩
  | cons stream rest ih =>
    intro i0 h1 h2
    simp only [List.length_cons] at h1 h2
    obtain ⟨wrapped, hw⟩ := ih (i0 + 1) (by omega) (by omega)
    simp only [FrameModePacker.ReadMinibatch.wrap]
    rw [if_pos (by omega), if_pos (by omega), hw]
    exact ⟨_, rfl⟩

/-! ## Claims C32 and C33: the buffers of the packer -/

theorem packerOfTen_preallocated :
    (packerOfTen 9 9 (List.replicate 16 255) { frameModeSamples := none }).Preallocated := by
  refine ⟨rfl, rfl, by decide, ?_⟩
  intro j input output buffer h1 h2 h3
  cases j with
  | zero =>
    simp only [packerOfTen, List.getElem?_cons_zero, Option.some.injEq] at h1 h2 h3
    subst h1 h2 h3
    decide
  | succ j => simp [packerOfTen] at h1

theorem lastOfTen_fits :
    ∀ row ∈ lastOfTen.sequences.m_data,
      row.length = (packerOfTen 9 9 (List.replicate 16 255)
        { frameModeSamples := none }).m_inputStreams.length ∧
      ∀ (k : Nat) (data : SequenceData) (stream : StreamDescription), row[k]? = some data →
        (packerOfTen 9 9 (List.replicate 16 255)
          { frameModeSamples := none }).m_inputStreams[k]? = some stream →
        data.Fits stream := by
  intro row hrow
  simp only [lastOfTen, List.mem_singleton] at hrow
  subst hrow
  refine ⟨rfl, ?_⟩
  intro k data stream h1 h2
  cases k with
  | zero =>
    simp only [packerOfTen, List.getElem?_cons_zero, Option.some.injEq] at h1 h2
    subst h1 h2
    exact ⟨rfl, rfl, by decide⟩
  | succ k => simp at h1

/-- Claim C32: packer writes stay inside the preallocated buffers.  When every input stream
has the sample byte size of the corresponding output stream and buffer `j` is the preallocated
object of `capacity * sampleByteSize(j)` bytes, the upstream source returns `n ≤ capacity`
sequences, and every payload fits its stream (a dense payload carries one sample, every sparse
row index is smaller than the element count of the stream), then `ReadMinibatch` completes, so
it makes no access outside a buffer; every byte of buffer `j` at an offset
`≥ n * sampleByteSize(j)` is as before, so every byte written is at an offset below
`capacity * sampleByteSize(j)`; and the reported data size is `n * sampleByteSize(j)`, which
does not exceed the allocated size. -/
theorem C32_writes_stay_inside_buffers (self : FrameModePacker)
    (received : GetNextSequencesResult) (hcapacity : 0 < self.m_mbSize)
    (hreceived : self.m_transformer.GetNextSequences self.m_mbSize = .ok received)
    (hatmost : received.sequences.m_data.length ≤ self.m_mbSize)
    (hpacker : self.Preallocated)
    (hpayloads : ∀ row ∈ received.sequences.m_data,
      row.length = self.m_inputStreams.length ∧
      ∀ (k : Nat) (data : SequenceData) (stream : StreamDescription), row[k]? = some data →
        self.m_inputStreams[k]? = some stream → data.Fits stream) :
    ∃ m self1, self.ReadMinibatch = .ok (m, self1) ∧
      ∀ (j : Nat) (stream : StreamDescription) (buffer : List Byte),
        self.m_outputStreams[j]? = some stream → self.m_streamBuffers[j]? = some buffer →
        ∃ buffer1, self1.m_streamBuffers[j]? = some buffer1 ∧
          buffer1.length = buffer.length ∧
          buffer.length = self.m_mbSize * stream.sampleByteSize ∧
          (∀ off : Nat, received.sequences.m_data.length * stream.sampleByteSize ≤ off →
            buffer1[off]? = buffer[off]?) ∧
          received.sequences.m_data.length * stream.sampleByteSize ≤ buffer.length ∧
          (received.sequences.m_data.length ≠ 0 →
            ∃ entry, m.m_minibatch[j]? = some entry ∧
              entry.m_dataSize = received.sequences.m_data.length * stream.sampleByteSize) := by
  obtain ⟨hb, ho, hint, hall⟩ := hpacker
  have hpair : ∀ (j : Nat) (output : StreamDescription) (buffer : List Byte),
      self.m_outputStreams[j]? = some output → self.m_streamBuffers[j]? = some buffer →
      ∃ input, self.m_inputStreams[j]? = some input ∧
        input.sampleByteSize = output.sampleByteSize ∧
        buffer.length = self.m_mbSize * output.sampleByteSize ∧ buffer.length ≤ SIZE_MAX ∧
        received.sequences.m_data.length * output.sampleByteSize ≤ buffer.length := by
    intro j output buffer h1 h2
    obtain ⟨input, hi⟩ : ∃ input, self.m_inputStreams[j]? = some input :=
      ⟨_, List.getElem?_eq_getElem (by
        rw [← hb]
        exact (List.getElem?_eq_some_iff.1 h2).1)⟩
    obtain ⟨a1, a2, a3⟩ := hall j input output buffer hi h1 h2
    exact ⟨input, hi, a1, a2, a3, by rw [a2]; exact Nat.mul_le_mul_right _ hatmost⟩
  obtain ⟨buffers1, q1, q2, q3⟩ := FrameModePacker.ReadMinibatch.sequences_ok
    self.m_inputStreams hint received.sequences.m_data 0 self.m_streamBuffers hb hpayloads
    (fun j input buffer hi hbuf => by
      obtain ⟨output, hout⟩ : ∃ output, self.m_outputStreams[j]? = some output :=
        ⟨_, List.getElem?_eq_getElem (by
          rw [ho]
          exact (List.getElem?_eq_some_iff.1 hi).1)⟩
      obtain ⟨a1, a2, a3⟩ := hall j input output buffer hi hout hbuf
      rw [Nat.zero_add, a1, a2]
      exact ⟨Nat.mul_le_mul_right _ hatmost, by rw [← a2]; exact a3⟩)
  have hpack : ∃ m self1,
      FrameModePacker.ReadMinibatch.pack { self with m_transformer := received.self }
        received.sequences = .ok (m, self1) ∧
      self1.m_streamBuffers = buffers1 ∧
      (received.sequences.m_data.length ≠ 0 →
        FrameModePacker.ReadMinibatch.wrap buffers1.length received.sequences.m_data.length
          { frameModeSamples := some received.sequences.m_data.length } 0 self.m_outputStreams
          = .ok m.m_minibatch) := by
    unfold FrameModePacker.ReadMinibatch.pack
    simp only [q1]
    by_cases hz : received.sequences.m_data.length = 0
    · rw [if_pos hz]
      exact ⟨_, _, rfl, rfl, fun hne => absurd hz hne⟩
    · rw [if_neg hz]
      obtain ⟨wrapped, hw⟩ := FrameModePacker.ReadMinibatch.wrap_ok buffers1.length
        received.sequences.m_data.length
        (self.m_minibatchLayout.InitAsFrameMode received.sequences.m_data.length)
        self.m_outputStreams 0 (by rw [q2, hb, ho]; omega) (by rw [ho]; omega)
      rw [hw]
      exact ⟨_, _, rfl, rfl, fun _ => hw⟩
  obtain ⟨m, self1, p1, p2, p3⟩ := hpack
  refine ⟨m, self1, ?_, ?_⟩
  · unfold FrameModePacker.ReadMinibatch
    rw [if_pos hcapacity, hreceived]
    exact p1
  · intro j output buffer h1 h2
    obtain ⟨input, hi, a1, a2, a3, a4⟩ := hpair j output buffer h1 h2
    obtain ⟨buffer1, b1, b2, b3⟩ := q3 j input buffer hi h2
    rw [a1] at b3
    refine ⟨buffer1, by rw [p2]; exact b1, b2, a2, fun off hoff => b3 off (Or.inr ?_), a4, ?_⟩
    · rw [Nat.zero_add]
      exact hoff
    · intro hne
      obtain ⟨_, hentries⟩ := FrameModePacker.ReadMinibatch.wrap_spec _ _ _ _ _ _ (p3 hne)
      obtain ⟨_, he⟩ := hentries j output h1
      refine ⟨_, he, ?_⟩
      have hS : toSizeT (output.m_sampleLayout.GetNumElements
          * GetSizeByType output.m_elementType) = output.sampleByteSize := by
        apply toSizeT_of_lt
        have hle : output.sampleByteSize ≤ self.m_mbSize * output.sampleByteSize :=
          Nat.le_mul_of_pos_left _ hcapacity
        unfold StreamDescription.sampleByteSize at hle a2
        unfold SIZE_MAX at a3
        omega
      simp only [hS]
      exact toSizeT_of_lt (by unfold SIZE_MAX at a3; omega)

theorem C32_writes_stay_inside_buffers_witness :
    ∃ m self1,
      (packerOfTen 9 9 (List.replicate 16 255) { frameModeSamples := none }).ReadMinibatch
        = .ok (m, self1) ∧
      ∀ (j : Nat) (stream : StreamDescription) (buffer : List Byte),
        (packerOfTen 9 9 (List.replicate 16 255)
          { frameModeSamples := none }).m_outputStreams[j]? = some stream →
        (packerOfTen 9 9 (List.replicate 16 255)
          { frameModeSamples := none }).m_streamBuffers[j]? = some buffer →
        ∃ buffer1, self1.m_streamBuffers[j]? = some buffer1 ∧
          buffer1.length = buffer.length ∧
          buffer.length = (packerOfTen 9 9 (List.replicate 16 255)
            { frameModeSamples := none }).m_mbSize * stream.sampleByteSize ∧
          (∀ off : Nat, lastOfTen.sequences.m_data.length * stream.sampleByteSize ≤ off →
            buffer1[off]? = buffer[off]?) ∧
          lastOfTen.sequences.m_data.length * stream.sampleByteSize ≤ buffer.length ∧
          (lastOfTen.sequences.m_data.length ≠ 0 →
            ∃ entry, m.m_minibatch[j]? = some entry ∧
              entry.m_dataSize = lastOfTen.sequences.m_data.length * stream.sampleByteSize) :=
  C32_writes_stay_inside_buffers
    (packerOfTen 9 9 (List.replicate 16 255) { frameModeSamples := none }) lastOfTen
    (by decide) packerOfTen_received_last (by decide) packerOfTen_preallocated lastOfTen_fits

theorem packerOfTen_read_last_from_zeros :
    (packerOfTen 9 9 (List.replicate 16 0) { frameModeSamples := none }).ReadMinibatch
      = .ok ({ m_atEndOfEpoch := true,
               m_minibatch := [{ m_data := 0, m_dataSize := 4,
                                 m_layout := { frameModeSamples := some 1 } }] },
             packerOfTen 10 10 [9, 0, 0, 0, 0, 0, 0, 0, 0, 0, 0, 0, 0, 0, 0, 0]
               { frameModeSamples := some 1 }) := by
  simp [FrameModePacker.ReadMinibatch, FrameModePacker.ReadMinibatch.pack,
    FrameModePacker.ReadMinibatch.sequences, FrameModePacker.ReadMinibatch.streams,
    FrameModePacker.ReadMinibatch.body, FrameModePacker.ReadMinibatch.dense,
    FrameModePacker.ReadMinibatch.wrap, stdCopy, stdCopy.loop, MBLayout.InitAsFrameMode,
    NoRandomizer.GetNextSequences, NoRandomizer.GetNextSequences.loop,
    NoRandomizer.AdvanceToNextPositionForThisWorker, packerOfTen, denseDeserializer,
    denseStream, timelineOfTen, validDescription, SIZE_MAX, INT_MAX, toSizeT,
    Timeline.elementAt, DataDeserializer.GetSequenceDescriptions, GetSizeByType,
    TensorShape.GetNumElements]

/-- Claim C33: no stale data from buffer reuse.  Two `ReadMinibatch` calls that start from
different prior contents of the stream buffers, receive the same `n` sequences and complete
end with identical bytes in the first `n * sampleByteSize(j)` bytes of every stream buffer
`j`, for dense and for sparse streams: these bytes are a function of the received payloads
only.  The buffers are objects in memory, of at most `SIZE_MAX` bytes; the sample byte size is
the `size_t` product the code computes. -/
theorem C33_no_stale_data (self : FrameModePacker) (buffers2 : List (List Byte))
    (received : GetNextSequencesResult) (m m2 : Minibatch) (self1 self2 : FrameModePacker)
    (j : Nat) (stream : StreamDescription) (buffer buffer2 : List Byte)
    (hreceived : self.m_transformer.GetNextSequences self.m_mbSize = .ok received)
    (hread : self.ReadMinibatch = .ok (m, self1))
    (hread2 : FrameModePacker.ReadMinibatch { self with m_streamBuffers := buffers2 }
      = .ok (m2, self2))
    (hstream : self.m_inputStreams[j]? = some stream)
    (hbuffer : self.m_streamBuffers[j]? = some buffer)
    (hbuffer2 : buffers2[j]? = some buffer2)
    (hmemory : buffer.length ≤ SIZE_MAX) (hmemory2 : buffer2.length ≤ SIZE_MAX) :
    ∃ after after2, self1.m_streamBuffers[j]? = some after ∧
      self2.m_streamBuffers[j]? = some after2 ∧
      received.sequences.m_data.length
        * toSizeT (stream.m_sampleLayout.GetNumElements * GetSizeByType stream.m_elementType)
        ≤ after.length ∧
      received.sequences.m_data.length
        * toSizeT (stream.m_sampleLayout.GetNumElements * GetSizeByType stream.m_elementType)
        ≤ after2.length ∧
      after.take (received.sequences.m_data.length
          * toSizeT (stream.m_sampleLayout.GetNumElements * GetSizeByType stream.m_elementType))
        = after2.take (received.sequences.m_data.length
          * toSizeT (stream.m_sampleLayout.GetNumElements
            * GetSizeByType stream.m_elementType)) := by
  obtain ⟨_, r1, hr1, hpack1⟩ := FrameModePacker.ReadMinibatch_ok hread
  obtain ⟨_, r2, hr2, hpack2⟩ := FrameModePacker.ReadMinibatch_ok hread2
  rw [hreceived] at hr1
  cases hr1
  simp only at hr2
  rw [hreceived] at hr2
  cases hr2
  have hseq1 := FrameModePacker.ReadMinibatch.pack_ok hpack1
  have hseq2 := FrameModePacker.ReadMinibatch.pack_ok hpack2
  simp only at hseq1 hseq2
  generalize hS : toSizeT (stream.m_sampleLayout.GetNumElements
    * GetSizeByType stream.m_elementType) = S
  obtain ⟨a1, b1, g1, g2, g3, g4, g5, g6, g7⟩ :=
    FrameModePacker.ReadMinibatch.sequences_agree self.m_inputStreams j stream S hstream
      hS.symm received.sequences.m_data 0 _ _ _ _ buffer buffer2 hseq1 hseq2 hbuffer hbuffer2
      hmemory hmemory2 (by simp) (by simp)
  rw [Nat.zero_add, Nat.mul_comm] at g5 g6
  refine ⟨a1, b1, g1, g2, by rw [g3]; exact g5, by rw [g4]; exact g6, ?_⟩
  apply List.ext_getElem?
  intro off
  rw [List.getElem?_take, List.getElem?_take]
  by_cases hoff : off < received.sequences.m_data.length * S
  · rw [if_pos hoff, if_pos hoff]
    apply g7
    right
    exact ⟨by omega, by rw [Nat.zero_add, Nat.mul_comm]; exact hoff⟩
  · rw [if_neg hoff, if_neg hoff]

theorem C33_no_stale_data_witness :
    ∃ after after2,
      (packerOfTen 10 10
        [9, 0, 0, 0, 255, 255, 255, 255, 255, 255, 255, 255, 255, 255, 255, 255]
        { frameModeSamples := some 1 }).m_streamBuffers[0]? = some after ∧
      (packerOfTen 10 10 [9, 0, 0, 0, 0, 0, 0, 0, 0, 0, 0, 0, 0, 0, 0, 0]
        { frameModeSamples := some 1 }).m_streamBuffers[0]? = some after2 ∧
      lastOfTen.sequences.m_data.length
        * toSizeT (denseStream.m_sampleLayout.GetNumElements
          * GetSizeByType denseStream.m_elementType) ≤ after.length ∧
      lastOfTen.sequences.m_data.length
        * toSizeT (denseStream.m_sampleLayout.GetNumElements
          * GetSizeByType denseStream.m_elementType) ≤ after2.length ∧
      after.take (lastOfTen.sequences.m_data.length
          * toSizeT (denseStream.m_sampleLayout.GetNumElements
            * GetSizeByType denseStream.m_elementType))
        = after2.take (lastOfTen.sequences.m_data.length
          * toSizeT (denseStream.m_sampleLayout.GetNumElements
            * GetSizeByType denseStream.m_elementType)) :=
  C33_no_stale_data (packerOfTen 9 9 (List.replicate 16 255) { frameModeSamples := none })
    [List.replicate 16 0] lastOfTen _ _ _ _ 0 denseStream (List.replicate 16 255)
    (List.replicate 16 0) packerOfTen_received_last packerOfTen_read_last
    packerOfTen_read_last_from_zeros rfl rfl rfl (by decide) (by decide)

/-! ## Neighbour-frame augmentation: sub-vectors -/

theorem subvector_getElem? {α : Type} (d i : Nat) (v : List α) (k : Nat) :
    (subvector d i v)[k]? = if k < d then v[i * d + k]? else none := by
  unfold subvector
  rw [List.getElem?_take]
  split
  · rw [List.getElem?_drop]
  · rfl

theorem subvector_length {α : Type} {d w i : Nat} {v : List α} (hlen : v.length = d * w)
    (hi : i < w) : (subvector d i v).length = d := by
  unfold subvector
  rw [List.length_take, List.length_drop, hlen]
  have h1 : i * d + d ≤ d * w := by
    calc i * d + d = d * (i + 1) := by ring
      _ ≤ d * w := Nat.mul_le_mul_left d hi
  omega

/-- Two vectors made of `w` sub-vectors of dimension `d` are equal when their sub-vectors are. -/
theorem subvector_ext {α : Type} {d w : Nat} {v v1 : List α} (hlen : v.length = d * w)
    (hlen1 : v1.length = d * w) (h : ∀ i, i < w → subvector d i v = subvector d i v1) :
    v = v1 := by
  apply List.ext_getElem?
  intro j
  by_cases hj : j < d * w
  · have hd : 0 < d := by
      rcases Nat.eq_zero_or_pos d with h0 | h0
      · rw [h0] at hj; simp at hj
      · exact h0
    have hq : j / d < w := by
      rw [Nat.div_lt_iff_lt_mul hd, Nat.mul_comm]
      exact hj
    have hr : j % d < d := Nat.mod_lt _ hd
    have hsplit : j / d * d + j % d = j := Nat.div_add_mod' j d
    have e1 := subvector_getElem? d (j / d) v (j % d)
    have e2 := subvector_getElem? d (j / d) v1 (j % d)
    rw [if_pos hr, hsplit] at e1 e2
    rw [← e1, ← e2, h _ hq]
  · rw [List.getElem?_eq_none (by omega), List.getElem?_eq_none (by omega)]

/-- The loop of `copytosubvector` over indices of `inv` whose targets lie in `outv`: the
visited targets hold the elements of `inv`, every other element is as before. -/
theorem copytosubvector.elements_spec {α : Type} (inv : List α) (k0 : Nat) :
    ∀ (ks : List Nat) (outv : List α),
      (∀ k ∈ ks, k < inv.length) → (∀ k ∈ ks, k + k0 < outv.length) →
      outv.length ≤ SIZE_MAX →
      ∃ r, copytosubvector.loop inv k0 ks outv = .ok r ∧ r.length = outv.length ∧
        ∀ j, r[j]? = if k0 ≤ j ∧ j - k0 ∈ ks then inv[j - k0]? else outv[j]? := by
  intro ks
  induction ks with
  | nil =>
    intro outv _ _ _
    exact ⟨outv, rfl, rfl, fun j => by simp⟩
  | cons k ks ih =>
    intro outv h1 h2 hmax
    have hk : k < inv.length := h1 k (List.mem_cons_self _ _)
    have hk2 : k + k0 < outv.length := h2 k (List.mem_cons_self _ _)
    have hw : toSizeT (k + k0) = k + k0 := by
      unfold toSizeT
      unfold SIZE_MAX at hmax
      omega
    obtain ⟨r, e1, e2, e3⟩ := ih (outv.set (k + k0) inv[k])
      (fun k' hk' => h1 k' (List.mem_cons_of_mem _ hk'))
      (fun k' hk' => by rw [List.length_set]; exact h2 k' (List.mem_cons_of_mem _ hk'))
      (by rw [List.length_set]; exact hmax)
    refine ⟨r, ?_, by rw [e2, List.length_set], ?_⟩
    · simp only [copytosubvector.loop, List.getElem?_eq_getElem hk, hw, if_pos hk2]
      exact e1
    · intro j
      rw [e3 j]
      by_cases hj : k0 ≤ j ∧ j - k0 ∈ ks
      · rw [if_pos hj, if_pos ⟨hj.1, List.mem_cons_of_mem _ hj.2⟩]
      · rw [if_neg hj]
        by_cases hjk : j = k + k0
        · subst hjk
          rw [if_pos ⟨by omega, by simp⟩, List.getElem?_set_self hk2]
          simp [List.getElem?_eq_getElem hk]
        · rw [List.getElem?_set_ne (by omega)]
          rw [if_neg]
          intro hc
          rcases List.mem_cons.1 hc.2 with h | h
          · omega
          · exact hj ⟨hc.1, h⟩

/-- Function `copytosubvector` on a vector made of `w` sub-vectors of dimension `d`: sub-vector
`idx` becomes `inv`, the other sub-vectors are as before. -/
theorem copytosubvector_spec {α : Type} {d w idx : Nat} {inv outv : List α}
    (hd : inv.length = d) (hpos : 0 < d) (hlen : outv.length = d * w) (hidx : idx < w)
    (hmax : d * w ≤ SIZE_MAX) :
    ∃ r, copytosubvector inv idx outv = .ok r ∧ r.length = outv.length ∧
      subvector d idx r = inv ∧ ∀ i, i ≠ idx → subvector d i r = subvector d i outv := by
  have hfit : idx * d + d ≤ d * w := by
    calc idx * d + d = d * (idx + 1) := by ring
      _ ≤ d * w := Nat.mul_le_mul_left d hidx
  have hk0 : toSizeT (idx * d) = idx * d := by
    unfold toSizeT
    unfold SIZE_MAX at hmax
    omega
  obtain ⟨r, e1, e2, e3⟩ := copytosubvector.elements_spec inv (idx * d) (foreach_index inv) outv
    (fun k hk => by simpa [foreach_index] using hk)
    (fun k hk => by
      have : k < inv.length := by simpa [foreach_index] using hk
      omega)
    (by rw [hlen]; exact hmax)
  refine ⟨r, ?_, e2, ?_, ?_⟩
  · unfold copytosubvector
    simp only [hd, hlen, hk0, Nat.mul_mod_right, if_neg (Nat.pos_iff_ne_zero.1 hpos), if_true]
    exact e1
  · apply List.ext_getElem?
    intro k
    rw [subvector_getElem?]
    by_cases hk : k < d
    · rw [if_pos hk, e3, if_pos]
      · congr 1
        omega
      · refine ⟨by omega, ?_⟩
        simp only [foreach_index, List.mem_range]
        omega
    · rw [if_neg hk, List.getElem?_eq_none (by omega)]
  · intro i hi
    apply List.ext_getElem?
    intro k
    rw [subvector_getElem?, subvector_getElem?]
    by_cases hk : k < d
    · rw [if_pos hk, if_pos hk, e3, if_neg]
      intro hc
      simp only [foreach_index, List.mem_range, hd] at hc
      rcases Nat.lt_or_gt_of_ne hi with h | h
      · have : i * d + d ≤ idx * d := by
          calc i * d + d = (i + 1) * d := by ring
            _ ≤ idx * d := Nat.mul_le_mul_right d h
        omega
      · have : idx * d + d ≤ i * d := by
          calc idx * d + d = (idx + 1) * d := by ring
            _ ≤ i * d := Nat.mul_le_mul_right d h
        omega
    · rw [if_neg hk, if_neg hk]

/-! ## Neighbour-frame augmentation: the extent and the loops -/

theorem augmentationextent_eq_ok_iff (featdim modeldim e : Nat) :
    augmentationextent featdim modeldim = .ok e ↔
      0 < featdim ∧ modeldim = featdim * (2 * e + 1) := by
  unfold augmentationextent
  constructor
  · intro h
    by_cases h0 : featdim = 0
    · rw [if_pos h0] at h; cases h
    · rw [if_neg h0] at h
      simp only at h
      by_cases h1 : modeldim % featdim ≠ 0
      · rw [if_pos h1] at h; cases h
      · rw [if_neg h1] at h
        by_cases h2 : modeldim / featdim % 2 = 0
        · rw [if_pos h2] at h; cases h
        · rw [if_neg h2] at h
          injection h with h
          refine ⟨Nat.pos_of_ne_zero h0, ?_⟩
          have hm : featdim * (modeldim / featdim) = modeldim :=
            Nat.mul_div_cancel' (Nat.dvd_of_mod_eq_zero (by omega))
          have hw : modeldim / featdim = 2 * e + 1 := by omega
          rw [← hw, hm]
  · rintro ⟨hpos, hm⟩
    have hdiv : modeldim / featdim = 2 * e + 1 := by
      rw [hm, Nat.mul_div_cancel_left _ hpos]
    have hmod : modeldim % featdim = 0 := by
      rw [hm, Nat.mul_mod_right]
    rw [if_neg (Nat.pos_iff_ne_zero.1 hpos)]
    simp only [hdiv, hmod]
    rw [if_neg (by simp), if_neg (by omega)]
    congr 1
    omega

theorem augmentationextent_of_pos (featdim modeldim : Nat) (hpos : 0 < featdim) :
    (∃ e, augmentationextent featdim modeldim = .ok e) ∨
      augmentationextent featdim modeldim = .error .runtime := by
  unfold augmentationextent
  rw [if_neg (Nat.pos_iff_ne_zero.1 hpos)]
  simp only
  by_cases h1 : modeldim % featdim ≠ 0
  · rw [if_pos h1]; exact Or.inr rfl
  · rw [if_neg h1]
    by_cases h2 : modeldim / featdim % 2 = 0
    · rw [if_pos h2]; exact Or.inr rfl
    · rw [if_neg h2]; exact Or.inl ⟨_, rfl⟩

theorem length_of_getElem?_frames {α : Type} {frames : List (List α)} {d i : Nat}
    {frame : List α} (huni : ∀ f ∈ frames, f.length = d) (h : frames[i]? = some frame) :
    frame.length = d := by
  obtain ⟨hi, he⟩ := List.getElem?_eq_some_iff.1 h
  exact huni frame (he ▸ List.getElem_mem hi)

/-- One iteration of the loop of the symmetric variant, in terms of the two index updates. -/
theorem augmentneighbors.symmetric_succ {α : Type} (frames : List (List α))
    (boundaryflags : List Int) (extent remaining n t1 t2 : Nat) (v : List α) :
    augmentneighbors.loop frames boundaryflags extent (remaining + 1) n t1 t2 v =
      match augmentneighbors.stepLeft boundaryflags t1,
          augmentneighbors.stepRight frames.length boundaryflags t2 with
      | some t1, some t2 =>
        match frames[t1]? with
        | none => .error .undefined
        | some frame1 =>
          match copytosubvector frame1 (extent - n) v with
          | .error e => .error e
          | .ok v1 =>
            match frames[t2]? with
            | none => .error .undefined
            | some frame2 =>
              match copytosubvector frame2 (toSizeT (extent + n)) v1 with
              | .error e => .error e
              | .ok v2 =>
                augmentneighbors.loop frames boundaryflags extent remaining (n + 1) t1 t2 v2
      | _, _ => .error .undefined := by
  by_cases hE : boundaryflags.isEmpty = true
  · simp [augmentneighbors.loop, augmentneighbors.stepLeft, augmentneighbors.stepRight, hE]
  · cases h1 : boundaryflags[t1]? <;> cases h2 : boundaryflags[t2]? <;>
      simp [augmentneighbors.loop, augmentneighbors.stepLeft, augmentneighbors.stepRight, hE,
        h1, h2]

/-- The loop of the symmetric variant over a matrix of frames of dimension `d` and a vector of
`w` sub-vectors: when every update leads to a frame, the loop completes, the sub-vectors
`extent - (n + m)` and `extent + (n + m)` hold the frames of update `m + 1` and the sub-vectors
between `extent - n` and `extent + n` are as before; otherwise the behaviour is undefined. -/
theorem augmentneighbors.symmetric_spec {α : Type} (frames : List (List α))
    (boundaryflags : List Int) (d w extent : Nat) (huni : ∀ f ∈ frames, f.length = d)
    (hpos : 0 < d) (hmax : d * w ≤ SIZE_MAX) :
    ∀ (remaining n t1 t2 : Nat) (v : List α), v.length = d * w → 1 ≤ n →
      n + remaining ≤ extent + 1 → extent + n + remaining ≤ w →
      ((∀ m, m < remaining →
          augmentneighbors.leftFrame frames boundaryflags (m + 1) t1 ≠ none ∧
          augmentneighbors.rightFrame frames boundaryflags (m + 1) t2 ≠ none) →
        ∃ v1, augmentneighbors.loop frames boundaryflags extent remaining n t1 t2 v = .ok v1 ∧
          v1.length = v.length ∧
          (∀ m, m < remaining →
            augmentneighbors.leftFrame frames boundaryflags (m + 1) t1
              = some (subvector d (extent - (n + m)) v1) ∧
            augmentneighbors.rightFrame frames boundaryflags (m + 1) t2
              = some (subvector d (extent + (n + m)) v1)) ∧
          (∀ i, extent < n + i → i < extent + n → subvector d i v1 = subvector d i v)) ∧
      (¬ (∀ m, m < remaining →
          augmentneighbors.leftFrame frames boundaryflags (m + 1) t1 ≠ none ∧
          augmentneighbors.rightFrame frames boundaryflags (m + 1) t2 ≠ none) →
        augmentneighbors.loop frames boundaryflags extent remaining n t1 t2 v
          = .error .undefined) := by
  intro remaining
  induction remaining with
  | zero =>
    intro n t1 t2 v _ _ _ _
    refine ⟨fun _ => ⟨v, rfl, rfl, fun m hm => absurd hm (by omega), fun _ _ _ => rfl⟩, ?_⟩
    intro hc
    exact absurd (fun m hm => absurd hm (by omega)) hc
  | succ r ih =>
    intro n t1 t2 v hlen hn hl hr
    rw [augmentneighbors.symmetric_succ]
    have hfail : (augmentneighbors.leftFrame frames boundaryflags (0 + 1) t1 = none ∨
        augmentneighbors.rightFrame frames boundaryflags (0 + 1) t2 = none) →
        ¬ (∀ m, m < r + 1 →
          augmentneighbors.leftFrame frames boundaryflags (m + 1) t1 ≠ none ∧
          augmentneighbors.rightFrame frames boundaryflags (m + 1) t2 ≠ none) := by
      intro h hc
      rcases h with h | h
      · exact (hc 0 (by omega)).1 h
      · exact (hc 0 (by omega)).2 h
    cases hs1 : augmentneighbors.stepLeft boundaryflags t1 with
    | none =>
      have h0 := hfail (Or.inl (by simp [augmentneighbors.leftFrame, hs1]))
      exact ⟨fun hc => absurd hc h0, fun _ => rfl⟩
    | some t1a =>
      cases hs2 : augmentneighbors.stepRight frames.length boundaryflags t2 with
      | none =>
        have h0 := hfail (Or.inr (by simp [augmentneighbors.rightFrame, hs2]))
        exact ⟨fun hc => absurd hc h0, fun _ => rfl⟩
      | some t2a =>
        simp only
        have hL : ∀ m, augmentneighbors.leftFrame frames boundaryflags (m + 1) t1
            = augmentneighbors.leftFrame frames boundaryflags m t1a := by
          intro m
          simp [augmentneighbors.leftFrame, hs1]
        have hR : ∀ m, augmentneighbors.rightFrame frames boundaryflags (m + 1) t2
            = augmentneighbors.rightFrame frames boundaryflags m t2a := by
          intro m
          simp [augmentneighbors.rightFrame, hs2]
        cases hf1 : frames[t1a]? with
        | none =>
          have h0 := hfail (Or.inl (by rw [hL]; simpa [augmentneighbors.leftFrame] using hf1))
          exact ⟨fun hc => absurd hc h0, fun _ => rfl⟩
        | some frame1 =>
          simp only
          obtain ⟨v1, c1, c2, c3, c4⟩ := @copytosubvector_spec α d w (extent - n) frame1 v
            (length_of_getElem?_frames huni hf1) hpos hlen (by omega) hmax
          rw [c1]
          simp only
          cases hf2 : frames[t2a]? with
          | none =>
            have h0 := hfail (Or.inr (by rw [hR]; simpa [augmentneighbors.rightFrame] using hf2))
            exact ⟨fun hc => absurd hc h0, fun _ => rfl⟩
          | some frame2 =>
            simp only
            have hw : toSizeT (extent + n) = extent + n := by
              unfold toSizeT
              unfold SIZE_MAX at hmax
              have : w ≤ d * w := Nat.le_mul_of_pos_left w hpos
              omega
            rw [hw]
            obtain ⟨v2, e1, e2, e3, e4⟩ := @copytosubvector_spec α d w (extent + n) frame2 v1
              (length_of_getElem?_frames huni hf2) hpos (by rw [c2, hlen]) (by omega) hmax
            rw [e1]
            simp only
            obtain ⟨ihok, ihfail⟩ := ih (n + 1) t1a t2a v2 (by rw [e2, c2, hlen]) (by omega)
              (by omega) (by omega)
            constructor
            · intro hc
              obtain ⟨v3, g1, g2, g3, g4⟩ := ihok (fun m hm => by
                rw [← hL, ← hR]
                exact hc (m + 1) (by omega))
              refine ⟨v3, g1, by rw [g2, e2, c2], ?_, ?_⟩
              · intro m hm
                cases m with
                | zero =>
                  rw [hL, hR]
                  simp only [augmentneighbors.leftFrame, augmentneighbors.rightFrame,
                    Nat.add_zero]
                  rw [hf1, hf2, g4 (extent - n) (by omega) (by omega),
                    g4 (extent + n) (by omega) (by omega), e3, e4 (extent - n) (by omega), c3]
                  exact ⟨rfl, rfl⟩
                | succ m =>
                  rw [hL, hR]
                  have h3 := g3 m (by omega)
                  rw [show n + 1 + m = n + (m + 1) by omega] at h3
                  exact h3
              · intro i hi1 hi2
                rw [g4 i (by omega) (by omega), e4 i (by omega), c4 i (by omega)]
            · intro hc
              apply ihfail
              intro hc2
              apply hc
              intro m hm
              cases m with
              | zero =>
                rw [hL, hR]
                simp [augmentneighbors.leftFrame, augmentneighbors.rightFrame, hf1, hf2]
              | succ m =>
                rw [hL, hR]
                exact hc2 m (by omega)

/-- One iteration of the loop over the left neighbours, in terms of the index update. -/
theorem augmentneighbors.asymmetric.left_succ {α : Type} (frames : List (List α))
    (boundaryflags : List Int) (leftextent remaining n t1 : Nat) (v : List α) :
    augmentneighbors.asymmetric.left frames boundaryflags leftextent (remaining + 1) n t1 v =
      match augmentneighbors.stepLeft boundaryflags t1 with
      | none => .error .undefined
      | some t1 =>
        match frames[t1]? with
        | none => .error .undefined
        | some frame1 =>
          match copytosubvector frame1 (leftextent - n) v with
          | .error e => .error e
          | .ok v1 =>
            augmentneighbors.asymmetric.left frames boundaryflags leftextent remaining (n + 1)
              t1 v1 := by
  by_cases hE : boundaryflags.isEmpty = true
  · simp [augmentneighbors.asymmetric.left, augmentneighbors.stepLeft, hE]
  · cases h1 : boundaryflags[t1]? <;>
      simp [augmentneighbors.asymmetric.left, augmentneighbors.stepLeft, hE, h1]

/-- One iteration of the loop over the right neighbours, in terms of the index update. -/
theorem augmentneighbors.asymmetric.right_succ {α : Type} (frames : List (List α))
    (boundaryflags : List Int) (rightextent remaining n t2 : Nat) (v : List α) :
    augmentneighbors.asymmetric.right frames boundaryflags rightextent (remaining + 1) n t2 v =
      match augmentneighbors.stepRight frames.length boundaryflags t2 with
      | none => .error .undefined
      | some t2 =>
        match frames[t2]? with
        | none => .error .undefined
        | some frame2 =>
          match copytosubvector frame2 (toSizeT (rightextent + n)) v with
          | .error e => .error e
          | .ok v1 =>
            augmentneighbors.asymmetric.right frames boundaryflags rightextent remaining
              (n + 1) t2 v1 := by
  by_cases hE : boundaryflags.isEmpty = true
  · simp [augmentneighbors.asymmetric.right, augmentneighbors.stepRight, hE]
  · cases h1 : boundaryflags[t2]? <;>
      simp [augmentneighbors.asymmetric.right, augmentneighbors.stepRight, hE, h1]

/-- The loop over the left neighbours on a matrix of frames of dimension `d` and a vector of
`w` sub-vectors: when every update leads to a frame, the loop completes, sub-vector
`leftextent - (n + m)` holds the frame of update `m + 1` and the sub-vectors above
`leftextent - n` are as before; otherwise the behaviour is undefined. -/
theorem augmentneighbors.asymmetric.left_spec {α : Type} (frames : List (List α))
    (boundaryflags : List Int) (d w leftextent : Nat) (huni : ∀ f ∈ frames, f.length = d)
    (hpos : 0 < d) (hmax : d * w ≤ SIZE_MAX) (hw : leftextent < w) :
    ∀ (remaining n t1 : Nat) (v : List α), v.length = d * w →
      n + remaining ≤ leftextent + 1 →
      ((∀ m, m < remaining →
          augmentneighbors.leftFrame frames boundaryflags (m + 1) t1 ≠ none) →
        ∃ v1, augmentneighbors.asymmetric.left frames boundaryflags leftextent remaining n t1 v
            = .ok v1 ∧
          v1.length = v.length ∧
          (∀ m, m < remaining →
            augmentneighbors.leftFrame frames boundaryflags (m + 1) t1
              = some (subvector d (leftextent - (n + m)) v1)) ∧
          (∀ i, leftextent < n + i → subvector d i v1 = subvector d i v)) ∧
      (¬ (∀ m, m < remaining →
          augmentneighbors.leftFrame frames boundaryflags (m + 1) t1 ≠ none) →
        augmentneighbors.asymmetric.left frames boundaryflags leftextent remaining n t1 v
          = .error .undefined) := by
  intro remaining
  induction remaining with
  | zero =>
    intro n t1 v _ _
    refine ⟨fun _ => ⟨v, rfl, rfl, fun m hm => absurd hm (by omega), fun _ _ => rfl⟩, ?_⟩
    intro hc
    exact absurd (fun m hm => absurd hm (by omega)) hc
  | succ r ih =>
    intro n t1 v hlen hl
    rw [augmentneighbors.asymmetric.left_succ]
    have hfail : augmentneighbors.leftFrame frames boundaryflags (0 + 1) t1 = none →
        ¬ (∀ m, m < r + 1 →
          augmentneighbors.leftFrame frames boundaryflags (m + 1) t1 ≠ none) :=
      fun h hc => hc 0 (by omega) h
    cases hs1 : augmentneighbors.stepLeft boundaryflags t1 with
    | none =>
      have h0 := hfail (by simp [augmentneighbors.leftFrame, hs1])
      exact ⟨fun hc => absurd hc h0, fun _ => rfl⟩
    | some t1a =>
      simp only
      have hL : ∀ m, augmentneighbors.leftFrame frames boundaryflags (m + 1) t1
          = augmentneighbors.leftFrame frames boundaryflags m t1a := by
        intro m
        simp [augmentneighbors.leftFrame, hs1]
      cases hf1 : frames[t1a]? with
      | none =>
        have h0 := hfail (by rw [hL]; simpa [augmentneighbors.leftFrame] using hf1)
        exact ⟨fun hc => absurd hc h0, fun _ => rfl⟩
      | some frame1 =>
        simp only
        obtain ⟨v1, c1, c2, c3, c4⟩ := @copytosubvector_spec α d w (leftextent - n) frame1 v
          (length_of_getElem?_frames huni hf1) hpos hlen (by omega) hmax
        rw [c1]
        simp only
        obtain ⟨ihok, ihfail⟩ := ih (n + 1) t1a v1 (by rw [c2, hlen]) (by omega)
        constructor
        · intro hc
          obtain ⟨v3, g1, g2, g3, g4⟩ := ihok (fun m hm => by
            rw [← hL]
            exact hc (m + 1) (by omega))
          refine ⟨v3, g1, by rw [g2, c2], ?_, ?_⟩
          · intro m hm
            cases m with
            | zero =>
              rw [hL]
              simp only [augmentneighbors.leftFrame, Nat.add_zero]
              rw [hf1, g4 (leftextent - n) (by omega), c3]
            | succ m =>
              rw [hL]
              have h3 := g3 m (by omega)
              rw [show n + 1 + m = n + (m + 1) by omega] at h3
              exact h3
          · intro i hi1
            rw [g4 i (by omega), c4 i (by omega)]
        · intro hc
          apply ihfail
          intro hc2
          apply hc
          intro m hm
          cases m with
          | zero =>
            rw [hL]
            simp [augmentneighbors.leftFrame, hf1]
          | succ m =>
            rw [hL]
            exact hc2 m (by omega)

/-- The loop over the right neighbours on a matrix of frames of dimension `d` and a vector of
`w` sub-vectors: when every update leads to a frame, the loop completes, sub-vector
`rightextent + (n + m)` holds the frame of update `m + 1` and the sub-vectors below
`rightextent + n` are as before; otherwise the behaviour is undefined. -/
theorem augmentneighbors.asymmetric.right_spec {α : Type} (frames : List (List α))
    (boundaryflags : List Int) (d w rightextent : Nat) (huni : ∀ f ∈ frames, f.length = d)
    (hpos : 0 < d) (hmax : d * w ≤ SIZE_MAX) :
    ∀ (remaining n t2 : Nat) (v : List α), v.length = d * w →
      rightextent + n + remaining ≤ w →
      ((∀ m, m < remaining →
          augmentneighbors.rightFrame frames boundaryflags (m + 1) t2 ≠ none) →
        ∃ v1, augmentneighbors.asymmetric.right frames boundaryflags rightextent remaining n
            t2 v = .ok v1 ∧
          v1.length = v.length ∧
          (∀ m, m < remaining →
            augmentneighbors.rightFrame frames boundaryflags (m + 1) t2
              = some (subvector d (rightextent + (n + m)) v1)) ∧
          (∀ i, i < rightextent + n → subvector d i v1 = subvector d i v)) ∧
      (¬ (∀ m, m < remaining →
          augmentneighbors.rightFrame frames boundaryflags (m + 1) t2 ≠ none) →
        augmentneighbors.asymmetric.right frames boundaryflags rightextent remaining n t2 v
          = .error .undefined) := by
  intro remaining
  induction remaining with
  | zero =>
    intro n t2 v _ _
    refine ⟨fun _ => ⟨v, rfl, rfl, fun m hm => absurd hm (by omega), fun _ _ => rfl⟩, ?_⟩
    intro hc
    exact absurd (fun m hm => absurd hm (by omega)) hc
  | succ r ih =>
    intro n t2 v hlen hr
    rw [augmentneighbors.asymmetric.right_succ]
    have hfail : augmentneighbors.rightFrame frames boundaryflags (0 + 1) t2 = none →
        ¬ (∀ m, m < r + 1 →
          augmentneighbors.rightFrame frames boundaryflags (m + 1) t2 ≠ none) :=
      fun h hc => hc 0 (by omega) h
    cases hs2 : augmentneighbors.stepRight frames.length boundaryflags t2 with
    | none =>
      have h0 := hfail (by simp [augmentneighbors.rightFrame, hs2])
      exact ⟨fun hc => absurd hc h0, fun _ => rfl⟩
    | some t2a =>
      simp only
      have hR : ∀ m, augmentneighbors.rightFrame frames boundaryflags (m + 1) t2
          = augmentneighbors.rightFrame frames boundaryflags m t2a := by
        intro m
        simp [augmentneighbors.rightFrame, hs2]
      cases hf2 : frames[t2a]? with
      | none =>
        have h0 := hfail (by rw [hR]; simpa [augmentneighbors.rightFrame] using hf2)
        exact ⟨fun hc => absurd hc h0, fun _ => rfl⟩
      | some frame2 =>
        simp only
        have hw : toSizeT (rightextent + n) = rightextent + n := by
          unfold toSizeT
          unfold SIZE_MAX at hmax
          have : w ≤ d * w := Nat.le_mul_of_pos_left w hpos
          omega
        rw [hw]
        obtain ⟨v1, c1, c2, c3, c4⟩ := @copytosubvector_spec α d w (rightextent + n) frame2 v
          (length_of_getElem?_frames huni hf2) hpos hlen (by omega) hmax
        rw [c1]
        simp only
        obtain ⟨ihok, ihfail⟩ := ih (n + 1) t2a v1 (by rw [c2, hlen]) (by omega)
        constructor
        · intro hc
          obtain ⟨v3, g1, g2, g3, g4⟩ := ihok (fun m hm => by
            rw [← hR]
            exact hc (m + 1) (by omega))
          refine ⟨v3, g1, by rw [g2, c2], ?_, ?_⟩
          · intro m hm
            cases m with
            | zero =>
              rw [hR]
              simp only [augmentneighbors.rightFrame, Nat.add_zero]
              rw [hf2, g4 (rightextent + n) (by omega), c3]
            | succ m =>
              rw [hR]
              have h3 := g3 m (by omega)
              rw [show n + 1 + m = n + (m + 1) by omega] at h3
              exact h3
          · intro i hi1
            rw [g4 i (by omega), c4 i (by omega)]
        · intro hc
          apply ihfail
          intro hc2
          apply hc
          intro m hm
          cases m with
          | zero =>
            rw [hR]
            simp [augmentneighbors.rightFrame, hf2]
          | succ m =>
            rw [hR]
            exact hc2 m (by omega)

/-- Without boundary flags the left index stops at the first frame. -/
theorem augmentneighbors.leftFrame_of_empty {α : Type} (frames : List (List α)) :
    ∀ (n t1 : Nat), augmentneighbors.leftFrame frames [] n t1 = frames[t1 - n]? := by
  intro n
  induction n with
  | zero => intro t1; rfl
  | succ n ih =>
    intro t1
    simp only [augmentneighbors.leftFrame, augmentneighbors.stepLeft, List.isEmpty_nil,
      if_true]
    rw [ih]
    congr 1
    split <;> omega

/-- Without boundary flags the right index stops at the last frame. -/
theorem augmentneighbors.rightFrame_of_empty {α : Type} (frames : List (List α))
    (hframes : frames.length ≤ SIZE_MAX) :
    ∀ (n t2 : Nat), t2 < frames.length →
      augmentneighbors.rightFrame frames [] n t2
        = frames[min (t2 + n) (frames.length - 1)]? := by
  intro n
  induction n with
  | zero =>
    intro t2 ht
    simp only [augmentneighbors.rightFrame, Nat.add_zero]
    congr 1
    omega
  | succ n ih =>
    intro t2 ht
    have hw : toSizeT (t2 + 1) = t2 + 1 := by
      unfold toSizeT
      unfold SIZE_MAX at hframes
      omega
    simp only [augmentneighbors.rightFrame, augmentneighbors.stepRight, List.isEmpty_nil,
      if_true, hw]
    by_cases h : t2 + 1 < frames.length
    · rw [if_pos h, ih _ h]
      congr 1
      omega
    · rw [if_neg h, ih _ ht]
      congr 1
      omega

/-- With a flag `-1` at `s` and none between `s` and `t1`, the left index stops at `s`. -/
theorem augmentneighbors.leftFrame_of_flags {α : Type} (frames : List (List α))
    (boundaryflags : List Int) (s : Nat) (hs : boundaryflags[s]? = some (-1)) :
    ∀ (n t1 : Nat), s ≤ t1 → t1 < boundaryflags.length →
      (∀ i, s < i → i ≤ t1 → boundaryflags[i]? ≠ some (-1)) →
      augmentneighbors.leftFrame frames boundaryflags n t1 = frames[max (t1 - n) s]? := by
  have hne : boundaryflags.isEmpty = false := by
    cases boundaryflags with
    | nil => simp at hs
    | cons _ _ => rfl
  intro n
  induction n with
  | zero =>
    intro t1 h1 _ _
    simp only [augmentneighbors.leftFrame, Nat.sub_zero]
    congr 1
    omega
  | succ n ih =>
    intro t1 h1 h2 h3
    simp only [augmentneighbors.leftFrame, augmentneighbors.stepLeft, hne]
    rcases Nat.eq_or_lt_of_le h1 with heq | hlt
    · subst heq
      simp only [hs]
      rw [if_neg (by simp)]
      simp only [if_neg (by decide : ¬ ((-1 : Int) ≠ -1))]
      rw [ih s (Nat.le_refl s) h2 (fun i hi1 hi2 => absurd hi1 (by omega))]
      congr 1
      omega
    · obtain ⟨flag, hflag⟩ : ∃ flag, boundaryflags[t1]? = some flag :=
        ⟨_, List.getElem?_eq_getElem h2⟩
      have hflag1 : flag ≠ -1 := by
        intro hc
        rw [hc] at hflag
        exact h3 t1 hlt (Nat.le_refl _) hflag
      simp only [hflag]
      rw [if_neg (by simp)]
      simp only [if_pos hflag1, if_neg (by omega : ¬ t1 = 0)]
      rw [ih (t1 - 1) (by omega) (by omega) (fun i hi1 hi2 => h3 i hi1 (by omega))]
      congr 1
      omega

/-- With a flag `+1` at `f` and none between `t2` and `f`, the right index stops at `f`. -/
theorem augmentneighbors.rightFrame_of_flags {α : Type} (frames : List (List α))
    (boundaryflags : List Int) (f : Nat) (hf : boundaryflags[f]? = some 1)
    (hflags : boundaryflags.length ≤ SIZE_MAX) :
    ∀ (n t2 : Nat), t2 ≤ f →
      (∀ i, t2 ≤ i → i < f → boundaryflags[i]? ≠ some 1) →
      augmentneighbors.rightFrame frames boundaryflags n t2 = frames[min (t2 + n) f]? := by
  have hne : boundaryflags.isEmpty = false := by
    cases boundaryflags with
    | nil => simp at hf
    | cons _ _ => rfl
  have hfl : f < boundaryflags.length := (List.getElem?_eq_some_iff.1 hf).1
  intro n
  induction n with
  | zero =>
    intro t2 h1 _
    simp only [augmentneighbors.rightFrame, Nat.add_zero]
    congr 1
    omega
  | succ n ih =>
    intro t2 h1 h3
    simp only [augmentneighbors.rightFrame, augmentneighbors.stepRight, hne]
    rcases Nat.eq_or_lt_of_le h1 with heq | hlt
    · subst heq
      simp only [hf]
      rw [if_neg (by simp)]
      simp only [if_neg (by decide : ¬ ((1 : Int) ≠ 1))]
      rw [ih t2 (Nat.le_refl _) (fun i hi1 hi2 => absurd hi1 (by omega))]
      congr 1
      omega
    · obtain ⟨flag, hflag⟩ : ∃ flag, boundaryflags[t2]? = some flag :=
        ⟨_, List.getElem?_eq_getElem (by omega)⟩
      have hflag1 : flag ≠ 1 := by
        intro hc
        rw [hc] at hflag
        exact h3 t2 (Nat.le_refl _) hlt hflag
      have hw : toSizeT (t2 + 1) = t2 + 1 := by
        unfold toSizeT
        unfold SIZE_MAX at hflags
        omega
      simp only [hflag]
      rw [if_neg (by simp)]
      simp only [if_pos hflag1, hw]
      rw [ih (t2 + 1) (by omega) (fun i hi1 hi2 => h3 i (by omega) hi2)]
      congr 1
      omega

/-! ## Claims C34 to C38: neighbour-frame augmentation -/

/-- Claim C34: for every `featdim > 0` and every `modeldim`, `augmentationextent` succeeds if
and only if `modeldim` is a multiple of `featdim` and the window size `modeldim / featdim` is
odd; on success the returned extent `e` satisfies `modeldim = featdim * (2 * e + 1)`, and
otherwise a runtime error is raised. -/
theorem C34_augmentationextent_succeeds_iff (featdim modeldim : Nat) (hfeat : 0 < featdim) :
    ((∃ e, augmentationextent featdim modeldim = .ok e) ↔
      (featdim ∣ modeldim ∧ modeldim / featdim % 2 = 1)) ∧
    (∀ e, augmentationextent featdim modeldim = .ok e →
      modeldim = featdim * (2 * e + 1) ∧ e = modeldim / featdim / 2) ∧
    (¬ (featdim ∣ modeldim ∧ modeldim / featdim % 2 = 1) →
      augmentationextent featdim modeldim = .error .runtime) := by
  have hiff : (∃ e, augmentationextent featdim modeldim = .ok e) ↔
      (featdim ∣ modeldim ∧ modeldim / featdim % 2 = 1) := by
    constructor
    · rintro ⟨e, he⟩
      obtain ⟨_, hm⟩ := (augmentationextent_eq_ok_iff _ _ _).1 he
      refine ⟨⟨2 * e + 1, hm⟩, ?_⟩
      rw [hm, Nat.mul_div_cancel_left _ hfeat]
      omega
    · rintro ⟨hdvd, hodd⟩
      refine ⟨modeldim / featdim / 2, (augmentationextent_eq_ok_iff _ _ _).2 ⟨hfeat, ?_⟩⟩
      have h2 : 2 * (modeldim / featdim / 2) + 1 = modeldim / featdim := by omega
      rw [h2, Nat.mul_div_cancel' hdvd]
  refine ⟨hiff, ?_, ?_⟩
  · intro e he
    obtain ⟨_, hm⟩ := (augmentationextent_eq_ok_iff _ _ _).1 he
    refine ⟨hm, ?_⟩
    rw [hm, Nat.mul_div_cancel_left _ hfeat]
    omega
  · intro hc
    rcases augmentationextent_of_pos featdim modeldim hfeat with h | h
    · exact absurd (hiff.1 h) hc
    · exact h

theorem C34_augmentationextent_succeeds_iff_witness :
    ((∃ e, augmentationextent 3 15 = .ok e) ↔ (3 ∣ 15 ∧ 15 / 3 % 2 = 1)) ∧
    (∀ e, augmentationextent 3 15 = .ok e → 15 = 3 * (2 * e + 1) ∧ e = 15 / 3 / 2) ∧
    (¬ (3 ∣ 15 ∧ 15 / 3 % 2 = 1) → augmentationextent 3 15 = .error .runtime) :=
  C34_augmentationextent_succeeds_iff 3 15 (by decide)

/-- Claim C35: symmetric neighbour augmentation without boundary flags.  For frames of equal
dimension `d > 0`, `t < T` and an output vector of `2 * e + 1` sub-vectors of dimension `d`,
`augmentneighbors` completes, and for every `n ≤ e` sub-vector `e + n` of the result is
`frames[min (t + n) (T - 1)]` and sub-vector `e - n` is `frames[t - n]` if `n ≤ t` and
`frames[0]` otherwise.  The sizes are those of vectors (`size_t` values). -/
theorem C35_symmetric_window_without_flags {α : Type} (frames : List (List α))
    (d e t : Nat) (v : List α) (hdim : ∀ frame ∈ frames, frame.length = d) (hd : 0 < d)
    (ht : t < frames.length) (hv : v.length = d * (2 * e + 1))
    (hframes : frames.length ≤ SIZE_MAX) (hsize : v.length ≤ SIZE_MAX) :
    ∃ v1, augmentneighbors frames [] t v = .ok v1 ∧ v1.length = v.length ∧
      ∀ n, n ≤ e →
        some (subvector d (e + n) v1) = frames[min (t + n) (frames.length - 1)]? ∧
        some (subvector d (e - n) v1) = (if n ≤ t then frames[t - n]? else frames[0]?) := by
  have hmax : d * (2 * e + 1) ≤ SIZE_MAX := by rw [← hv]; exact hsize
  obtain ⟨frame, hft⟩ : ∃ frame, frames[t]? = some frame := ⟨_, List.getElem?_eq_getElem ht⟩
  have hfl : frame.length = d := length_of_getElem?_frames hdim hft
  have hext : augmentationextent d v.length = .ok e :=
    (augmentationextent_eq_ok_iff _ _ _).2 ⟨hd, hv⟩
  obtain ⟨v1, c1, c2, c3, c4⟩ := @copytosubvector_spec α d (2 * e + 1) e frame v hfl hd hv
    (by omega) hmax
  have hleft : ∀ m, augmentneighbors.leftFrame frames [] m t = frames[t - m]? :=
    fun m => augmentneighbors.leftFrame_of_empty frames m t
  have hright : ∀ m, augmentneighbors.rightFrame frames [] m t
      = frames[min (t + m) (frames.length - 1)]? :=
    fun m => augmentneighbors.rightFrame_of_empty frames hframes m t ht
  obtain ⟨v2, g1, g2, g3, g4⟩ := (augmentneighbors.symmetric_spec frames [] d (2 * e + 1) e hdim hd
    hmax e 1 t t v1 (by rw [c2, hv]) (Nat.le_refl 1) (by omega) (by omega)).1 (fun m _ => by
      rw [hleft, hright, List.getElem?_eq_getElem (by omega : t - (m + 1) < frames.length),
        List.getElem?_eq_getElem
          (by omega : min (t + (m + 1)) (frames.length - 1) < frames.length)]
      exact ⟨by simp, by simp⟩)
  refine ⟨v2, ?_, by rw [g2, c2], ?_⟩
  · simp only [augmentneighbors, hft, hfl, hext, c1]
    exact g1
  · intro n hn
    have hif : (if n ≤ t then frames[t - n]? else frames[0]?) = frames[t - n]? := by
      split
      · rfl
      · congr 1
        omega
    rw [hif]
    cases n with
    | zero =>
      have hmin : min (t + 0) (frames.length - 1) = t := by omega
      rw [Nat.add_zero, Nat.sub_zero, Nat.sub_zero, g4 e (by omega) (by omega), c3, hmin, hft]
      exact ⟨rfl, rfl⟩
    | succ n =>
      obtain ⟨h1, h2⟩ := g3 n (by omega)
      rw [hleft] at h1
      rw [hright] at h2
      rw [show e + (n + 1) = e + (1 + n) by omega, show e - (n + 1) = e - (1 + n) by omega,
        ← h1, ← h2]
      exact ⟨rfl, rfl⟩

theorem C35_symmetric_window_without_flags_witness :
    ∃ v1, augmentneighbors framesOfFour [] 2 [0, 0, 0, 0, 0] = .ok v1 ∧
      v1.length = [0, 0, 0, 0, 0].length ∧
      ∀ n, n ≤ 2 →
        some (subvector 1 (2 + n) v1) = framesOfFour[min (2 + n) (framesOfFour.length - 1)]? ∧
        some (subvector 1 (2 - n) v1)
          = (if n ≤ 2 then framesOfFour[2 - n]? else framesOfFour[0]?) :=
  C35_symmetric_window_without_flags framesOfFour 1 2 2 [0, 0, 0, 0, 0] (by decide)
    (by decide) (by decide) (by decide) (by decide) (by decide)

/-- Claim C36: neighbour augmentation does not expand across utterance boundaries.  With
boundary flags of length `T`, `s` the greatest index `≤ t` with flag `-1` and `f` the least
index `≥ t` with flag `+1`, the symmetric `augmentneighbors` completes, sub-vector `e - n` of
the result is `frames[max (t - n) s]` and sub-vector `e + n` is `frames[min (t + n) f]` for
every `n ≤ e`, and every sub-vector of the result is a frame with index in `[s, f]`. -/
theorem C36_window_stops_at_boundary_flags {α : Type} (frames : List (List α))
    (boundaryflags : List Int) (d e t s f : Nat) (v : List α)
    (hdim : ∀ frame ∈ frames, frame.length = d) (hd : 0 < d)
    (hflags : boundaryflags.length = frames.length) (hv : v.length = d * (2 * e + 1))
    (hframes : frames.length ≤ SIZE_MAX) (hsize : v.length ≤ SIZE_MAX)
    (hs : s ≤ t) (hstart : boundaryflags[s]? = some (-1))
    (hgreatest : ∀ i, s < i → i ≤ t → boundaryflags[i]? ≠ some (-1))
    (hf : t ≤ f) (hend : boundaryflags[f]? = some 1)
    (hleast : ∀ i, t ≤ i → i < f → boundaryflags[i]? ≠ some 1) :
    ∃ v1, augmentneighbors frames boundaryflags t v = .ok v1 ∧ v1.length = v.length ∧
      (∀ n, n ≤ e →
        some (subvector d (e - n) v1) = frames[max (t - n) s]? ∧
        some (subvector d (e + n) v1) = frames[min (t + n) f]?) ∧
      (∀ i, i ≤ 2 * e → ∃ k, s ≤ k ∧ k ≤ f ∧ frames[k]? = some (subvector d i v1)) := by
  have hmax : d * (2 * e + 1) ≤ SIZE_MAX := by rw [← hv]; exact hsize
  have hfT : f < frames.length := by
    rw [← hflags]
    exact (List.getElem?_eq_some_iff.1 hend).1
  have ht : t < frames.length := by omega
  obtain ⟨frame, hft⟩ : ∃ frame, frames[t]? = some frame := ⟨_, List.getElem?_eq_getElem ht⟩
  have hfl : frame.length = d := length_of_getElem?_frames hdim hft
  have hext : augmentationextent d v.length = .ok e :=
    (augmentationextent_eq_ok_iff _ _ _).2 ⟨hd, hv⟩
  obtain ⟨v1, c1, c2, c3, c4⟩ := @copytosubvector_spec α d (2 * e + 1) e frame v hfl hd hv
    (by omega) hmax
  have hleft : ∀ m, augmentneighbors.leftFrame frames boundaryflags m t
      = frames[max (t - m) s]? :=
    fun m => augmentneighbors.leftFrame_of_flags frames boundaryflags s hstart m t hs
      (by omega) hgreatest
  have hright : ∀ m, augmentneighbors.rightFrame frames boundaryflags m t
      = frames[min (t + m) f]? :=
    fun m => augmentneighbors.rightFrame_of_flags frames boundaryflags f hend
      (by omega) m t hf hleast
  obtain ⟨v2, g1, g2, g3, g4⟩ := (augmentneighbors.symmetric_spec frames boundaryflags d
    (2 * e + 1) e hdim hd hmax e 1 t t v1 (by rw [c2, hv]) (Nat.le_refl 1) (by omega)
    (by omega)).1 (fun m _ => by
      rw [hleft, hright,
        List.getElem?_eq_getElem (by omega : max (t - (m + 1)) s < frames.length),
        List.getElem?_eq_getElem (by omega : min (t + (m + 1)) f < frames.length)]
      exact ⟨by simp, by simp⟩)
  have hmain : ∀ n, n ≤ e →
      some (subvector d (e - n) v2) = frames[max (t - n) s]? ∧
      some (subvector d (e + n) v2) = frames[min (t + n) f]? := by
    intro n hn
    cases n with
    | zero =>
      have hmin : min (t + 0) f = t := by omega
      have hmax0 : max t s = t := by omega
      rw [Nat.add_zero, Nat.sub_zero, Nat.sub_zero, g4 e (by omega) (by omega), c3, hmin,
        hmax0, hft]
      exact ⟨rfl, rfl⟩
    | succ n =>
      obtain ⟨h1, h2⟩ := g3 n (by omega)
      rw [hleft] at h1
      rw [hright] at h2
      rw [show e + (n + 1) = e + (1 + n) by omega, show e - (n + 1) = e - (1 + n) by omega,
        ← h1, ← h2]
      exact ⟨rfl, rfl⟩
  refine ⟨v2, ?_, by rw [g2, c2], hmain, ?_⟩
  · simp only [augmentneighbors, hft, hfl, hext, c1]
    exact g1
  · intro i hi
    by_cases hie : i ≤ e
    · have h := (hmain (e - i) (by omega)).1
      rw [show e - (e - i) = i by omega] at h
      exact ⟨max (t - (e - i)) s, by omega, by omega, h.symm⟩
    · have h := (hmain (i - e) (by omega)).2
      rw [show e + (i - e) = i by omega] at h
      exact ⟨min (t + (i - e)) f, by omega, by omega, h.symm⟩

theorem C36_window_stops_at_boundary_flags_witness :
    ∃ v1, augmentneighbors framesOfFour flagsOfFour 2 [0, 0, 0, 0, 0, 0, 0] = .ok v1 ∧
      v1.length = [0, 0, 0, 0, 0, 0, 0].length ∧
      (∀ n, n ≤ 3 →
        some (subvector 1 (3 - n) v1) = framesOfFour[max (2 - n) 0]? ∧
        some (subvector 1 (3 + n) v1) = framesOfFour[min (2 + n) 3]?) ∧
      (∀ i, i ≤ 2 * 3 → ∃ k, 0 ≤ k ∧ k ≤ 3 ∧ framesOfFour[k]? = some (subvector 1 i v1)) :=
  C36_window_stops_at_boundary_flags framesOfFour flagsOfFour 1 3 2 0 3
    [0, 0, 0, 0, 0, 0, 0] (by decide) (by decide) (by decide) (by decide) (by decide)
    (by decide) (by decide) (by decide)
    (fun i h1 h2 => by
      have : i = 1 ∨ i = 2 := by omega
      rcases this with h | h <;> subst h <;> decide)
    (by decide) (by decide)
    (fun i h1 h2 => by
      have : i = 2 := by omega
      subst this
      decide)

/-- Claim C37 fails on the code: the asymmetric `augmentneighbors` writes the `n`-th right
neighbour to sub-vector `rightextent + n`, not `leftextent + n`.  With two frames on the left
and one on the right of frame 2 of four frames, the right neighbour replaces the middle frame
and the last sub-vector is never written; with one frame on the left and two on the right, the
second right neighbour is written beyond the end of the output vector. -/
theorem C37_right_neighbours_misplaced :
    augmentneighbors.asymmetric framesOfFour [] 2 2 1 [0, 0, 0, 0] = .ok [10, 20, 40, 0] ∧
    augmentneighbors.asymmetric framesOfFour [] 1 1 2 [0, 0, 0, 0] = .error .undefined ∧
    augmentneighbors.asymmetric framesOfFour [] 2 1 1 [0, 0, 0] = .ok [20, 30, 40] :=
  ⟨rfl, rfl, rfl⟩

/-- Claim C38: the two `augmentneighbors` variants agree on symmetric windows.  For frames of
one dimension `d` and an output vector `v` for which `augmentationextent d v.size()` succeeds
with extent `e`, the asymmetric variant called with `leftextent = rightextent = e` has the same
outcome as the symmetric variant: the same vector `v` when the calls complete, and undefined
behaviour of both when an index leaves the frames or the flags. -/
theorem C38_variants_agree_on_symmetric_windows {α : Type} (frames : List (List α))
    (boundaryflags : List Int) (d e t : Nat) (v : List α)
    (hdim : ∀ frame ∈ frames, frame.length = d)
    (hext : augmentationextent d v.length = .ok e) (hsize : v.length ≤ SIZE_MAX) :
    augmentneighbors.asymmetric frames boundaryflags t e e v
      = augmentneighbors frames boundaryflags t v := by
  obtain ⟨hd, hv⟩ := (augmentationextent_eq_ok_iff _ _ _).1 hext
  have hmax : d * (2 * e + 1) ≤ SIZE_MAX := by rw [← hv]; exact hsize
  cases hft : frames[t]? with
  | none => simp only [augmentneighbors, augmentneighbors.asymmetric, hft]
  | some frame =>
    have hfl : frame.length = d := length_of_getElem?_frames hdim hft
    obtain ⟨v1, c1, c2, c3, c4⟩ := @copytosubvector_spec α d (2 * e + 1) e frame v hfl hd hv
      (by omega) hmax
    have hv1 : v1.length = d * (2 * e + 1) := by rw [c2, hv]
    simp only [augmentneighbors, augmentneighbors.asymmetric, hft, hfl, hext, c1]
    obtain ⟨sok, sfail⟩ := augmentneighbors.symmetric_spec frames boundaryflags d (2 * e + 1) e
      hdim hd hmax e 1 t t v1 hv1 (Nat.le_refl 1) (by omega) (by omega)
    obtain ⟨lok, lfail⟩ := augmentneighbors.asymmetric.left_spec frames boundaryflags d
      (2 * e + 1) e hdim hd hmax (by omega) e 1 t v1 hv1 (by omega)
    by_cases hL : ∀ m, m < e → augmentneighbors.leftFrame frames boundaryflags (m + 1) t ≠ none
    · obtain ⟨v2, l1, l2, l3, l4⟩ := lok hL
      rw [l1]
      simp only
      obtain ⟨rok, rfail⟩ := augmentneighbors.asymmetric.right_spec frames boundaryflags d
        (2 * e + 1) e hdim hd hmax e 1 t v2 (by rw [l2, hv1]) (by omega)
      by_cases hR : ∀ m, m < e →
          augmentneighbors.rightFrame frames boundaryflags (m + 1) t ≠ none
      · obtain ⟨v3, r1, r2, r3, r4⟩ := rok hR
        obtain ⟨v4, s1, s2, s3, s4⟩ := sok (fun m hm => ⟨hL m hm, hR m hm⟩)
        rw [r1, s1]
        congr 1
        apply @subvector_ext α d (2 * e + 1) v3 v4 (by rw [r2, l2, hv1]) (by rw [s2, hv1])
        intro i hi
        rcases Nat.lt_trichotomy i e with h | h | h
        · have a1 := l3 (e - 1 - i) (by omega)
          have a2 := (s3 (e - 1 - i) (by omega)).1
          rw [show e - (1 + (e - 1 - i)) = i by omega] at a1 a2
          rw [a1] at a2
          injection a2 with a2
          rw [r4 i (by omega), a2]
        · subst h
          rw [r4 i (by omega), l4 i (by omega), s4 i (by omega) (by omega)]
        · have a1 := r3 (i - e - 1) (by omega)
          have a2 := (s3 (i - e - 1) (by omega)).2
          rw [show e + (1 + (i - e - 1)) = i by omega] at a1 a2
          rw [a1] at a2
          injection a2 with a2
      · rw [rfail hR, sfail (fun hc => hR (fun m hm => (hc m hm).2))]
    · rw [lfail hL, sfail (fun hc => hL (fun m hm => (hc m hm).1))]

theorem C38_variants_agree_on_symmetric_windows_witness :
    augmentneighbors.asymmetric framesOfFour flagsOfFour 2 1 1 [0, 0, 0]
      = augmentneighbors framesOfFour flagsOfFour 2 [0, 0, 0] :=
  C38_variants_agree_on_symmetric_windows framesOfFour flagsOfFour 1 1 2 [0, 0, 0]
    (by decide) rfl (by decide)

/-! ## Claim C39: layout transposition -/

/-- The outcome of `TypedApply` does not depend on the data of the input sequence: the loops
read the bytes of `buffer` only. -/
theorem TransposeTransformer.TypedApply_ignores_data (data data2 : List Byte)
    (layout layout2 : TensorShape) (numberOfSamples : Nat) (inputStream : StreamDescription)
    (dimensions : ImageDimensions) (buffer : List Byte) (outputStream : StreamDescription) :
    TransposeTransformer.TypedApply (.dense data layout numberOfSamples) inputStream dimensions
        buffer outputStream
      = TransposeTransformer.TypedApply (.dense data2 layout2 numberOfSamples) inputStream
        dimensions buffer outputStream :=
  rfl

/-- Claim C39 fails on the code: `TypedApply` returns the output stream's sample layout and
the number of samples of the input, but the returned elements are not those of the input
sample.  For an image of two pixels and two channels in single precision and an empty buffer,
the returned data is sixteen zero bytes, whose element at channel 0, pixel 1 is not the input
element at pixel 1, channel 0; when the buffer holds the input sample before the call, the
returned data is the input sample in its old layout, not the transposed one. -/
theorem C39_transposition_does_not_read_the_input :
    TransposeTransformer.TypedApply (.dense imageSample { numElements := 4 } 1) imageStream
        imageDimensions [] imageStream
      = .ok (.dense (List.replicate 16 0) { numElements := 4 } 1, List.replicate 16 0) ∧
    subvector 4 (0 * 2 + 1) (List.replicate 16 (0 : Byte)) = [0, 0, 0, 0] ∧
    subvector 4 (1 * 2 + 0) imageSample = [3, 3, 3, 3] ∧
    TransposeTransformer.TypedApply (.dense imageSample { numElements := 4 } 1) imageStream
        imageDimensions imageSample imageStream
      = .ok (.dense imageSample { numElements := 4 } 1, imageSample) ∧
    imageSample ≠ imageSampleTransposed :=
  ⟨rfl, rfl, rfl, rfl, by decide⟩

end CNTK
